import Mathlib

/-!
A Scheme interpreter in C: the evaluator over an explicit heap.

The C program keeps every value in a heap cell (`Item`) and every scope in a
heap record (`Frame`); both are shared by pointer and mutated in place.  The
embedding keeps that: a `State` holds the item heap and the frame heap, a
pointer is an index, and every C function is a state-passing function.

Conventions
* `evaluationError` prints and exits, so evaluation stops with `Res.error msg`.
* A read the C program cannot perform meaningfully (an address outside the
  heap, a union member read through a word that holds something else) is
  `Res.undefined`.
* C loops and C recursion are bounded by a fuel argument; running out gives
  `Res.timeout`, which is not a result of the C program.
-/

namespace Scheme

/-! Data model -/

/-- The tag of an `Item` (the enum used by `item->type`). -/
inductive itemType where
  | INT_TYPE | DOUBLE_TYPE | STR_TYPE | CONS_TYPE | NULL_TYPE | PTR_TYPE
  | OPEN_TYPE | CLOSE_TYPE | BOOL_TYPE | SYMBOL_TYPE
  | OPENBRACKET_TYPE | CLOSEBRACKET_TYPE
  | VOID_TYPE | CLOSURE_TYPE | PRIMITIVE_TYPE
  deriving DecidableEq, Repr

open itemType

/-- The native functions that `interpret` registers (`item->pf`). -/
inductive PrimFn where
  | primitivePlus | primitiveMinus | primitiveMultiply | primitiveDivide
  | primitiveModulo | primitiveLess | primitiveGreater | primitiveEqual
  | primitiveNull | primitiveCar | primitiveCdr | primitiveCons | primitiveAppend
  deriving DecidableEq, Repr

/-- One machine word of an item's payload, with what it currently holds.
`dbl` holds a double as the exact rational it denotes; arithmetic on it is
exact, which agrees with binary64 on integers below 2^53. -/
inductive Word where
  | undef
  | int (i : Int)
  | dbl (d : ℚ)
  | str (s : String)
  | ptr (a : Nat)
  | fn (f : PrimFn)
  | env (f : Nat)
  deriving DecidableEq, Repr

/-- Modelled from the spec: the header declaring `Item` is not among the
sources.  A heap cell is the tag plus the payload union its uses imply:
`u0` is the first word (`i`, `d`, `s`, `p`, `pf`, `c.car`, `cl.paramNames`),
`u1` the second (`c.cdr`, `cl.functionCode`), `u2` the third (`cl.frame`). -/
structure Item where
  type : itemType
  u0 : Word
  u1 : Word
  u2 : Word
  deriving DecidableEq, Repr

/-- A scope: `bindings` is the chain `cons(cons(symbol, value), rest)` kept by
`frame->bindings`, newest first, as the list of (name, address of the value);
`parent` is `frame->parent` (`none` for NULL). -/
structure Frame where
  bindings : List (String × Nat)
  parent : Option Nat
  deriving DecidableEq, Repr

/-- The two heaps.  An address is an index; allocation appends. -/
structure State where
  items : List Item
  frames : List Frame
  deriving DecidableEq, Repr

/-- How a run of a C function ends. -/
inductive Res (α : Type) where
  | ok (a : α) (st : State)
  | error (msg : String)
  | undefined
  | timeout
  deriving DecidableEq, Repr

/-- A C function: from the heaps before to the outcome. -/
def M (α : Type) : Type := State → Res α

/-- Sequencing of two C statements. -/
def M.bind {α β : Type} (m : M α) (f : α → M β) : M β := fun st =>
  match m st with
  | .ok a st' => f a st'
  | .error e => .error e
  | .undefined => .undefined
  | .timeout => .timeout

instance : Monad M where
  pure a := fun st => .ok a st
  bind := M.bind

/-- The call `evaluationError(message)`: print, release, exit(1). -/
def evaluationError {α : Type} (message : String) : M α := fun _ => .error message

/-- A read or an operation whose result C leaves undefined. -/
def undefinedBehaviour {α : Type} : M α := fun _ => .undefined

/-- The bound on loops and recursion is used up. -/
def outOfFuel {α : Type} : M α := fun _ => .timeout

/-! Heap access -/

/-- Dereference `p`. -/
def readItem (p : Nat) : M Item := fun st =>
  match st.items[p]? with
  | some it => .ok it st
  | none => .undefined

/-- Overwrite the cell at `p`. -/
def writeItem (p : Nat) (it : Item) : M Unit := fun st =>
  if p < st.items.length then .ok () { st with items := st.items.set p it }
  else .undefined

/-- A fresh cell (`malloc` / `talloc`); words that are not set stay `undef`. -/
def allocItem (it : Item) : M Nat := fun st =>
  .ok st.items.length { st with items := st.items ++ [it] }

/-- Reads `p->type`. -/
def typeOf (p : Nat) : M itemType := do
  let it ← readItem p
  pure it.type

/-- Reads `p->i`. -/
def getI (p : Nat) : M Int := do
  let it ← readItem p
  match it.u0 with
  | .int i => pure i
  | _ => undefinedBehaviour

/-- Reads `p->d`. -/
def getD (p : Nat) : M ℚ := do
  let it ← readItem p
  match it.u0 with
  | .dbl d => pure d
  | _ => undefinedBehaviour

/-- Reads `p->s`. -/
def getS (p : Nat) : M String := do
  let it ← readItem p
  match it.u0 with
  | .str s => pure s
  | _ => undefinedBehaviour

/-- Reads `p->pf`. -/
def getPf (p : Nat) : M PrimFn := do
  let it ← readItem p
  match it.u0 with
  | .fn f => pure f
  | _ => undefinedBehaviour

/-- The function `car`: `list->c.car`, whatever the tag. -/
def car (list : Nat) : M Nat := do
  let it ← readItem list
  match it.u0 with
  | .ptr a => pure a
  | _ => undefinedBehaviour

/-- The function `cdr`: `list->c.cdr`, whatever the tag. -/
def cdr (list : Nat) : M Nat := do
  let it ← readItem list
  match it.u1 with
  | .ptr a => pure a
  | _ => undefinedBehaviour

/-- Reads `p->cl.paramNames` (the same word as `c.car`). -/
def getParamNames (p : Nat) : M Nat := car p

/-- Reads `p->cl.functionCode` (the same word as `c.cdr`). -/
def getFunctionCode (p : Nat) : M Nat := cdr p

/-- Reads `p->cl.frame`. -/
def getClFrame (p : Nat) : M Nat := do
  let it ← readItem p
  match it.u2 with
  | .env f => pure f
  | _ => undefinedBehaviour

/-- The function `isNull`: true when the tag is not `CONS_TYPE`. -/
def isNull (item : Nat) : M Bool := do
  let it ← readItem item
  pure (decide (it.type ≠ CONS_TYPE))

/-- The function `makeNull`. -/
def makeNull : M Nat := allocItem ⟨NULL_TYPE, .undef, .undef, .undef⟩

/-- The function `cons`. -/
def cons (newCar newCdr : Nat) : M Nat :=
  allocItem ⟨CONS_TYPE, .ptr newCar, .ptr newCdr, .undef⟩

/-- The loop of `length`, `count` being the running count. -/
def lengthLoop : Nat → Nat → Nat → M Nat
  | 0, _, _ => outOfFuel
  | k + 1, current, count => do
    if (← isNull current) then pure count
    else lengthLoop k (← cdr current) (count + 1)

/-- The function `length`. -/
def length (fuel : Nat) (list : Nat) : M Nat := lengthLoop fuel list 0

/-- An item holding only a tag: `talloc(sizeof(Item))` followed by
`item->type = t`. -/
def newTagged (t : itemType) : M Nat := allocItem ⟨t, .undef, .undef, .undef⟩

/-! Frames -/

/-- The function `createFrame`. -/
def createFrame (parent : Option Nat) : M Nat := fun st =>
  .ok st.frames.length { st with frames := st.frames ++ [⟨[], parent⟩] }

/-- The function `addBinding`: the new binding goes in front, older entries
stay. -/
def addBinding (frame : Nat) (var : String) (value : Nat) : M Unit := fun st =>
  match st.frames[frame]? with
  | some f =>
    .ok () { st with frames := st.frames.set frame { f with bindings := (var, value) :: f.bindings } }
  | none => .undefined

/-- The inner loop of `lookupSymbol`: the first entry of one frame's binding
list whose name is `symbol`. -/
def lookupBindings (symbol : String) : List (String × Nat) → Option Nat
  | [] => none
  | (name, value) :: rest => if name = symbol then some value else lookupBindings symbol rest

/-- The function `lookupSymbol`: frame by frame outwards; `fuel` bounds the
number of frames visited. -/
def lookupSymbol : Nat → String → Option Nat → M Nat
  | _, _, none => evaluationError "Unbound symbol"
  | 0, _, some _ => outOfFuel
  | k + 1, symbol, some frame => fun st =>
    match st.frames[frame]? with
    | none => .undefined
    | some fr =>
      match lookupBindings symbol fr.bindings with
      | some value => .ok value st
      | none => lookupSymbol k symbol fr.parent st

/-! The primitive library -/

/-- Largest value of the C type `int` (32 bits). -/
def INT_MAX : Int := 2147483647

/-- Smallest value of the C type `int` (32 bits). -/
def INT_MIN : Int := -2147483648

/-- The conversion `(int)x` of a double: truncation towards zero, undefined
when the truncated value is not an `int`. -/
def toInt (x : ℚ) : M Int :=
  let t := Int.tdiv x.num x.den
  if INT_MIN ≤ t ∧ t ≤ INT_MAX then pure t else undefinedBehaviour

/-- The repeated pattern `if DOUBLE_TYPE then p->d else if INT_TYPE then p->i
else evaluationError(message)` that fills `aVal` / `bVal`. -/
def numberArg (p : Nat) (message : String) : M ℚ := do
  let t ← typeOf p
  if t = DOUBLE_TYPE then getD p
  else if t = INT_TYPE then do
    let i ← getI p
    pure (i : ℚ)
  else evaluationError message

/-- The pattern `(p->type == DOUBLE_TYPE) ? p->d : p->i` of `primitiveLess`
and `primitiveDivide`. -/
def doubleOrI (p : Nat) : M ℚ := do
  let t ← typeOf p
  if t = DOUBLE_TYPE then getD p
  else do
    let i ← getI p
    pure (i : ℚ)

/-- A fresh `INT_TYPE` item. -/
def newInt (i : Int) : M Nat := allocItem ⟨INT_TYPE, .int i, .undef, .undef⟩

/-- A fresh `DOUBLE_TYPE` item. -/
def newDouble (d : ℚ) : M Nat := allocItem ⟨DOUBLE_TYPE, .dbl d, .undef, .undef⟩

/-- A fresh `BOOL_TYPE` item whose `i` is 1 or 0. -/
def newBool (b : Bool) : M Nat :=
  allocItem ⟨BOOL_TYPE, .int (if b then 1 else 0), .undef, .undef⟩

/-- The function `primitiveMinus`.  The difference of the two `double`s is
held as the exact rational, which agrees with the code where the difference is
a value a `double` holds exactly, as every integer of magnitude at most 2^53
is. -/
def primitiveMinus (fuel : Nat) (args : Nat) : M Nat := do
  if (← length fuel args) ≠ 2 then evaluationError "not 2 arguments"
  else do
    let a ← car args
    let b ← car (← cdr args)
    let aVal ← numberArg a "first argument must be a number"
    let bVal ← numberArg b "second argument must be a number"
    if (← typeOf a) = DOUBLE_TYPE ∨ (← typeOf b) = DOUBLE_TYPE then newDouble (aVal - bVal)
    else newInt (← toInt (aVal - bVal))

/-- The function `primitiveLess`. -/
def primitiveLess (fuel : Nat) (args : Nat) : M Nat := do
  if (← length fuel args) ≠ 2 then evaluationError "not 2 arguments"
  else do
    let a ← car args
    let b ← car (← cdr args)
    let ta ← typeOf a
    let tb ← typeOf b
    if ta = DOUBLE_TYPE ∨ tb = DOUBLE_TYPE then do
      let aVal ← doubleOrI a
      let bVal ← doubleOrI b
      newBool (decide (aVal < bVal))
    else if ta = INT_TYPE ∧ tb = INT_TYPE then do
      let ai ← getI a
      let bi ← getI b
      newBool (decide (ai < bi))
    else evaluationError "not a number"

/-- The function `primitiveGreater`. -/
def primitiveGreater (fuel : Nat) (args : Nat) : M Nat := do
  if (← length fuel args) ≠ 2 then evaluationError "not 2 arguments"
  else do
    let a ← car args
    let b ← car (← cdr args)
    let aVal ← numberArg a "first argument must be a number"
    let bVal ← numberArg b "second argument must be a number"
    if (← typeOf a) = DOUBLE_TYPE ∨ (← typeOf b) = DOUBLE_TYPE then newBool (decide (aVal > bVal))
    else do
      let ai ← getI a
      let bi ← getI b
      newBool (decide (ai > bi))

/-- The function `primitiveEqual`. -/
def primitiveEqual (fuel : Nat) (args : Nat) : M Nat := do
  if (← length fuel args) ≠ 2 then evaluationError "not 2 arguments"
  else do
    let a ← car args
    let b ← car (← cdr args)
    let aVal ← numberArg a "first argument must be a number"
    let bVal ← numberArg b "second argument must be a number"
    if (← typeOf a) = DOUBLE_TYPE ∨ (← typeOf b) = DOUBLE_TYPE then newBool (decide (aVal = bVal))
    else do
      let ai ← getI a
      let bi ← getI b
      newBool (decide (ai = bi))

/-- The loop of `primitivePlus` with its accumulators `total`, `hasDouble`.
The `double total` is held as the exact rational: the code rounds every
addition to the nearest `double`, so the two agree as long as each running
total is a value a `double` holds exactly (`plusExact`). -/
def primitivePlusLoop : Nat → Nat → ℚ → Bool → M (ℚ × Bool)
  | 0, _, _, _ => outOfFuel
  | k + 1, args, total, hasDouble => do
    if (← isNull args) then pure (total, hasDouble)
    else do
      let currentArg ← car args
      let t ← typeOf currentArg
      if t = DOUBLE_TYPE then do
        let d ← getD currentArg
        primitivePlusLoop k (← cdr args) (total + d) true
      else if t = INT_TYPE then do
        let i ← getI currentArg
        primitivePlusLoop k (← cdr args) (total + (i : ℚ)) hasDouble
      else evaluationError "not numbers"

/-- The function `primitivePlus`. -/
def primitivePlus (fuel : Nat) (args : Nat) : M Nat := do
  let (total, hasDouble) ← primitivePlusLoop fuel args 0 false
  if hasDouble then newDouble total
  else newInt (← toInt total)

/-- The function `primitiveNull`. -/
def primitiveNull (fuel : Nat) (args : Nat) : M Nat := do
  if (← length fuel args) ≠ 1 then evaluationError "null? expects one argument"
  else do
    let arg ← car args
    newBool (← isNull arg)

/-- The function `primitiveCar`. -/
def primitiveCar (fuel : Nat) (args : Nat) : M Nat := do
  if (← length fuel args) ≠ 1 then evaluationError "car expects one argument"
  else do
    let arg ← car args
    if (← typeOf arg) ≠ CONS_TYPE then evaluationError "car expects a list"
    else car arg

/-- The function `primitiveCdr`. -/
def primitiveCdr (fuel : Nat) (args : Nat) : M Nat := do
  if (← length fuel args) ≠ 1 then evaluationError "cdr expects one argument"
  else do
    let arg ← car args
    if (← typeOf arg) ≠ CONS_TYPE then evaluationError "cdr expects a list"
    else cdr arg

/-- The function `primitiveCons`. -/
def primitiveCons (fuel : Nat) (args : Nat) : M Nat := do
  if (← length fuel args) ≠ 2 then evaluationError "cons expects two arguments"
  else do
    let first ← car args
    let second ← car (← cdr args)
    cons first second

/-- The function `primitiveAppend`; `k` bounds the depth of its recursion,
`fuel` the loops of `length`. -/
def primitiveAppend (fuel : Nat) : Nat → Nat → M Nat
  | 0, _ => outOfFuel
  | k + 1, args => do
    if (← length fuel args) ≠ 2 then evaluationError "append expects two arguments"
    else do
      let first ← car args
      let second ← car (← cdr args)
      let t ← typeOf first
      if t ≠ CONS_TYPE ∧ t ≠ NULL_TYPE then
        evaluationError "first argument of append must be a list"
      else if (← isNull first) then pure second
      else do
        let head ← car first
        let nil ← makeNull
        let tailArgs ← cons second nil
        let rest ← cdr first
        let newArgs ← cons rest tailArgs
        let appended ← primitiveAppend fuel k newArgs
        cons head appended

/-- The loop of `primitiveMultiply` with its accumulators `result`,
`containsDouble`.  The `double result` is held as the exact rational, which
agrees with the code as long as each running product is a value a `double`
holds exactly, as every integer of magnitude at most 2^53 is. -/
def primitiveMultiplyLoop : Nat → Nat → ℚ → Bool → M (ℚ × Bool)
  | 0, _, _, _ => outOfFuel
  | k + 1, args, result, containsDouble => do
    if (← isNull args) then pure (result, containsDouble)
    else do
      let currentArg ← car args
      let t ← typeOf currentArg
      if t = DOUBLE_TYPE then do
        let d ← getD currentArg
        primitiveMultiplyLoop k (← cdr args) (result * d) true
      else if t = INT_TYPE then do
        let i ← getI currentArg
        primitiveMultiplyLoop k (← cdr args) (result * (i : ℚ)) containsDouble
      else evaluationError "all arguments must be numbers"

/-- The function `primitiveMultiply`. -/
def primitiveMultiply (fuel : Nat) (args : Nat) : M Nat := do
  if (← length fuel args) < 2 then evaluationError "requires at least 2 arguments"
  else do
    let (result, containsDouble) ← primitiveMultiplyLoop fuel args 1 false
    if containsDouble then newDouble result
    else newInt (← toInt result)

/-- The function `primitiveDivide`.  The quotient is held as the exact
rational: the code stores the nearest `double`, so the two agree where the
quotient is a value a `double` holds exactly (`exactInteger`); the tag and the
errors do not depend on it. -/
def primitiveDivide (fuel : Nat) (args : Nat) : M Nat := do
  if (← length fuel args) ≠ 2 then evaluationError "2 arguments needed"
  else do
    let a ← car args
    let b ← car (← cdr args)
    let ta ← typeOf a
    let tb ← typeOf b
    if (ta = INT_TYPE ∨ ta = DOUBLE_TYPE) ∧ (tb = INT_TYPE ∨ tb = DOUBLE_TYPE) then do
      let numerator ← doubleOrI a
      let denominator ← doubleOrI b
      if denominator = 0 then evaluationError "can't divide by zero"
      else newDouble (numerator / denominator)
    else evaluationError "not a number"

/-- The function `primitiveModulo`: the C remainder `a->i % b->i`, undefined
for a zero divisor and for `INT_MIN % -1`. -/
def primitiveModulo (fuel : Nat) (args : Nat) : M Nat := do
  if (← length fuel args) ≠ 2 then evaluationError "2 arguments needed"
  else do
    let a ← car args
    let b ← car (← cdr args)
    if (← typeOf a) ≠ INT_TYPE ∨ (← typeOf b) ≠ INT_TYPE then evaluationError "invalid arguments"
    else do
      let ai ← getI a
      let bi ← getI b
      if bi = 0 ∨ (ai = INT_MIN ∧ bi = -1) then undefinedBehaviour
      else newInt (Int.tmod ai bi)

/-- The indirect call `function->pf(args)`. -/
def callPrimitive (fuel : Nat) (pf : PrimFn) (args : Nat) : M Nat :=
  match pf with
  | .primitivePlus => primitivePlus fuel args
  | .primitiveMinus => primitiveMinus fuel args
  | .primitiveMultiply => primitiveMultiply fuel args
  | .primitiveDivide => primitiveDivide fuel args
  | .primitiveModulo => primitiveModulo fuel args
  | .primitiveLess => primitiveLess fuel args
  | .primitiveGreater => primitiveGreater fuel args
  | .primitiveEqual => primitiveEqual fuel args
  | .primitiveNull => primitiveNull fuel args
  | .primitiveCar => primitiveCar fuel args
  | .primitiveCdr => primitiveCdr fuel args
  | .primitiveCons => primitiveCons fuel args
  | .primitiveAppend => primitiveAppend fuel fuel args

/-! The evaluator.  The special forms call `eval` back; each of them takes
the evaluator to call as `ev`, and `eval` passes itself with one unit of fuel
less.  A loop has its own counter `k`; `fuel` bounds what the loop calls. -/

/-- The loop of `evalBody`; `result` is the value of the last form so far. -/
def evalBodyLoop (ev : Nat → Nat → M Nat) : Nat → Nat → Nat → Nat → M Nat
  | 0, _, _, _ => outOfFuel
  | k + 1, body, frame, result => do
    if (← isNull body) then pure result
    else do
      let form ← car body
      let r ← ev form frame
      evalBodyLoop ev k (← cdr body) frame r

/-- The function `evalBody`. -/
def evalBody (ev : Nat → Nat → M Nat) (fuel : Nat) (body frame : Nat) : M Nat := do
  let result ← makeNull
  evalBodyLoop ev fuel body frame result

/-- The function `evalIf`. -/
def evalIf (ev : Nat → Nat → M Nat) (fuel : Nat) (args frame : Nat) : M Nat := do
  if (← length fuel args) ≠ 3 then evaluationError "if expects exactly 3 arguments"
  else do
    let test ← ev (← car args) frame
    if (← typeOf test) ≠ BOOL_TYPE then
      evaluationError "if expects a boolean as the first argument"
    else if (← getI test) ≠ 0 then ev (← car (← cdr args)) frame
    else ev (← car (← cdr (← cdr args))) frame

/-- The inner loop of `evalLet`: compares the name of `var` with the names of
the bindings from `innerBindings` up to, not including, the cell `bindings`. -/
def evalLetDuplicate : Nat → Nat → Nat → Nat → M Unit
  | 0, _, _, _ => outOfFuel
  | k + 1, innerBindings, bindings, var => do
    if innerBindings = bindings then pure ()
    else do
      let earlier ← getS (← car (← car innerBindings))
      let name ← getS var
      if earlier = name then evaluationError "variable duplicate"
      else evalLetDuplicate k (← cdr innerBindings) bindings var

/-- The main loop of `evalLet`. -/
def evalLetLoop (ev : Nat → Nat → M Nat) (fuel : Nat) (args frame letFrame : Nat) :
    Nat → Nat → M Unit
  | 0, _ => outOfFuel
  | k + 1, bindings => do
    if (← isNull bindings) then pure ()
    else do
      let currentBinding ← car bindings
      if (← typeOf currentBinding) ≠ CONS_TYPE then evaluationError "binding invalid"
      else if (← length fuel currentBinding) ≠ 2 then evaluationError "binding invalid"
      else do
        let var ← car currentBinding
        if (← typeOf var) ≠ SYMBOL_TYPE then evaluationError "variable doesn't exist"
        else do
          let innerBindings ← car args
          evalLetDuplicate fuel innerBindings bindings var
          let value ← ev (← car (← cdr currentBinding)) frame
          addBinding letFrame (← getS var) value
          evalLetLoop ev fuel args frame letFrame k (← cdr bindings)

/-- The function `evalLet`. -/
def evalLet (ev : Nat → Nat → M Nat) (fuel : Nat) (args frame : Nat) : M Nat := do
  if (← length fuel args) < 2 then evaluationError "let expects at least 2 arguments"
  else do
    let bindings ← car args
    let body ← cdr args
    let t ← typeOf bindings
    if t ≠ CONS_TYPE ∧ t ≠ NULL_TYPE then evaluationError "not a list"
    else do
      let letFrame ← createFrame (some frame)
      evalLetLoop ev fuel args frame letFrame fuel bindings
      evalBody ev fuel body letFrame

/-- The function `evalDefine`. -/
def evalDefine (ev : Nat → Nat → M Nat) (fuel : Nat) (args frame : Nat) : M Nat := do
  if (← length fuel args) ≠ 2 then evaluationError "there must be 2 arguments for define"
  else do
    let varName ← car args
    if (← typeOf varName) ≠ SYMBOL_TYPE then evaluationError "the first argument must be symbol"
    else do
      let expression ← car (← cdr args)
      let result ← ev expression frame
      addBinding frame (← getS varName) result
      newTagged VOID_TYPE

/-- The inner loop of `evalLambda`: compares `param` with the parameters from
`innerList` up to, not including, the cell `paramList`. -/
def evalLambdaDuplicate : Nat → Nat → Nat → Nat → M Unit
  | 0, _, _, _ => outOfFuel
  | k + 1, innerList, paramList, param => do
    if innerList = paramList then pure ()
    else do
      let earlier ← getS (← car innerList)
      let name ← getS param
      if earlier = name then evaluationError "repeated symbol"
      else evalLambdaDuplicate k (← cdr innerList) paramList param

/-- The outer loop of `evalLambda` over the parameter cells, followed by the
test of the final tail. -/
def evalLambdaLoop (fuel : Nat) (params : Nat) : Nat → Nat → M Unit
  | 0, _ => outOfFuel
  | k + 1, paramList => do
    if (← typeOf paramList) = CONS_TYPE then do
      let param ← car paramList
      if (← typeOf param) ≠ SYMBOL_TYPE then evaluationError "parameters must be symbols"
      else do
        evalLambdaDuplicate fuel params paramList param
        evalLambdaLoop fuel params k (← cdr paramList)
    else if (← typeOf paramList) ≠ NULL_TYPE then evaluationError "must be a list"
    else pure ()

/-- The function `evalLambda`. -/
def evalLambda (fuel : Nat) (args frame : Nat) : M Nat := do
  if (← length fuel args) < 2 then evaluationError "there must be at least 2 arguments"
  else do
    let params ← car args
    let body ← cdr args
    let t ← typeOf params
    if t ≠ CONS_TYPE ∧ t ≠ NULL_TYPE ∧ t ≠ SYMBOL_TYPE then
      evaluationError "must be list of parameters"
    else do
      if t = CONS_TYPE then evalLambdaLoop fuel params fuel params
      else pure ()
      allocItem ⟨CLOSURE_TYPE, .ptr params, .ptr body, .env frame⟩

/-- The function `evalQuote`. -/
def evalQuote (fuel : Nat) (args : Nat) : M Nat := do
  if (← length fuel args) ≠ 1 then evaluationError "quote expects one argument"
  else car args

/-- The loop of `apply` over the parameters.  It ends either through the
`return` inside the loop (a symbol in tail position takes the remaining
arguments) or by leaving the loop; both continue with the body, the second
after the test for left-over arguments. -/
def applyLoop (ev : Nat → Nat → M Nat) (fuel : Nat) (function newFrame : Nat) :
    Nat → Nat → Nat → M Nat
  | 0, _, _ => outOfFuel
  | k + 1, paramNames, args => do
    if (← isNull paramNames) then do
      if !(← isNull args) then evaluationError "too many arguments"
      else evalBody ev fuel (← getFunctionCode function) newFrame
    else if (← typeOf paramNames) = SYMBOL_TYPE then do
      addBinding newFrame (← getS paramNames) args
      evalBody ev fuel (← getFunctionCode function) newFrame
    else if (← isNull args) then evaluationError "too few arguments"
    else do
      addBinding newFrame (← getS (← car paramNames)) (← car args)
      applyLoop ev fuel function newFrame k (← cdr paramNames) (← cdr args)

/-- The function `apply`. -/
def apply (ev : Nat → Nat → M Nat) (fuel : Nat) (function args : Nat) : M Nat := do
  let t ← typeOf function
  if t = PRIMITIVE_TYPE then callPrimitive fuel (← getPf function) args
  else if t ≠ CLOSURE_TYPE then evaluationError "not a function"
  else do
    let newFrame ← createFrame (some (← getClFrame function))
    let paramNames ← getParamNames function
    applyLoop ev fuel function newFrame fuel paramNames args

/-- The function `evalList`; `k` bounds the depth of its recursion. -/
def evalList (ev : Nat → Nat → M Nat) : Nat → Nat → Nat → M Nat
  | 0, _, _ => outOfFuel
  | k + 1, list, frame => do
    if (← isNull list) then makeNull
    else do
      let evaluatedCar ← ev (← car list) frame
      let evaluatedCdr ← evalList ev k (← cdr list) frame
      cons evaluatedCar evaluatedCdr

/-- The loop of `evalLetStar`; it ends with the body in the last frame. -/
def evalLetStarLoop (ev : Nat → Nat → M Nat) (fuel : Nat) (body : Nat) :
    Nat → Nat → Nat → M Nat
  | 0, _, _ => outOfFuel
  | k + 1, bindings, letStarFrame => do
    if (← isNull bindings) then evalBody ev fuel body letStarFrame
    else do
      let currentBinding ← car bindings
      if (← typeOf currentBinding) ≠ CONS_TYPE then evaluationError "binding invalid"
      else if (← length fuel currentBinding) ≠ 2 then evaluationError "binding invalid"
      else do
        let var ← car currentBinding
        if (← typeOf var) ≠ SYMBOL_TYPE then evaluationError "variable doesn't exist"
        else do
          let value ← ev (← car (← cdr currentBinding)) letStarFrame
          let newFrame ← createFrame (some letStarFrame)
          addBinding newFrame (← getS var) value
          evalLetStarLoop ev fuel body k (← cdr bindings) newFrame

/-- The function `evalLetStar`. -/
def evalLetStar (ev : Nat → Nat → M Nat) (fuel : Nat) (args frame : Nat) : M Nat := do
  if (← length fuel args) < 2 then evaluationError "not 2 arguments"
  else do
    let bindings ← car args
    let body ← cdr args
    evalLetStarLoop ev fuel body fuel bindings frame

/-- The first loop of `evalLetRec`: every name gets a fresh `NULL_TYPE`
placeholder in the new frame. -/
def evalLetRecPlaceholders (fuel : Nat) (letRecFrame : Nat) : Nat → Nat → M Unit
  | 0, _ => outOfFuel
  | k + 1, tempBindings => do
    if (← isNull tempBindings) then pure ()
    else do
      let currentBinding ← car tempBindings
      if (← typeOf currentBinding) ≠ CONS_TYPE then evaluationError "binding invalid"
      else if (← length fuel currentBinding) ≠ 2 then evaluationError "binding invalid"
      else do
        let var ← car currentBinding
        if (← typeOf var) ≠ SYMBOL_TYPE then evaluationError "variable doesn't exist"
        else do
          let nullItem ← newTagged NULL_TYPE
          addBinding letRecFrame (← getS var) nullItem
          evalLetRecPlaceholders fuel letRecFrame k (← cdr tempBindings)

/-- The assignment `binding->type = t`. -/
def setType (binding : Nat) (t : itemType) : M Unit := do
  let b ← readItem binding
  writeItem binding { b with type := t }

/-- An assignment to the first payload word of `binding`. -/
def setU0 (binding : Nat) (w : Word) : M Unit := do
  let b ← readItem binding
  writeItem binding { b with u0 := w }

/-- An assignment to the second payload word of `binding`. -/
def setU1 (binding : Nat) (w : Word) : M Unit := do
  let b ← readItem binding
  writeItem binding { b with u1 := w }

/-- An assignment to the third payload word of `binding`. -/
def setU2 (binding : Nat) (w : Word) : M Unit := do
  let b ← readItem binding
  writeItem binding { b with u2 := w }

/-- The patch at the end of one round of the second loop of `evalLetRec`:
`binding->type = value->type` and the `switch` that copies the payload. -/
def evalLetRecPatch (binding value : Nat) : M Unit := do
  let t ← typeOf value
  setType binding t
  match t with
  | INT_TYPE => do setU0 binding (.int (← getI value))
  | DOUBLE_TYPE => do setU0 binding (.dbl (← getD value))
  | STR_TYPE => do setU0 binding (.str (← getS value))
  | SYMBOL_TYPE => do setU0 binding (.str (← getS value))
  | CONS_TYPE => do
    setU0 binding (.ptr (← car value))
    setU1 binding (.ptr (← cdr value))
  | CLOSURE_TYPE => do
    setU0 binding (.ptr (← getParamNames value))
    setU1 binding (.ptr (← getFunctionCode value))
    setU2 binding (.env (← getClFrame value))
  | PRIMITIVE_TYPE => do setU0 binding (.fn (← getPf value))
  | _ => evaluationError "type unknown"

/-- The second loop of `evalLetRec`. -/
def evalLetRecFill (ev : Nat → Nat → M Nat) (fuel : Nat) (letRecFrame : Nat) :
    Nat → Nat → M Unit
  | 0, _ => outOfFuel
  | k + 1, tempBindings => do
    if (← isNull tempBindings) then pure ()
    else do
      let currentBinding ← car tempBindings
      let var ← car currentBinding
      let value ← ev (← car (← cdr currentBinding)) letRecFrame
      if (← typeOf value) = NULL_TYPE then evaluationError "variable cannot be NULL"
      else do
        let binding ← lookupSymbol fuel (← getS var) (some letRecFrame)
        evalLetRecPatch binding value
        evalLetRecFill ev fuel letRecFrame k (← cdr tempBindings)

/-- The function `evalLetRec`. -/
def evalLetRec (ev : Nat → Nat → M Nat) (fuel : Nat) (args frame : Nat) : M Nat := do
  if (← length fuel args) < 2 then evaluationError "not 2 arguments"
  else do
    let bindings ← car args
    let body ← cdr args
    let letRecFrame ← createFrame (some frame)
    evalLetRecPlaceholders fuel letRecFrame fuel bindings
    evalLetRecFill ev fuel letRecFrame fuel bindings
    evalBody ev fuel body letRecFrame

/-- The function `evalSet`: `binding->type = value->type; binding->s =
value->s;`, which copies the tag and the first payload word (on a 64-bit
target that word holds all of `i`, `d`, `s`, `pf` and `c.car`, and none of
`c.cdr`, `cl.functionCode`, `cl.frame`).  `binding` is what `lookupSymbol`
returns: the value item itself, not the pair that binds it. -/
def evalSet (ev : Nat → Nat → M Nat) (fuel : Nat) (args frame : Nat) : M Nat := do
  if (← length fuel args) ≠ 2 then evaluationError "not 2 arguments"
  else do
    let var ← car args
    if (← typeOf var) ≠ SYMBOL_TYPE then evaluationError "not a symbol"
    else do
      let value ← ev (← car (← cdr args)) frame
      let binding ← lookupSymbol fuel (← getS var) (some frame)
      setType binding (← typeOf value)
      setU0 binding (← readItem value).u0
      newTagged VOID_TYPE

/-- The function `evalSetCar`. -/
def evalSetCar (ev : Nat → Nat → M Nat) (fuel : Nat) (args frame : Nat) : M Nat := do
  if (← length fuel args) ≠ 2 then evaluationError "not 2 arguments"
  else do
    let pair ← ev (← car args) frame
    if (← typeOf pair) ≠ CONS_TYPE then evaluationError "not a pair"
    else do
      let value ← ev (← car (← cdr args)) frame
      setU0 pair (.ptr value)
      newTagged VOID_TYPE

/-- The function `evalSetCdr`. -/
def evalSetCdr (ev : Nat → Nat → M Nat) (fuel : Nat) (args frame : Nat) : M Nat := do
  if (← length fuel args) ≠ 2 then evaluationError "set-cdr! expects exactly 2 arguments"
  else do
    let pair ← ev (← car args) frame
    if (← typeOf pair) ≠ CONS_TYPE then
      evaluationError "set-cdr! expects a pair as the first argument"
    else do
      let value ← ev (← car (← cdr args)) frame
      setU1 pair (.ptr value)
      newTagged VOID_TYPE

/-- The test `result->type == BOOL_TYPE && result->i` of `evalCond`. -/
def isTrueBool (result : Nat) : M Bool := do
  if (← typeOf result) = BOOL_TYPE then do
    let i ← getI result
    pure (decide (i ≠ 0))
  else pure false

/-- The test `test->type == SYMBOL_TYPE && strcmp(test->s, "else") == 0`. -/
def isElse (test : Nat) : M Bool := do
  if (← typeOf test) = SYMBOL_TYPE then do
    let s ← getS test
    pure (decide (s = "else"))
  else pure false

/-- The function `evalCond` (its loop over the clauses). -/
def evalCond (ev : Nat → Nat → M Nat) (fuel : Nat) (frame : Nat) : Nat → Nat → M Nat
  | 0, _ => outOfFuel
  | k + 1, args => do
    if (← isNull args) then newTagged VOID_TYPE
    else do
      let clause ← car args
      if (← typeOf clause) ≠ CONS_TYPE then evaluationError "clauses can't be empty lists"
      else if (← length fuel clause) < 1 then evaluationError "clauses can't be empty lists"
      else do
        let test ← car clause
        if (← isElse test) then evalBody ev fuel (← cdr clause) frame
        else do
          let result ← ev test frame
          if (← isTrueBool result) then evalBody ev fuel (← cdr clause) frame
          else evalCond ev fuel frame k (← cdr args)

/-- The function `evalAnd` (its loop over the operands). -/
def evalAnd (ev : Nat → Nat → M Nat) (frame : Nat) : Nat → Nat → M Nat
  | 0, _ => outOfFuel
  | k + 1, args => do
    if (← isNull args) then newBool true
    else do
      let result ← ev (← car args) frame
      if (← typeOf result) ≠ BOOL_TYPE then evaluationError "boolean arguments expected"
      else if (← getI result) = 0 then pure result
      else evalAnd ev frame k (← cdr args)

/-- The function `evalOr` (its loop over the operands). -/
def evalOr (ev : Nat → Nat → M Nat) (frame : Nat) : Nat → Nat → M Nat
  | 0, _ => outOfFuel
  | k + 1, args => do
    if (← isNull args) then newBool false
    else do
      let result ← ev (← car args) frame
      if (← typeOf result) ≠ BOOL_TYPE then evaluationError "boolean arguments expected"
      else if (← getI result) ≠ 0 then pure result
      else evalOr ev frame k (← cdr args)

/-- The application branch of `eval`: operator, then operands, then `apply`. -/
def evalApplication (ev : Nat → Nat → M Nat) (fuel : Nat) (first args frame : Nat) : M Nat := do
  let function ← ev first frame
  let evaluatedArgs ← evalList ev fuel args frame
  apply ev fuel function evaluatedArgs

/-- The `CONS_TYPE` case of `eval`: the chain of `strcmp` on the head. -/
def evalPair (ev : Nat → Nat → M Nat) (fuel : Nat) (tree frame : Nat) : M Nat := do
  let first ← car tree
  let args ← cdr tree
  if (← typeOf first) ≠ SYMBOL_TYPE then evalApplication ev fuel first args frame
  else do
    let s ← getS first
    if s = "define" then evalDefine ev fuel args frame
    else if s = "let" then evalLet ev fuel args frame
    else if s = "let*" then evalLetStar ev fuel args frame
    else if s = "letrec" then evalLetRec ev fuel args frame
    else if s = "set!" then evalSet ev fuel args frame
    else if s = "set-car!" then evalSetCar ev fuel args frame
    else if s = "set-cdr!" then evalSetCdr ev fuel args frame
    else if s = "lambda" then evalLambda fuel args frame
    else if s = "cond" then evalCond ev fuel frame fuel args
    else if s = "if" then evalIf ev fuel args frame
    else if s = "quote" then evalQuote fuel args
    else if s = "and" then evalAnd ev frame fuel args
    else if s = "or" then evalOr ev frame fuel args
    else evalApplication ev fuel first args frame

/-- The function `eval`.  `fuel` bounds the depth of the recursion through
`eval` and, inside one call, every loop.  An address of the item heap is
never NULL, so the test `tree == NULL` has no counterpart. -/
def eval : Nat → Nat → Nat → M Nat
  | 0, _, _ => outOfFuel
  | fuel + 1, tree, frame => do
    let t ← typeOf tree
    match t with
    | INT_TYPE => pure tree
    | DOUBLE_TYPE => pure tree
    | STR_TYPE => pure tree
    | BOOL_TYPE => pure tree
    | SYMBOL_TYPE => do lookupSymbol fuel (← getS tree) (some frame)
    | CONS_TYPE => evalPair (eval fuel) fuel tree frame
    | _ => evaluationError "unknown type"

/-- The function `bind`. -/
def bind (name : String) (function : PrimFn) (frame : Nat) : M Unit := do
  let prim ← allocItem ⟨PRIMITIVE_TYPE, .fn function, .undef, .undef⟩
  addBinding frame name prim

/-- The first part of `interpret`: the global frame with the primitives. -/
def interpretGlobals : M Nat := do
  let globalFrame ← createFrame none
  bind "+" .primitivePlus globalFrame
  bind "-" .primitiveMinus globalFrame
  bind "*" .primitiveMultiply globalFrame
  bind "/" .primitiveDivide globalFrame
  bind "modulo" .primitiveModulo globalFrame
  bind "<" .primitiveLess globalFrame
  bind ">" .primitiveGreater globalFrame
  bind "=" .primitiveEqual globalFrame
  bind "null?" .primitiveNull globalFrame
  bind "car" .primitiveCar globalFrame
  bind "cdr" .primitiveCdr globalFrame
  bind "cons" .primitiveCons globalFrame
  bind "append" .primitiveAppend globalFrame
  pure globalFrame

/-! Expression trees in the heap, as the parser leaves them -/

/-- An S-expression as text denotes it. -/
inductive SExp where
  | int (i : Int)
  | real (d : ℚ)
  | text (s : String)
  | sym (s : String)
  | bool (b : Bool)
  | nil
  | cons (a b : SExp)
  deriving DecidableEq, Repr

/-- The proper list of the given elements. -/
def SExp.list : List SExp → SExp
  | [] => .nil
  | x :: xs => .cons x (SExp.list xs)

/-- Lays an S-expression out in the heap: one item per atom, a chain of
`cons` cells ended by a `NULL_TYPE` item per list.  A Boolean atom carries its
value in `i`, as the token stream contract has it (the tokenizer of the
sources creates the item without setting `i`). -/
def build : SExp → M Nat
  | .int i => newInt i
  | .real d => newDouble d
  | .text s => allocItem ⟨STR_TYPE, .str s, .undef, .undef⟩
  | .sym s => allocItem ⟨SYMBOL_TYPE, .str s, .undef, .undef⟩
  | .bool b => newBool b
  | .nil => makeNull
  | .cons a b => do
    let x ← build a
    let y ← build b
    cons x y

/-- The empty heaps. -/
def State.empty : State := ⟨[], []⟩

/-- The loop of `interpret` over the top-level forms; the results that are
not `VOID_TYPE` (the ones it prints) are collected in order. -/
def interpretLoop (fuel : Nat) (globalFrame : Nat) : Nat → Nat → M (List Nat)
  | 0, _ => outOfFuel
  | k + 1, tree => do
    if (← typeOf tree) = CONS_TYPE then do
      let result ← eval fuel (← car tree) globalFrame
      let printed := decide ((← typeOf result) ≠ VOID_TYPE)
      let rest ← interpretLoop fuel globalFrame k (← cdr tree)
      pure (if printed then result :: rest else rest)
    else pure []

/-- The function `interpret`, returning the addresses of the printed results. -/
def interpret (fuel : Nat) (tree : Nat) : M (List Nat) := do
  let globalFrame ← interpretGlobals
  interpretLoop fuel globalFrame fuel tree

/-- A whole run on the empty heap: the list of the top-level forms is laid
out, then interpreted. -/
def run (fuel : Nat) (forms : List SExp) : Res (List Nat) :=
  (do
    let tree ← build (SExp.list forms)
    interpret fuel tree) State.empty

/-- The items a run printed, read in the final heap. -/
def printed : Res (List Nat) → Option (List (Option Item))
  | .ok rs st => some (rs.map (fun a => st.items[a]?))
  | _ => none

/-! Specification-side definitions: what the heap holds, read as lists.

A theorem about a special form is stated for an arbitrary evaluator `ev`; it
describes the construct by lists (`isList`, `isBindings`) read in the view
`frozen cells st` of the cells it is made of, and asks, through a Boolean
check that follows the run (`formsIntact`, `bindIntact`, `letIntact`,
`nestedIntact`), that the calls of `ev` leave those cells as they were: `ev`
may write anywhere else.  Being Boolean, the checks are decided on concrete
heaps. -/

/-- The frames from `frame` outwards, innermost first, are `chain`. -/
def isChain (st : State) : Option Nat → List Frame → Prop
  | none, [] => True
  | some f, fr :: rest => st.frames[f]? = some fr ∧ isChain st fr.parent rest
  | none, _ :: _ => False
  | some _, [] => False

/-- All bindings visible along a chain, innermost frame first, newest first
inside a frame. -/
def chainBindings : List Frame → List (String × Nat)
  | [] => []
  | fr :: rest => fr.bindings ++ chainBindings rest


/-- Two frames: the global one binds x twice (newest first), its child binds y. -/
def exampleFrames : State :=
  ⟨[], [⟨[("x", 1), ("x", 0)], none⟩, ⟨[("y", 2)], some 0⟩]⟩

/-- The item heap as a partial map from addresses. -/
def State.view (st : State) : Nat → Option Item := fun a => st.items[a]?

/-- In the view `h`, `p` heads a chain of `cons` cells whose cars are `xs`,
ended by an item that is not a `cons` cell. -/
def isList (h : Nat → Option Item) : Nat → List Nat → Bool
  | p, [] =>
    match h p with
    | some it => decide (it.type ≠ CONS_TYPE)
    | none => false
  | p, x :: xs =>
    match h p with
    | some it =>
      decide (it.type = CONS_TYPE) && decide (it.u0 = .ptr x) &&
        (match it.u1 with
         | .ptr q => isList h q xs
         | _ => false)
    | none => false

/-- In the view `h`, `p` is a symbol item named `name`. -/
def isSymbol (h : Nat → Option Item) (p : Nat) (name : String) : Bool :=
  match h p with
  | some it => decide (it.type = SYMBOL_TYPE) && decide (it.u0 = .str name)
  | none => false

/-- In the view `h`, the items `ps` are symbols named `names`, in order. -/
def areSymbols (h : Nat → Option Item) : List Nat → List String → Bool
  | [], [] => true
  | p :: ps, n :: ns => isSymbol h p n && areSymbols h ps ns
  | _, _ => false

/-- The cells `cells` of `st0` and nothing else: the part of the heap a
construct is made of. -/
def frozen (cells : List Nat) (st0 : State) : Nat → Option Item :=
  fun a => if a ∈ cells then st0.items[a]? else none

/-- The state `st` holds at every address of `cells` what `st0` holds there. -/
def agree (cells : List Nat) (st0 st : State) : Bool :=
  cells.all (fun a => decide (st0.items[a]? = none) || decide (st.items[a]? = st0.items[a]?))

/-- Evaluating the forms one after the other in `frame`: the value is the one
of the last form (`result` when there is no form). -/
def evalForms (ev : Nat → Nat → M Nat) (frame : Nat) : List Nat → Nat → M Nat
  | [], result => pure result
  | form :: rest, _ => do
    let r ← ev form frame
    evalForms ev frame rest r

/-- Along the run of `evalForms` from `st`, the state after each form still
holds the cells `cells` as `st0` has them. -/
def formsIntact (ev : Nat → Nat → M Nat) (frame : Nat) (cells : List Nat) (st0 : State) :
    List Nat → State → Bool
  | [], _ => true
  | form :: rest, st =>
    match ev form frame st with
    | .ok _ st' => agree cells st0 st' && formsIntact ev frame cells st0 rest st'
    | _ => true

/-- The closure `(lambda (a b) b)` of frame 0 at address 8 and the argument
list `(1 2)` at address 13. -/
def exampleClosure : State :=
  ⟨[⟨SYMBOL_TYPE, .str "a", .undef, .undef⟩, ⟨SYMBOL_TYPE, .str "b", .undef, .undef⟩,
    ⟨NULL_TYPE, .undef, .undef, .undef⟩, ⟨CONS_TYPE, .ptr 1, .ptr 2, .undef⟩,
    ⟨CONS_TYPE, .ptr 0, .ptr 3, .undef⟩,
    ⟨SYMBOL_TYPE, .str "b", .undef, .undef⟩, ⟨NULL_TYPE, .undef, .undef, .undef⟩,
    ⟨CONS_TYPE, .ptr 5, .ptr 6, .undef⟩,
    ⟨CLOSURE_TYPE, .ptr 4, .ptr 7, .env 0⟩,
    ⟨INT_TYPE, .int 1, .undef, .undef⟩, ⟨INT_TYPE, .int 2, .undef, .undef⟩,
    ⟨NULL_TYPE, .undef, .undef, .undef⟩, ⟨CONS_TYPE, .ptr 10, .ptr 11, .undef⟩,
    ⟨CONS_TYPE, .ptr 9, .ptr 12, .undef⟩],
   [⟨[], none⟩]⟩

/-- In the view `h`, `bp` is the two-element list `(var e)` whose first
element is the symbol named `x`. -/
def isBindingPair (h : Nat → Option Item) (bp : Nat) (x : String) (e : Nat) : Bool :=
  match h bp with
  | some it =>
    decide (it.type = CONS_TYPE) &&
      (match it.u0, it.u1 with
       | .ptr var, .ptr q => isSymbol h var x && isList h q [e]
       | _, _ => false)
  | none => false

/-- In the view `h`, `p` heads the proper list of the binding pairs `bs`
(name and address of the expression); `cs` are the addresses of its cells. -/
def isBindings (h : Nat → Option Item) : Nat → List Nat → List (String × Nat) → Bool
  | p, [], [] =>
    match h p with
    | some it => decide (it.type = NULL_TYPE)
    | none => false
  | p, c :: cs, (x, e) :: bs =>
    decide (p = c) &&
      (match h p with
       | some it =>
         decide (it.type = CONS_TYPE) &&
           (match it.u0, it.u1 with
            | .ptr bp, .ptr q => isBindingPair h bp x e && isBindings h q cs bs
            | _, _ => false)
       | none => false)
  | _, _ :: _, [] => false
  | _, [], _ :: _ => false

/-- The binding phase of a let as the specification words it: every
expression is evaluated in `frame`, its value is bound in `letFrame`. -/
def bindAll (ev : Nat → Nat → M Nat) (frame letFrame : Nat) : List (String × Nat) → M Unit
  | [] => pure ()
  | (x, e) :: rest => do
    let v ← ev e frame
    addBinding letFrame x v
    bindAll ev frame letFrame rest

/-- The binding phase with the test the loop of `evalLet` makes on reaching a
binding: a name among the names `seen` before it ends the let. -/
def bindChecked (ev : Nat → Nat → M Nat) (frame letFrame : Nat) :
    List String → List (String × Nat) → M Unit
  | _, [] => pure ()
  | seen, (x, e) :: rest =>
    if x ∈ seen then evaluationError "variable duplicate"
    else do
      let v ← ev e frame
      addBinding letFrame x v
      bindChecked ev frame letFrame (seen ++ [x]) rest

/-- Along the run of `bindAll` from `st`, the state after each binding
expression still holds the cells `cells` as `st0` has them. -/
def bindIntact (ev : Nat → Nat → M Nat) (frame letFrame : Nat) (cells : List Nat)
    (st0 : State) : List (String × Nat) → State → Bool
  | [], _ => true
  | (x, e) :: rest, st =>
    match ev e frame st with
    | .ok v st' =>
      agree cells st0 st' &&
        (match addBinding letFrame x v st' with
         | .ok _ st'' => bindIntact ev frame letFrame cells st0 rest st''
         | _ => true)
    | _ => true

/-- The same along the run of `bindChecked`. -/
def checkedIntact (ev : Nat → Nat → M Nat) (frame letFrame : Nat) (cells : List Nat)
    (st0 : State) : List String → List (String × Nat) → State → Bool
  | _, [], _ => true
  | seen, (x, e) :: rest, st =>
    if x ∈ seen then true
    else
      match ev e frame st with
      | .ok v st' =>
        agree cells st0 st' &&
          (match addBinding letFrame x v st' with
           | .ok _ st'' => checkedIntact ev frame letFrame cells st0 (seen ++ [x]) rest st''
           | _ => true)
      | _ => true

/-- A let as the specification words it: one new child frame of `frame`, every
binding expression evaluated in `frame` and bound in the child, then the body
forms in sequence in the child, the value being that of the last form. -/
def letSpec (ev : Nat → Nat → M Nat) (frame : Nat) (bs : List (String × Nat))
    (forms : List Nat) : M Nat := do
  let letFrame ← createFrame (some frame)
  bindAll ev frame letFrame bs
  let result ← makeNull
  evalForms ev letFrame forms result

/-- The state in which the binding phase of a let starts: `st` with the new,
still empty, child frame of `frame`. -/
def withChild (st : State) (frame : Nat) : State :=
  ⟨st.items, st.frames ++ [⟨[], some frame⟩]⟩

/-- Along the run of `letSpec` from `st`, the states after each binding
expression and after each body form still hold the cells `cells` as in `st`. -/
def letIntact (ev : Nat → Nat → M Nat) (frame : Nat) (cells : List Nat)
    (bs : List (String × Nat)) (forms : List Nat) (st : State) : Bool :=
  bindIntact ev frame st.frames.length cells st bs (withChild st frame) &&
    (match bindAll ev frame st.frames.length bs (withChild st frame) with
     | .ok _ stb =>
       formsIntact ev st.frames.length cells st forms
         ⟨stb.items ++ [⟨NULL_TYPE, .undef, .undef, .undef⟩], stb.frames⟩
     | _ => true)

/-- The heap that holds the expression `e` and one empty global frame. -/
def layout (e : SExp) : State :=
  match build e State.empty with
  | .ok _ st => ⟨st.items, [⟨[], none⟩]⟩
  | _ => State.empty

/-- The heap of `(let ((x 1) (y 2)) x y)`: the argument list is at 19, the
bindings at 13, the expressions at 2 and 7, the body forms at 14 and 15. -/
def exampleLet : State :=
  layout (SExp.list [.sym "let",
    SExp.list [SExp.list [.sym "x", .int 1], SExp.list [.sym "y", .int 2]],
    .sym "x", .sym "y"])

/-- The heap of `(let ((x 1) (x 2)) x)`: the argument list is at 17, the
bindings at 13, the expressions at 2 and 7, the body form at 14. -/
def exampleLetDuplicate : State :=
  layout (SExp.list [.sym "let",
    SExp.list [SExp.list [.sym "x", .int 1], SExp.list [.sym "x", .int 2]], .sym "x"])

/-- The program `(let ((a (define y 1))) 0) y`. -/
def progLetDefine : List SExp :=
  [SExp.list [.sym "let", SExp.list [SExp.list [.sym "a",
      SExp.list [.sym "define", .sym "y", .int 1]]], .int 0],
   .sym "y"]

/-- The list `(e1 ... en)`. -/
def L (es : List SExp) : SExp := SExp.list es

/-- The symbol `s`. -/
def S (s : String) : SExp := SExp.sym s

/-- The program `((lambda args args) 1 2)`. -/
def progVariadic : List SExp :=
  [L [L [S "lambda", S "args", S "args"], .int 1, .int 2]]

/-- The program `(define x (cons 1 2)) (set! x (cons 3 4)) (cdr x)`. -/
def progSetPair : List SExp :=
  [L [S "define", S "x", L [S "cons", .int 1, .int 2]],
   L [S "set!", S "x", L [S "cons", .int 3, .int 4]],
   L [S "cdr", S "x"]]

/-- The program `(define x 5) (define y x) (set! x "a") y`. -/
def progAlias : List SExp :=
  [L [S "define", S "x", .int 5], L [S "define", S "y", S "x"],
   L [S "set!", S "x", .text "a"], S "y"]

/-- The program `(let ((x (car (quote ()))) (x 2)) x)`. -/
def progLetDuplicate : List SExp :=
  [L [S "let", L [L [S "x", L [S "car", L [S "quote", L []]]], L [S "x", .int 2]], S "x"]]

/-- The program `(letrec ((b (= 1 1))) b)`. -/
def progLetrecBoolean : List SExp :=
  [L [S "letrec", L [L [S "b", L [S "=", .int 1, .int 1]]], S "b"]]

/-- The expression
`(letrec ((f (lambda (n) (if (= n 0) 1 (* n (f (- n 1))))))) (f n))`. -/
def factorialExpr (n : Int) : SExp :=
  L [S "letrec",
     L [L [S "f", L [S "lambda", L [S "n"],
        L [S "if", L [S "=", S "n", .int 0], .int 1,
           L [S "*", S "n", L [S "f", L [S "-", S "n", .int 1]]]]]]],
     L [S "f", .int n]]

/-- One step of nesting: a new child frame of `frame` that holds the single
binding of `x` to `v`. -/
def pushBinding (frame : Nat) (x : String) (v : Nat) : M Nat := do
  let child ← createFrame (some frame)
  addBinding child x v
  pure child

/-- The n nested single-binding lets `(let ((x1 e1)) (let ((x2 e2)) ... body))`
as the specification words a let: the binding expression is evaluated in the
outer frame, one new child frame holds the binding, and the body, which is the
next let and for the innermost let the body forms in sequence, is evaluated
in that child. -/
def nestedLets (ev : Nat → Nat → M Nat) (forms : List Nat) :
    List (String × Nat) → Nat → M Nat
  | [], frame => do
    let result ← makeNull
    evalForms ev frame forms result
  | (x, e) :: rest, frame => do
    let v ← ev e frame
    let child ← pushBinding frame x v
    nestedLets ev forms rest child

/-- Along the run of `nestedLets` from `st`, the states after each binding
expression and after each body form still hold the cells `cells` as `st0`. -/
def nestedIntact (ev : Nat → Nat → M Nat) (cells : List Nat) (st0 : State)
    (forms : List Nat) : List (String × Nat) → Nat → State → Bool
  | [], frame, st =>
    formsIntact ev frame cells st0 forms
      ⟨st.items ++ [⟨NULL_TYPE, .undef, .undef, .undef⟩], st.frames⟩
  | (x, e) :: rest, frame, st =>
    match ev e frame st with
    | .ok v st' =>
      agree cells st0 st' &&
        (match pushBinding frame x v st' with
         | .ok child st'' => nestedIntact ev cells st0 forms rest child st''
         | _ => true)
    | _ => true

/-- The heap of `(let* ((x 1) (x 2)) x)`: the argument list is at 17, the
bindings at 13, the expressions at 2 and 7, the body form at 14. -/
def exampleLetStar : State :=
  layout (SExp.list [.sym "let*",
    SExp.list [SExp.list [.sym "x", .int 1], SExp.list [.sym "x", .int 2]], .sym "x"])

/-- The program `(let* ((x 1) (y (+ x 1)) (x (+ y 1))) (+ x y))`. -/
def progLetStar : List SExp :=
  [L [S "let*", L [L [S "x", .int 1], L [S "y", L [S "+", S "x", .int 1]],
      L [S "x", L [S "+", S "y", .int 1]]], L [S "+", S "x", S "y"]]]

/-- The program
`(let ((x 1)) (let ((y (+ x 1))) (let ((x (+ y 1))) (+ x y))))`. -/
def progNestedLet : List SExp :=
  [L [S "let", L [L [S "x", .int 1]],
    L [S "let", L [L [S "y", L [S "+", S "x", .int 1]]],
      L [S "let", L [L [S "x", L [S "+", S "y", .int 1]]], L [S "+", S "x", S "y"]]]]]

/-- Evaluates one expression in the initial global frame of `interpret`. -/
def evalInGlobal (fuel : Nat) (e : SExp) : Res Nat :=
  (do
    let globalFrame ← interpretGlobals
    let tree ← build e
    eval fuel tree globalFrame) State.empty

/-- The item a run returns, read in the final heap. -/
def resultItem : Res Nat → Option Item
  | .ok a st => st.items[a]?
  | _ => none

/-- The factorial expression for the literal `n` returns Integer n!. -/
def factorialReturns (n : Nat) : Bool :=
  decide (resultItem (evalInGlobal 60 (factorialExpr n)) =
    some ⟨INT_TYPE, .int n.factorial, .undef, .undef⟩)

/-- The heap of `(if #t 10 20)`: the argument list is at 7, the test at 1,
the branches at 2 and 3. -/
def exampleIf : State :=
  layout (SExp.list [.sym "if", .bool true, .int 10, .int 20])

/-- The reading of an operand of `and` / `or` as a truth value: an error for
an item that is not a Boolean, else whether its `i` is not 0. -/
def boolValue (r : Nat) : M Bool := do
  if (← typeOf r) ≠ BOOL_TYPE then evaluationError "boolean arguments expected"
  else do
    let i ← getI r
    pure (decide (i ≠ 0))

/-- The form `and` as the specification words it: the operands are evaluated
left to right in `frame`, each must be a Boolean, the first false value is the
result and ends the evaluation, and without one the result is a new true. -/
def andSpec (ev : Nat → Nat → M Nat) (frame : Nat) : List Nat → M Nat
  | [] => newBool true
  | e :: es => do
    let r ← ev e frame
    if (← boolValue r) then andSpec ev frame es else pure r

/-- The form `or` as the specification words it: the first true value is the
result and ends the evaluation, and without one the result is a new false. -/
def orSpec (ev : Nat → Nat → M Nat) (frame : Nat) : List Nat → M Nat
  | [] => newBool false
  | e :: es => do
    let r ← ev e frame
    if (← boolValue r) then pure r else orSpec ev frame es

/-- Along the run of `andSpec` (for `stop = false`) or `orSpec` (for `stop =
true`) from `st`, the state after each operand that does not end the run
still holds the cells `cells` as `st0` has them. -/
def operandsIntact (ev : Nat → Nat → M Nat) (frame : Nat) (cells : List Nat) (st0 : State)
    (stop : Bool) : List Nat → State → Bool
  | [], _ => true
  | e :: es, st =>
    match ev e frame st with
    | .ok r st' =>
      (match boolValue r st' with
       | .ok b _ =>
         if b = stop then true
         else agree cells st0 st' && operandsIntact ev frame cells st0 stop es st'
       | _ => true)
    | _ => true

/-- The heap of `(and #t #f 20)`: the operand list is at 7, the operands at
1, 2 and 3. -/
def exampleAnd : State :=
  layout (SExp.list [.sym "and", .bool true, .bool false, .int 20])

/-- In the view `h`, `p` is the head of a list of clauses, each a non-empty
list of a test and the body forms `(test, forms)`. -/
def isClauses (h : Nat → Option Item) : Nat → List (Nat × List Nat) → Bool
  | p, [] => isList h p []
  | p, c :: rest =>
    match h p with
    | some it =>
      decide (it.type = CONS_TYPE) &&
        (match it.u0, it.u1 with
         | .ptr cl, .ptr q => isList h cl (c.1 :: c.2) && isClauses h q rest
         | _, _ => false)
    | none => false

/-- The body of a clause: its forms in sequence in `frame`, the value of the
last one (the empty list for no form). -/
def clauseBody (ev : Nat → Nat → M Nat) (frame : Nat) (forms : List Nat) : M Nat := do
  let result ← makeNull
  evalForms ev frame forms result

/-- The form `cond` as the specification words it, over the list of the
clauses: the first clause whose head is `else` or whose test is a true Boolean
gives the result, the body forms evaluated in `frame`; no clause gives Void. -/
def condSpec (ev : Nat → Nat → M Nat) (frame : Nat) : List (Nat × List Nat) → M Nat
  | [] => newTagged VOID_TYPE
  | c :: rest => do
    if (← isElse c.1) then clauseBody ev frame c.2
    else do
      let result ← ev c.1 frame
      if (← isTrueBool result) then clauseBody ev frame c.2
      else condSpec ev frame rest

/-- Along the run of `clauseBody` from `st`, the state after each form still
holds the cells `cells` as `st0` has them. -/
def bodyIntact (ev : Nat → Nat → M Nat) (frame : Nat) (cells : List Nat) (st0 : State)
    (forms : List Nat) (st : State) : Bool :=
  match makeNull st with
  | .ok _ st' => formsIntact ev frame cells st0 forms st'
  | _ => true

/-- Along the run of `condSpec` from `st`, the state after each test and each
body form still holds the cells `cells` as `st0` has them. -/
def condIntact (ev : Nat → Nat → M Nat) (frame : Nat) (cells : List Nat) (st0 : State) :
    List (Nat × List Nat) → State → Bool
  | [], _ => true
  | c :: rest, st =>
    match isElse c.1 st with
    | .ok true _ => bodyIntact ev frame cells st0 c.2 st
    | .ok false _ =>
      (match ev c.1 frame st with
       | .ok r st' =>
         agree cells st0 st' &&
           (match isTrueBool r st' with
            | .ok true _ => bodyIntact ev frame cells st0 c.2 st'
            | .ok false _ => condIntact ev frame cells st0 rest st'
            | _ => true)
       | _ => true)
    | _ => true

/-- The heap of `(cond (1 2) (#t 3 4))`: the clause list is at 15, the tests
at 1 and 6, the body forms at 2 and at 7 and 8. -/
def exampleCond : State :=
  layout (SExp.list [.sym "cond", SExp.list [.int 1, .int 2],
    SExp.list [.bool true, .int 3, .int 4]])

/-- The program `(cond (1 10) (else 20))`. -/
def progCondNonBoolean : List SExp :=
  [L [S "cond", L [.int 1, .int 10], L [S "else", .int 20]]]

/-- The symbols that the `CONS_TYPE` case of `eval` compares the head with. -/
def specialForms : List String :=
  ["define", "let", "let*", "letrec", "set!", "set-car!", "set-cdr!", "lambda", "cond", "if",
   "quote", "and", "or"]

/-- Whether the head item `it` of a pair makes the pair an application: it is
not a symbol, or a symbol that is none of the special forms. -/
def isOperator (it : Item) : Bool :=
  match it.type, it.u0 with
  | SYMBOL_TYPE, .str s => decide (s ∉ specialForms)
  | SYMBOL_TYPE, _ => false
  | _, _ => true

/-- The expressions `es` evaluated left to right in `frame`, each once; the
values in the order of the expressions. -/
def evalEach (ev : Nat → Nat → M Nat) (frame : Nat) : List Nat → M (List Nat)
  | [] => pure []
  | e :: es => do
    let v ← ev e frame
    let vs ← evalEach ev frame es
    pure (v :: vs)

/-- A new list of the items `vs`, built from its end. -/
def consList : List Nat → M Nat
  | [] => makeNull
  | v :: vs => do
    let rest ← consList vs
    cons v rest

/-- An application as the specification words it: the head evaluated first,
then the elements of the tail left to right, then `apply`. -/
def applicationSpec (ev : Nat → Nat → M Nat) (fuel frame first : Nat) (exprs : List Nat) :
    M Nat := do
  let function ← ev first frame
  let values ← evalEach ev frame exprs
  let evaluatedArgs ← consList values
  apply ev fuel function evaluatedArgs

/-- Along the run of `evalEach` from `st`, the state after each expression
still holds the cells `cells` as `st0` has them. -/
def eachIntact (ev : Nat → Nat → M Nat) (frame : Nat) (cells : List Nat) (st0 : State) :
    List Nat → State → Bool
  | [], _ => true
  | e :: es, st =>
    match ev e frame st with
    | .ok _ st' => agree cells st0 st' && eachIntact ev frame cells st0 es st'
    | _ => true

/-- Along the run of `applicationSpec` from `st`, the state after the head and
after each element of the tail still holds the cells `cells` as `st0` has
them. -/
def applicationIntact (ev : Nat → Nat → M Nat) (frame : Nat) (cells : List Nat) (st0 : State)
    (first : Nat) (exprs : List Nat) (st : State) : Bool :=
  match ev first frame st with
  | .ok _ st' => agree cells st0 st' && eachIntact ev frame cells st0 exprs st'
  | _ => true

/-- The heap of `((lambda (a) a) 5)`: the pair is at 12, its head at 8, its
one operand at 9. -/
def exampleApplication : State :=
  layout (L [L [S "lambda", L [S "a"], S "a"], .int 5])

/-- The heap of `(define x 5)` with the global frame binding y to the item 2:
the argument list is at 5, the symbol at 1, the expression at 2. -/
def exampleDefine : State :=
  ⟨(layout (L [S "define", S "x", .int 5])).items, [⟨[("y", 2)], none⟩, ⟨[], some 0⟩]⟩

/-- The program
`(define x 1) (define f (lambda () x)) (define g (lambda (x) (f))) (g 2)`:
the caller g of f binds x to 2, the frame f was created in binds x to 1. -/
def progLexicalScope : List SExp :=
  [L [S "define", S "x", .int 1],
   L [S "define", S "f", L [S "lambda", L [], S "x"]],
   L [S "define", S "g", L [S "lambda", L [S "x"], L [S "f"]]],
   L [S "g", .int 2]]

/-- The program `(define f (lambda () (define z 5) z)) (f)`. -/
def progBodyDefine : List SExp :=
  [L [S "define", S "f", L [S "lambda", L [], L [S "define", S "z", .int 5], S "z"]],
   L [S "f"]]

/-- The computation `m` leaves the state as it is whenever it returns. -/
def ReadOnly {α : Type} (m : M α) : Prop :=
  ∀ st a st', m st = .ok a st' → st' = st

/-- In the view `h`, `p` heads a chain of `cons` cells at the addresses `cs`
whose cars are `xs`; the chain ends at `last`, an item that is not a `cons`
cell. -/
def isCells (h : Nat → Option Item) : Nat → List Nat → List Nat → Nat → Bool
  | p, [], [], last =>
    decide (p = last) &&
      (match h p with
       | some it => decide (it.type ≠ CONS_TYPE)
       | none => false)
  | p, c :: cs, x :: xs, last =>
    decide (p = c) &&
      (match h p with
       | some it =>
         decide (it.type = CONS_TYPE) && decide (it.u0 = .ptr x) &&
           (match it.u1 with
            | .ptr q => isCells h q cs xs last
            | _ => false)
       | none => false)
  | _, _ :: _, [], _ => false
  | _, [], _ :: _, _ => false

/-- In the view `h`, the items `ps` are as `kinds` says: a symbol of the given
name, or (for `none`) an item that is not a symbol. -/
def areParams (h : Nat → Option Item) : List Nat → List (Option String) → Bool
  | [], [] => true
  | p :: ps, some n :: ks => isSymbol h p n && areParams h ps ks
  | p :: ps, none :: ks =>
    (match h p with
     | some it => decide (it.type ≠ SYMBOL_TYPE)
     | none => false) && areParams h ps ks
  | _, _ => false

/-- A parameter list as the specification wants it: every element a symbol,
the names pairwise distinct, the list proper (ended by the empty list). -/
def validParams (kinds : List (Option String)) (last : itemType) : Bool :=
  kinds.all Option.isSome && decide (kinds.reduceOption.Nodup) && decide (last = NULL_TYPE)

/-- The checks of the loops of `evalLambda` over the elements, `seen` being
the names already passed: the message of the first check that fails. -/
def checkParams : List String → List (Option String) → itemType → Option String
  | _, [], last => if last ≠ NULL_TYPE then some "must be a list" else none
  | _, none :: _, _ => some "parameters must be symbols"
  | seen, some n :: rest, last =>
    if n ∈ seen then some "repeated symbol" else checkParams (seen ++ [n]) rest last

/-- The heap of `(lambda (a b) b)`: the argument list is at 9, the parameter
list at 5 (cells 5 and 4, ended by 3, the symbols at 1 and 2), the body at 8. -/
def exampleLambda : State :=
  layout (L [S "lambda", L [S "a", S "b"], S "b"])

/-- What an operand of an arithmetic primitive is: an Integer, a Real, or an
item of another kind. -/
inductive Operand where
  | int (i : Int)
  | real (d : ℚ)
  | other
  deriving DecidableEq

/-- The number an operand stands for. -/
def Operand.value : Operand → ℚ
  | .int i => (i : ℚ)
  | .real d => d
  | .other => 0

/-- The item `it` is the operand `o`. -/
def isOperand (it : Item) : Operand → Bool
  | .int i => decide (it.type = INT_TYPE) && decide (it.u0 = .int i)
  | .real d => decide (it.type = DOUBLE_TYPE) && decide (it.u0 = .dbl d)
  | .other => decide (it.type ≠ INT_TYPE) && decide (it.type ≠ DOUBLE_TYPE)

/-- In the view `h`, the items `ps` are the operands `ops`, in order. -/
def areOperands (h : Nat → Option Item) : List Nat → List Operand → Bool
  | [], [] => true
  | p :: ps, o :: os =>
    (match h p with
     | some it => isOperand it o
     | none => false) && areOperands h ps os
  | _, _ => false

/-- Whether the value is an integer of magnitude at most 2^53: a `double`
holds such a value exactly, and an addition or a division of two `double`s
whose exact result is such a value gives that value. -/
def exactInteger (q : ℚ) : Bool :=
  decide (q.den = 1) && decide (|q| ≤ 9007199254740992)

/-- The program `(< 0.5 (= 1 1))`: the second operand is the Boolean true. -/
def progLessBoolean : List SExp :=
  [L [S "<", .real (1 / 2), L [S "=", .int 1, .int 1]]]

/-- The computation `m` keeps the frames that `P` marks: whenever it returns,
from a state that has all of them, no frame has gone and each marked frame is
as it was. -/
def KeepsFrames (P : Nat → Prop) {α : Type} (m : M α) : Prop :=
  ∀ st a st', (∀ f, P f → f < st.frames.length) → m st = .ok a st' →
    st.frames.length ≤ st'.frames.length ∧ ∀ f, P f → st'.frames[f]? = st.frames[f]?

/-- The computations built from the reads of the heap, the allocation and
the overwriting of an item, a new frame, a binding added to a frame that `P`
does not mark, and computations already known to keep the marked frames, by
sequencing and branching. -/
inductive FrameSafe (P : Nat → Prop) : {α : Type} → M α → Prop where
  | pure {α : Type} (a : α) : FrameSafe P (Pure.pure a : M α)
  | error {α : Type} (msg : String) : FrameSafe P (evaluationError msg : M α)
  | undefined {α : Type} : FrameSafe P (undefinedBehaviour : M α)
  | timeout {α : Type} : FrameSafe P (outOfFuel : M α)
  | readItem (p : Nat) : FrameSafe P (readItem p)
  | typeOf (p : Nat) : FrameSafe P (typeOf p)
  | isNull (p : Nat) : FrameSafe P (isNull p)
  | getI (p : Nat) : FrameSafe P (getI p)
  | getD (p : Nat) : FrameSafe P (getD p)
  | getS (p : Nat) : FrameSafe P (getS p)
  | getPf (p : Nat) : FrameSafe P (getPf p)
  | car (p : Nat) : FrameSafe P (car p)
  | cdr (p : Nat) : FrameSafe P (cdr p)
  | getClFrame (p : Nat) : FrameSafe P (getClFrame p)
  | length (fuel p : Nat) : FrameSafe P (length fuel p)
  | lookupSymbol (k : Nat) (s : String) (frame : Option Nat) :
    FrameSafe P (lookupSymbol k s frame)
  | allocItem (it : Item) : FrameSafe P (allocItem it)
  | writeItem (p : Nat) (it : Item) : FrameSafe P (writeItem p it)
  | addBinding (frame : Nat) (var : String) (value : Nat) (h : ¬ P frame) :
    FrameSafe P (addBinding frame var value)
  | ite {α : Type} (c : Prop) [Decidable c] {m1 m2 : M α} (h1 : FrameSafe P m1)
    (h2 : FrameSafe P m2) : FrameSafe P (if c then m1 else m2)
  | bindCreateFrame {β : Type} (parent : Option Nat) {k : Nat → M β}
    (hk : ∀ a, ¬ P a → FrameSafe P (k a)) : FrameSafe P (createFrame parent >>= k)
  | bindPair {α β γ : Type} {m : M (α × β)} {k : α × β → M γ} (hm : FrameSafe P m)
    (hk : ∀ a b, FrameSafe P (k (a, b))) : FrameSafe P (m >>= k)
  | bind {α β : Type} {m : M α} {k : α → M β} (hm : FrameSafe P m)
    (hk : ∀ a, FrameSafe P (k a)) : FrameSafe P (m >>= k)
  | makeNull : FrameSafe P makeNull
  | cons (newCar newCdr : Nat) : FrameSafe P (cons newCar newCdr)
  | newTagged (t : itemType) : FrameSafe P (newTagged t)
  | newInt (i : Int) : FrameSafe P (newInt i)
  | newDouble (d : ℚ) : FrameSafe P (newDouble d)
  | newBool (b : Bool) : FrameSafe P (newBool b)
  | getParamNames (p : Nat) : FrameSafe P (getParamNames p)
  | getFunctionCode (p : Nat) : FrameSafe P (getFunctionCode p)
  | toInt (x : ℚ) : FrameSafe P (toInt x)
  | numberArg (p : Nat) (message : String) : FrameSafe P (numberArg p message)
  | doubleOrI (p : Nat) : FrameSafe P (doubleOrI p)
  | isElse (p : Nat) : FrameSafe P (isElse p)
  | isTrueBool (p : Nat) : FrameSafe P (isTrueBool p)
  | evalLetDuplicate (k innerBindings bindings var : Nat) :
    FrameSafe P (evalLetDuplicate k innerBindings bindings var)
  | evalLambda (fuel args frame : Nat) : FrameSafe P (evalLambda fuel args frame)
  | keeps {α : Type} {m : M α} (h : KeepsFrames P m) : FrameSafe P m

/-- The heap of the argument list `(7 2)`: the list is at 4, the operands at 0
and 1. -/
def exampleDivide : State :=
  layout (L [.int 7, .int 2])

/-- The heap of the argument list `((1 2))`: the list is at 6, its one element,
the pair whose head is 0 and whose tail is 3, at 4. -/
def exampleCarArgs : State :=
  layout (L [L [.int 1, .int 2]])

/-- In the view `h`, `p` heads a chain of `cons` cells at the addresses `cs`
whose cars are `xs` and whose last cell has `y` as its tail (`p` is `y` for no
cell). -/
def isSegment (h : Nat → Option Item) : Nat → List Nat → List Nat → Nat → Bool
  | p, [], [], y => decide (p = y)
  | p, c :: cs, x :: xs, y =>
    decide (p = c) &&
      (match h p with
       | some it =>
         decide (it.type = CONS_TYPE) && decide (it.u0 = .ptr x) &&
           (match it.u1 with
            | .ptr q => isSegment h q cs xs y
            | _ => false)
       | none => false)
  | _, _ :: _, [], _ => false
  | _, [], _ :: _, _ => false

/-- The heap of the argument list `((1 2) 3)`: the list is at 8, the first
argument at 4 (cells 4 and 3, ended by 2), the second at 5. -/
def exampleAppend : State :=
  layout (L [L [.int 1, .int 2], .int 3])

/-! The parser (parser.c) -/

/-- The call `syntaxError(message)`: print `Syntax error: message`, release,
exit(1). -/
def syntaxError {α : Type} (message : String) : M α :=
  fun _ => .error ("Syntax error: " ++ message)

/-- The function `pop`: the top of the stack, `none` for the NULL it returns
on an empty stack, and the stack it leaves in `*stack`. -/
def pop (stack : Nat) : M (Option Nat × Nat) := do
  if (← isNull stack) then pure (none, stack)
  else do
    let top ← car stack
    let rest ← cdr stack
    pure (some top, rest)

/-- The function `push`; the result is the new `*stack`. -/
def push (stack element : Nat) : M Nat := cons element stack

/-- The statement `list = cons(pop(&stack), list)`; the result is the new
stack and the new list.  An address of the item heap is never NULL, so a cell
whose head is the NULL of an empty stack has no counterpart. -/
def consPopped (stack list : Nat) : M (Nat × Nat) := do
  let (top, stack) ← pop stack
  match top with
  | some t => do
    let list ← cons t list
    pure (stack, list)
  | none => undefinedBehaviour

/-- The inner loop of `parse` at a close marker: the items above the nearest
marker of an opening go to `sublist`. -/
def parseCloseLoop : Nat → Nat → Nat → M (Nat × Nat)
  | 0, _, _ => outOfFuel
  | k + 1, stack, sublist => do
    if (← isNull stack) then pure (stack, sublist)
    else do
      let t ← typeOf (← car stack)
      if t ≠ OPEN_TYPE ∧ t ≠ OPENBRACKET_TYPE then do
        let (stack, sublist) ← consPopped stack sublist
        parseCloseLoop k stack sublist
      else pure (stack, sublist)

/-- The test of `parse` after a list is assembled, `!isNull(sublist) &&
isNull(cdr(sublist)) && car(sublist)->type == CONS_TYPE &&
!isNull(car(sublist)->c.cdr)`, and the assignment `sublist = car(sublist)` it
guards. -/
def parseUnwrap (sublist : Nat) : M Nat := do
  if (← isNull sublist) then pure sublist
  else if !(← isNull (← cdr sublist)) then pure sublist
  else do
    let only ← car sublist
    if (← typeOf only) ≠ CONS_TYPE then pure sublist
    else if (← isNull (← cdr only)) then pure sublist
    else pure only

/-- The test `previousToken && strcmp(previousToken->s, "lambda") == 0`. -/
def lambdaBefore (previousToken : Option Nat) : M Bool :=
  match previousToken with
  | none => pure false
  | some p => do
    let s ← getS p
    pure (decide (s = "lambda"))

/-- The main loop of `parse` over the tokens, with its variables `stack`,
`openParentheses` (an `int`: incrementing INT_MAX is undefined) and
`previousToken`; it returns the stack and the count. -/
def parseLoop (fuel : Nat) : Nat → Nat → Nat → Int → Option Nat → M (Nat × Int)
  | 0, _, _, _, _ => outOfFuel
  | k + 1, tokens, stack, openParentheses, previousToken => do
    if (← isNull tokens) then pure (stack, openParentheses)
    else do
      let token ← car tokens
      let tokens ← cdr tokens
      let t ← typeOf token
      if t = OPEN_TYPE ∨ t = OPENBRACKET_TYPE then do
        let stack ← push stack token
        if openParentheses = INT_MAX then undefinedBehaviour
        else parseLoop fuel k tokens stack (openParentheses + 1) previousToken
      else if t = SYMBOL_TYPE then do
        let s ← getS token
        if s = "lambda" then do
          let stack ← push stack token
          parseLoop fuel k tokens stack openParentheses (some token)
        else if (← lambdaBefore previousToken) ∧ s = "quote" then
          syntaxError "lambda is not followed by arguments"
        else do
          let stack ← push stack token
          parseLoop fuel k tokens stack openParentheses previousToken
      else if t = CLOSE_TYPE ∨ t = CLOSEBRACKET_TYPE then do
        if openParentheses = 0 then syntaxError "too many close parentheses"
        else do
          let sublist ← makeNull
          let (stack, sublist) ← parseCloseLoop fuel stack sublist
          let (_, stack) ← pop stack
          let sublist ← parseUnwrap sublist
          let stack ← push stack sublist
          parseLoop fuel k tokens stack (openParentheses - 1) previousToken
      else do
        let stack ← push stack token
        parseLoop fuel k tokens stack openParentheses previousToken

/-- The last loop of `parse`: the stack, top first, is moved to `parseTree`. -/
def parseDrain : Nat → Nat → Nat → M Nat
  | 0, _, _ => outOfFuel
  | k + 1, stack, parseTree => do
    if (← isNull stack) then pure parseTree
    else do
      let (stack, parseTree) ← consPopped stack parseTree
      parseDrain k stack parseTree

/-- The function `parse`. -/
def parse (fuel : Nat) (tokens : Nat) : M Nat := do
  let stack ← makeNull
  let (stack, openParentheses) ← parseLoop fuel fuel tokens stack 0 none
  if openParentheses > 0 then syntaxError "not enough close parentheses"
  else do
    let parseTree ← makeNull
    let parseTree ← parseDrain fuel stack parseTree
    if (← isNull (← cdr parseTree)) then car parseTree
    else pure parseTree

/-- A token of the input of `parse`: one of the four markers, or any other
item. -/
inductive Tok where
  | openParen
  | closeParen
  | openBracket
  | closeBracket
  | item (v : SExp)
  deriving DecidableEq, Repr

/-- Lays a token out in the heap. -/
def buildTok : Tok → M Nat
  | .openParen => newTagged OPEN_TYPE
  | .closeParen => newTagged CLOSE_TYPE
  | .openBracket => newTagged OPENBRACKET_TYPE
  | .closeBracket => newTagged CLOSEBRACKET_TYPE
  | .item v => build v

/-- Lays a token sequence out in the heap: the list of the tokens in order. -/
def buildTokens : List Tok → M Nat
  | [] => makeNull
  | t :: ts => do
    let x ← buildTok t
    let rest ← buildTokens ts
    cons x rest

/-- Reads the tree at `p` back from the heap, to the depth `k`. -/
def readTree (st : State) : Nat → Nat → Option SExp
  | 0, _ => none
  | k + 1, p =>
    match st.items[p]? with
    | some ⟨INT_TYPE, .int i, _, _⟩ => some (.int i)
    | some ⟨DOUBLE_TYPE, .dbl d, _, _⟩ => some (.real d)
    | some ⟨STR_TYPE, .str s, _, _⟩ => some (.text s)
    | some ⟨SYMBOL_TYPE, .str s, _, _⟩ => some (.sym s)
    | some ⟨BOOL_TYPE, .int i, _, _⟩ => some (.bool (decide (i ≠ 0)))
    | some ⟨NULL_TYPE, _, _, _⟩ => some .nil
    | some ⟨CONS_TYPE, .ptr a, .ptr b, _⟩ =>
      match readTree st k a, readTree st k b with
      | some x, some y => some (.cons x y)
      | _, _ => none
    | _ => none

/-- The outcome of `parse` on a token sequence laid out in the empty heap: the
tree read back, or the error. -/
def parseTokens (fuel : Nat) (toks : List Tok) : Except String SExp :=
  match (do parse fuel (← buildTokens toks) : M Nat) State.empty with
  | .ok p st =>
    match readTree st fuel p with
    | some t => .ok t
    | none => .error "unreadable"
  | .error msg => .error msg
  | .undefined => .error "undefined"
  | .timeout => .error "timeout"

/-! The parser read on token sequences and trees -/

/-- In the view `h`, the item at `p` is the tree `v`. -/
def isTree (h : Nat → Option Item) : Nat → SExp → Bool
  | p, .int i =>
    match h p with
    | some it => decide (it.type = INT_TYPE) && decide (it.u0 = .int i)
    | none => false
  | p, .real d =>
    match h p with
    | some it => decide (it.type = DOUBLE_TYPE) && decide (it.u0 = .dbl d)
    | none => false
  | p, .text s =>
    match h p with
    | some it => decide (it.type = STR_TYPE) && decide (it.u0 = .str s)
    | none => false
  | p, .sym s =>
    match h p with
    | some it => decide (it.type = SYMBOL_TYPE) && decide (it.u0 = .str s)
    | none => false
  | p, .bool b =>
    match h p with
    | some it => decide (it.type = BOOL_TYPE) && decide (it.u0 = .int (if b then 1 else 0))
    | none => false
  | p, .nil =>
    match h p with
    | some it => decide (it.type = NULL_TYPE)
    | none => false
  | p, .cons a b =>
    match h p with
    | some it =>
      decide (it.type = CONS_TYPE) &&
        (match it.u0, it.u1 with
         | .ptr x, .ptr y => isTree h x a && isTree h y b
         | _, _ => false)
    | none => false

/-- The tag of the item that is the tree `v`. -/
def SExp.tag : SExp → itemType
  | .int _ => INT_TYPE
  | .real _ => DOUBLE_TYPE
  | .text _ => STR_TYPE
  | .sym _ => SYMBOL_TYPE
  | .bool _ => BOOL_TYPE
  | .nil => NULL_TYPE
  | .cons _ _ => CONS_TYPE

/-- An entry of the stack of `parse`: an open marker of either kind, or an
item. -/
inductive Entry where
  | mark
  | val (v : SExp)
  deriving DecidableEq, Repr

/-- In the view `h`, the item at `p` is the stack entry `e`. -/
def isEntry (h : Nat → Option Item) (p : Nat) : Entry → Bool
  | .mark =>
    match h p with
    | some it => decide (it.type = OPEN_TYPE ∨ it.type = OPENBRACKET_TYPE)
    | none => false
  | .val v => isTree h p v

/-- In the view `h`, the item at `p` is the token `t`. -/
def isTok (h : Nat → Option Item) (p : Nat) : Tok → Bool
  | .openParen =>
    match h p with
    | some it => decide (it.type = OPEN_TYPE)
    | none => false
  | .closeParen =>
    match h p with
    | some it => decide (it.type = CLOSE_TYPE)
    | none => false
  | .openBracket =>
    match h p with
    | some it => decide (it.type = OPENBRACKET_TYPE)
    | none => false
  | .closeBracket =>
    match h p with
    | some it => decide (it.type = CLOSEBRACKET_TYPE)
    | none => false
  | .item v => isTree h p v

/-- In the view `h`, `p` heads a chain of `cons` cells, ended by an item that
is not a `cons` cell, whose cars are items that `elem` relates to the elements
of the list, in order. -/
def isListOf {α : Type} (elem : Nat → α → Bool) (h : Nat → Option Item) :
    Nat → List α → Bool
  | p, [] =>
    match h p with
    | some it => decide (it.type ≠ CONS_TYPE)
    | none => false
  | p, x :: xs =>
    match h p with
    | some it =>
      decide (it.type = CONS_TYPE) &&
        (match it.u0, it.u1 with
         | .ptr a, .ptr q => elem a x && isListOf elem h q xs
         | _, _ => false)
    | none => false

/-- The state `st'` is `st` with more items. -/
def Extends (st st' : State) : Prop :=
  st'.frames = st.frames ∧ ∃ more, st'.items = st.items ++ more

/-- Whether the tree is a `cons` cell. -/
def SExp.isCons : SExp → Bool
  | .cons _ _ => true
  | _ => false

/-- The test and the assignment of `parseUnwrap` on trees: a list whose only
element is a list of two or more elements is replaced by that element. -/
def unwrapSpec : SExp → SExp
  | .cons (.cons a (.cons b c)) rest =>
    if rest.isCons then .cons (.cons a (.cons b c)) rest else .cons a (.cons b c)
  | s => s

/-- The loop of `parseCloseLoop` on the entries of the stack, top first: the
items above the nearest marker are put in front of `sub`. -/
def popItems : List Entry → SExp → List Entry × SExp
  | .val v :: rest, sub => popItems rest (.cons v sub)
  | stack, sub => (stack, sub)

/-- One round of the main loop of `parse` on the stack entries, the count of
open markers and whether a `lambda` symbol has been read. -/
def parseStep (tok : Tok) (stack : List Entry) (opens : Nat) (seen : Bool) :
    Except String (List Entry × Nat × Bool) :=
  match tok with
  | .openParen => .ok (.mark :: stack, opens + 1, seen)
  | .openBracket => .ok (.mark :: stack, opens + 1, seen)
  | .closeParen =>
    if opens = 0 then .error "too many close parentheses"
    else .ok (.val (unwrapSpec (popItems stack .nil).2) :: (popItems stack .nil).1.tail,
      opens - 1, seen)
  | .closeBracket =>
    if opens = 0 then .error "too many close parentheses"
    else .ok (.val (unwrapSpec (popItems stack .nil).2) :: (popItems stack .nil).1.tail,
      opens - 1, seen)
  | .item (.sym s) =>
    if s = "lambda" then .ok (.val (.sym s) :: stack, opens, true)
    else if seen = true ∧ s = "quote" then .error "lambda is not followed by arguments"
    else .ok (.val (.sym s) :: stack, opens, seen)
  | .item v => .ok (.val v :: stack, opens, seen)

/-- The main loop of `parse` on a token sequence. -/
def parseRun : List Tok → List Entry → Nat → Bool → Except String (List Entry × Nat × Bool)
  | [], stack, opens, seen => .ok (stack, opens, seen)
  | tok :: toks, stack, opens, seen =>
    match parseStep tok stack opens seen with
    | .ok (stack', opens', seen') => parseRun toks stack' opens' seen'
    | .error msg => .error msg

/-- The loop of `parseDrain` on the entries of the stack, top first; a marker
has no place in a tree. -/
def drainSpec : List Entry → SExp → Option SExp
  | [], tree => some tree
  | .val v :: rest, tree => drainSpec rest (.cons v tree)
  | .mark :: _, _ => none

/-- How `parse` ends: with a tree, with a syntax error, or undefined. -/
inductive ParseResult where
  | tree (v : SExp)
  | syntaxError (msg : String)
  | undefined
  deriving DecidableEq, Repr

/-- The end of `parse` on the list of the top-level forms: the only form, or
the list of two or more; for no form the `cdr` of the empty list is read. -/
def parseEnd : SExp → ParseResult
  | .cons f rest => if rest.isCons then .tree (.cons f rest) else .tree f
  | _ => .undefined

/-- The function `parse` on a token sequence. -/
def parseSpec (toks : List Tok) : ParseResult :=
  match parseRun toks [] 0 false with
  | .error msg => .syntaxError msg
  | .ok (stack, opens, _) =>
    if opens > 0 then .syntaxError "not enough close parentheses"
    else
      match drainSpec stack .nil with
      | some forms => parseEnd forms
      | none => .undefined

/-- The run `r` of `parse` ends as `o` says. -/
def Realizes (r : Res Nat) : ParseResult → Prop
  | .tree v => ∃ p st, r = .ok p st ∧ isTree st.view p v = true
  | .syntaxError msg => r = .error ("Syntax error: " ++ msg)
  | .undefined => r = .undefined

/-- The variable `previousToken` of `parse` in the view `h`: unset as long as
no `lambda` symbol has been read, a `lambda` symbol afterwards. -/
def isPrevious (h : Nat → Option Item) : Option Nat → Bool → Bool
  | none, seen => !seen
  | some p, seen => seen && isTree h p (.sym "lambda")

/-- The tag of the item that is the token `t`. -/
def Tok.tag : Tok → itemType
  | .openParen => OPEN_TYPE
  | .closeParen => CLOSE_TYPE
  | .openBracket => OPENBRACKET_TYPE
  | .closeBracket => CLOSEBRACKET_TYPE
  | .item v => v.tag

/-- The count of markers on the stack. -/
def marks : List Entry → Nat
  | [] => 0
  | .mark :: es => marks es + 1
  | .val _ :: es => marks es

/-! Token sequences that write trees -/

mutual
/-- The token sequence that writes the tree `t`: for a list a marker of an
opening, the tokens of the elements in order, a marker of a closing; for an
atom the atom. -/
def writeTree : SExp → List Tok
  | .cons a b => [.openParen] ++ writeTree a ++ writeRest b ++ [.closeParen]
  | .nil => [.openParen, .closeParen]
  | .int i => [.item (.int i)]
  | .real d => [.item (.real d)]
  | .text s => [.item (.text s)]
  | .sym s => [.item (.sym s)]
  | .bool b => [.item (.bool b)]
/-- The tokens of the elements of the list `t`, in order. -/
def writeRest : SExp → List Tok
  | .cons a b => writeTree a ++ writeRest b
  | _ => []
end

mutual
/-- Whether the tree is built from atoms and proper lists. -/
def SExp.proper : SExp → Bool
  | .cons a b => a.proper && b.properRest
  | _ => true
/-- Whether the tree is a proper list of trees built from atoms and proper
lists. -/
def SExp.properRest : SExp → Bool
  | .cons a b => a.proper && b.properRest
  | .nil => true
  | _ => false
end

/-- Whether no symbol of the tree is `quote`. -/
def SExp.quoteFree : SExp → Bool
  | .sym s => decide (s ≠ "quote")
  | .cons a b => a.quoteFree && b.quoteFree
  | _ => true

mutual
/-- The tree `t` after every list whose only element is a list of two or more
elements has been replaced by that element, innermost lists first. -/
def collapse : SExp → SExp
  | .cons a b => unwrapSpec (.cons (collapse a) (collapseRest b))
  | s => s
/-- The list `t` with every element collapsed. -/
def collapseRest : SExp → SExp
  | .cons a b => .cons (collapse a) (collapseRest b)
  | s => s
end

/-- Whether the list `t` has one element only, itself a list of two or more
elements. -/
def SExp.wrapsList : SExp → Bool
  | .cons (.cons _ (.cons _ _)) rest => !rest.isCons
  | _ => false

mutual
/-- Whether some list of the tree has one element only, itself a list of two
or more elements. -/
def SExp.collapsible : SExp → Bool
  | .cons a b => (SExp.cons a b).wrapsList || a.collapsible || b.collapsibleRest
  | _ => false
/-- Whether some element of the list `t` is collapsible. -/
def SExp.collapsibleRest : SExp → Bool
  | .cons a b => a.collapsible || b.collapsibleRest
  | _ => false
end

/-- The stack after the elements of the list `l` have been pushed in order. -/
def pushAll : SExp → List Entry → List Entry
  | .cons a b, es => pushAll b (.val a :: es)
  | _, es => es

/-- The list `l` with its end replaced by `s`. -/
def SExp.append : SExp → SExp → SExp
  | .cons a b, s => .cons a (b.append s)
  | _, s => s

/-- The token sequence that writes the top-level forms one after the other. -/
def writeForms : List SExp → List Tok
  | [] => []
  | f :: fs => writeTree f ++ writeForms fs

/-- A token sequence laid out in the empty heap: the address of the list and
the heap. -/
def layoutTokens (toks : List Tok) : Nat × State :=
  match buildTokens toks State.empty with
  | .ok p st => (p, st)
  | _ => (0, State.empty)

/-- Equality of two outcomes of `parseTokens` is decidable. -/
instance instDecidableEqParseOutcome : DecidableEq (Except String SExp)
  | .ok x, .ok y => if h : x = y then isTrue (by rw [h]) else isFalse (fun e => h (Except.ok.inj e))
  | .error x, .error y =>
    if h : x = y then isTrue (by rw [h]) else isFalse (fun e => h (Except.error.inj e))
  | .ok _, .error _ => isFalse (fun e => by cases e)
  | .error _, .ok _ => isFalse (fun e => by cases e)

/-! Counting the markers of a token sequence -/

/-- Whether the token is a marker of an opening, of either kind. -/
def Tok.isOpen : Tok → Bool
  | .openParen => true
  | .openBracket => true
  | _ => false

/-- Whether the token is a marker of a closing, of either kind. -/
def Tok.isClose : Tok → Bool
  | .closeParen => true
  | .closeBracket => true
  | _ => false

/-- The count of the markers of an opening in the sequence. -/
def countOpen (toks : List Tok) : Nat := (toks.filter Tok.isOpen).length

/-- The count of the markers of a closing in the sequence. -/
def countClose (toks : List Tok) : Nat := (toks.filter Tok.isClose).length

/-- Whether, starting with `d` markers of an opening not yet closed, the
sequence reaches a marker of a closing with none left to close. -/
def underflows : Nat → List Tok → Bool
  | _, [] => false
  | d, t :: ts =>
    if t.isOpen then underflows (d + 1) ts
    else if t.isClose then decide (d = 0) || underflows (d - 1) ts
    else underflows d ts

/-- The token with its kind of bracket forgotten: a bracket becomes the
parenthesis of the same direction. -/
def Tok.shape : Tok → Tok
  | .openBracket => .openParen
  | .closeBracket => .closeParen
  | t => t

/-- The heap of the argument list `(7 0)`: the list is at 4, the operands at 0
and 1. -/
def exampleModulo : State :=
  layout (L [.int 7, .int 0])

/-- The heap of the tail `(() 1)` of a `let*`, `let` or `letrec` with no
binding: the tail is at 4, the empty list of bindings at 0, the body at 3 with
its one form at 1; there is one frame. -/
def exampleEmptyLet : State :=
  layout (L [L [], .int 1])

/-- The heap of `(quote 1)`: the pair is at 4, its head, the symbol `quote`,
at 0, its tail at 3; the frame 0 binds `quote` to the item 1. -/
def exampleShadow : State :=
  ⟨(layout (L [S "quote", .int 1])).items, [⟨[("quote", 1)], none⟩]⟩

/-! Printing (interpreter.c) -/

/-- The text `printf("%d", i)` writes: the decimal digits, after a minus sign
for a negative number. -/
def formatInt (i : Int) : String := toString i

/-- The integer nearest to `x`, the even one of the two when `x` is half way
between them. -/
def roundHalfEven (x : ℚ) : Int :=
  let below : Int := Int.floor x
  if x - below < 1 / 2 then below
  else if 1 / 2 < x - below then below + 1
  else if below % 2 = 0 then below
  else below + 1

/-- The text `printf("%f", d)` writes for the value `d`: the decimal expansion
with six digits after the point, the value rounded to the nearest such
decimal, to the even one when half way.  The sign of a zero is not part of a
rational, so the `-0.000000` of a negative zero is not rendered. -/
def formatReal (d : ℚ) : String :=
  let scaled : Int := roundHalfEven (d * 1000000)
  let digits := toString (scaled.natAbs % 1000000)
  (if d < 0 then "-" else "") ++ toString (scaled.natAbs / 1000000) ++ "." ++
    String.mk (List.replicate (6 - digits.length) (Char.ofNat 48)) ++ digits

/-- The double quote that `printf` writes around a text. -/
def quoteMark : String := String.singleton (Char.ofNat 34)

mutual
/-- The function `printList`: the items of the chain that starts at `current`
separated by one space, then, when the chain does not end in a NULL_TYPE item,
a dot between spaces and the item it ends in. -/
def printList : Nat → Nat → M String
  | 0, _ => outOfFuel
  | k + 1, current => do
    if (← typeOf current) = CONS_TYPE then do
      let first ← printItem k (← car current)
      let next ← cdr current
      let space := if (← typeOf next) = CONS_TYPE then " " else ""
      let rest ← printList k next
      pure (first ++ space ++ rest)
    else if (← typeOf current) ≠ NULL_TYPE then do
      let last ← printItem k current
      pure (" . " ++ last)
    else pure ""
/-- The function `printItem`; the result is the text written. -/
def printItem : Nat → Nat → M String
  | 0, _ => outOfFuel
  | k + 1, item => do
    match (← typeOf item) with
    | INT_TYPE => pure (formatInt (← getI item))
    | DOUBLE_TYPE => pure (formatReal (← getD item))
    | STR_TYPE => pure (quoteMark ++ (← getS item) ++ quoteMark)
    | BOOL_TYPE => pure (if (← getI item) ≠ 0 then "#t" else "#f")
    | SYMBOL_TYPE => getS item
    | CONS_TYPE => do
      let inside ← printList k item
      pure ("(" ++ inside ++ ")")
    | NULL_TYPE => pure "()"
    | VOID_TYPE => pure ""
    | CLOSURE_TYPE => pure "#<procedure>"
    | _ => pure "Unknown type"
end

/-- The text written for the value of the expression `e` evaluated in the
global frame. -/
def printedText (fuel : Nat) (e : SExp) : Option String :=
  match evalInGlobal fuel e with
  | .ok p st =>
    match printItem fuel p st with
    | .ok s _ => some s
    | _ => none
  | _ => none

/-- The heap of the pair `(1 . 2)`: the pair is at 2, its parts at 0 and
1. -/
def examplePair : State :=
  layout (.cons (.int 1) (.int 2))

/-! Values and their written form -/

/-- Whether the value is built from Integers, Booleans, Empty and Pairs. -/
def SExp.plain : SExp → Bool
  | .int _ => true
  | .bool _ => true
  | .nil => true
  | .cons a b => a.plain && b.plain
  | _ => false

/-- The count of the nodes of the tree. -/
def SExp.size : SExp → Nat
  | .cons a b => a.size + b.size + 1
  | _ => 1

/-- The elements of a chain of pairs, in order. -/
def SExp.elems : SExp → List SExp
  | .cons a b => a :: b.elems
  | _ => []

/-- The item a chain of pairs ends in. -/
def SExp.last : SExp → SExp
  | .cons _ b => b.last
  | s => s

/-- The texts one after the other, separated by single spaces. -/
def spaced : List String → String
  | [] => ""
  | [a] => a
  | a :: b :: rest => a ++ " " ++ spaced (b :: rest)

mutual
/-- The written form of a value: the digits of an Integer, `#t` or `#f`, `()`
for Empty, and for a chain of pairs a parenthesis, the first element, what
`renderRest` gives for the rest, a parenthesis. -/
def render : SExp → String
  | .int i => formatInt i
  | .real d => formatReal d
  | .text s => quoteMark ++ s ++ quoteMark
  | .sym s => s
  | .bool b => if b then "#t" else "#f"
  | .nil => "()"
  | .cons a b => "(" ++ (render a ++ renderRest b) ++ ")"
/-- The written form of the rest of a chain: a space and the next element for
each pair, nothing for Empty at the end, a dot between spaces and the item for
any other end. -/
def renderRest : SExp → String
  | .cons a b => " " ++ (render a ++ renderRest b)
  | .nil => ""
  | .int i => " . " ++ formatInt i
  | .real d => " . " ++ formatReal d
  | .text s => " . " ++ (quoteMark ++ s ++ quoteMark)
  | .sym s => " . " ++ s
  | .bool b => " . " ++ (if b then "#t" else "#f")
end

/-- The text `printList` writes for the chain `v`. -/
def listText : SExp → String
  | .cons a b => render a ++ renderRest b
  | v => renderRest v

/-- The loop of `interpret`, returning the text written: each result that is
not Void is printed when it has been computed, followed by a newline. -/
def interpretTextLoop (fuel : Nat) (globalFrame : Nat) : Nat → Nat → M String
  | 0, _ => outOfFuel
  | k + 1, tree => do
    if (← typeOf tree) = CONS_TYPE then do
      let result ← eval fuel (← car tree) globalFrame
      let line ←
        if (← typeOf result) ≠ VOID_TYPE then do
          let text ← printItem fuel result
          pure (text ++ "\n")
        else pure ""
      let rest ← interpretTextLoop fuel globalFrame k (← cdr tree)
      pure (line ++ rest)
    else pure ""

/-- The function `interpret`, returning the text written. -/
def interpretText (fuel : Nat) (tree : Nat) : M String := do
  let globalFrame ← interpretGlobals
  interpretTextLoop fuel globalFrame fuel tree

/-- The text written for a program given by its tokens: the tokens are laid
out in the empty heap, parsed, and the tree is interpreted; `none` when the
run ends in an error. -/
def programOutput (fuel : Nat) (toks : List Tok) : Option String :=
  match (do
      let tokens ← buildTokens toks
      let tree ← parse fuel tokens
      interpretText fuel tree : M String) State.empty with
  | .ok s _ => some s
  | _ => none

/-! Printing a parse tree (parser.c) -/

/-- Whether the text in `buffer` begins with two opening parentheses not
followed by a closing one, and ends with two closing parentheses: the test of
`printTree` on `buffer[0]`, `buffer[1]`, `buffer[2]`, `buffer[len - 1]` and
`buffer[len - 2]`. -/
def doublyWrapped (buffer : List Char) : Bool :=
  decide (buffer.get? 0 = some (Char.ofNat 40)) && decide (buffer.get? 1 = some (Char.ofNat 40)) &&
    decide (buffer.get? 2 ≠ some (Char.ofNat 41)) &&
    (match buffer.reverse with
     | a :: b :: _ => decide (a = Char.ofNat 41) && decide (b = Char.ofNat 41)
     | _ => false)

mutual
/-- The loop of the first branch of `printToBuffer`, taken for a list whose
first element is a Boolean: every element goes through `printTree` straight to
the output, a space after it unless the list ends there; the result is the
text written to the output. -/
def printBoolLoop : Nat → Nat → M String
  | 0, _ => outOfFuel
  | k + 1, current => do
    if (← typeOf current) = CONS_TYPE then do
      let out ← printTree k (← car current)
      let next ← cdr current
      let space := if (← typeOf next) ≠ NULL_TYPE then " " else ""
      let rest ← printBoolLoop k next
      pure (out ++ space ++ rest)
    else pure ""
/-- The loop of the case CONS_TYPE of `printToBuffer`: the result is the text
written to the output meanwhile, the buffer, and the item the chain ends
in. -/
def printConsLoop : Nat → Nat → String → M (String × String × Nat)
  | 0, _, _ => outOfFuel
  | k + 1, current, buf => do
    if (← typeOf current) = CONS_TYPE then do
      let (out, buf) ← printToBuffer k (← car current) buf
      let next ← cdr current
      let buf := if (← typeOf next) ≠ NULL_TYPE then buf ++ " " else buf
      let (out', buf, last) ← printConsLoop k next buf
      pure (out ++ out', buf, last)
    else pure ("", buf, current)
/-- The function `printToBuffer`: the result is the text written to the output
meanwhile and the buffer with the text of the tree added at `*pos`. -/
def printToBuffer : Nat → Nat → String → M (String × String)
  | 0, _, _ => outOfFuel
  | k + 1, tree, buf => do
    let t ← typeOf tree
    if t = CONS_TYPE then do
      if (← typeOf (← car tree)) = BOOL_TYPE then do
        let out ← printBoolLoop k tree
        pure (out, buf)
      else do
        let (out, buf, last) ← printConsLoop k tree (buf ++ "(")
        if (← typeOf last) ≠ NULL_TYPE then do
          let (out', buf) ← printToBuffer k last (buf ++ ". ")
          pure (out ++ out', buf ++ ")")
        else pure (out, buf ++ ")")
    else
      match t with
      | SYMBOL_TYPE => pure ("", buf ++ (← getS tree))
      | STR_TYPE => pure ("", buf ++ (quoteMark ++ (← getS tree) ++ quoteMark))
      | INT_TYPE => pure ("", buf ++ formatInt (← getI tree))
      | DOUBLE_TYPE => pure ("", buf ++ formatReal (← getD tree))
      | BOOL_TYPE => pure ("", buf ++ (if (← getI tree) ≠ 0 then "#t" else "#f"))
      | NULL_TYPE => pure ("", buf ++ "()")
      | _ => syntaxError "Item type unrecognized"
/-- The function `printTree`: the result is the text written to the output.
The buffer has 1000 characters; a longer text is written past its end. -/
def printTree : Nat → Nat → M String
  | 0, _ => outOfFuel
  | k + 1, tree => do
    let (out, buffer) ← printToBuffer k tree ""
    if buffer.length ≥ 1000 then undefinedBehaviour
    else if doublyWrapped buffer.data then
      pure (out ++ String.mk (buffer.data.drop 1).dropLast)
    else pure (out ++ buffer)
end

/-- The text `printTree` writes for the tree `parse` returns on the tokens:
the tokens are laid out in the empty heap, parsed, and the tree is printed;
`none` when the run ends in an error. -/
def printedTree (fuel : Nat) (toks : List Tok) : Option String :=
  match (do
      let tokens ← buildTokens toks
      let tree ← parse fuel tokens
      printTree fuel tree : M String) State.empty with
  | .ok s _ => some s
  | _ => none

/-! Theorems -/

/-! The state-passing monad -/

theorem bind_apply {α β : Type} (m : M α) (f : α → M β) (st : State) :
    (m >>= f) st = match m st with
      | .ok a st' => f a st'
      | .error e => .error e
      | .undefined => .undefined
      | .timeout => .timeout := rfl

theorem pure_apply {α : Type} (a : α) (st : State) : (pure a : M α) st = .ok a st := rfl

/-! Frames and lookup -/

theorem lookupBindings_eq_none (symbol : String) (bs : List (String × Nat)) :
    lookupBindings symbol bs = none ↔ ∀ b ∈ bs, b.1 ≠ symbol := by
  induction bs with
  | nil => simp [lookupBindings]
  | cons b bs ih =>
    obtain ⟨n, v⟩ := b
    by_cases h : n = symbol
    · simp [lookupBindings, h]
    · simp [lookupBindings, h, ih]

theorem lookupBindings_append (symbol : String) (xs ys : List (String × Nat)) :
    lookupBindings symbol (xs ++ ys) =
      match lookupBindings symbol xs with
      | some v => some v
      | none => lookupBindings symbol ys := by
  induction xs with
  | nil => simp [lookupBindings]
  | cons b xs ih =>
    obtain ⟨n, v⟩ := b
    by_cases h : n = symbol
    · simp [lookupBindings, h]
    · simp [lookupBindings, h, ih]

theorem lookupBindings_newest (symbol : String) (pre post : List (String × Nat)) (v : Nat)
    (hpre : ∀ b ∈ pre, b.1 ≠ symbol) :
    lookupBindings symbol (pre ++ (symbol, v) :: post) = some v := by
  rw [lookupBindings_append, (lookupBindings_eq_none symbol pre).2 hpre]
  simp [lookupBindings]

theorem chainBindings_append (xs ys : List Frame) :
    chainBindings (xs ++ ys) = chainBindings xs ++ chainBindings ys := by
  induction xs with
  | nil => rfl
  | cons x xs ih => simp [chainBindings, ih]

theorem chainBindings_none (symbol : String) (chain : List Frame) :
    lookupBindings symbol (chainBindings chain) = none ↔
      ∀ fr ∈ chain, ∀ b ∈ fr.bindings, b.1 ≠ symbol := by
  induction chain with
  | nil => simp [chainBindings, lookupBindings]
  | cons fr rest ih =>
    rw [chainBindings, lookupBindings_append]
    cases h : lookupBindings symbol fr.bindings with
    | some v =>
      have : ¬ ∀ b ∈ fr.bindings, b.1 ≠ symbol := by
        rw [← lookupBindings_eq_none, h]; simp
      constructor
      · intro h1; exact absurd h1 (by simp)
      · intro h1; exact absurd (h1 fr (by simp)) this
    | none =>
      have h1 := (lookupBindings_eq_none symbol fr.bindings).1 h
      simp only [ih, List.mem_cons, forall_eq_or_imp]
      exact ⟨fun h2 => ⟨h1, h2⟩, fun h2 => h2.2⟩

/-- The walk of `lookupSymbol` along a chain finds the first entry of the
concatenated binding lists. -/
theorem lookupSymbol_eq (st : State) (symbol : String) :
    ∀ (chain : List Frame) (frame : Option Nat) (fuel : Nat),
      isChain st frame chain → chain.length ≤ fuel →
      lookupSymbol fuel symbol frame st =
        match lookupBindings symbol (chainBindings chain) with
        | some v => .ok v st
        | none => .error "Unbound symbol" := by
  intro chain
  induction chain with
  | nil =>
    intro frame fuel hc _
    cases frame with
    | none => cases fuel <;> rfl
    | some f => exact absurd hc (by simp [isChain])
  | cons fr rest ih =>
    intro frame fuel hc hf
    cases frame with
    | none => exact absurd hc (by simp [isChain])
    | some f =>
      obtain ⟨hfr, hrest⟩ := hc
      cases fuel with
      | zero => simp at hf
      | succ k =>
        rw [chainBindings, lookupBindings_append]
        cases h : lookupBindings symbol fr.bindings with
        | some v => simp only [lookupSymbol, hfr, h]
        | none =>
          simp only [lookupSymbol, hfr, h]
          exact ih fr.parent k hrest (by simpa using hf)

theorem isChain_frames_eq (st st' : State) :
    ∀ (chain : List Frame) (frame : Option Nat),
      isChain st frame chain →
      (∀ (f : Nat) (fr : Frame), st.frames[f]? = some fr → st'.frames[f]? = some fr) →
      isChain st' frame chain := by
  intro chain
  induction chain with
  | nil => intro frame hc _; cases frame <;> simp_all [isChain]
  | cons fr rest ih =>
    intro frame hc hsub
    cases frame with
    | none => exact absurd hc (by simp [isChain])
    | some f => exact ⟨hsub _ _ hc.1, ih _ hc.2 hsub⟩

/-- C1: `lookupSymbol` returns the value of the newest binding of the name in
the innermost frame of the chain that binds it, and fails with 'Unbound
symbol' exactly when no frame of the chain binds it; `addBinding` puts the new
entry in front of the old ones, which stay, so a re-definition in the same
frame shadows, and a binding in a fresh child frame shadows the parent's. -/
theorem lookupSymbol_innermost_newest (st : State) (frame : Nat) (fr : Frame)
    (rest : List Frame) (symbol : String) (fuel : Nat)
    (hchain : isChain st (some frame) (fr :: rest)) (hfuel : (fr :: rest).length ≤ fuel) :
    (∀ pre g post bpre v bpost, fr :: rest = pre ++ g :: post →
        (∀ g' ∈ pre, ∀ b ∈ g'.bindings, b.1 ≠ symbol) →
        g.bindings = bpre ++ (symbol, v) :: bpost → (∀ b ∈ bpre, b.1 ≠ symbol) →
        lookupSymbol fuel symbol (some frame) st = .ok v st) ∧
    (lookupSymbol fuel symbol (some frame) st = .error "Unbound symbol" ↔
        ∀ g ∈ fr :: rest, ∀ b ∈ g.bindings, b.1 ≠ symbol) ∧
    (∀ v, ∃ st', addBinding frame symbol v st = .ok () st' ∧
        st'.frames[frame]? = some { fr with bindings := (symbol, v) :: fr.bindings } ∧
        lookupSymbol fuel symbol (some frame) st' = .ok v st') ∧
    (∀ v, ∃ child st1 st2, createFrame (some frame) st = .ok child st1 ∧
        addBinding child symbol v st1 = .ok () st2 ∧
        st2.frames[frame]? = some fr ∧
        lookupSymbol (fuel + 1) symbol (some child) st2 = .ok v st2 ∧
        ∀ other, other ≠ symbol →
          lookupSymbol (fuel + 1) other (some child) st2 =
            match lookupSymbol fuel other (some frame) st with
            | .ok w _ => .ok w st2
            | r => r) := by
  have hfr : st.frames[frame]? = some fr := hchain.1
  have hlt : frame < st.frames.length := by
    by_contra hge
    rw [List.getElem?_eq_none (by omega)] at hfr
    exact absurd hfr (by simp)
  refine ⟨?_, ?_, ?_, ?_⟩
  · intro pre g post bpre v bpost hsplit hpre hg hbpre
    rw [lookupSymbol_eq st symbol _ _ fuel hchain hfuel, hsplit, chainBindings_append,
      lookupBindings_append, (chainBindings_none symbol pre).2 hpre]
    simp only [chainBindings]
    rw [lookupBindings_append, hg, lookupBindings_newest symbol bpre bpost v hbpre]
  · rw [lookupSymbol_eq st symbol _ _ fuel hchain hfuel, ← chainBindings_none]
    cases lookupBindings symbol (chainBindings (fr :: rest)) <;> simp
  · intro v
    refine ⟨_, by simp only [addBinding, hfr]; rfl, by simp [hlt], ?_⟩
    obtain ⟨k, rfl⟩ : ∃ k, fuel = k + 1 := ⟨fuel - 1, by simp at hfuel; omega⟩
    simp [lookupSymbol, hlt, lookupBindings]
  · intro v
    have hsub : ∀ (f : Nat) (g : Frame), st.frames[f]? = some g →
        ((st.frames ++ [Frame.mk [] (some frame)]).set st.frames.length
          (Frame.mk [(symbol, v)] (some frame)))[f]? = some g := by
      intro f g hf
      have hfl : f < st.frames.length := by
        by_contra hge
        rw [List.getElem?_eq_none (by omega)] at hf
        exact absurd hf (by simp)
      rw [List.getElem?_set_ne (by omega), List.getElem?_append_left hfl]
      exact hf
    refine ⟨st.frames.length, State.mk st.items (st.frames ++ [Frame.mk [] (some frame)]),
      State.mk st.items ((st.frames ++ [Frame.mk [] (some frame)]).set st.frames.length
          (Frame.mk [(symbol, v)] (some frame))), rfl, ?_, ?_, ?_, ?_⟩
    · simp [addBinding]
    · exact hsub _ _ hfr
    · simp [lookupSymbol, lookupBindings]
    · intro other hother
      have hc2 := isChain_frames_eq st
        (State.mk st.items ((st.frames ++ [Frame.mk [] (some frame)]).set st.frames.length
          (Frame.mk [(symbol, v)] (some frame)))) _ _ hchain hsub
      have hno : lookupBindings other [(symbol, v)] = none := by
        simp [lookupBindings, Ne.symm hother]
      simp only [lookupSymbol, List.length_append, List.length_singleton, List.getElem?_set_self,
        Nat.lt_add_one, List.getElem?_eq_getElem, List.getElem_set_self, hno]
      rw [lookupSymbol_eq _ other _ _ fuel hc2 hfuel, lookupSymbol_eq st other _ _ fuel hchain hfuel]
      cases lookupBindings other (chainBindings (fr :: rest)) <;> rfl


/-- Witness of C1 on `exampleFrames`: from the child frame, x resolves in the
global frame to its newest binding. -/
theorem lookupSymbol_innermost_newest_witness :
    isChain exampleFrames (some 1) [⟨[("y", 2)], some 0⟩, ⟨[("x", 1), ("x", 0)], none⟩] ∧
    lookupSymbol 2 "x" (some 1) exampleFrames = .ok 1 exampleFrames :=
  ⟨by simp [isChain, exampleFrames],
   (lookupSymbol_innermost_newest exampleFrames 1 ⟨[("y", 2)], some 0⟩
      [⟨[("x", 1), ("x", 0)], none⟩] "x" 2 (by simp [isChain, exampleFrames]) (by simp)).1
      [⟨[("y", 2)], some 0⟩] ⟨[("x", 1), ("x", 0)], none⟩ [] [] 1 [("x", 0)] rfl
      (by simp) rfl (by simp)⟩

/-! Reading lists in a view; the closure call (C2) -/

theorem isList_nil_iff (h : Nat → Option Item) (p : Nat) :
    isList h p [] = true ↔ ∃ it, h p = some it ∧ it.type ≠ CONS_TYPE := by
  unfold isList
  cases h p with
  | none => simp
  | some it => simp

theorem isList_cons_iff (h : Nat → Option Item) (p x : Nat) (xs : List Nat) :
    isList h p (x :: xs) = true ↔
      ∃ it q, h p = some it ∧ it.type = CONS_TYPE ∧ it.u0 = .ptr x ∧ it.u1 = .ptr q ∧
        isList h q xs = true := by
  rw [isList]
  cases h p with
  | none => simp
  | some it =>
    cases hu : it.u1 <;> simp [hu, and_assoc]

theorem isSymbol_iff (h : Nat → Option Item) (p : Nat) (name : String) :
    isSymbol h p name = true ↔
      ∃ it, h p = some it ∧ it.type = SYMBOL_TYPE ∧ it.u0 = .str name := by
  unfold isSymbol
  cases h p with
  | none => simp
  | some it => simp

@[simp] theorem ite_run {α : Type} (c : Prop) [Decidable c] (a b : M α) (st : State) :
    (if c then a else b) st = if c then a st else b st := by
  split <;> rfl

attribute [simp] bind_apply pure_apply

@[simp] theorem evaluationError_apply {α : Type} (msg : String) (st : State) :
    (evaluationError msg : M α) st = .error msg := rfl

@[simp] theorem undefinedBehaviour_apply {α : Type} (st : State) :
    (undefinedBehaviour : M α) st = .undefined := rfl

@[simp] theorem outOfFuel_apply {α : Type} (st : State) :
    (outOfFuel : M α) st = .timeout := rfl

theorem readItem_ok {st : State} {p : Nat} {it : Item} (h : st.items[p]? = some it) :
    readItem p st = .ok it st := by
  simp only [readItem, h]

theorem typeOf_ok {st : State} {p : Nat} {it : Item} (h : st.items[p]? = some it) :
    typeOf p st = .ok it.type st := by
  simp only [typeOf, bind_apply, readItem_ok h]; rfl

theorem isNull_ok {st : State} {p : Nat} {it : Item} (h : st.items[p]? = some it) :
    isNull p st = .ok (decide (it.type ≠ CONS_TYPE)) st := by
  simp only [isNull, bind_apply, readItem_ok h]; rfl

theorem car_ok {st : State} {p a : Nat} {it : Item} (h : st.items[p]? = some it)
    (h0 : it.u0 = .ptr a) : car p st = .ok a st := by
  simp only [car, bind_apply, readItem_ok h, h0]; rfl

theorem cdr_ok {st : State} {p a : Nat} {it : Item} (h : st.items[p]? = some it)
    (h1 : it.u1 = .ptr a) : cdr p st = .ok a st := by
  simp only [cdr, bind_apply, readItem_ok h, h1]; rfl

theorem getS_ok {st : State} {p : Nat} {s : String} {it : Item} (h : st.items[p]? = some it)
    (h0 : it.u0 = .str s) : getS p st = .ok s st := by
  simp only [getS, bind_apply, readItem_ok h, h0]; rfl

theorem lengthLoop_isList (h : Nat → Option Item) (st : State)
    (hst : ∀ a it, h a = some it → st.items[a]? = some it) :
    ∀ (xs : List Nat) (p k count : Nat), isList h p xs = true → xs.length < k →
      lengthLoop k p count st = .ok (count + xs.length) st := by
  intro xs
  induction xs with
  | nil =>
    intro p k count hl hk
    obtain ⟨it, hp, ht⟩ := (isList_nil_iff h p).1 hl
    obtain ⟨k, rfl⟩ : ∃ j, k = j + 1 := ⟨k - 1, by simp at hk; omega⟩
    simp [lengthLoop, isNull_ok (hst _ _ hp), ht]
  | cons x xs ih =>
    intro p k count hl hk
    obtain ⟨it, q, hp, ht, h0, h1, hq⟩ := (isList_cons_iff h p x xs).1 hl
    obtain ⟨k, rfl⟩ : ∃ j, k = j + 1 := ⟨k - 1, by simp at hk; omega⟩
    simp [lengthLoop, isNull_ok (hst _ _ hp), ht, cdr_ok (hst _ _ hp) h1,
      ih q k (count + 1) hq (by simp at hk; omega)]
    omega

theorem frozen_of_agree {cells : List Nat} {st0 st : State} (h : agree cells st0 st = true) :
    ∀ a it, frozen cells st0 a = some it → st.items[a]? = some it := by
  intro a it ha
  unfold frozen at ha
  split at ha
  · rename_i hmem
    simp only [agree, List.all_eq_true, Bool.or_eq_true, decide_eq_true_eq] at h
    rcases h a hmem with h1 | h1
    · rw [h1] at ha; exact absurd ha (by simp)
    · simp only [h1, ha]
  · exact absurd ha (by simp)

theorem agree_refl (cells : List Nat) (st : State) : agree cells st st = true := by
  simp [agree]

theorem evalBodyLoop_forms (ev : Nat → Nat → M Nat) (frame : Nat) (cells : List Nat)
    (st0 : State) :
    ∀ (forms : List Nat) (body k result : Nat) (st : State),
      isList (frozen cells st0) body forms = true →
      agree cells st0 st = true →
      formsIntact ev frame cells st0 forms st = true →
      forms.length < k →
      evalBodyLoop ev k body frame result st = evalForms ev frame forms result st := by
  intro forms
  induction forms with
  | nil =>
    intro body k result st hl hst _ hk
    obtain ⟨it, hp, ht⟩ := (isList_nil_iff _ body).1 hl
    obtain ⟨k, rfl⟩ : ∃ j, k = j + 1 := ⟨k - 1, by simp at hk; omega⟩
    simp [evalBodyLoop, evalForms, isNull_ok (frozen_of_agree hst _ _ hp), ht]
  | cons form rest ih =>
    intro body k result st hl hst hin hk
    obtain ⟨it, q, hp, ht, h0, h1, hq⟩ := (isList_cons_iff _ body form rest).1 hl
    obtain ⟨k, rfl⟩ : ∃ j, k = j + 1 := ⟨k - 1, by simp at hk; omega⟩
    simp only [formsIntact] at hin
    cases hev : ev form frame st with
    | ok r st' =>
      simp only [hev, Bool.and_eq_true] at hin
      simp [evalBodyLoop, evalForms, isNull_ok (frozen_of_agree hst _ _ hp), ht,
        car_ok (frozen_of_agree hst _ _ hp) h0, hev, cdr_ok (frozen_of_agree hin.1 _ _ hp) h1]
      exact ih q k r st' hq hin.1 hin.2 (by simp at hk; omega)
    | _ =>
      simp [evalBodyLoop, evalForms, isNull_ok (frozen_of_agree hst _ _ hp), ht,
        car_ok (frozen_of_agree hst _ _ hp) h0, hev]

theorem agree_of_extends (cells : List Nat) (st0 st : State)
    (h : ∀ (a : Nat) (it : Item), st0.items[a]? = some it → st.items[a]? = some it) :
    agree cells st0 st = true := by
  simp only [agree, List.all_eq_true, Bool.or_eq_true, decide_eq_true_eq]
  intro a _
  cases h0 : st0.items[a]? with
  | none => exact Or.inl rfl
  | some it => exact Or.inr (h a it h0)

theorem getElem?_append_of_some {α : Type} (xs ys : List α) (a : Nat) (x : α)
    (h : xs[a]? = some x) : (xs ++ ys)[a]? = some x := by
  have hlt : a < xs.length := by
    by_contra hge
    rw [List.getElem?_eq_none (by omega)] at h
    exact absurd h (by simp)
  rw [List.getElem?_append_left hlt]
  exact h

/-- The loop of `apply` over `names` against `vals`: the two arity errors, or
the body in the frame that now binds the i-th name to the i-th value. -/
theorem applyLoop_spec (ev : Nat → Nat → M Nat) (fuel function newFrame : Nat)
    (items : List Item) (par : Option Nat) (h : Nat → Option Item)
    (hh : ∀ a it, h a = some it → items[a]? = some it) :
    ∀ (names : List String) (ps vals : List Nat) (params args k : Nat) (fs : List Frame)
      (acc : List (String × Nat)),
      isList h params ps = true →
      areSymbols h ps names = true →
      isList h args vals = true →
      fs[newFrame]? = some ⟨acc, par⟩ →
      names.length < k →
      applyLoop ev fuel function newFrame k params args ⟨items, fs⟩ =
        if vals.length < names.length then .error "too few arguments"
        else if names.length < vals.length then .error "too many arguments"
        else (do evalBody ev fuel (← getFunctionCode function) newFrame)
          ⟨items, fs.set newFrame ⟨(names.zip vals).reverse ++ acc, par⟩⟩ := by
  have hst : ∀ (fs : List Frame) (a : Nat) (it : Item), h a = some it →
      (State.mk items fs).items[a]? = some it := fun _ a it x => hh a it x
  intro names
  induction names with
  | nil =>
    intro ps vals params args k fs acc hps hsy hargs hfr hk
    obtain ⟨k, rfl⟩ : ∃ j, k = j + 1 := ⟨k - 1, by simp at hk; omega⟩
    cases ps with
    | cons p ps => simp [areSymbols] at hsy
    | nil =>
      obtain ⟨it, hp, ht⟩ := (isList_nil_iff _ params).1 hps
      cases vals with
      | nil =>
        obtain ⟨ia, ha, hta⟩ := (isList_nil_iff _ args).1 hargs
        have hset : fs.set newFrame ⟨acc, par⟩ = fs := by
          apply List.ext_getElem?
          intro i
          by_cases hi : i = newFrame
          · subst hi
            rw [hfr]
            have : i < fs.length := by
              by_contra hge
              rw [List.getElem?_eq_none (by omega)] at hfr
              exact absurd hfr (by simp)
            simp [this]
          · rw [List.getElem?_set_ne (Ne.symm hi)]
        simp [applyLoop, isNull_ok (hst fs _ _ hp), ht, isNull_ok (hst fs _ _ ha), hta, hset]
      | cons v vs =>
        obtain ⟨ia, q, ha, hta, -, -, -⟩ := (isList_cons_iff _ args v vs).1 hargs
        simp [applyLoop, isNull_ok (hst fs _ _ hp), ht, isNull_ok (hst fs _ _ ha), hta]
  | cons n ns ih =>
    intro ps vals params args k fs acc hps hsy hargs hfr hk
    obtain ⟨k, rfl⟩ : ∃ j, k = j + 1 := ⟨k - 1, by simp at hk; omega⟩
    cases ps with
    | nil => simp [areSymbols] at hsy
    | cons p ps =>
      obtain ⟨it, q, hp, ht, h0, h1, hq⟩ := (isList_cons_iff _ params p ps).1 hps
      simp only [areSymbols, Bool.and_eq_true] at hsy
      obtain ⟨is, hs, hts, hs0⟩ := (isSymbol_iff _ p n).1 hsy.1
      cases vals with
      | nil =>
        obtain ⟨ia, ha, hta⟩ := (isList_nil_iff _ args).1 hargs
        simp [applyLoop, isNull_ok (hst fs _ _ hp), ht, typeOf_ok (hst fs _ _ hp),
          isNull_ok (hst fs _ _ ha), hta]
      | cons v vs =>
        obtain ⟨ia, qa, ha, hta, ha0, ha1, hqa⟩ := (isList_cons_iff _ args v vs).1 hargs
        have hlt : newFrame < fs.length := by
          by_contra hge
          rw [List.getElem?_eq_none (by omega)] at hfr
          exact absurd hfr (by simp)
        have hrec := ih ps vs q qa k (fs.set newFrame ⟨(n, v) :: acc, par⟩) ((n, v) :: acc)
          hq hsy.2 hqa (by simp [hlt]) (by simp at hk; omega)
        simp only [List.set_set] at hrec
        simp [applyLoop, isNull_ok (hst fs _ _ hp), ht, typeOf_ok (hst fs _ _ hp),
          isNull_ok (hst fs _ _ ha), hta, car_ok (hst fs _ _ hp) h0,
          getS_ok (hst fs _ _ hs) hs0, car_ok (hst fs _ _ ha) ha0, addBinding, hfr,
          cdr_ok (hst _ _ _ hp) h1, cdr_ok (hst _ _ _ ha) ha1, hrec]

theorem set_append_length {α : Type} (xs : List α) (x y : α) :
    (xs ++ [x]).set xs.length y = xs ++ [y] := by
  induction xs with
  | nil => rfl
  | cons a xs ih => simp [List.set, ih]

/-- C2: for a closure whose parameter list holds n symbols and an argument
list of m values, `apply` fails with 'too few arguments' when m < n, with
'too many arguments' when m > n, and when m = n it evaluates the body forms in
sequence, returning the value of the last one, in a new frame whose parent is
the closure's captured frame and which binds the i-th parameter to the i-th
argument. -/
theorem apply_closure_arity (ev : Nat → Nat → M Nat) (fuel : Nat) (st : State)
    (function args params body closureFrame : Nat)
    (names : List String) (ps vals forms cells : List Nat)
    (hfun : st.items[function]? =
      some ⟨CLOSURE_TYPE, .ptr params, .ptr body, .env closureFrame⟩)
    (hparams : isList st.view params ps = true)
    (hsyms : areSymbols st.view ps names = true)
    (hargs : isList st.view args vals = true)
    (hbody : isList (frozen cells st) body forms = true)
    (hfuel : names.length < fuel ∧ forms.length < fuel) :
    (vals.length < names.length →
      apply ev fuel function args st = .error "too few arguments") ∧
    (names.length < vals.length →
      apply ev fuel function args st = .error "too many arguments") ∧
    (vals.length = names.length →
      formsIntact ev st.frames.length cells st forms
        ⟨st.items ++ [⟨NULL_TYPE, .undef, .undef, .undef⟩],
         st.frames ++ [⟨(names.zip vals).reverse, some closureFrame⟩]⟩ = true →
      apply ev fuel function args st =
        evalForms ev st.frames.length forms st.items.length
          ⟨st.items ++ [⟨NULL_TYPE, .undef, .undef, .undef⟩],
           st.frames ++ [⟨(names.zip vals).reverse, some closureFrame⟩]⟩) := by
  have hloop := applyLoop_spec ev fuel function st.frames.length st.items (some closureFrame)
    st.view (fun _ _ x => x) names ps vals params args fuel
    (st.frames ++ [⟨[], some closureFrame⟩]) [] hparams hsyms hargs (by simp) hfuel.1
  have happ : apply ev fuel function args st =
      applyLoop ev fuel function st.frames.length fuel params args
        ⟨st.items, st.frames ++ [⟨[], some closureFrame⟩]⟩ := by
    simp [apply, typeOf_ok hfun, getClFrame, readItem_ok hfun, createFrame, getParamNames,
      @car_ok ⟨st.items, st.frames ++ [⟨[], some closureFrame⟩]⟩ _ _ _ hfun rfl]
  rw [happ, hloop]
  refine ⟨fun h => by simp [h], fun h => by simp [h, Nat.lt_asymm h], fun h hin => ?_⟩
  simp only [h, Nat.lt_irrefl, ↓reduceIte, List.append_nil, set_append_length]
  simp only [bind_apply, getFunctionCode,
    @cdr_ok ⟨st.items, st.frames ++ [⟨(names.zip vals).reverse, some closureFrame⟩]⟩ _ _ _
      hfun rfl, evalBody, makeNull, allocItem]
  exact evalBodyLoop_forms ev st.frames.length cells st forms body fuel st.items.length _ hbody
    (agree_of_extends _ _ _ (fun a it ha => getElem?_append_of_some _ _ a it ha)) hin hfuel.2

/-- Witness of C2: `((lambda (a b) b) 1 2)` returns the second argument. -/
theorem apply_closure_arity_witness :
    isList exampleClosure.view 4 [0, 1] = true ∧
    areSymbols exampleClosure.view [0, 1] ["a", "b"] = true ∧
    isList exampleClosure.view 13 [9, 10] = true ∧
    apply (eval 5) 5 8 13 exampleClosure =
      .ok 10 ⟨exampleClosure.items ++ [⟨NULL_TYPE, .undef, .undef, .undef⟩],
        exampleClosure.frames ++ [⟨[("b", 10), ("a", 9)], some 0⟩]⟩ :=
  ⟨by decide, by decide, by decide,
   ((apply_closure_arity (eval 5) 5 exampleClosure 8 13 4 7 0 ["a", "b"] [0, 1] [9, 10] [5]
      [5, 6, 7] (by decide) (by decide) (by decide) (by decide) (by decide) (by decide)).2.2
      (by decide) (by decide)).trans (by decide)⟩

/-! The binding list of a let; `evalLet` (C6, C7) -/

theorem isBindingPair_iff (h : Nat → Option Item) (bp : Nat) (x : String) (e : Nat) :
    isBindingPair h bp x e = true ↔
      ∃ it var q, h bp = some it ∧ it.type = CONS_TYPE ∧ it.u0 = .ptr var ∧ it.u1 = .ptr q ∧
        isSymbol h var x = true ∧ isList h q [e] = true := by
  unfold isBindingPair
  cases h bp with
  | none => simp
  | some it =>
    cases h0 : it.u0 <;> cases h1 : it.u1 <;> simp [h0, h1]

theorem isBindings_nil_iff (h : Nat → Option Item) (p : Nat) :
    isBindings h p [] [] = true ↔ ∃ it, h p = some it ∧ it.type = NULL_TYPE := by
  unfold isBindings
  cases h p with
  | none => simp
  | some it => simp

theorem isBindings_cons_iff (h : Nat → Option Item) (p c : Nat) (cs : List Nat) (x : String)
    (e : Nat) (bs : List (String × Nat)) :
    isBindings h p (c :: cs) ((x, e) :: bs) = true ↔
      p = c ∧ ∃ it bp q, h p = some it ∧ it.type = CONS_TYPE ∧ it.u0 = .ptr bp ∧
        it.u1 = .ptr q ∧ isBindingPair h bp x e = true ∧ isBindings h q cs bs = true := by
  rw [isBindings]
  cases h p with
  | none => simp
  | some it =>
    cases h0 : it.u0 <;> cases h1 : it.u1 <;> simp [h0, h1]

theorem isBindings_length (h : Nat → Option Item) :
    ∀ (cs : List Nat) (bs : List (String × Nat)) (p : Nat),
      isBindings h p cs bs = true → cs.length = bs.length := by
  intro cs
  induction cs with
  | nil =>
    intro bs p hb
    cases bs with
    | nil => rfl
    | cons b bs => simp [isBindings] at hb
  | cons c cs ih =>
    intro bs p hb
    cases bs with
    | nil => simp [isBindings] at hb
    | cons b bs =>
      obtain ⟨x, e⟩ := b
      obtain ⟨-, it, bp, q, -, -, -, -, -, hq⟩ := (isBindings_cons_iff h p c cs x e bs).1 hb
      simp [ih bs q hq]

/-- The cells of a binding list are determined by its head. -/
theorem isBindings_cells_unique (h : Nat → Option Item) :
    ∀ (cs cs' : List Nat) (bs bs' : List (String × Nat)) (p : Nat),
      isBindings h p cs bs = true → isBindings h p cs' bs' = true → cs = cs' := by
  intro cs
  induction cs with
  | nil =>
    intro cs' bs bs' p h1 h2
    cases bs with
    | cons b bs => simp [isBindings] at h1
    | nil =>
      obtain ⟨it, hp, ht⟩ := (isBindings_nil_iff h p).1 h1
      cases cs' with
      | nil => rfl
      | cons c' cs' =>
        cases bs' with
        | nil => simp [isBindings] at h2
        | cons b' bs' =>
          obtain ⟨x, e⟩ := b'
          obtain ⟨-, it', bp, q, hp', ht', -⟩ := (isBindings_cons_iff h p c' cs' x e bs').1 h2
          rw [hp] at hp'
          cases hp'
          rw [ht] at ht'
          exact absurd ht' (by decide)
  | cons c cs ih =>
    intro cs' bs bs' p h1 h2
    cases bs with
    | nil => simp [isBindings] at h1
    | cons b bs =>
      obtain ⟨x, e⟩ := b
      obtain ⟨hpc, it, bp, q, hp, ht, h0, hu1, -, hq⟩ :=
        (isBindings_cons_iff h p c cs x e bs).1 h1
      cases cs' with
      | nil =>
        cases bs' with
        | cons b' bs' => simp [isBindings] at h2
        | nil =>
          obtain ⟨it', hp', ht'⟩ := (isBindings_nil_iff h p).1 h2
          rw [hp] at hp'
          cases hp'
          rw [ht] at ht'
          exact absurd ht' (by decide)
      | cons c' cs' =>
        cases bs' with
        | nil => simp [isBindings] at h2
        | cons b' bs' =>
          obtain ⟨x', e'⟩ := b'
          obtain ⟨hpc', it', bp', q', hp', -, -, hu1', -, hq'⟩ :=
            (isBindings_cons_iff h p c' cs' x' e' bs').1 h2
          rw [hp] at hp'
          cases hp'
          rw [hu1] at hu1'
          cases hu1'
          rw [← hpc, ← hpc', ih cs' bs bs' q hq hq']

/-- Every cell of a binding list heads the rest of the list from there. -/
theorem isBindings_suffix (h : Nat → Option Item) :
    ∀ (pre : List Nat) (c : Nat) (post : List Nat) (bs : List (String × Nat)) (p : Nat),
      isBindings h p (pre ++ c :: post) bs = true →
      isBindings h c (c :: post) (bs.drop pre.length) = true := by
  intro pre
  induction pre with
  | nil =>
    intro c post bs p hb
    cases bs with
    | nil => simp [isBindings] at hb
    | cons b bs =>
      obtain ⟨x, e⟩ := b
      have hpc := ((isBindings_cons_iff h p c post x e bs).1 hb).1
      subst hpc
      simpa using hb
  | cons a pre ih =>
    intro c post bs p hb
    cases bs with
    | nil => simp [isBindings] at hb
    | cons b bs =>
      obtain ⟨x, e⟩ := b
      obtain ⟨-, it, bp, q, -, -, -, -, -, hq⟩ :=
        (isBindings_cons_iff h p a (pre ++ c :: post) x e bs).1 hb
      simpa using ih c post bs q hq

theorem isBindings_nodup (h : Nat → Option Item) :
    ∀ (cs : List Nat) (bs : List (String × Nat)) (p : Nat),
      isBindings h p cs bs = true → cs.Nodup := by
  intro cs
  induction cs with
  | nil => intro _ _ _; exact List.nodup_nil
  | cons c cs ih =>
    intro bs p hb
    cases bs with
    | nil => simp [isBindings] at hb
    | cons b bs =>
      obtain ⟨x, e⟩ := b
      obtain ⟨hpc, it, bp, q, -, -, -, -, -, hq⟩ := (isBindings_cons_iff h p c cs x e bs).1 hb
      refine List.nodup_cons.2 ⟨?_, ih bs q hq⟩
      intro hmem
      obtain ⟨pre, post, hsplit⟩ := List.append_of_mem hmem
      have hsuf := isBindings_suffix h (c :: pre) c post ((x, e) :: bs) p
        (by rw [hsplit] at hb; simpa using hb)
      rw [← hpc] at hsuf
      have := isBindings_cells_unique h _ _ _ _ p hb hsuf
      have hlen := congrArg List.length this
      rw [hsplit] at hlen
      simp at hlen
      omega

theorem agree_items_eq {cells : List Nat} {st0 st st' : State} (h : agree cells st0 st = true)
    (hi : st'.items = st.items) : agree cells st0 st' = true := by
  simp only [agree, hi] at h ⊢
  exact h

theorem addBinding_items {frame : Nat} {x : String} {v : Nat} {st st' : State} {u : Unit}
    (h : addBinding frame x v st = .ok u st') : st'.items = st.items := by
  unfold addBinding at h
  split at h
  · cases h; rfl
  · cases h

/-- The inner loop of `evalLet` from the head of the list to the cell `c`:
an error exactly when the name of `var` is among the names before `c`. -/
theorem evalLetDuplicate_spec (h : Nat → Option Item) (st : State)
    (hst : ∀ a it, h a = some it → st.items[a]? = some it) (var : Nat) (x : String)
    (hvar : isSymbol h var x = true) (c : Nat) (post : List Nat) :
    ∀ (cpre : List Nat) (bs : List (String × Nat)) (p k : Nat),
      isBindings h p (cpre ++ c :: post) bs = true → c ∉ cpre → cpre.length < k →
      evalLetDuplicate k p c var st =
        if x ∈ (bs.take cpre.length).map Prod.fst then .error "variable duplicate"
        else .ok () st := by
  obtain ⟨iv, hv, -, hv0⟩ := (isSymbol_iff h var x).1 hvar
  intro cpre
  induction cpre with
  | nil =>
    intro bs p k hb _ hk
    obtain ⟨k, rfl⟩ : ∃ j, k = j + 1 := ⟨k - 1, by omega⟩
    cases bs with
    | nil => simp [isBindings] at hb
    | cons b bs =>
      obtain ⟨y, e⟩ := b
      have hpc := ((isBindings_cons_iff h p c post y e bs).1 hb).1
      simp [evalLetDuplicate, hpc]
  | cons a cpre ih =>
    intro bs p k hb hc hk
    obtain ⟨k, rfl⟩ : ∃ j, k = j + 1 := ⟨k - 1, by omega⟩
    cases bs with
    | nil => simp [isBindings] at hb
    | cons b bs =>
      obtain ⟨y, e⟩ := b
      obtain ⟨hpa, it, bp, q, hp, ht, h0, h1, hbp, hq⟩ :=
        (isBindings_cons_iff h p a (cpre ++ c :: post) y e bs).1 hb
      obtain ⟨ib, vy, q1, hbp1, -, hb0, -, hsy, -⟩ := (isBindingPair_iff h bp y e).1 hbp
      obtain ⟨iy, hy, -, hy0⟩ := (isSymbol_iff h vy y).1 hsy
      have hne : p ≠ c := by
        rw [hpa]
        intro hac
        exact hc (by simp [hac])
      have hrec := ih bs q k hq (fun hm => hc (by simp [hm])) (by simp at hk; omega)
      by_cases hxy : y = x
      · simp [evalLetDuplicate, hne, car_ok (hst _ _ hp) h0, car_ok (hst _ _ hbp1) hb0,
          getS_ok (hst _ _ hy) hy0, getS_ok (hst _ _ hv) hv0, hxy]
      · have hxy' : ¬ x = y := fun hh => hxy hh.symm
        simp [evalLetDuplicate, hne, car_ok (hst _ _ hp) h0, car_ok (hst _ _ hbp1) hb0,
          getS_ok (hst _ _ hy) hy0, getS_ok (hst _ _ hv) hv0, hxy, hxy',
          cdr_ok (hst _ _ hp) h1, hrec]

/-- The loop of `evalLet` from the cell `cur` on, the names before it having
been bound: it is the checked binding phase over the abstract list. -/
theorem evalLetLoop_spec (ev : Nat → Nat → M Nat) (fuel args frame letFrame p0 : Nat)
    (cells : List Nat) (st0 : State) (cs : List Nat) (bs : List (String × Nat))
    (hargs : ∃ ita, frozen cells st0 args = some ita ∧ ita.u0 = .ptr p0)
    (hfull : isBindings (frozen cells st0) p0 cs bs = true)
    (hfuel : bs.length + 2 < fuel) :
    ∀ (bcur bpre : List (String × Nat)) (cpre ccur : List Nat) (cur k : Nat) (st : State),
      cs = cpre ++ ccur → bs = bpre ++ bcur → cpre.length = bpre.length →
      isBindings (frozen cells st0) cur ccur bcur = true →
      agree cells st0 st = true →
      checkedIntact ev frame letFrame cells st0 (bpre.map Prod.fst) bcur st = true →
      bcur.length < k →
      evalLetLoop ev fuel args frame letFrame k cur st =
        bindChecked ev frame letFrame (bpre.map Prod.fst) bcur st := by
  obtain ⟨ita, hita, hita0⟩ := hargs
  intro bcur
  induction bcur with
  | nil =>
    intro bpre cpre ccur cur k st _ _ _ hcur hst _ hk
    obtain ⟨k, rfl⟩ : ∃ j, k = j + 1 := ⟨k - 1, by omega⟩
    cases ccur with
    | cons c ccur => simp [isBindings] at hcur
    | nil =>
      obtain ⟨it, hp, ht⟩ := (isBindings_nil_iff _ cur).1 hcur
      simp [evalLetLoop, bindChecked, isNull_ok (frozen_of_agree hst _ _ hp), ht]
  | cons b bcur ih =>
    intro bpre cpre ccur cur k st hcs hbs hlen hcur hst hin hk
    obtain ⟨k, rfl⟩ : ∃ j, k = j + 1 := ⟨k - 1, by omega⟩
    obtain ⟨x, e⟩ := b
    cases ccur with
    | nil => simp [isBindings] at hcur
    | cons c ccur =>
      obtain ⟨hpc, it, bp, q, hp, ht, h0, h1, hbp, hq⟩ :=
        (isBindings_cons_iff _ cur c ccur x e bcur).1 hcur
      obtain ⟨ib, var, q1, hbp1, hbt, hb0, hb1, hsy, hq1⟩ := (isBindingPair_iff _ bp x e).1 hbp
      obtain ⟨iv, hv, hvt, hv0⟩ := (isSymbol_iff _ var x).1 hsy
      obtain ⟨iq, q2, hq1i, -, hq0, -, -⟩ := (isList_cons_iff _ q1 e []).1 hq1
      have hpair : isList (frozen cells st0) bp [var, e] = true :=
        (isList_cons_iff _ bp var [e]).2 ⟨ib, q1, hbp1, hbt, hb0, hb1, hq1⟩
      have hS := frozen_of_agree hst
      have hlenp : length fuel bp st = .ok 2 st := by
        have := lengthLoop_isList _ st hS [var, e] bp fuel 0 hpair (by simp; omega)
        simpa [length] using this
      have hnodup := isBindings_nodup _ cs bs p0 hfull
      have hcnotin : cur ∉ cpre := by
        rw [hcs, ← hpc] at hnodup
        intro hm
        exact (List.nodup_append.1 hnodup).2.2 hm (by simp)
      have hbslen : cpre.length ≤ bs.length := by rw [hbs]; simp [hlen]
      have hdup := evalLetDuplicate_spec _ st hS var x hsy cur ccur cpre bs p0 fuel
        (by rw [hcs, ← hpc] at hfull; exact hfull) hcnotin (by omega)
      have htake : (bs.take cpre.length).map Prod.fst = bpre.map Prod.fst := by
        rw [hbs, hlen]; simp
      rw [htake] at hdup
      simp only [checkedIntact] at hin
      by_cases hseen : x ∈ bpre.map Prod.fst
      · simp only [hseen, ↓reduceIte] at hdup
        simp [evalLetLoop, bindChecked, isNull_ok (hS _ _ hp), ht, car_ok (hS _ _ hp) h0,
          typeOf_ok (hS _ _ hbp1), hbt, hlenp, car_ok (hS _ _ hbp1) hb0, typeOf_ok (hS _ _ hv),
          hvt, car_ok (hS _ _ hita) hita0, hdup, hseen]
      · simp only [hseen, ↓reduceIte] at hdup hin
        cases hev : ev e frame st with
        | ok v st' =>
          simp only [hev, Bool.and_eq_true] at hin
          have hS' := frozen_of_agree hin.1
          cases hadd : addBinding letFrame x v st' with
          | ok u st'' =>
            simp only [hadd] at hin
            have hst'' := agree_items_eq hin.1 (addBinding_items hadd)
            have hS'' := frozen_of_agree hst''
            have hrec := ih (bpre ++ [(x, e)]) (cpre ++ [c]) ccur q k st''
              (by simp [hcs]) (by simp [hbs]) (by simp [hlen]) hq hst''
              (by simpa using hin.2) (by simp at hk; omega)
            simp [evalLetLoop, bindChecked, isNull_ok (hS _ _ hp), ht, car_ok (hS _ _ hp) h0,
              typeOf_ok (hS _ _ hbp1), hbt, hlenp, car_ok (hS _ _ hbp1) hb0,
              typeOf_ok (hS _ _ hv), hvt, car_ok (hS _ _ hita) hita0, hdup, hseen,
              cdr_ok (hS _ _ hbp1) hb1, car_ok (hS _ _ hq1i) hq0, hev,
              getS_ok (hS' _ _ hv) hv0, hadd, cdr_ok (hS'' _ _ hp) h1]
            simpa using hrec
          | _ =>
            simp [evalLetLoop, bindChecked, isNull_ok (hS _ _ hp), ht, car_ok (hS _ _ hp) h0,
              typeOf_ok (hS _ _ hbp1), hbt, hlenp, car_ok (hS _ _ hbp1) hb0,
              typeOf_ok (hS _ _ hv), hvt, car_ok (hS _ _ hita) hita0, hdup, hseen,
              cdr_ok (hS _ _ hbp1) hb1, car_ok (hS _ _ hq1i) hq0, hev,
              getS_ok (hS' _ _ hv) hv0, hadd]
        | _ =>
          simp [evalLetLoop, bindChecked, isNull_ok (hS _ _ hp), ht, car_ok (hS _ _ hp) h0,
            typeOf_ok (hS _ _ hbp1), hbt, hlenp, car_ok (hS _ _ hbp1) hb0,
            typeOf_ok (hS _ _ hv), hvt, car_ok (hS _ _ hita) hita0, hdup, hseen,
            cdr_ok (hS _ _ hbp1) hb1, car_ok (hS _ _ hq1i) hq0, hev]

theorem bindChecked_nodup (ev : Nat → Nat → M Nat) (frame letFrame : Nat) (cells : List Nat)
    (st0 : State) :
    ∀ (bs : List (String × Nat)) (seen : List String) (st : State),
      (bs.map Prod.fst).Nodup → (∀ x ∈ bs.map Prod.fst, x ∉ seen) →
      bindChecked ev frame letFrame seen bs st = bindAll ev frame letFrame bs st ∧
      checkedIntact ev frame letFrame cells st0 seen bs st =
        bindIntact ev frame letFrame cells st0 bs st := by
  intro bs
  induction bs with
  | nil => intro seen st _ _; exact ⟨rfl, rfl⟩
  | cons b bs ih =>
    intro seen st hnd hdis
    obtain ⟨x, e⟩ := b
    have hx : x ∉ seen := hdis x (by simp)
    simp only [List.map_cons, List.nodup_cons] at hnd
    have hrec : ∀ st', bindChecked ev frame letFrame (seen ++ [x]) bs st' =
          bindAll ev frame letFrame bs st' ∧
        checkedIntact ev frame letFrame cells st0 (seen ++ [x]) bs st' =
          bindIntact ev frame letFrame cells st0 bs st' := fun st' =>
      ih (seen ++ [x]) st' hnd.2 (by
        intro y hy hmem
        rcases List.mem_append.1 hmem with h1 | h1
        · exact hdis y (by simp [hy]) h1
        · simp at h1; subst h1; exact hnd.1 hy)
    constructor
    · simp only [bindChecked, bindAll, hx, ↓reduceIte, bind_apply]
      cases ev e frame st with
      | ok v st' =>
        simp only
        cases addBinding letFrame x v st' with
        | ok u st'' => exact (hrec st'').1
        | _ => rfl
      | _ => rfl
    · simp only [checkedIntact, bindIntact, hx, ↓reduceIte]
      cases ev e frame st with
      | ok v st' =>
        simp only
        cases addBinding letFrame x v st' with
        | ok u st'' => simp only [(hrec st'').2]
        | _ => rfl
      | _ => rfl

theorem bindChecked_duplicate (ev : Nat → Nat → M Nat) (frame letFrame : Nat)
    (cells : List Nat) (st0 : State) (x : String) (e : Nat) (post : List (String × Nat)) :
    ∀ (pre : List (String × Nat)) (seen : List String) (st : State),
      (pre.map Prod.fst).Nodup → (∀ y ∈ pre.map Prod.fst, y ∉ seen) →
      x ∈ seen ++ pre.map Prod.fst →
      bindChecked ev frame letFrame seen (pre ++ (x, e) :: post) st =
        (do bindAll ev frame letFrame pre
            evaluationError "variable duplicate" : M Unit) st ∧
      checkedIntact ev frame letFrame cells st0 seen (pre ++ (x, e) :: post) st =
        bindIntact ev frame letFrame cells st0 pre st := by
  intro pre
  induction pre with
  | nil =>
    intro seen st _ _ hx
    have hx' : x ∈ seen := by simpa using hx
    simp [bindChecked, bindAll, checkedIntact, bindIntact, hx']
  | cons b pre ih =>
    intro seen st hnd hdis hx
    obtain ⟨y, e'⟩ := b
    have hy : y ∉ seen := hdis y (by simp)
    simp only [List.map_cons, List.nodup_cons] at hnd
    have hrec := fun st' => ih (seen ++ [y]) st' hnd.2 (by
        intro z hz hmem
        rcases List.mem_append.1 hmem with h1 | h1
        · exact hdis z (by simp [hz]) h1
        · simp at h1; subst h1; exact hnd.1 hz) (by
        simp only [List.map_cons, List.mem_append, List.mem_cons] at hx
        simp only [List.mem_append, List.mem_singleton]
        tauto)
    constructor
    · simp only [List.cons_append, bindChecked, bindAll, hy, ↓reduceIte, bind_apply]
      cases ev e' frame st with
      | ok v st' =>
        simp only
        cases addBinding letFrame y v st' with
        | ok u st'' =>
          have := (hrec st'').1
          simpa using this
        | _ => rfl
      | _ => rfl
    · simp only [List.cons_append, checkedIntact, bindIntact, hy, ↓reduceIte]
      cases ev e' frame st with
      | ok v st' =>
        simp only
        cases addBinding letFrame y v st' with
        | ok u st'' =>
          have h2 := (hrec st'').2
          simp only [List.append_eq] at h2 ⊢
          simp only [h2]
        | _ => rfl
      | _ => rfl

theorem agree_append {cells : List Nat} {st0 st : State} (h : agree cells st0 st = true)
    (x : Item) (fs : List Frame) : agree cells st0 ⟨st.items ++ [x], fs⟩ = true := by
  simp only [agree, List.all_eq_true, Bool.or_eq_true, decide_eq_true_eq] at h ⊢
  intro a ha
  rcases h a ha with h1 | h1
  · exact Or.inl h1
  · cases h0 : st0.items[a]? with
    | none => exact Or.inl rfl
    | some it =>
      right
      rw [h0] at h1
      exact getElem?_append_of_some _ _ a it h1

theorem bindAll_agree (ev : Nat → Nat → M Nat) (frame letFrame : Nat) (cells : List Nat)
    (st0 : State) :
    ∀ (bs : List (String × Nat)) (st stb : State) (u : Unit),
      agree cells st0 st = true →
      bindIntact ev frame letFrame cells st0 bs st = true →
      bindAll ev frame letFrame bs st = .ok u stb →
      agree cells st0 stb = true := by
  intro bs
  induction bs with
  | nil =>
    intro st stb u hst _ hb
    simp only [bindAll, pure_apply] at hb
    cases hb
    exact hst
  | cons b bs ih =>
    intro st stb u hst hin hb
    obtain ⟨x, e⟩ := b
    simp only [bindAll, bind_apply] at hb
    simp only [bindIntact] at hin
    cases hev : ev e frame st with
    | ok v st' =>
      simp only [hev, Bool.and_eq_true] at hin hb
      cases hadd : addBinding letFrame x v st' with
      | ok u' st'' =>
        simp only [hadd] at hin hb
        exact ih st'' stb u (agree_items_eq hin.1 (addBinding_items hadd)) hin.2 hb
      | error m => simp [hadd] at hb
      | undefined => simp [hadd] at hb
      | timeout => simp [hadd] at hb
    | error m => simp [hev] at hb
    | undefined => simp [hev] at hb
    | timeout => simp [hev] at hb

/-- The function `evalLet` on a well-formed let with a body: the new frame,
the checked binding phase, the body. -/
theorem evalLet_checked (ev : Nat → Nat → M Nat) (fuel : Nat) (st : State)
    (args frame p0 : Nat) (cs : List Nat) (bs : List (String × Nat)) (forms cells : List Nat)
    (hargs : isList (frozen cells st) args (p0 :: forms) = true)
    (hbind : isBindings (frozen cells st) p0 cs bs = true)
    (hbody : forms ≠ [])
    (hfuel : bs.length + 2 < fuel ∧ forms.length + 1 < fuel)
    (hin : checkedIntact ev frame st.frames.length cells st [] bs (withChild st frame) = true) :
    ∃ body, isList (frozen cells st) body forms = true ∧
      evalLet ev fuel args frame st =
        (do bindChecked ev frame st.frames.length [] bs
            evalBody ev fuel body st.frames.length : M Nat) (withChild st frame) := by
  obtain ⟨ia, body, ha, hat, ha0, ha1, hbodyl⟩ := (isList_cons_iff _ args p0 forms).1 hargs
  refine ⟨body, hbodyl, ?_⟩
  have hS := frozen_of_agree (agree_refl cells st)
  have hlen : length fuel args st = .ok (forms.length + 1) st := by
    have := lengthLoop_isList _ st hS (p0 :: forms) args fuel 0 hargs (by simp; omega)
    simpa [length] using this
  have hforms : 0 < forms.length := List.length_pos.2 hbody
  have hst1 : agree cells st (withChild st frame) = true :=
    agree_items_eq (agree_refl cells st) rfl
  have hloop := evalLetLoop_spec ev fuel args frame st.frames.length p0 cells st cs bs
    ⟨ia, ha, ha0⟩ hbind hfuel.1 bs [] [] cs p0 fuel (withChild st frame) rfl rfl rfl hbind hst1
    hin (by omega)
  have htype : ∃ ip, st.items[p0]? = some ip ∧
      (ip.type = CONS_TYPE ∨ ip.type = NULL_TYPE) := by
    cases bs with
    | nil =>
      cases cs with
      | cons c cs => simp [isBindings] at hbind
      | nil =>
        obtain ⟨ip, hp, ht⟩ := (isBindings_nil_iff _ p0).1 hbind
        exact ⟨ip, hS _ _ hp, Or.inr ht⟩
    | cons b bs =>
      obtain ⟨x, e⟩ := b
      cases cs with
      | nil => simp [isBindings] at hbind
      | cons c cs =>
        obtain ⟨-, ip, bp, q, hp, ht, -⟩ := (isBindings_cons_iff _ p0 c cs x e bs).1 hbind
        exact ⟨ip, hS _ _ hp, Or.inl ht⟩
  obtain ⟨ip, hp, hpt⟩ := htype
  have hnot : ¬ (ip.type ≠ CONS_TYPE ∧ ip.type ≠ NULL_TYPE) := by
    rcases hpt with h1 | h1 <;> simp [h1]
  have hlt : ¬ forms.length + 1 < 2 := by omega
  simp only [List.map_nil] at hloop
  simp only [evalLet, bind_apply, hlen, hlt, ↓reduceIte, car_ok (hS _ _ ha) ha0,
    cdr_ok (hS _ _ ha) ha1, typeOf_ok hp, hnot, createFrame, ite_run]
  rw [show (State.mk st.items (st.frames ++ [Frame.mk [] (some frame)])) = withChild st frame
    from rfl, hloop]

/-- C7, counterexample: the binding expression `(define y 1)` of the let is
evaluated in the outer frame and adds y to it, so y, unbound before the let,
evaluates to 1 after it: the outer frame's bindings are not unchanged. -/
theorem let_changes_outer_frame :
    run 40 [.sym "y"] = .error "Unbound symbol" ∧
    printed (run 40 progLetDefine) =
      some [some ⟨INT_TYPE, .int 0, .undef, .undef⟩, some ⟨INT_TYPE, .int 1, .undef, .undef⟩] := by
  decide!

/-- C7, amended: for a let with bindings of distinct symbols and a non-empty
body, `evalLet` creates one new child frame of the outer frame, evaluates
every binding expression in the outer frame and binds its value in the child,
then evaluates the body forms in sequence in the child and returns the value
of the last; the let's own steps (the new frame, its bindings) leave the
entries of all other frames, the outer one included, as the evaluation of the
binding expressions left them. -/
theorem evalLet_binds_in_child (ev : Nat → Nat → M Nat) (fuel : Nat) (st : State)
    (args frame p0 : Nat) (cs : List Nat) (bs : List (String × Nat)) (forms cells : List Nat)
    (hargs : isList (frozen cells st) args (p0 :: forms) = true)
    (hbind : isBindings (frozen cells st) p0 cs bs = true)
    (hnodup : (bs.map Prod.fst).Nodup)
    (hbody : forms ≠ [])
    (hfuel : bs.length + 2 < fuel ∧ forms.length + 1 < fuel)
    (hintact : letIntact ev frame cells bs forms st = true) :
    evalLet ev fuel args frame st = letSpec ev frame bs forms st ∧
    (∀ (s s' : State) (x : String) (v f : Nat), f ≠ st.frames.length →
      addBinding st.frames.length x v s = .ok () s' → s'.frames[f]? = s.frames[f]?) ∧
    (∀ (f : Nat) (fr : Frame), st.frames[f]? = some fr →
      (withChild st frame).frames[f]? = some fr) := by
  refine ⟨?_, ?_, ?_⟩
  · simp only [letIntact, Bool.and_eq_true] at hintact
    have hconv := bindChecked_nodup ev frame st.frames.length cells st bs []
      (withChild st frame) hnodup (by simp)
    obtain ⟨body, hbodyl, heq⟩ := evalLet_checked ev fuel st args frame p0 cs bs forms cells
      hargs hbind hbody hfuel (by rw [hconv.2]; exact hintact.1)
    rw [heq]
    simp only [bind_apply, hconv.1, letSpec, createFrame]
    rw [show (State.mk st.items (st.frames ++ [Frame.mk [] (some frame)])) = withChild st frame
      from rfl]
    cases hb : bindAll ev frame st.frames.length bs (withChild st frame) with
    | ok u stb =>
      simp only [hb] at hintact
      simp only [evalBody, makeNull, allocItem, bind_apply]
      exact evalBodyLoop_forms ev st.frames.length cells st forms body fuel _ _ hbodyl
        (agree_append (bindAll_agree ev frame st.frames.length cells st bs (withChild st frame)
          stb u (agree_items_eq (agree_refl cells st) rfl) hintact.1 hb) _ _)
        hintact.2 (by omega)
    | _ => rfl
  · intro s s' x v f hf hadd
    unfold addBinding at hadd
    split at hadd
    · cases hadd
      simp [List.getElem?_set_ne (Ne.symm hf)]
    · cases hadd
  · intro f fr hf
    exact getElem?_append_of_some _ _ f fr hf

/-- Witness of C7 (amended) on `(let ((x 1) (y 2)) x y)` with `eval` as the
evaluator: the let returns the value of y, the literal at 7, and frame 1, the
child of frame 0, binds y and x. -/
theorem evalLet_binds_in_child_witness :
    isList (frozen (List.range 21) exampleLet) 19 [13, 14, 15] = true ∧
    isBindings (frozen (List.range 21) exampleLet) 13 [13, 12] [("x", 2), ("y", 7)] = true ∧
    evalLet (eval 10) 10 19 0 exampleLet =
      .ok 7 ⟨exampleLet.items ++ [⟨NULL_TYPE, .undef, .undef, .undef⟩],
        [⟨[], none⟩, ⟨[("y", 7), ("x", 2)], some 0⟩]⟩ :=
  ⟨by decide, by decide,
   ((evalLet_binds_in_child (eval 10) 10 exampleLet 19 0 13 [13, 12] [("x", 2), ("y", 7)]
      [14, 15] (List.range 21) (by decide) (by decide) (by decide) (by decide) (by decide)
      (by decide)).1).trans (by decide)⟩

/-- C6, amended: for a let with a non-empty body whose bindings list repeats
a name, the first repetition being at the binding `(x e)` after the bindings
`pre` of distinct names, `evalLet` creates the child frame, evaluates and
binds the expressions of `pre` in order, and then fails with 'variable
duplicate'; `e` and the expressions after it are not evaluated. -/
theorem evalLet_duplicate (ev : Nat → Nat → M Nat) (fuel : Nat) (st : State)
    (args frame p0 : Nat) (cs : List Nat) (pre : List (String × Nat)) (x : String) (e : Nat)
    (post : List (String × Nat)) (forms cells : List Nat)
    (hargs : isList (frozen cells st) args (p0 :: forms) = true)
    (hbind : isBindings (frozen cells st) p0 cs (pre ++ (x, e) :: post) = true)
    (hpre : (pre.map Prod.fst).Nodup)
    (hx : x ∈ pre.map Prod.fst)
    (hbody : forms ≠ [])
    (hfuel : (pre ++ (x, e) :: post).length + 2 < fuel ∧ forms.length + 1 < fuel)
    (hintact : bindIntact ev frame st.frames.length cells st pre (withChild st frame) = true) :
    evalLet ev fuel args frame st =
      (do let letFrame ← createFrame (some frame)
          bindAll ev frame letFrame pre
          evaluationError "variable duplicate" : M Nat) st := by
  have hconv := bindChecked_duplicate ev frame st.frames.length cells st x e post pre []
    (withChild st frame) hpre (by simp) (by simpa using hx)
  obtain ⟨body, -, heq⟩ := evalLet_checked ev fuel st args frame p0 cs _ forms cells
    hargs hbind hbody hfuel (by rw [hconv.2]; exact hintact)
  rw [heq]
  simp only [bind_apply, hconv.1, createFrame]
  rw [show (State.mk st.items (st.frames ++ [Frame.mk [] (some frame)])) = withChild st frame
    from rfl]
  cases bindAll ev frame st.frames.length pre (withChild st frame) <;> rfl

/-- Witness of C6 (amended) on `(let ((x 1) (x 2)) x)` with `eval` as the
evaluator: the let fails with 'variable duplicate'. -/
theorem evalLet_duplicate_witness :
    isList (frozen (List.range 19) exampleLetDuplicate) 17 [13, 14] = true ∧
    isBindings (frozen (List.range 19) exampleLetDuplicate) 13 [13, 12]
      ([("x", 2)] ++ ("x", 7) :: []) = true ∧
    evalLet (eval 10) 10 17 0 exampleLetDuplicate = .error "variable duplicate" :=
  ⟨by decide, by decide,
   (evalLet_duplicate (eval 10) 10 exampleLetDuplicate 17 0 13 [13, 12] [("x", 2)] "x" 7 []
      [14] (List.range 19) (by decide) (by decide) (by decide) (by decide) (by decide)
      (by decide) (by decide)).trans (by decide)⟩

/-! Runs of whole programs (C3, C4, C5, C6, C10) -/

/-- C3 (the code departs from the claim): a closure whose parameter spec is a
bare symbol, applied to two arguments, fails with 'too many arguments'. -/
theorem variadic_two_arguments_rejected :
    run 40 progVariadic = .error "too many arguments" := by decide!

/-- C4 (the code departs from the claim): after `(define x (cons 1 2))` and
`(set! x (cons 3 4))`, `(cdr x)` is still 2: `set!` copied the head only. -/
theorem set_pair_keeps_old_tail :
    printed (run 40 progSetPair) = some [some ⟨INT_TYPE, .int 2, .undef, .undef⟩] := by
  decide!

/-- C5 (the code departs from the claim): after `(define x 5)`, `(define y x)`
and `(set! x "a")`, the variable y evaluates to the text "a". -/
theorem set_changes_alias :
    printed (run 40 progAlias) = some [some ⟨STR_TYPE, .str "a", .undef, .undef⟩] := by
  decide!

/-- C6, counterexample: in `(let ((x (car (quote ()))) (x 2)) x)` the first
binding expression is evaluated, and fails, before the duplicate is seen. -/
theorem let_duplicate_after_evaluation :
    run 40 progLetDuplicate = .error "car expects a list" := by decide!

/-- C10 (the code departs from the claim): a letrec binding whose expression
evaluates to a Boolean fails with 'type unknown'. -/
theorem letrec_boolean_rejected :
    run 40 progLetrecBoolean = .error "type unknown" := by decide!

/-! The loop of `evalLetStar` (C8) -/

theorem pushBinding_eq (frame : Nat) (x : String) (v : Nat) (st : State) :
    pushBinding frame x v st =
      .ok st.frames.length ⟨st.items, st.frames ++ [⟨[(x, v)], some frame⟩]⟩ := by
  simp [pushBinding, createFrame, addBinding, set_append_length]

/-- The loop of `evalLetStar` from the cell `cur` on, in the frame reached so
far: it is the nesting of single-binding lets over the abstract list. -/
theorem evalLetStarLoop_spec (ev : Nat → Nat → M Nat) (fuel body : Nat) (cells : List Nat)
    (st0 : State) (forms : List Nat)
    (hbody : isList (frozen cells st0) body forms = true) (hfuel : forms.length + 2 < fuel) :
    ∀ (bs : List (String × Nat)) (cs : List Nat) (cur k frame : Nat) (st : State),
      isBindings (frozen cells st0) cur cs bs = true →
      agree cells st0 st = true →
      nestedIntact ev cells st0 forms bs frame st = true →
      bs.length < k →
      evalLetStarLoop ev fuel body k cur frame st = nestedLets ev forms bs frame st := by
  intro bs
  induction bs with
  | nil =>
    intro cs cur k frame st hcur hst hin hk
    obtain ⟨k, rfl⟩ : ∃ j, k = j + 1 := ⟨k - 1, by omega⟩
    cases cs with
    | cons c cs => simp [isBindings] at hcur
    | nil =>
      obtain ⟨it, hp, ht⟩ := (isBindings_nil_iff _ cur).1 hcur
      simp only [nestedIntact] at hin
      simp only [evalLetStarLoop, nestedLets, bind_apply, isNull_ok (frozen_of_agree hst _ _ hp),
        ht, evalBody, makeNull, allocItem]
      simp only [ne_eq, reduceCtorEq, not_false_eq_true, decide_True, ↓reduceIte, bind_apply]
      exact evalBodyLoop_forms ev frame cells st0 forms body fuel _ _ hbody
        (agree_append hst _ _) hin (by omega)
  | cons b bs ih =>
    intro cs cur k frame st hcur hst hin hk
    obtain ⟨k, rfl⟩ : ∃ j, k = j + 1 := ⟨k - 1, by omega⟩
    obtain ⟨x, e⟩ := b
    cases cs with
    | nil => simp [isBindings] at hcur
    | cons c cs =>
      obtain ⟨hpc, it, bp, q, hp, ht, h0, h1, hbp, hq⟩ :=
        (isBindings_cons_iff _ cur c cs x e bs).1 hcur
      obtain ⟨ib, var, q1, hbp1, hbt, hb0, hb1, hsy, hq1⟩ := (isBindingPair_iff _ bp x e).1 hbp
      obtain ⟨iv, hv, hvt, hv0⟩ := (isSymbol_iff _ var x).1 hsy
      obtain ⟨iq, q2, hq1i, -, hq0, -, -⟩ := (isList_cons_iff _ q1 e []).1 hq1
      have hpair : isList (frozen cells st0) bp [var, e] = true :=
        (isList_cons_iff _ bp var [e]).2 ⟨ib, q1, hbp1, hbt, hb0, hb1, hq1⟩
      have hS := frozen_of_agree hst
      have hlenp : length fuel bp st = .ok 2 st := by
        have := lengthLoop_isList _ st hS [var, e] bp fuel 0 hpair (by simp; omega)
        simpa [length] using this
      simp only [nestedIntact] at hin
      cases hev : ev e frame st with
      | ok v st' =>
        simp only [hev, Bool.and_eq_true, pushBinding_eq] at hin
        have hS' := frozen_of_agree hin.1
        have hst'' : agree cells st0 ⟨st'.items, st'.frames ++ [⟨[(x, v)], some frame⟩]⟩ = true :=
          agree_items_eq hin.1 rfl
        have hS1 := frozen_of_agree (agree_items_eq hin.1 rfl :
          agree cells st0 ⟨st'.items, st'.frames ++ [⟨[], some frame⟩]⟩ = true)
        have hS'' := frozen_of_agree hst''
        have hrec := ih cs q k st'.frames.length _ hq hst'' hin.2 (by simp at hk; omega)
        simp [evalLetStarLoop, nestedLets, isNull_ok (hS _ _ hp), ht, car_ok (hS _ _ hp) h0,
          typeOf_ok (hS _ _ hbp1), hbt, hlenp, car_ok (hS _ _ hbp1) hb0, typeOf_ok (hS _ _ hv),
          hvt, cdr_ok (hS _ _ hbp1) hb1, car_ok (hS _ _ hq1i) hq0, hev, createFrame,
          getS_ok (hS1 _ _ hv) hv0, addBinding, set_append_length, cdr_ok (hS'' _ _ hp) h1,
          pushBinding_eq]
        exact hrec
      | _ =>
        simp [evalLetStarLoop, nestedLets, isNull_ok (hS _ _ hp), ht, car_ok (hS _ _ hp) h0,
          typeOf_ok (hS _ _ hbp1), hbt, hlenp, car_ok (hS _ _ hbp1) hb0, typeOf_ok (hS _ _ hv),
          hvt, cdr_ok (hS _ _ hbp1) hb1, car_ok (hS _ _ hq1i) hq0, hev]

/-- C8: for a let* with bindings (x1 e1) ... (xn en) and a body, `evalLetStar`
evaluates each ei in the frame chain that already binds x1 ... x(i-1), creates
a fresh nested frame for every binding and evaluates the body in the last one:
it gives the result and the frame nesting of n nested single-binding lets.
Names need not be distinct, and a binding in the fresh frame shadows whatever
the frames before it bind for the same name. -/
theorem evalLetStar_nested_lets (ev : Nat → Nat → M Nat) (fuel : Nat) (st : State)
    (args frame p0 : Nat) (cs : List Nat) (bs : List (String × Nat)) (forms cells : List Nat)
    (hargs : isList (frozen cells st) args (p0 :: forms) = true)
    (hbind : isBindings (frozen cells st) p0 cs bs = true)
    (hbody : forms ≠ [])
    (hfuel : bs.length + 2 < fuel ∧ forms.length + 2 < fuel)
    (hintact : nestedIntact ev cells st forms bs frame st = true) :
    evalLetStar ev fuel args frame st = nestedLets ev forms bs frame st ∧
    (∀ (s : State) (outer : Nat) (x : String) (v k : Nat),
      ∃ s', pushBinding outer x v s = .ok s.frames.length s' ∧
        s'.frames[s.frames.length]? = some ⟨[(x, v)], some outer⟩ ∧
        lookupSymbol (k + 1) x (some s.frames.length) s' = .ok v s') := by
  constructor
  · obtain ⟨ia, body, ha, hat, ha0, ha1, hbodyl⟩ := (isList_cons_iff _ args p0 forms).1 hargs
    have hS := frozen_of_agree (agree_refl cells st)
    have hlen : length fuel args st = .ok (forms.length + 1) st := by
      have := lengthLoop_isList _ st hS (p0 :: forms) args fuel 0 hargs (by simp; omega)
      simpa [length] using this
    have hforms : 0 < forms.length := List.length_pos.2 hbody
    have hlt : ¬ forms.length + 1 < 2 := by omega
    simp only [evalLetStar, bind_apply, hlen, hlt, ↓reduceIte, car_ok (hS _ _ ha) ha0,
      cdr_ok (hS _ _ ha) ha1, ite_run]
    exact evalLetStarLoop_spec ev fuel body cells st forms hbodyl hfuel.2 bs cs p0 fuel frame st
      hbind (agree_refl cells st) hintact (by omega)
  · intro s outer x v k
    refine ⟨_, pushBinding_eq outer x v s, by simp, ?_⟩
    simp [lookupSymbol, lookupBindings]

/-- Witness of C8 on `(let* ((x 1) (x 2)) x)` with `eval` as the evaluator:
the repeated name is accepted, each binding gets its own nested frame, and
the body sees the later binding (the literal 2 at address 7). -/
theorem evalLetStar_nested_lets_witness :
    isList (frozen (List.range 19) exampleLetStar) 17 [13, 14] = true ∧
    isBindings (frozen (List.range 19) exampleLetStar) 13 [13, 12] [("x", 2), ("x", 7)] = true ∧
    evalLetStar (eval 10) 10 17 0 exampleLetStar =
      .ok 7 ⟨exampleLetStar.items ++ [⟨NULL_TYPE, .undef, .undef, .undef⟩],
        [⟨[], none⟩, ⟨[("x", 2)], some 0⟩, ⟨[("x", 7)], some 1⟩]⟩ :=
  ⟨by decide, by decide,
   ((evalLetStar_nested_lets (eval 10) 10 exampleLetStar 17 0 13 [13, 12]
      [("x", 2), ("x", 7)] [14] (List.range 19) (by decide) (by decide) (by decide)
      (by decide) (by decide)).1).trans (by decide)⟩

/-- On a sample with a repeated name, `eval` gives the let* and the nested
lets built with `evalLet` the same printed value, Integer 5. -/
theorem let_star_and_nested_let_sample :
    printed (run 40 progLetStar) = some [some ⟨INT_TYPE, .int 5, .undef, .undef⟩] ∧
    printed (run 40 progNestedLet) = some [some ⟨INT_TYPE, .int 5, .undef, .undef⟩] := by
  decide!

/-! The letrec factorial (C9) -/

theorem factorial_le_12 (n : Nat) (h : (n.factorial : Int) ≤ INT_MAX) : n ≤ 12 := by
  by_contra hn
  have h13 : Nat.factorial 13 ≤ n.factorial := Nat.factorial_le (by omega)
  have : (Nat.factorial 13 : Int) ≤ INT_MAX := le_trans (by exact_mod_cast h13) h
  exact absurd this (by decide)

theorem factorial_run_0 : factorialReturns 0 = true := by decide!

theorem factorial_run_1 : factorialReturns 1 = true := by decide!

theorem factorial_run_2 : factorialReturns 2 = true := by decide!

theorem factorial_run_3 : factorialReturns 3 = true := by decide!

theorem factorial_run_4 : factorialReturns 4 = true := by decide!

theorem factorial_run_5 : factorialReturns 5 = true := by decide!

theorem factorial_run_6 : factorialReturns 6 = true := by decide!

theorem factorial_run_7 : factorialReturns 7 = true := by decide!

theorem factorial_run_8 : factorialReturns 8 = true := by decide!

theorem factorial_run_9 : factorialReturns 9 = true := by decide!

theorem factorial_run_10 : factorialReturns 10 = true := by decide!

theorem factorial_run_11 : factorialReturns 11 = true := by decide!

theorem factorial_run_12 : factorialReturns 12 = true := by decide!

theorem factorialReturns_all (n : Nat) (hn : n ≤ 12) : factorialReturns n = true := by
  have hcases : n = 0 ∨ n = 1 ∨ n = 2 ∨ n = 3 ∨ n = 4 ∨ n = 5 ∨ n = 6 ∨ n = 7 ∨ n = 8 ∨
      n = 9 ∨ n = 10 ∨ n = 11 ∨ n = 12 := by omega
  rcases hcases with h | h | h | h | h | h | h | h | h | h | h | h | h
  · rw [h]; exact factorial_run_0
  · rw [h]; exact factorial_run_1
  · rw [h]; exact factorial_run_2
  · rw [h]; exact factorial_run_3
  · rw [h]; exact factorial_run_4
  · rw [h]; exact factorial_run_5
  · rw [h]; exact factorial_run_6
  · rw [h]; exact factorial_run_7
  · rw [h]; exact factorial_run_8
  · rw [h]; exact factorial_run_9
  · rw [h]; exact factorial_run_10
  · rw [h]; exact factorial_run_11
  · rw [h]; exact factorial_run_12

/-- C9: for every n whose factorial fits the 32-bit `int`, the expression
`(letrec ((f (lambda (n) (if (= n 0) 1 (* n (f (- n 1))))))) (f n))` evaluated
in the initial global frame terminates (fuel 60 is enough) and returns an
Integer item holding n!. -/
theorem letrec_factorial (n : Nat) (h : (n.factorial : Int) ≤ INT_MAX) :
    resultItem (evalInGlobal 60 (factorialExpr n)) =
      some ⟨INT_TYPE, .int n.factorial, .undef, .undef⟩ := by
  have hrun := factorialReturns_all n (factorial_le_12 n h)
  unfold factorialReturns at hrun
  exact of_decide_eq_true hrun

/-- Witness of C9 at n = 5: the result is Integer 120. -/
theorem letrec_factorial_witness :
    ((Nat.factorial 5 : Nat) : Int) ≤ INT_MAX ∧ Nat.factorial 5 = 120 ∧
    resultItem (evalInGlobal 60 (factorialExpr (5 : Nat))) =
      some ⟨INT_TYPE, .int (Nat.factorial 5), .undef, .undef⟩ :=
  ⟨by decide, by decide, letrec_factorial 5 (by decide)⟩

/-! What the departures found above come from, for every heap -/

/-- For a closure whose parameter spec is a bare symbol, the loop of `apply`
is not entered (`isNull` holds of every item that is not a `cons` cell): with
at least one argument `apply` fails with 'too many arguments'. -/
theorem apply_symbol_params_rejected (ev : Nat → Nat → M Nat) (fuel : Nat) (st : State)
    (function args params body closureFrame : Nat) (name : String) (ia : Item)
    (hfun : st.items[function]? =
      some ⟨CLOSURE_TYPE, .ptr params, .ptr body, .env closureFrame⟩)
    (hparams : isSymbol st.view params name = true)
    (hargs : st.items[args]? = some ia) (hcons : ia.type = CONS_TYPE) (hfuel : 0 < fuel) :
    apply ev fuel function args st = .error "too many arguments" := by
  obtain ⟨ip, hp, hpt, -⟩ := (isSymbol_iff _ params name).1 hparams
  obtain ⟨k, rfl⟩ : ∃ k, fuel = k + 1 := ⟨fuel - 1, by omega⟩
  have hp' : (State.mk st.items (st.frames ++ [Frame.mk [] (some closureFrame)])).items[params]?
      = some ip := hp
  have ha' : (State.mk st.items (st.frames ++ [Frame.mk [] (some closureFrame)])).items[args]?
      = some ia := hargs
  simp [apply, typeOf_ok hfun, getClFrame, readItem_ok hfun, createFrame, getParamNames,
    @car_ok ⟨st.items, st.frames ++ [⟨[], some closureFrame⟩]⟩ _ _ _ hfun rfl, applyLoop,
    isNull_ok hp', hpt, isNull_ok ha', hcons]

theorem lt_of_getElem?_some {α : Type} {xs : List α} {a : Nat} {x : α}
    (h : xs[a]? = some x) : a < xs.length := by
  by_contra hge
  rw [List.getElem?_eq_none (by omega)] at h
  exact absurd h (by simp)

theorem setType_ok {st : State} {p : Nat} {b : Item} (t : itemType)
    (hb : st.items[p]? = some b) :
    setType p t st = .ok () ⟨st.items.set p { b with type := t }, st.frames⟩ := by
  simp only [setType, bind_apply, readItem_ok hb, writeItem, lt_of_getElem?_some hb, ↓reduceIte]

theorem setU0_ok {st : State} {p : Nat} {b : Item} (w : Word)
    (hb : st.items[p]? = some b) :
    setU0 p w st = .ok () ⟨st.items.set p { b with u0 := w }, st.frames⟩ := by
  simp only [setU0, bind_apply, readItem_ok hb, writeItem, lt_of_getElem?_some hb, ↓reduceIte]

/-- The two assignments of `evalSet` leave the second and third payload word
of the overwritten item as they were. -/
theorem evalSet_copies_first_word (st : State) (binding value : Nat) (b v : Item)
    (hb : st.items[binding]? = some b) (hv : st.items[value]? = some v) :
    (do setType binding (← typeOf value)
        setU0 binding (← readItem value).u0 : M Unit) st =
      .ok () ⟨st.items.set binding ⟨v.type, v.u0, b.u1, b.u2⟩, st.frames⟩ := by
  have hlt := lt_of_getElem?_some hb
  have hb1 : (State.mk (st.items.set binding { b with type := v.type }) st.frames).items[binding]?
      = some { b with type := v.type } := by simp [hlt]
  by_cases hbv : value = binding
  · subst hbv
    rw [hb] at hv
    cases hv
    simp only [bind_apply, typeOf_ok hb, setType_ok _ hb, readItem_ok hb1, setU0_ok _ hb1,
      List.set_set]
  · have hv1 : (State.mk (st.items.set binding { b with type := v.type }) st.frames).items[value]?
        = some v := by
      simp only [List.getElem?_set_ne (Ne.symm hbv)]; exact hv
    simp only [bind_apply, typeOf_ok hv, setType_ok _ hb, readItem_ok hv1, setU0_ok _ hb1,
      List.set_set]

/-- The copy `switch` of `evalLetRec` has no case for `BOOL_TYPE`. -/
theorem evalLetRecPatch_boolean (st : State) (binding value : Nat) (b v : Item)
    (hb : st.items[binding]? = some b) (hv : st.items[value]? = some v)
    (hbool : v.type = BOOL_TYPE) :
    evalLetRecPatch binding value st = .error "type unknown" := by
  simp only [evalLetRecPatch, bind_apply, typeOf_ok hv, hbool, setType_ok _ hb,
    evaluationError_apply]

theorem isList_three {h : Nat → Option Item} {p t a b : Nat}
    (hl : isList h p [t, a, b] = true) :
    ∃ i1 i2 i3 q1 q2 q3, h p = some i1 ∧ i1.u0 = .ptr t ∧ i1.u1 = .ptr q1 ∧
      h q1 = some i2 ∧ i2.u0 = .ptr a ∧ i2.u1 = .ptr q2 ∧
      h q2 = some i3 ∧ i3.u0 = .ptr b ∧ i3.u1 = .ptr q3 := by
  obtain ⟨i1, q1, h1, -, h10, h11, hq1⟩ := (isList_cons_iff h p t [a, b]).1 hl
  obtain ⟨i2, q2, h2, -, h20, h21, hq2⟩ := (isList_cons_iff h q1 a [b]).1 hq1
  obtain ⟨i3, q3, h3, -, h30, h31, -⟩ := (isList_cons_iff h q2 b []).1 hq2
  exact ⟨i1, i2, i3, q1, q2, q3, h1, h10, h11, h2, h20, h21, h3, h30, h31⟩

theorem length_isList {cells : List Nat} {st0 st : State} (hst : agree cells st0 st = true)
    {p : Nat} {xs : List Nat} (hl : isList (frozen cells st0) p xs = true) {fuel : Nat}
    (hf : xs.length < fuel) : length fuel p st = .ok xs.length st := by
  have := lengthLoop_isList _ st (frozen_of_agree hst) xs p fuel 0 hl hf
  simpa [length] using this

/-- C17: `evalIf` fails unless its argument list has exactly 3 elements and
the test evaluates to a Boolean; when the test is true the outcome is that of
evaluating the second argument from the state the test left (the third is
not evaluated), when it is false that of evaluating the third (the second is
not evaluated). -/
theorem evalIf_branches (ev : Nat → Nat → M Nat) (fuel : Nat) (st : State)
    (args frame : Nat) (xs cells : List Nat)
    (hargs : isList (frozen cells st) args xs = true) (hfuel : xs.length < fuel) :
    (xs.length ≠ 3 → evalIf ev fuel args frame st = .error "if expects exactly 3 arguments") ∧
    (∀ t a b, xs = [t, a, b] →
      (∀ r, ev t frame st = r → (∀ v s, r ≠ .ok v s) → evalIf ev fuel args frame st = r) ∧
      (∀ test st' it, ev t frame st = .ok test st' → agree cells st st' = true →
        st'.items[test]? = some it →
        (it.type ≠ BOOL_TYPE → evalIf ev fuel args frame st =
          .error "if expects a boolean as the first argument") ∧
        (∀ i, it.type = BOOL_TYPE → it.u0 = .int i →
          (i ≠ 0 → evalIf ev fuel args frame st = ev a frame st') ∧
          (i = 0 → evalIf ev fuel args frame st = ev b frame st')))) := by
  have hS := frozen_of_agree (agree_refl cells st)
  have hlen := length_isList (agree_refl cells st) hargs hfuel
  refine ⟨fun h3 => by simp [evalIf, hlen, h3], ?_⟩
  intro t a b hxs
  subst hxs
  obtain ⟨i1, i2, i3, q1, q2, q3, h1, h10, h11, h2, h20, h21, h3, h30, -⟩ := isList_three hargs
  have hhead : evalIf ev fuel args frame st =
      (do let test ← ev t frame
          if (← typeOf test) ≠ BOOL_TYPE then
            evaluationError "if expects a boolean as the first argument"
          else if (← getI test) ≠ 0 then ev (← car (← cdr args)) frame
          else ev (← car (← cdr (← cdr args))) frame : M Nat) st := by
    simp [evalIf, hlen, car_ok (hS _ _ h1) h10]
  rw [hhead]
  constructor
  · intro r hr hnot
    simp only [bind_apply, hr]
    cases r with
    | ok v s => exact absurd rfl (hnot v s)
    | _ => rfl
  · intro test st' it hev hag hit
    have hS' := frozen_of_agree hag
    refine ⟨fun hnb => by simp [hev, typeOf_ok hit, hnb], ?_⟩
    intro i hb hi
    have hgi : getI test st' = .ok i st' := by
      simp only [getI, bind_apply, readItem_ok hit, hi]; rfl
    constructor
    · intro hne
      simp [hev, typeOf_ok hit, hb, hgi, hne, cdr_ok (hS' _ _ h1) h11, car_ok (hS' _ _ h2) h20]
    · intro he
      simp [hev, typeOf_ok hit, hb, hgi, he, cdr_ok (hS' _ _ h1) h11, cdr_ok (hS' _ _ h2) h21,
        car_ok (hS' _ _ h3) h30]

/-- Witness of C17 on `(if #t 10 20)` with `eval` as the evaluator: the result
is the second argument, the literal at 2. -/
theorem evalIf_branches_witness :
    isList (frozen (List.range 9) exampleIf) 7 [1, 2, 3] = true ∧
    evalIf (eval 5) 5 7 0 exampleIf = .ok 2 exampleIf :=
  ⟨by decide,
   (((((evalIf_branches (eval 5) 5 exampleIf 7 0 [1, 2, 3] (List.range 9) (by decide)
      (by decide)).2 1 2 3 rfl).2 1 exampleIf ⟨BOOL_TYPE, .int 1, .undef, .undef⟩ (by decide)
      (by decide) (by decide)).2 1 rfl rfl).1 (by decide)).trans (by decide)⟩

theorem boolValue_state (r : Nat) (st st' : State) (b : Bool)
    (h : boolValue r st = .ok b st') : st' = st := by
  unfold boolValue at h
  simp only [bind_apply, typeOf, readItem] at h
  cases hr : st.items[r]? with
  | none => simp [hr] at h
  | some it =>
    simp only [hr, pure_apply, ite_run, evaluationError_apply] at h
    split at h
    · cases h
    · simp only [getI, bind_apply, readItem, hr] at h
      cases hu : it.u0 <;> simp [hu] at h
      exact h.2.symm

/-- The two tests of an operand in the loop of `evalAnd` are one reading of
its truth value. -/
theorem boolValue_bind {α : Type} (r : Nat) (f g : M α) (st : State) :
    (do if (← typeOf r) ≠ BOOL_TYPE then evaluationError "boolean arguments expected"
        else if (← getI r) = 0 then f else g : M α) st =
    (do if (← boolValue r) then g else f : M α) st := by
  simp only [boolValue, bind_apply, typeOf, getI]
  cases hr : st.items[r]? with
  | none => simp [readItem, hr]
  | some it =>
    by_cases ht : it.type = BOOL_TYPE
    · cases hu : it.u0 <;> simp [readItem, hr, ht, hu]
    · simp [readItem, hr, ht]

/-- The two tests of an operand in the loop of `evalOr` are one reading of
its truth value. -/
theorem boolValue_bind_ne {α : Type} (r : Nat) (f g : M α) (st : State) :
    (do if (← typeOf r) ≠ BOOL_TYPE then evaluationError "boolean arguments expected"
        else if (← getI r) ≠ 0 then g else f : M α) st =
    (do if (← boolValue r) then g else f : M α) st := by
  simp only [boolValue, bind_apply, typeOf, getI]
  cases hr : st.items[r]? with
  | none => simp [readItem, hr]
  | some it =>
    by_cases ht : it.type = BOOL_TYPE
    · cases hu : it.u0 <;> simp [readItem, hr, ht, hu]
    · simp [readItem, hr, ht]

/-- The loop of `evalAnd` is `andSpec` over the list of the operands. -/
theorem evalAnd_spec (ev : Nat → Nat → M Nat) (frame : Nat) (cells : List Nat) (st0 : State) :
    ∀ (xs : List Nat) (args k : Nat) (st : State),
      isList (frozen cells st0) args xs = true → agree cells st0 st = true →
      operandsIntact ev frame cells st0 false xs st = true → xs.length < k →
      evalAnd ev frame k args st = andSpec ev frame xs st := by
  intro xs
  induction xs with
  | nil =>
    intro args k st hl hst _ hk
    obtain ⟨it, hp, ht⟩ := (isList_nil_iff _ args).1 hl
    obtain ⟨k, rfl⟩ : ∃ j, k = j + 1 := ⟨k - 1, by simp at hk; omega⟩
    simp [evalAnd, andSpec, isNull_ok (frozen_of_agree hst _ _ hp), ht]
  | cons e es ih =>
    intro args k st hl hst hin hk
    obtain ⟨it, q, hp, ht, h0, h1, hq⟩ := (isList_cons_iff _ args e es).1 hl
    obtain ⟨k, rfl⟩ : ∃ j, k = j + 1 := ⟨k - 1, by simp at hk; omega⟩
    have hS := frozen_of_agree hst
    simp only [operandsIntact] at hin
    have hhead : evalAnd ev frame (k + 1) args st =
        (do let result ← ev e frame
            if (← typeOf result) ≠ BOOL_TYPE then evaluationError "boolean arguments expected"
            else if (← getI result) = 0 then pure result
            else evalAnd ev frame k (← cdr args) : M Nat) st := by
      simp [evalAnd, isNull_ok (hS _ _ hp), ht, car_ok (hS _ _ hp) h0]
    rw [hhead]
    simp only [andSpec]
    rw [bind_apply, bind_apply]
    cases hev : ev e frame st with
    | ok r st' =>
      simp only [hev] at hin ⊢
      rw [boolValue_bind r (pure r) (do evalAnd ev frame k (← cdr args)) st']
      rw [bind_apply, bind_apply]
      cases hbv : boolValue r st' with
      | ok b s2 =>
        have hs2 := boolValue_state r st' s2 b hbv
        subst hs2
        simp only [hbv] at hin ⊢
        cases b with
        | false => simp
        | true =>
          simp only [Bool.true_eq_false, ↓reduceIte, Bool.and_eq_true] at hin
          simp only [↓reduceIte, bind_apply]
          rw [cdr_ok (frozen_of_agree hin.1 _ _ hp) h1]
          exact ih q k s2 hq hin.1 hin.2 (by simp at hk; omega)
      | _ => rfl
    | _ => rfl

/-- The loop of `evalOr` is `orSpec` over the list of the operands. -/
theorem evalOr_spec (ev : Nat → Nat → M Nat) (frame : Nat) (cells : List Nat) (st0 : State) :
    ∀ (xs : List Nat) (args k : Nat) (st : State),
      isList (frozen cells st0) args xs = true → agree cells st0 st = true →
      operandsIntact ev frame cells st0 true xs st = true → xs.length < k →
      evalOr ev frame k args st = orSpec ev frame xs st := by
  intro xs
  induction xs with
  | nil =>
    intro args k st hl hst _ hk
    obtain ⟨it, hp, ht⟩ := (isList_nil_iff _ args).1 hl
    obtain ⟨k, rfl⟩ : ∃ j, k = j + 1 := ⟨k - 1, by simp at hk; omega⟩
    simp [evalOr, orSpec, isNull_ok (frozen_of_agree hst _ _ hp), ht]
  | cons e es ih =>
    intro args k st hl hst hin hk
    obtain ⟨it, q, hp, ht, h0, h1, hq⟩ := (isList_cons_iff _ args e es).1 hl
    obtain ⟨k, rfl⟩ : ∃ j, k = j + 1 := ⟨k - 1, by simp at hk; omega⟩
    have hS := frozen_of_agree hst
    simp only [operandsIntact] at hin
    have hhead : evalOr ev frame (k + 1) args st =
        (do let result ← ev e frame
            if (← typeOf result) ≠ BOOL_TYPE then evaluationError "boolean arguments expected"
            else if (← getI result) ≠ 0 then pure result
            else evalOr ev frame k (← cdr args) : M Nat) st := by
      simp [evalOr, isNull_ok (hS _ _ hp), ht, car_ok (hS _ _ hp) h0]
    rw [hhead]
    simp only [orSpec]
    rw [bind_apply, bind_apply]
    cases hev : ev e frame st with
    | ok r st' =>
      simp only [hev] at hin ⊢
      rw [boolValue_bind_ne r (do evalOr ev frame k (← cdr args)) (pure r) st']
      rw [bind_apply, bind_apply]
      cases hbv : boolValue r st' with
      | ok b s2 =>
        have hs2 := boolValue_state r st' s2 b hbv
        subst hs2
        simp only [hbv] at hin ⊢
        cases b with
        | true => simp
        | false =>
          simp only [Bool.false_eq_true, ↓reduceIte, Bool.and_eq_true] at hin
          simp only [Bool.false_eq_true, ↓reduceIte, bind_apply]
          rw [cdr_ok (frozen_of_agree hin.1 _ _ hp) h1]
          exact ih q k s2 hq hin.1 hin.2 (by simp at hk; omega)
      | _ => rfl
    | _ => rfl

/-- C18: over an operand list `xs` at `args`, `evalAnd` is `andSpec` and
`evalOr` is `orSpec`: the operands are evaluated left to right in `frame`; an
operand whose value is not a Boolean item fails with "boolean arguments
expected"; `and` returns the first false value and `or` the first true value
without evaluating the operands after it; without such a value, and so with
no operand at all, `and` returns a new true and `or` a new false. -/
theorem evalAnd_evalOr_operands (ev : Nat → Nat → M Nat) (fuel : Nat) (st : State)
    (args frame : Nat) (xs cells : List Nat)
    (hargs : isList (frozen cells st) args xs = true) (hfuel : xs.length < fuel) :
    (operandsIntact ev frame cells st false xs st = true →
      evalAnd ev frame fuel args st = andSpec ev frame xs st) ∧
    (operandsIntact ev frame cells st true xs st = true →
      evalOr ev frame fuel args st = orSpec ev frame xs st) ∧
    (∀ r s it, s.items[r]? = some it → it.type ≠ BOOL_TYPE →
      boolValue r s = .error "boolean arguments expected") ∧
    (∀ r s it i, s.items[r]? = some it → it.type = BOOL_TYPE → it.u0 = .int i →
      boolValue r s = .ok (decide (i ≠ 0)) s) ∧
    (xs = [] → evalAnd ev frame fuel args st = newBool true st ∧
      evalOr ev frame fuel args st = newBool false st) := by
  refine ⟨fun h => evalAnd_spec ev frame cells st xs args fuel st hargs (agree_refl _ _) h hfuel,
    fun h => evalOr_spec ev frame cells st xs args fuel st hargs (agree_refl _ _) h hfuel,
    ?_, ?_, ?_⟩
  · intro r s it hr ht
    simp [boolValue, typeOf_ok hr, ht]
  · intro r s it i hr ht hu
    simp [boolValue, typeOf_ok hr, ht, getI, readItem, hr, hu]
  · rintro rfl
    exact ⟨evalAnd_spec ev frame cells st [] args fuel st hargs (agree_refl _ _) rfl hfuel,
      evalOr_spec ev frame cells st [] args fuel st hargs (agree_refl _ _) rfl hfuel⟩

theorem evalAnd_evalOr_operands_witness :
    isList (frozen (List.range 9) exampleAnd) 7 [1, 2, 3] = true ∧
    evalAnd (eval 5) 0 5 7 exampleAnd = .ok 2 exampleAnd ∧
    evalOr (eval 5) 0 5 7 exampleAnd = .ok 1 exampleAnd :=
  ⟨by decide,
   ((evalAnd_evalOr_operands (eval 5) 5 exampleAnd 7 0 [1, 2, 3] (List.range 9)
      (by decide) (by decide)).1 (by decide)).trans (by decide),
   ((evalAnd_evalOr_operands (eval 5) 5 exampleAnd 7 0 [1, 2, 3] (List.range 9)
      (by decide) (by decide)).2.1 (by decide)).trans (by decide)⟩

theorem isClauses_cons_iff (h : Nat → Option Item) (p : Nat) (c : Nat × List Nat)
    (rest : List (Nat × List Nat)) :
    isClauses h p (c :: rest) = true ↔
      ∃ it cl q, h p = some it ∧ it.type = CONS_TYPE ∧ it.u0 = .ptr cl ∧ it.u1 = .ptr q ∧
        isList h cl (c.1 :: c.2) = true ∧ isClauses h q rest = true := by
  rw [isClauses]
  cases h p with
  | none => simp
  | some it =>
    cases h0 : it.u0 <;> cases h1 : it.u1 <;> simp [h0, h1]

theorem isElse_state (t : Nat) (st st' : State) (b : Bool)
    (h : isElse t st = .ok b st') : st' = st := by
  unfold isElse at h
  simp only [bind_apply, typeOf, getS] at h
  cases hr : st.items[t]? with
  | none => simp [readItem, hr] at h
  | some it =>
    by_cases ht : it.type = SYMBOL_TYPE
    · cases hu : it.u0 <;> simp [readItem, hr, ht, hu] at h
      exact h.2.symm
    · simp [readItem, hr, ht] at h
      exact h.2.symm

theorem isTrueBool_state (t : Nat) (st st' : State) (b : Bool)
    (h : isTrueBool t st = .ok b st') : st' = st := by
  unfold isTrueBool at h
  simp only [bind_apply, typeOf, getI] at h
  cases hr : st.items[t]? with
  | none => simp [readItem, hr] at h
  | some it =>
    by_cases ht : it.type = BOOL_TYPE
    · cases hu : it.u0 <;> simp [readItem, hr, ht, hu] at h
      exact h.2.symm
    · simp [readItem, hr, ht] at h
      exact h.2.symm

/-- The function `evalBody` on a list of forms is `clauseBody`. -/
theorem evalBody_clauseBody (ev : Nat → Nat → M Nat) (frame : Nat) (cells : List Nat)
    (st0 : State) (forms : List Nat) (body fuel : Nat) (st : State)
    (hl : isList (frozen cells st0) body forms = true) (hst : agree cells st0 st = true)
    (hin : bodyIntact ev frame cells st0 forms st = true) (hf : forms.length < fuel) :
    evalBody ev fuel body frame st = clauseBody ev frame forms st := by
  simp only [evalBody, clauseBody, bind_apply]
  simp only [bodyIntact] at hin
  cases hm : makeNull st with
  | ok r st' =>
    simp only [hm] at hin ⊢
    refine evalBodyLoop_forms ev frame cells st0 forms body fuel r st' hl ?_ hin hf
    simp only [makeNull, newTagged, allocItem, Res.ok.injEq] at hm
    obtain ⟨_, rfl⟩ := hm
    exact agree_append hst _ _
  | _ => rfl

theorem isElse_ok_state {t : Nat} {st : State} :
    (∃ b, isElse t st = .ok b st) ∨ isElse t st = .undefined := by
  simp only [isElse, bind_apply, typeOf, getS]
  cases hr : st.items[t]? with
  | none => simp [readItem, hr]
  | some it =>
    by_cases ht : it.type = SYMBOL_TYPE
    · cases hu : it.u0 <;> simp [readItem, hr, ht, hu]
    · simp [readItem, hr, ht]

theorem isTrueBool_ok_state {t : Nat} {st : State} :
    (∃ b, isTrueBool t st = .ok b st) ∨ isTrueBool t st = .undefined := by
  simp only [isTrueBool, bind_apply, typeOf, getI]
  cases hr : st.items[t]? with
  | none => simp [readItem, hr]
  | some it =>
    by_cases ht : it.type = BOOL_TYPE
    · cases hu : it.u0 <;> simp [readItem, hr, ht, hu]
      exact Decidable.em _
    · simp [readItem, hr, ht]

/-- The loop of `evalCond` is `condSpec` over the list of the clauses. -/
theorem evalCond_spec (ev : Nat → Nat → M Nat) (fuel frame : Nat) (cells : List Nat)
    (st0 : State) :
    ∀ (cls : List (Nat × List Nat)) (args k : Nat) (st : State),
      isClauses (frozen cells st0) args cls = true → agree cells st0 st = true →
      condIntact ev frame cells st0 cls st = true → cls.length < k →
      (∀ c ∈ cls, c.2.length + 1 < fuel) →
      evalCond ev fuel frame k args st = condSpec ev frame cls st := by
  intro cls
  induction cls with
  | nil =>
    intro args k st hl hst _ hk _
    obtain ⟨it, hp, ht⟩ := (isList_nil_iff _ args).1 (by simpa [isClauses] using hl)
    obtain ⟨k, rfl⟩ : ∃ j, k = j + 1 := ⟨k - 1, by simp at hk; omega⟩
    simp [evalCond, condSpec, isNull_ok (frozen_of_agree hst _ _ hp), ht]
  | cons c rest ih =>
    intro args k st hl hst hin hk hfuel
    obtain ⟨it, cl, q, hp, ht, h0, h1, hcl, hq⟩ := (isClauses_cons_iff _ args c rest).1 hl
    obtain ⟨ic, qc, hpc, htc, h0c, h1c, hqc⟩ := (isList_cons_iff _ cl c.1 c.2).1 hcl
    obtain ⟨k, rfl⟩ : ∃ j, k = j + 1 := ⟨k - 1, by simp at hk; omega⟩
    have hS := frozen_of_agree hst
    have hlen := length_isList hst hcl (hfuel c (List.mem_cons_self _ _))
    simp only [condIntact] at hin
    have hhead : evalCond ev fuel frame (k + 1) args st =
        (do if (← isElse c.1) then evalBody ev fuel (← cdr cl) frame
            else do
              let result ← ev c.1 frame
              if (← isTrueBool result) then evalBody ev fuel (← cdr cl) frame
              else evalCond ev fuel frame k (← cdr args) : M Nat) st := by
      simp [evalCond, isNull_ok (hS _ _ hp), ht, car_ok (hS _ _ hp) h0,
        typeOf_ok (hS _ _ hpc), htc, hlen, car_ok (hS _ _ hpc) h0c]
    rw [hhead]
    simp only [condSpec]
    rw [bind_apply, bind_apply]
    rcases @isElse_ok_state c.1 st with ⟨b, hb⟩ | hb
    · simp only [hb] at hin ⊢
      cases b with
      | true =>
        simp only [↓reduceIte, bind_apply, cdr_ok (hS _ _ hpc) h1c]
        exact evalBody_clauseBody ev frame cells st0 c.2 qc fuel st hqc hst hin
          (by have := hfuel c (List.mem_cons_self _ _); omega)
      | false =>
        simp only [Bool.false_eq_true, ↓reduceIte, bind_apply]
        cases hev : ev c.1 frame st with
        | ok r st' =>
          simp only [hev, Bool.and_eq_true] at hin ⊢
          have hS2 := frozen_of_agree hin.1
          rcases @isTrueBool_ok_state r st' with ⟨b2, hb2⟩ | hb2
          · simp only [hb2] at hin ⊢
            cases b2 with
            | true =>
              simp only [↓reduceIte, bind_apply, cdr_ok (hS2 _ _ hpc) h1c]
              exact evalBody_clauseBody ev frame cells st0 c.2 qc fuel st' hqc hin.1 hin.2
                (by have := hfuel c (List.mem_cons_self _ _); omega)
            | false =>
              simp only [Bool.false_eq_true, ↓reduceIte, bind_apply, cdr_ok (hS2 _ _ hp) h1]
              exact ih q k st' hq hin.1 hin.2 (by simp at hk; omega)
                (fun c' hc' => hfuel c' (List.mem_cons_of_mem _ hc'))
          · simp [hb2]
        | _ => rfl
    · simp [hb]

theorem evalForms_frames (ev : Nat → Nat → M Nat) (frame : Nat)
    (hev : ∀ e s v s', ev e frame s = .ok v s' → s'.frames = s.frames) :
    ∀ (forms : List Nat) (result : Nat) (st : State) (a : Nat) (st' : State),
      evalForms ev frame forms result st = .ok a st' → st'.frames = st.frames := by
  intro forms
  induction forms with
  | nil =>
    intro result st a st' h
    simp only [evalForms, pure_apply, Res.ok.injEq] at h
    rw [← h.2]
  | cons form rest ih =>
    intro result st a st' h
    simp only [evalForms, bind_apply] at h
    cases h1 : ev form frame st with
    | ok r s1 =>
      simp only [h1] at h
      rw [ih r s1 a st' h, hev _ _ _ _ h1]
    | error m => simp [h1] at h
    | undefined => simp [h1] at h
    | timeout => simp [h1] at h

theorem condSpec_frames (ev : Nat → Nat → M Nat) (frame : Nat)
    (hev : ∀ e s v s', ev e frame s = .ok v s' → s'.frames = s.frames) :
    ∀ (cls : List (Nat × List Nat)) (st : State) (a : Nat) (st' : State),
      condSpec ev frame cls st = .ok a st' → st'.frames = st.frames := by
  have hbody : ∀ (forms : List Nat) (st : State) (a : Nat) (st' : State),
      clauseBody ev frame forms st = .ok a st' → st'.frames = st.frames := by
    intro forms st a st' h
    simp only [clauseBody, bind_apply, makeNull, allocItem] at h
    have hfr := evalForms_frames ev frame hev forms _ _ a st' h
    exact hfr
  intro cls
  induction cls with
  | nil =>
    intro st a st' h
    simp only [condSpec, newTagged, allocItem, Res.ok.injEq] at h
    rw [← h.2]
  | cons c rest ih =>
    intro st a st' h
    simp only [condSpec] at h
    rw [bind_apply] at h
    rcases @isElse_ok_state c.1 st with ⟨b, hb⟩ | hb
    · simp only [hb] at h
      cases b with
      | true => exact hbody _ _ _ _ h
      | false =>
        simp only [Bool.false_eq_true, ↓reduceIte, bind_apply] at h
        cases h1 : ev c.1 frame st with
        | ok r s1 =>
          simp only [h1] at h
          rcases @isTrueBool_ok_state r s1 with ⟨b2, hb2⟩ | hb2
          · simp only [hb2] at h
            cases b2 with
            | true => rw [hbody _ _ _ _ h, hev _ _ _ _ h1]
            | false => rw [ih _ _ _ h, hev _ _ _ _ h1]
          · simp [hb2] at h
        | error m => simp [h1] at h
        | undefined => simp [h1] at h
        | timeout => simp [h1] at h
    · simp [hb] at h

/-- C16: over a list of clauses `cls` at `args`, each a non-empty list,
`evalCond` is `condSpec`: the clauses are tried in order; the first one whose
head is the symbol `else` or whose test evaluates to a true Boolean has its
body forms evaluated in sequence in `frame` and gives the value of the last
one, and no test or body of a later clause is evaluated; when no clause
matches, and for no clause at all, the result is a new Void. The form itself
creates no frame: when the evaluator leaves the frames as they are, so does
`evalCond`. -/
theorem evalCond_first_matching_clause (ev : Nat → Nat → M Nat) (fuel : Nat) (st : State)
    (args frame : Nat) (cls : List (Nat × List Nat)) (cells : List Nat)
    (hargs : isClauses (frozen cells st) args cls = true)
    (hintact : condIntact ev frame cells st cls st = true)
    (hk : cls.length < fuel) (hfuel : ∀ c ∈ cls, c.2.length + 1 < fuel) :
    evalCond ev fuel frame fuel args st = condSpec ev frame cls st ∧
    (cls = [] → evalCond ev fuel frame fuel args st = newTagged VOID_TYPE st) ∧
    (∀ t s it x, s.items[t]? = some it → it.type = SYMBOL_TYPE → it.u0 = .str x →
      isElse t s = .ok (decide (x = "else")) s) ∧
    (∀ t s it, s.items[t]? = some it → it.type ≠ SYMBOL_TYPE → isElse t s = .ok false s) ∧
    (∀ r s it i, s.items[r]? = some it → it.type = BOOL_TYPE → it.u0 = .int i →
      isTrueBool r s = .ok (decide (i ≠ 0)) s) ∧
    ((∀ e s v s', ev e frame s = .ok v s' → s'.frames = s.frames) →
      ∀ a st', evalCond ev fuel frame fuel args st = .ok a st' → st'.frames = st.frames) := by
  have hmain := evalCond_spec ev fuel frame cells st cls args fuel st hargs (agree_refl _ _)
    hintact hk hfuel
  refine ⟨hmain, ?_, ?_, ?_, ?_, ?_⟩
  · rintro rfl
    rw [hmain]
    rfl
  · intro t s it x hr ht hu
    simp [isElse, typeOf_ok hr, ht, getS_ok hr hu]
  · intro t s it hr ht
    simp [isElse, typeOf_ok hr, ht]
  · intro r s it i hr ht hu
    simp [isTrueBool, typeOf_ok hr, ht, getI, readItem, hr, hu]
  · intro hev a st' h
    rw [hmain] at h
    exact condSpec_frames ev frame hev cls st a st' h

theorem evalCond_first_matching_clause_witness :
    isClauses (frozen (List.range 17) exampleCond) 15
      [(1, [2]), (6, [7, 8])] = true ∧
    evalCond (eval 5) 5 0 5 15 exampleCond =
      .ok 8 ⟨exampleCond.items ++ [⟨NULL_TYPE, .undef, .undef, .undef⟩], exampleCond.frames⟩ :=
  ⟨by decide,
   ((evalCond_first_matching_clause (eval 5) 5 exampleCond 15 0
      [(1, [2]), (6, [7, 8])] (List.range 17)
      (by decide) (by decide) (by decide) (by decide)).1).trans (by decide)⟩

/-- C15, counterexample: in `(cond (1 10) (else 20))` the test of the first
clause evaluates to the Integer 1, not a Boolean; the form does not fail, it
goes on to the else clause and returns 20. -/
theorem cond_non_boolean_test_no_error :
    printed (run 40 progCondNonBoolean) = some [some ⟨INT_TYPE, .int 20, .undef, .undef⟩] := by
  decide!

/-- C15, amended: a clause whose test, not the symbol `else`, evaluates to
an item that is not a Boolean is passed over like a clause whose test is
false: `evalCond` raises no error for it and goes on, from the state the test
left, with the clauses after it (to a new Void when there is none). -/
theorem evalCond_non_boolean_test (ev : Nat → Nat → M Nat) (fuel : Nat) (st : State)
    (args frame : Nat) (c : Nat × List Nat) (rest : List (Nat × List Nat)) (cells : List Nat)
    (r : Nat) (st' : State) (it : Item)
    (hargs : isClauses (frozen cells st) args (c :: rest) = true)
    (hintact : condIntact ev frame cells st (c :: rest) st = true)
    (hk : rest.length + 1 < fuel) (hfuel : ∀ c' ∈ c :: rest, c'.2.length + 1 < fuel)
    (helse : isElse c.1 st = .ok false st)
    (hev : ev c.1 frame st = .ok r st') (hr : st'.items[r]? = some it)
    (ht : it.type ≠ BOOL_TYPE) :
    evalCond ev fuel frame fuel args st = condSpec ev frame rest st' ∧
    (rest = [] → evalCond ev fuel frame fuel args st = newTagged VOID_TYPE st') := by
  have hmain := evalCond_spec ev fuel frame cells st (c :: rest) args fuel st hargs
    (agree_refl _ _) hintact (by simpa using hk) hfuel
  have hstep : condSpec ev frame (c :: rest) st = condSpec ev frame rest st' := by
    simp only [condSpec]
    rw [bind_apply, helse]
    simp [hev, isTrueBool, typeOf_ok hr, ht]
  refine ⟨hmain.trans hstep, ?_⟩
  rintro rfl
  rw [hmain, hstep]
  rfl

theorem evalCond_non_boolean_test_witness :
    isClauses (frozen (List.range 17) exampleCond) 15
      [(1, [2]), (6, [7, 8])] = true ∧
    exampleCond.items[1]? = some ⟨INT_TYPE, .int 1, .undef, .undef⟩ ∧
    evalCond (eval 5) 5 0 5 15 exampleCond =
      condSpec (eval 5) 0 [(6, [7, 8])] exampleCond :=
  ⟨by decide, by decide,
   (evalCond_non_boolean_test (eval 5) 5 exampleCond 15 0 (1, [2])
      [(6, [7, 8])] (List.range 17) 1 exampleCond
      ⟨INT_TYPE, .int 1, .undef, .undef⟩
      (by decide) (by decide) (by decide) (by decide) (by decide) (by decide) (by decide)
      (by decide)).1⟩

/-- The function `evalList` on a list of expressions is `evalEach`, then
`consList`. -/
theorem evalList_spec (ev : Nat → Nat → M Nat) (frame : Nat) (cells : List Nat) (st0 : State) :
    ∀ (xs : List Nat) (list k : Nat) (st : State),
      isList (frozen cells st0) list xs = true → agree cells st0 st = true →
      eachIntact ev frame cells st0 xs st = true → xs.length < k →
      evalList ev k list frame st = (do consList (← evalEach ev frame xs) : M Nat) st := by
  intro xs
  induction xs with
  | nil =>
    intro list k st hl hst _ hk
    obtain ⟨it, hp, ht⟩ := (isList_nil_iff _ list).1 hl
    obtain ⟨k, rfl⟩ : ∃ j, k = j + 1 := ⟨k - 1, by simp at hk; omega⟩
    simp [evalList, evalEach, consList, isNull_ok (frozen_of_agree hst _ _ hp), ht]
  | cons e es ih =>
    intro list k st hl hst hin hk
    obtain ⟨it, q, hp, ht, h0, h1, hq⟩ := (isList_cons_iff _ list e es).1 hl
    obtain ⟨k, rfl⟩ : ∃ j, k = j + 1 := ⟨k - 1, by simp at hk; omega⟩
    have hS := frozen_of_agree hst
    simp only [eachIntact] at hin
    have hhead : evalList ev (k + 1) list frame st =
        (do let evaluatedCar ← ev e frame
            let evaluatedCdr ← evalList ev k (← cdr list) frame
            cons evaluatedCar evaluatedCdr : M Nat) st := by
      simp [evalList, isNull_ok (hS _ _ hp), ht, car_ok (hS _ _ hp) h0]
    rw [hhead]
    simp only [evalEach, consList, bind_apply]
    cases hev : ev e frame st with
    | ok r st' =>
      simp only [hev, Bool.and_eq_true] at hin ⊢
      rw [cdr_ok (frozen_of_agree hin.1 _ _ hp) h1]
      simp only [ih q k st' hq hin.1 hin.2 (by simp at hk; omega), bind_apply]
      cases evalEach ev frame es st' with
      | ok vs s2 => simp [consList]
      | _ => rfl
    | _ => rfl

theorem isList_mono {h h' : Nat → Option Item}
    (hh : ∀ a it, h a = some it → h' a = some it) :
    ∀ (xs : List Nat) (p : Nat), isList h p xs = true → isList h' p xs = true := by
  intro xs
  induction xs with
  | nil =>
    intro p hl
    obtain ⟨it, hp, ht⟩ := (isList_nil_iff _ p).1 hl
    exact (isList_nil_iff _ p).2 ⟨it, hh _ _ hp, ht⟩
  | cons x xs ih =>
    intro p hl
    obtain ⟨it, q, hp, ht, h0, h1, hq⟩ := (isList_cons_iff _ p x xs).1 hl
    exact (isList_cons_iff _ p x xs).2 ⟨it, q, hh _ _ hp, ht, h0, h1, ih q hq⟩

/-- The list `consList` builds holds the given items in their order. -/
theorem consList_isList :
    ∀ (vals : List Nat) (s : State), ∃ p s', consList vals s = .ok p s' ∧
      isList s'.view p vals = true ∧ s'.frames = s.frames ∧
      ∃ more, s'.items = s.items ++ more := by
  intro vals
  induction vals with
  | nil =>
    intro s
    refine ⟨_, _, rfl, ?_, rfl, _, rfl⟩
    simp [isList, State.view]
  | cons v vs ih =>
    intro s
    obtain ⟨p, s', h1, h2, h3, more, h4⟩ := ih s
    refine ⟨s'.items.length, ⟨s'.items ++ [⟨CONS_TYPE, .ptr v, .ptr p, .undef⟩], s'.frames⟩,
      ?_, ?_, h3, more ++ [⟨CONS_TYPE, .ptr v, .ptr p, .undef⟩], ?_⟩
    · simp [consList, h1, cons, allocItem]
    · refine (isList_cons_iff _ _ v vs).2 ⟨⟨CONS_TYPE, .ptr v, .ptr p, .undef⟩, p, ?_, rfl, rfl, rfl,
        isList_mono ?_ vs p h2⟩
      · simp [State.view]
      · intro a it ha
        exact getElem?_append_of_some _ _ a it ha
    · simp [h4]

/-- C13: for a pair `tree` whose head `first` is not one of the special-form
symbols, `eval` (through `evalPair`) evaluates the head first, then every
element of the tail left to right in the same frame, each once, builds the
list of the values in the order of the expressions and returns what `apply`
returns for the operator and that list; `apply` fails with "not a function"
for an operator that is neither a Primitive nor a Closure. -/
theorem evalPair_application (ev : Nat → Nat → M Nat) (fuel : Nat) (st : State)
    (tree frame first : Nat) (exprs cells : List Nat) (itf : Item)
    (htree : isList (frozen cells st) tree (first :: exprs) = true)
    (hfirst : st.items[first]? = some itf) (hhead : isOperator itf = true)
    (hintact : applicationIntact ev frame cells st first exprs st = true)
    (hfuel : exprs.length < fuel) :
    evalPair ev fuel tree frame st = applicationSpec ev fuel frame first exprs st ∧
    eval (fuel + 1) tree frame st = evalPair (eval fuel) fuel tree frame st ∧
    (∀ vals s, ∃ p s', consList vals s = .ok p s' ∧ isList s'.view p vals = true ∧
      s'.frames = s.frames ∧ ∃ more, s'.items = s.items ++ more) ∧
    (∀ function args s it, s.items[function]? = some it → it.type ≠ PRIMITIVE_TYPE →
      it.type ≠ CLOSURE_TYPE → apply ev fuel function args s = .error "not a function") := by
  obtain ⟨it, q, hp, ht, h0, h1, hq⟩ := (isList_cons_iff _ tree first exprs).1 htree
  have hS := frozen_of_agree (agree_refl cells st)
  have happ : evalApplication ev fuel first q frame st =
      applicationSpec ev fuel frame first exprs st := by
    simp only [evalApplication, applicationSpec, bind_apply]
    simp only [applicationIntact] at hintact
    cases hev : ev first frame st with
    | ok f st' =>
      simp only [hev, Bool.and_eq_true] at hintact ⊢
      rw [evalList_spec ev frame cells st exprs q fuel st' hq hintact.1 hintact.2 hfuel]
      simp only [bind_apply]
      cases evalEach ev frame exprs st' with
      | ok vs s2 => rfl
      | _ => rfl
    | _ => rfl
  refine ⟨?_, ?_, consList_isList, ?_⟩
  · simp only [evalPair, bind_apply, car_ok (hS _ _ hp) h0, cdr_ok (hS _ _ hp) h1,
      typeOf_ok hfirst, ite_run]
    by_cases hsym : itf.type = SYMBOL_TYPE
    · simp only [isOperator, hsym] at hhead
      cases hu : itf.u0 with
      | str s =>
        simp only [hu, decide_eq_true_eq] at hhead
        simp only [specialForms, List.mem_cons, List.mem_singleton, not_or, List.mem_nil_iff,
          or_false] at hhead
        simp [hsym, getS_ok hfirst hu, hhead, happ]
      | _ => simp [hu] at hhead
    · simp [hsym, happ]
  · simp [eval, typeOf_ok (hS _ _ hp), ht]
  · intro function args s it hf h1 h2
    simp [apply, typeOf_ok hf, h1, h2]

theorem evalPair_application_witness :
    isList (frozen (List.range 13) exampleApplication) 12 [8, 9] = true ∧
    evalPair (eval 6) 6 12 0 exampleApplication =
      applicationSpec (eval 6) 6 0 8 [9] exampleApplication ∧
    resultItem (evalPair (eval 6) 6 12 0 exampleApplication) =
      some ⟨INT_TYPE, .int 5, .undef, .undef⟩ :=
  ⟨by decide,
   (evalPair_application (eval 6) 6 exampleApplication 12 0 8 [9] (List.range 13)
      ⟨CONS_TYPE, .ptr 0, .ptr 7, .undef⟩ (by decide) (by decide) (by decide) (by decide)
      (by decide)).1,
   by decide⟩

theorem isList_two {h : Nat → Option Item} {p a b : Nat}
    (hl : isList h p [a, b] = true) :
    ∃ i1 i2 q1 q2, h p = some i1 ∧ i1.u0 = .ptr a ∧ i1.u1 = .ptr q1 ∧
      h q1 = some i2 ∧ i2.u0 = .ptr b ∧ i2.u1 = .ptr q2 := by
  obtain ⟨i1, q1, h1, -, h10, h11, hq1⟩ := (isList_cons_iff h p a [b]).1 hl
  obtain ⟨i2, q2, h2, -, h20, h21, -⟩ := (isList_cons_iff h q1 b []).1 hq1
  exact ⟨i1, i2, q1, q2, h1, h10, h11, h2, h20, h21⟩

theorem ReadOnly.pure {α : Type} (a : α) : ReadOnly (pure a : M α) := by
  intro st b st' h
  simp only [pure_apply, Res.ok.injEq] at h
  exact h.2.symm

theorem ReadOnly.error {α : Type} (msg : String) : ReadOnly (evaluationError msg : M α) := by
  intro st b st' h
  cases h

theorem ReadOnly.undefined {α : Type} : ReadOnly (undefinedBehaviour : M α) := by
  intro st b st' h
  cases h

theorem ReadOnly.timeout {α : Type} : ReadOnly (outOfFuel : M α) := by
  intro st b st' h
  cases h

theorem ReadOnly.bind {α β : Type} {m : M α} {k : α → M β} (hm : ReadOnly m)
    (hk : ∀ a, ReadOnly (k a)) : ReadOnly (m >>= k) := by
  intro st b st' h
  rw [bind_apply] at h
  cases h1 : m st with
  | ok a s1 =>
    simp only [h1] at h
    rw [hk a s1 b st' h, hm st a s1 h1]
  | error e => simp [h1] at h
  | undefined => simp [h1] at h
  | timeout => simp [h1] at h

theorem ReadOnly.ite {α : Type} (c : Prop) [Decidable c] {m1 m2 : M α} (h1 : ReadOnly m1)
    (h2 : ReadOnly m2) : ReadOnly (if c then m1 else m2) := by
  by_cases hc : c
  · simpa [hc] using h1
  · simpa [hc] using h2

theorem readItem_readOnly (p : Nat) : ReadOnly (readItem p) := by
  intro st a st' h
  unfold readItem at h
  split at h
  · cases h; rfl
  · cases h

theorem typeOf_readOnly (p : Nat) : ReadOnly (typeOf p) :=
  ReadOnly.bind (readItem_readOnly p) (fun _ => ReadOnly.pure _)

theorem isNull_readOnly (p : Nat) : ReadOnly (isNull p) :=
  ReadOnly.bind (readItem_readOnly p) (fun _ => ReadOnly.pure _)

theorem getI_readOnly (p : Nat) : ReadOnly (getI p) := by
  refine ReadOnly.bind (readItem_readOnly p) (fun it => ?_)
  cases it.u0 <;> first | exact ReadOnly.pure _ | exact ReadOnly.undefined

theorem getD_readOnly (p : Nat) : ReadOnly (getD p) := by
  refine ReadOnly.bind (readItem_readOnly p) (fun it => ?_)
  cases it.u0 <;> first | exact ReadOnly.pure _ | exact ReadOnly.undefined

theorem getS_readOnly (p : Nat) : ReadOnly (getS p) := by
  refine ReadOnly.bind (readItem_readOnly p) (fun it => ?_)
  cases it.u0 <;> first | exact ReadOnly.pure _ | exact ReadOnly.undefined

theorem getPf_readOnly (p : Nat) : ReadOnly (getPf p) := by
  refine ReadOnly.bind (readItem_readOnly p) (fun it => ?_)
  cases it.u0 <;> first | exact ReadOnly.pure _ | exact ReadOnly.undefined

theorem car_readOnly (p : Nat) : ReadOnly (car p) := by
  refine ReadOnly.bind (readItem_readOnly p) (fun it => ?_)
  cases it.u0 <;> first | exact ReadOnly.pure _ | exact ReadOnly.undefined

theorem cdr_readOnly (p : Nat) : ReadOnly (cdr p) := by
  refine ReadOnly.bind (readItem_readOnly p) (fun it => ?_)
  cases it.u1 <;> first | exact ReadOnly.pure _ | exact ReadOnly.undefined

theorem getClFrame_readOnly (p : Nat) : ReadOnly (getClFrame p) := by
  refine ReadOnly.bind (readItem_readOnly p) (fun it => ?_)
  cases it.u2 <;> first | exact ReadOnly.pure _ | exact ReadOnly.undefined

theorem lengthLoop_readOnly : ∀ (k p count : Nat), ReadOnly (lengthLoop k p count) := by
  intro k
  induction k with
  | zero => intro p count; exact ReadOnly.timeout
  | succ k ih =>
    intro p count
    unfold lengthLoop
    refine ReadOnly.bind (isNull_readOnly p) (fun b => ?_)
    refine ReadOnly.ite _ (ReadOnly.pure _) ?_
    exact ReadOnly.bind (cdr_readOnly p) (fun q => ih q _)

theorem length_readOnly (fuel p : Nat) : ReadOnly (length fuel p) :=
  lengthLoop_readOnly fuel p 0

theorem evalLambdaDuplicate_readOnly :
    ∀ (k innerList paramList param : Nat),
      ReadOnly (evalLambdaDuplicate k innerList paramList param) := by
  intro k
  induction k with
  | zero => intro i p q; exact ReadOnly.timeout
  | succ k ih =>
    intro i p q
    unfold evalLambdaDuplicate
    refine ReadOnly.ite _ (ReadOnly.pure _) ?_
    refine ReadOnly.bind (car_readOnly i) (fun c => ?_)
    refine ReadOnly.bind (getS_readOnly c) (fun s => ?_)
    refine ReadOnly.bind (getS_readOnly q) (fun s2 => ?_)
    refine ReadOnly.ite _ (ReadOnly.error _) ?_
    exact ReadOnly.bind (cdr_readOnly i) (fun c => ih _ _ _)

theorem evalLambdaLoop_readOnly (fuel params : Nat) :
    ∀ (k paramList : Nat), ReadOnly (evalLambdaLoop fuel params k paramList) := by
  intro k
  induction k with
  | zero => intro p; exact ReadOnly.timeout
  | succ k ih =>
    intro p
    unfold evalLambdaLoop
    refine ReadOnly.bind (typeOf_readOnly p) (fun t => ?_)
    refine ReadOnly.ite _ ?_ ?_
    · refine ReadOnly.bind (car_readOnly p) (fun c => ?_)
      refine ReadOnly.bind (typeOf_readOnly c) (fun t => ?_)
      refine ReadOnly.ite _ (ReadOnly.error _) ?_
      refine ReadOnly.bind (evalLambdaDuplicate_readOnly _ _ _ _) (fun _ => ?_)
      exact ReadOnly.bind (cdr_readOnly p) (fun c => ih _)
    · refine ReadOnly.bind (typeOf_readOnly p) (fun t => ?_)
      exact ReadOnly.ite _ (ReadOnly.error _) (ReadOnly.pure _)

/-- What `evalLambda` returns is a new closure item that holds the frame it
was called with; nothing else of the state changes. -/
theorem evalLambda_creates (fuel args frame : Nat) (st : State) (a : Nat) (st' : State)
    (h : evalLambda fuel args frame st = .ok a st') :
    a = st.items.length ∧ st'.frames = st.frames ∧
      ∃ params body,
        st'.items = st.items ++ [⟨CLOSURE_TYPE, .ptr params, .ptr body, .env frame⟩] := by
  unfold evalLambda at h
  rw [bind_apply] at h
  cases h1 : length fuel args st with
  | ok n s1 =>
    have e1 := length_readOnly fuel args st n s1 h1
    subst e1
    simp only [h1, ite_run] at h
    split at h
    · cases h
    · rw [bind_apply] at h
      cases h2 : car args s1 with
      | ok params s2 =>
        have e2 := car_readOnly args s1 params s2 h2
        subst e2
        simp only [h2] at h
        rw [bind_apply] at h
        cases h3 : cdr args s2 with
        | ok body s3 =>
          have e3 := cdr_readOnly args s2 body s3 h3
          subst e3
          simp only [h3] at h
          rw [bind_apply] at h
          cases h4 : typeOf params s3 with
          | ok t s4 =>
            have e4 := typeOf_readOnly params s3 t s4 h4
            subst e4
            simp only [h4, ite_run] at h
            split at h
            · cases h
            · by_cases hc : t = CONS_TYPE
              · simp only [hc, ↓reduceIte, bind_apply] at h
                cases h5 : evalLambdaLoop fuel params fuel params s4 with
                | ok u s5 =>
                  have e5 := evalLambdaLoop_readOnly fuel params fuel params s4 u s5 h5
                  subst e5
                  simp only [h5, allocItem, Res.ok.injEq] at h
                  obtain ⟨rfl, rfl⟩ := h
                  exact ⟨rfl, rfl, params, body, rfl⟩
                | error e => simp [h5] at h
                | undefined => simp [h5] at h
                | timeout => simp [h5] at h
              · simp only [hc, ↓reduceIte, bind_apply, pure_apply, allocItem, Res.ok.injEq] at h
                obtain ⟨rfl, rfl⟩ := h
                exact ⟨rfl, rfl, params, body, rfl⟩
          | error e => simp [h4] at h
          | undefined => simp [h4] at h
          | timeout => simp [h4] at h
        | error e => simp [h3] at h
        | undefined => simp [h3] at h
        | timeout => simp [h3] at h
      | error e => simp [h2] at h
      | undefined => simp [h2] at h
      | timeout => simp [h2] at h
  | error e => simp [h1] at h
  | undefined => simp [h1] at h
  | timeout => simp [h1] at h

/-- The call of a closure whose parameters are as many symbols as there are
arguments: the body forms in a new frame, child of the captured frame. -/
theorem apply_closure_body (ev : Nat → Nat → M Nat) (fuel : Nat) (st : State)
    (function args params body closureFrame : Nat)
    (names : List String) (ps vals forms cells : List Nat)
    (hfun : st.items[function]? =
      some ⟨CLOSURE_TYPE, .ptr params, .ptr body, .env closureFrame⟩)
    (hparams : isList st.view params ps = true)
    (hsyms : areSymbols st.view ps names = true)
    (hargs : isList st.view args vals = true)
    (hbody : isList (frozen cells st) body forms = true)
    (hfuel : names.length < fuel ∧ forms.length < fuel)
    (hlen : vals.length = names.length)
    (hin : formsIntact ev st.frames.length cells st forms
        ⟨st.items ++ [⟨NULL_TYPE, .undef, .undef, .undef⟩],
         st.frames ++ [⟨(names.zip vals).reverse, some closureFrame⟩]⟩ = true) :
    apply ev fuel function args st =
      evalForms ev st.frames.length forms st.items.length
        ⟨st.items ++ [⟨NULL_TYPE, .undef, .undef, .undef⟩],
         st.frames ++ [⟨(names.zip vals).reverse, some closureFrame⟩]⟩ := by
  have hloop := applyLoop_spec ev fuel function st.frames.length st.items (some closureFrame)
    st.view (fun _ _ x => x) names ps vals params args fuel
    (st.frames ++ [⟨[], some closureFrame⟩]) [] hparams hsyms hargs (by simp) hfuel.1
  have happ : apply ev fuel function args st =
      applyLoop ev fuel function st.frames.length fuel params args
        ⟨st.items, st.frames ++ [⟨[], some closureFrame⟩]⟩ := by
    simp [apply, typeOf_ok hfun, getClFrame, readItem_ok hfun, createFrame, getParamNames,
      @car_ok ⟨st.items, st.frames ++ [⟨[], some closureFrame⟩]⟩ _ _ _ hfun rfl]
  rw [happ, hloop]
  simp only [hlen, Nat.lt_irrefl, ↓reduceIte, List.append_nil, set_append_length]
  simp only [bind_apply, getFunctionCode,
    @cdr_ok ⟨st.items, st.frames ++ [⟨(names.zip vals).reverse, some closureFrame⟩]⟩ _ _ _
      hfun rfl, evalBody, makeNull, allocItem]
  exact evalBodyLoop_forms ev st.frames.length cells st forms body fuel st.items.length _ hbody
    (agree_of_extends _ _ _ (fun a it ha => getElem?_append_of_some _ _ a it ha)) hin hfuel.2

/-- The steps of `evalDefine` on `(define x e)` once `e` has its value. -/
theorem evalDefine_ok (ev : Nat → Nat → M Nat) (fuel : Nat) (st : State)
    (args frame var e : Nat) (cells : List Nat) (x : String) (v : Nat) (st' : State) (fr : Frame)
    (hargs : isList (frozen cells st) args [var, e] = true) (hfuel : 2 < fuel)
    (hsym : isSymbol (frozen cells st) var x = true) (hev : ev e frame st = .ok v st')
    (hag : agree cells st st' = true) (hfr : st'.frames[frame]? = some fr) :
    evalDefine ev fuel args frame st =
      .ok st'.items.length
        ⟨st'.items ++ [⟨VOID_TYPE, .undef, .undef, .undef⟩],
         st'.frames.set frame ⟨(x, v) :: fr.bindings, fr.parent⟩⟩ := by
  have hS := frozen_of_agree (agree_refl cells st)
  have hlen := length_isList (agree_refl cells st) hargs hfuel
  obtain ⟨i1, i2, q1, q2, h1, h10, h11, h2, h20, h21⟩ := isList_two hargs
  obtain ⟨iv, hv, hvt, hvs⟩ := (isSymbol_iff _ _ _).1 hsym
  have hS' := frozen_of_agree hag
  simp [evalDefine, hlen, car_ok (hS _ _ h1) h10, typeOf_ok (hS _ _ hv), hvt,
    cdr_ok (hS _ _ h1) h11, car_ok (hS _ _ h2) h20, hev, getS_ok (hS' _ _ hv) hvs,
    addBinding, hfr, newTagged, allocItem]

/-- The caller g binds x to 2 and calls f, created in the global frame where
x is 1: the body of f finds 1. The z defined in the body of f is found in the
body and is not bound in the global frame afterwards. -/
theorem lexical_scope_sample :
    printed (run 40 progLexicalScope) = some [some ⟨INT_TYPE, .int 1, .undef, .undef⟩] ∧
    printed (run 40 progBodyDefine) = some [some ⟨INT_TYPE, .int 5, .undef, .undef⟩] ∧
    run 40 (progBodyDefine ++ [S "z"]) = .error "Unbound symbol" := by
  decide!

theorem isCells_nil_iff (h : Nat → Option Item) (p last : Nat) :
    isCells h p [] [] last = true ↔ p = last ∧ ∃ it, h p = some it ∧ it.type ≠ CONS_TYPE := by
  unfold isCells
  cases h p with
  | none => simp
  | some it => simp

theorem isCells_cons_iff (h : Nat → Option Item) (p c : Nat) (cs : List Nat) (x : Nat)
    (xs : List Nat) (last : Nat) :
    isCells h p (c :: cs) (x :: xs) last = true ↔
      p = c ∧ ∃ it q, h p = some it ∧ it.type = CONS_TYPE ∧ it.u0 = .ptr x ∧
        it.u1 = .ptr q ∧ isCells h q cs xs last = true := by
  rw [isCells]
  cases h p with
  | none => simp
  | some it =>
    cases h1 : it.u1 <;> simp [h1, and_assoc]

theorem isCells_length (h : Nat → Option Item) :
    ∀ (cs xs : List Nat) (p last : Nat), isCells h p cs xs last = true →
      cs.length = xs.length := by
  intro cs
  induction cs with
  | nil =>
    intro xs p last hb
    cases xs with
    | nil => rfl
    | cons x xs => simp [isCells] at hb
  | cons c cs ih =>
    intro xs p last hb
    cases xs with
    | nil => simp [isCells] at hb
    | cons x xs =>
      obtain ⟨-, it, q, -, -, -, -, hq⟩ := (isCells_cons_iff h p c cs x xs last).1 hb
      simp [ih xs q last hq]

theorem isCells_isList (h : Nat → Option Item) :
    ∀ (cs xs : List Nat) (p last : Nat), isCells h p cs xs last = true →
      isList h p xs = true := by
  intro cs
  induction cs with
  | nil =>
    intro xs p last hb
    cases xs with
    | nil =>
      obtain ⟨-, it, hp, ht⟩ := (isCells_nil_iff h p last).1 hb
      exact (isList_nil_iff h p).2 ⟨it, hp, ht⟩
    | cons x xs => simp [isCells] at hb
  | cons c cs ih =>
    intro xs p last hb
    cases xs with
    | nil => simp [isCells] at hb
    | cons x xs =>
      obtain ⟨-, it, q, hp, ht, h0, h1, hq⟩ := (isCells_cons_iff h p c cs x xs last).1 hb
      exact (isList_cons_iff h p x xs).2 ⟨it, q, hp, ht, h0, h1, ih xs q last hq⟩

/-- The cells of a chain are determined by its head. -/
theorem isCells_unique (h : Nat → Option Item) :
    ∀ (cs cs' xs xs' : List Nat) (p last last' : Nat),
      isCells h p cs xs last = true → isCells h p cs' xs' last' = true → cs = cs' := by
  intro cs
  induction cs with
  | nil =>
    intro cs' xs xs' p last last' h1 h2
    cases xs with
    | cons x xs => simp [isCells] at h1
    | nil =>
      obtain ⟨-, it, hp, ht⟩ := (isCells_nil_iff h p last).1 h1
      cases cs' with
      | nil => rfl
      | cons c' cs' =>
        cases xs' with
        | nil => simp [isCells] at h2
        | cons x' xs' =>
          obtain ⟨-, it', q, hp', ht', -⟩ := (isCells_cons_iff h p c' cs' x' xs' last').1 h2
          rw [hp] at hp'
          cases hp'
          exact absurd ht' ht
  | cons c cs ih =>
    intro cs' xs xs' p last last' h1 h2
    cases xs with
    | nil => simp [isCells] at h1
    | cons x xs =>
      obtain ⟨hpc, it, q, hp, ht, h0, hu1, hq⟩ := (isCells_cons_iff h p c cs x xs last).1 h1
      cases cs' with
      | nil =>
        cases xs' with
        | cons x' xs' => simp [isCells] at h2
        | nil =>
          obtain ⟨-, it', hp', ht'⟩ := (isCells_nil_iff h p last').1 h2
          rw [hp] at hp'
          cases hp'
          exact absurd ht ht'
      | cons c' cs' =>
        cases xs' with
        | nil => simp [isCells] at h2
        | cons x' xs' =>
          obtain ⟨hpc', it', q', hp', -, -, hu1', hq'⟩ :=
            (isCells_cons_iff h p c' cs' x' xs' last').1 h2
          rw [hp] at hp'
          cases hp'
          rw [hu1] at hu1'
          cases hu1'
          rw [← hpc, ← hpc', ih cs' xs xs' q last last' hq hq']

/-- Every cell of a chain heads the rest of the chain from there. -/
theorem isCells_suffix (h : Nat → Option Item) :
    ∀ (pre : List Nat) (c : Nat) (post xs : List Nat) (p last : Nat),
      isCells h p (pre ++ c :: post) xs last = true →
      isCells h c (c :: post) (xs.drop pre.length) last = true := by
  intro pre
  induction pre with
  | nil =>
    intro c post xs p last hb
    cases xs with
    | nil => simp [isCells] at hb
    | cons x xs =>
      have hpc := ((isCells_cons_iff h p c post x xs last).1 hb).1
      subst hpc
      simpa using hb
  | cons a pre ih =>
    intro c post xs p last hb
    cases xs with
    | nil => simp [isCells] at hb
    | cons x xs =>
      obtain ⟨-, it, q, -, -, -, -, hq⟩ :=
        (isCells_cons_iff h p a (pre ++ c :: post) x xs last).1 hb
      simpa using ih c post xs q last hq

theorem isCells_nodup (h : Nat → Option Item) :
    ∀ (cs xs : List Nat) (p last : Nat), isCells h p cs xs last = true → cs.Nodup := by
  intro cs
  induction cs with
  | nil => intro _ _ _ _; exact List.nodup_nil
  | cons c cs ih =>
    intro xs p last hb
    cases xs with
    | nil => simp [isCells] at hb
    | cons x xs =>
      obtain ⟨hpc, it, q, -, -, -, -, hq⟩ := (isCells_cons_iff h p c cs x xs last).1 hb
      refine List.nodup_cons.2 ⟨?_, ih xs q last hq⟩
      intro hmem
      obtain ⟨pre, post, hsplit⟩ := List.append_of_mem hmem
      have hsuf := isCells_suffix h (c :: pre) c post (x :: xs) p last
        (by rw [hsplit] at hb; simpa using hb)
      rw [← hpc] at hsuf
      have := isCells_unique h _ _ _ _ p _ _ hb hsuf
      have hlen := congrArg List.length this
      rw [hsplit] at hlen
      simp at hlen
      omega

/-- The inner loop of `evalLambda` from the head of the list to the cell `c`:
an error exactly when the name of `param` is among the names before `c`. -/
theorem evalLambdaDuplicate_spec (h : Nat → Option Item) (st : State)
    (hst : ∀ a it, h a = some it → st.items[a]? = some it) (param : Nat) (x : String)
    (hparam : isSymbol h param x = true) (c : Nat) (post : List Nat) (last : Nat) :
    ∀ (cpre : List Nat) (names : List String) (xs : List Nat) (p k : Nat),
      isCells h p (cpre ++ c :: post) xs last = true →
      areSymbols h (xs.take cpre.length) names = true → c ∉ cpre → cpre.length < k →
      evalLambdaDuplicate k p c param st =
        if x ∈ names then .error "repeated symbol" else .ok () st := by
  obtain ⟨iv, hv, -, hv0⟩ := (isSymbol_iff h param x).1 hparam
  intro cpre
  induction cpre with
  | nil =>
    intro names xs p k hb hn _ hk
    obtain ⟨k, rfl⟩ : ∃ j, k = j + 1 := ⟨k - 1, by omega⟩
    cases xs with
    | nil => simp [isCells] at hb
    | cons y xs =>
      have hpc := ((isCells_cons_iff h p c post y xs last).1 hb).1
      cases names with
      | nil => simp [evalLambdaDuplicate, hpc]
      | cons n names => simp [areSymbols] at hn
  | cons a cpre ih =>
    intro names xs p k hb hn hc hk
    obtain ⟨k, rfl⟩ : ∃ j, k = j + 1 := ⟨k - 1, by omega⟩
    cases xs with
    | nil => simp [isCells] at hb
    | cons y xs =>
      obtain ⟨hpa, it, q, hp, ht, h0, h1, hq⟩ :=
        (isCells_cons_iff h p a (cpre ++ c :: post) y xs last).1 hb
      cases names with
      | nil => simp [areSymbols] at hn
      | cons n names =>
        simp only [List.length_cons, List.take_succ_cons, areSymbols, Bool.and_eq_true] at hn
        obtain ⟨iy, hy, -, hy0⟩ := (isSymbol_iff h y n).1 hn.1
        have hne : p ≠ c := by
          rw [hpa]
          intro hac
          exact hc (by simp [hac])
        have hrec := ih names xs q k hq hn.2 (fun hm => hc (by simp [hm]))
          (by simp at hk; omega)
        by_cases hxy : n = x
        · simp [evalLambdaDuplicate, hne, car_ok (hst _ _ hp) h0,
            getS_ok (hst _ _ hy) hy0, getS_ok (hst _ _ hv) hv0, hxy]
        · have hxy' : ¬ x = n := fun hh => hxy hh.symm
          simp [evalLambdaDuplicate, hne, car_ok (hst _ _ hp) h0,
            getS_ok (hst _ _ hy) hy0, getS_ok (hst _ _ hv) hv0, hxy, hxy',
            cdr_ok (hst _ _ hp) h1, hrec]

theorem areSymbols_snoc (h : Nat → Option Item) (x : Nat) (n : String)
    (hx : isSymbol h x n = true) :
    ∀ (xs : List Nat) (names : List String), areSymbols h xs names = true →
      areSymbols h (xs ++ [x]) (names ++ [n]) = true := by
  intro xs
  induction xs with
  | nil =>
    intro names hs
    cases names with
    | nil => simp [areSymbols, hx]
    | cons m names => simp [areSymbols] at hs
  | cons y xs ih =>
    intro names hs
    cases names with
    | nil => simp [areSymbols] at hs
    | cons m names =>
      simp only [areSymbols, Bool.and_eq_true] at hs
      simp [areSymbols, hs.1, ih names hs.2]

/-- The outer loop of `evalLambda` from the cell `cur` on, the names `seen`
before it having passed: the first check that fails gives the error. -/
theorem evalLambdaLoop_spec (h : Nat → Option Item) (st : State)
    (hst : ∀ a it, h a = some it → st.items[a]? = some it) (fuel params : Nat)
    (cs xs : List Nat) (last : Nat) (ie : Item) (hlast : h last = some ie)
    (hfull : isCells h params cs xs last = true) (hfuel : cs.length < fuel) :
    ∀ (kcur : List (Option String)) (cpre ccur xpre xcur : List Nat) (seen : List String)
      (cur k : Nat),
      cs = cpre ++ ccur → xs = xpre ++ xcur → cpre.length = xpre.length →
      isCells h cur ccur xcur last = true →
      areSymbols h xpre seen = true → areParams h xcur kcur = true → kcur.length < k →
      evalLambdaLoop fuel params k cur st =
        match checkParams seen kcur ie.type with
        | none => .ok () st
        | some msg => .error msg := by
  intro kcur
  induction kcur with
  | nil =>
    intro cpre ccur xpre xcur seen cur k _ _ _ hcur _ hpar hk
    obtain ⟨k, rfl⟩ : ∃ j, k = j + 1 := ⟨k - 1, by omega⟩
    cases xcur with
    | cons x xcur => simp [areParams] at hpar
    | nil =>
      cases ccur with
      | cons c ccur => simp [isCells] at hcur
      | nil =>
        obtain ⟨rfl, it, hp, ht⟩ := (isCells_nil_iff h cur last).1 hcur
        rw [hlast] at hp
        cases hp
        by_cases hn : ie.type = NULL_TYPE
        · simp [evalLambdaLoop, typeOf_ok (hst _ _ hlast), ht, hn, checkParams]
        · simp [evalLambdaLoop, typeOf_ok (hst _ _ hlast), ht, hn, checkParams]
  | cons kind rest ih =>
    intro cpre ccur xpre xcur seen cur k hcs hxs hlen hcur hseen hpar hk
    obtain ⟨k, rfl⟩ : ∃ j, k = j + 1 := ⟨k - 1, by omega⟩
    cases xcur with
    | nil => simp [areParams] at hpar
    | cons x xcur =>
      cases ccur with
      | nil => simp [isCells] at hcur
      | cons c ccur =>
        obtain ⟨hpc, it, q, hp, ht, h0, h1, hq⟩ :=
          (isCells_cons_iff h cur c ccur x xcur last).1 hcur
        cases kind with
        | none =>
          simp only [areParams, Bool.and_eq_true] at hpar
          cases hx : h x with
          | none => simp [hx] at hpar
          | some ix =>
            simp only [hx, decide_eq_true_eq] at hpar
            simp [evalLambdaLoop, typeOf_ok (hst _ _ hp), ht, car_ok (hst _ _ hp) h0,
              typeOf_ok (hst _ _ hx), hpar.1, checkParams]
        | some n =>
          simp only [areParams, Bool.and_eq_true] at hpar
          obtain ⟨ix, hx, hxt, hx0⟩ := (isSymbol_iff h x n).1 hpar.1
          have hnodup := isCells_nodup h cs xs params last hfull
          have hnot : c ∉ cpre := by
            rw [hcs] at hnodup
            exact fun hm => (List.nodup_append.1 hnodup).2.2 hm (List.mem_cons_self _ _)
          have hlenc : cpre.length < fuel := by
            rw [hcs] at hfuel
            simp at hfuel
            omega
          have htake : xs.take cpre.length = xpre := by
            rw [hxs, hlen]
            simp
          have hdup := evalLambdaDuplicate_spec h st hst x n hpar.1 c ccur last cpre seen xs
            params fuel (by rw [← hcs]; exact hfull) (by rw [htake]; exact hseen) hnot hlenc
          rw [← hpc] at hdup
          have hrec := ih (cpre ++ [c]) ccur (xpre ++ [x]) xcur (seen ++ [n]) q k
            (by simp [hcs]) (by simp [hxs]) (by simp [hlen]) hq
            (areSymbols_snoc h x n hpar.1 xpre seen hseen) hpar.2 (by simp at hk; omega)
          by_cases hmem : n ∈ seen
          · simp [evalLambdaLoop, typeOf_ok (hst _ _ hp), ht, car_ok (hst _ _ hp) h0,
              typeOf_ok (hst _ _ hx), hxt, hdup, hmem, checkParams]
          · simp [evalLambdaLoop, typeOf_ok (hst _ _ hp), ht, car_ok (hst _ _ hp) h0,
              typeOf_ok (hst _ _ hx), hxt, hdup, hmem, checkParams, cdr_ok (hst _ _ hp) h1,
              hrec]

/-- The checks pass exactly for a proper list of pairwise distinct symbols. -/
theorem checkParams_none_iff :
    ∀ (kinds : List (Option String)) (seen : List String) (last : itemType), seen.Nodup →
      (checkParams seen kinds last = none ↔
        kinds.all Option.isSome = true ∧ (seen ++ kinds.reduceOption).Nodup ∧
          last = NULL_TYPE) := by
  intro kinds
  induction kinds with
  | nil =>
    intro seen last hs
    simp [checkParams, hs]
  | cons kind rest ih =>
    intro seen last hs
    cases kind with
    | none => simp [checkParams]
    | some n =>
      by_cases hmem : n ∈ seen
      · simp only [checkParams, hmem, ↓reduceIte, List.reduceOption_cons_of_some]
        constructor
        · intro hh
          cases hh
        · rintro ⟨-, hnd, -⟩
          exact absurd hmem (fun hm => (List.nodup_append.1 hnd).2.2 hm (List.mem_cons_self _ _))
      · have hs' : (seen ++ [n]).Nodup := by
          refine List.nodup_append.2 ⟨hs, List.nodup_singleton n, ?_⟩
          intro a ha hb
          simp only [List.mem_singleton] at hb
          subst hb
          exact hmem ha
        simp only [checkParams, hmem, ↓reduceIte, ih (seen ++ [n]) last hs',
          List.reduceOption_cons_of_some, List.all_cons, Option.isSome_some, Bool.true_and,
          List.append_assoc, List.singleton_append]

theorem validParams_iff (kinds : List (Option String)) (last : itemType) :
    validParams kinds last = true ↔ checkParams [] kinds last = none := by
  rw [checkParams_none_iff kinds [] last List.nodup_nil]
  simp [validParams, and_assoc]

theorem areParams_length (h : Nat → Option Item) :
    ∀ (ps : List Nat) (kinds : List (Option String)), areParams h ps kinds = true →
      ps.length = kinds.length := by
  intro ps
  induction ps with
  | nil =>
    intro kinds hp
    cases kinds with
    | nil => rfl
    | cons k ks => simp [areParams] at hp
  | cons p ps ih =>
    intro kinds hp
    cases kinds with
    | nil => simp [areParams] at hp
    | cons k ks =>
      cases k with
      | none =>
        simp only [areParams, Bool.and_eq_true] at hp
        simp [ih ks hp.2]
      | some n =>
        simp only [areParams, Bool.and_eq_true] at hp
        simp [ih ks hp.2]

/-- C14: `evalLambda` fails for fewer than 2 arguments; with at least 2 it
returns a new Closure item holding the parameter spec and the body as they
are in the heap and the frame it was called with, exactly when the parameter
spec is the empty list, a single symbol, or a proper list whose elements are
symbols with pairwise distinct names; for any other spec (an item of another
kind, an element that is not a symbol, a repeated name, a list not ended by
the empty list) it fails with an evaluation error. -/
theorem evalLambda_iff (fuel : Nat) (st : State) (args frame : Nat) (xs : List Nat)
    (hargs : isList st.view args xs = true) (hfuel : xs.length < fuel) :
    (xs.length < 2 →
      evalLambda fuel args frame st = .error "there must be at least 2 arguments") ∧
    (∀ params rest body ip, xs = params :: rest → rest ≠ [] →
      (∃ ia, st.items[args]? = some ia ∧ ia.u1 = .ptr body) → st.items[params]? = some ip →
      (ip.type = NULL_TYPE ∨ ip.type = SYMBOL_TYPE →
        evalLambda fuel args frame st =
          .ok st.items.length
            ⟨st.items ++ [⟨CLOSURE_TYPE, .ptr params, .ptr body, .env frame⟩], st.frames⟩) ∧
      (ip.type ≠ NULL_TYPE → ip.type ≠ SYMBOL_TYPE → ip.type ≠ CONS_TYPE →
        evalLambda fuel args frame st = .error "must be list of parameters") ∧
      (∀ cs ps last ie kinds, isCells st.view params cs ps last = true → cs ≠ [] →
        st.items[last]? = some ie → areParams st.view ps kinds = true → cs.length < fuel →
        (validParams kinds ie.type = true →
          evalLambda fuel args frame st =
            .ok st.items.length
              ⟨st.items ++ [⟨CLOSURE_TYPE, .ptr params, .ptr body, .env frame⟩],
               st.frames⟩) ∧
        (validParams kinds ie.type = false →
          ∃ msg, evalLambda fuel args frame st = .error msg))) := by
  have hlen : length fuel args st = .ok xs.length st := by
    have := lengthLoop_isList st.view st (fun _ _ x => x) xs args fuel 0 hargs hfuel
    simpa [length] using this
  refine ⟨fun hlt => by simp [evalLambda, hlen, hlt], ?_⟩
  rintro params rest body ip rfl hrest ⟨ia, hia, hia1⟩ hip
  obtain ⟨ia', q, hia', -, h0, -, -⟩ := (isList_cons_iff _ args params rest).1 hargs
  have hiaeq : st.items[args]? = some ia' := hia'
  rw [hia] at hiaeq
  cases hiaeq
  have hnot : ¬ (params :: rest).length < 2 := by
    cases rest with
    | nil => exact absurd rfl hrest
    | cons r rest => simp
  have hhead : evalLambda fuel args frame st =
      (do if ip.type ≠ CONS_TYPE ∧ ip.type ≠ NULL_TYPE ∧ ip.type ≠ SYMBOL_TYPE then
            evaluationError "must be list of parameters"
          else do
            if ip.type = CONS_TYPE then evalLambdaLoop fuel params fuel params
            else pure ()
            allocItem ⟨CLOSURE_TYPE, .ptr params, .ptr body, .env frame⟩ : M Nat) st := by
    simp only [evalLambda, bind_apply, hlen, hnot, ↓reduceIte, ite_run, car_ok hia h0,
      cdr_ok hia hia1, typeOf_ok hip]
  rw [hhead]
  refine ⟨?_, ?_, ?_⟩
  · rintro (ht | ht) <;> simp [ht, allocItem]
  · intro h1 h2 h3
    simp [h1, h2, h3]
  · intro cs ps last ie kinds hcells hcs hlast hpar hfc
    have hcons : ip.type = CONS_TYPE := by
      cases cs with
      | nil => exact absurd rfl hcs
      | cons c cs =>
        cases ps with
        | nil => simp [isCells] at hcells
        | cons p ps =>
          obtain ⟨-, it, q, hp, ht, -⟩ := (isCells_cons_iff _ params c cs p ps last).1 hcells
          have hp' : st.items[params]? = some it := hp
          rw [hip] at hp'
          cases hp'
          exact ht
    have hkl : kinds.length < fuel := by
      rw [← areParams_length _ ps kinds hpar, ← isCells_length _ cs ps params last hcells]
      exact hfc
    have hloop := evalLambdaLoop_spec st.view st (fun _ _ x => x) fuel params cs ps last ie
      hlast hcells hfc kinds [] cs [] ps [] params fuel rfl rfl rfl hcells rfl hpar hkl
    refine ⟨fun hv => ?_, fun hv => ?_⟩
    · rw [(validParams_iff kinds ie.type).1 hv] at hloop
      simp [hcons, hloop, allocItem]
    · cases hc : checkParams [] kinds ie.type with
      | none =>
        rw [(validParams_iff kinds ie.type).2 hc] at hv
        cases hv
      | some msg =>
        rw [hc] at hloop
        exact ⟨msg, by simp [hcons, hloop]⟩

theorem evalLambda_iff_witness :
    isList exampleLambda.view 9 [5, 6] = true ∧
    isCells exampleLambda.view 5 [5, 4] [1, 2] 3 = true ∧
    areParams exampleLambda.view [1, 2] [some "a", some "b"] = true ∧
    evalLambda 5 9 0 exampleLambda =
      .ok 11 ⟨exampleLambda.items ++ [⟨CLOSURE_TYPE, .ptr 5, .ptr 8, .env 0⟩],
        exampleLambda.frames⟩ :=
  ⟨by decide, by decide, by decide,
   ((((evalLambda_iff 5 exampleLambda 9 0 [5, 6] (by decide) (by decide)).2 5 [6] 8
      ⟨CONS_TYPE, .ptr 1, .ptr 4, .undef⟩ rfl (by decide)
      ⟨⟨CONS_TYPE, .ptr 5, .ptr 8, .undef⟩, by decide, rfl⟩ (by decide)).2.2
      [5, 4] [1, 2] 3 ⟨NULL_TYPE, .undef, .undef, .undef⟩ [some "a", some "b"]
      (by decide) (by decide) (by decide) (by decide) (by decide)).1 (by decide))⟩

/-- A repeated name and an element that is not a symbol are rejected; one
argument is too few. -/
theorem lambda_rejections_sample :
    run 40 [L [S "lambda", L [S "a", S "a"], S "a"]] = .error "repeated symbol" ∧
    run 40 [L [S "lambda", L [S "a", .int 1], S "a"]] = .error "parameters must be symbols" ∧
    run 40 [L [S "lambda", .int 1, S "a"]] = .error "must be list of parameters" ∧
    run 40 [L [S "lambda", L [S "a"]]] = .error "there must be at least 2 arguments" := by
  decide!

/-- The examples of the specification: `(+ 1 2 3)` is Integer 6, `(+ 1 2.0)`
is Real 3, `(+)` is Integer 0, and a text operand is rejected. -/
theorem plus_sample :
    printed (run 40 [L [S "+", .int 1, .int 2, .int 3]]) =
      some [some ⟨INT_TYPE, .int 6, .undef, .undef⟩] ∧
    printed (run 40 [L [S "+", .int 1, .real 2]]) =
      some [some ⟨DOUBLE_TYPE, .dbl 3, .undef, .undef⟩] ∧
    printed (run 40 [L [S "+"]]) = some [some ⟨INT_TYPE, .int 0, .undef, .undef⟩] ∧
    run 40 [L [S "+", .int 1, .text "a"]] = .error "not numbers" := by
  decide!

/-- C20: `(< 0.5 (= 1 1))` raises no error: with a Real first operand
`primitiveLess` reads the `i` of the Boolean (1) as a number and returns the
Boolean of 0.5 < 1; also with the operands exchanged. The same operands make
`>` and `=` fail, and `<` fails for them when the other operand is an
Integer. -/
theorem less_real_and_boolean_no_error :
    printed (run 40 progLessBoolean) = some [some ⟨BOOL_TYPE, .int 1, .undef, .undef⟩] ∧
    printed (run 40 [L [S "<", L [S "=", .int 1, .int 1], .real (1 / 2)]]) =
      some [some ⟨BOOL_TYPE, .int 0, .undef, .undef⟩] ∧
    run 40 [L [S ">", .real (1 / 2), L [S "=", .int 1, .int 1]]] =
      .error "second argument must be a number" ∧
    run 40 [L [S "=", .real (1 / 2), L [S "=", .int 1, .int 1]]] =
      .error "second argument must be a number" ∧
    run 40 [L [S "<", .int 1, L [S "=", .int 1, .int 1]]] = .error "not a number" := by
  decide!

theorem keepsFrames_pure {P : Nat → Prop} {α : Type} (a : α) :
    KeepsFrames P (pure a : M α) := by
  intro st b st' _ h
  simp only [pure_apply, Res.ok.injEq] at h
  rw [← h.2]
  exact ⟨Nat.le_refl _, fun _ _ => rfl⟩

theorem keepsFrames_error {P : Nat → Prop} {α : Type} (msg : String) :
    KeepsFrames P (evaluationError msg : M α) := by
  intro st b st' _ h
  cases h

theorem keepsFrames_undefined {P : Nat → Prop} {α : Type} :
    KeepsFrames P (undefinedBehaviour : M α) := by
  intro st b st' _ h
  cases h

theorem keepsFrames_timeout {P : Nat → Prop} {α : Type} :
    KeepsFrames P (outOfFuel : M α) := by
  intro st b st' _ h
  cases h

theorem keepsFrames_bind {P : Nat → Prop} {α β : Type} {m : M α} {k : α → M β}
    (hm : KeepsFrames P m) (hk : ∀ a, KeepsFrames P (k a)) : KeepsFrames P (m >>= k) := by
  intro st b st' hP h
  rw [bind_apply] at h
  cases h1 : m st with
  | ok a s1 =>
    simp only [h1] at h
    obtain ⟨hl1, hf1⟩ := hm st a s1 hP h1
    obtain ⟨hl2, hf2⟩ := hk a s1 b st' (fun f hf => Nat.lt_of_lt_of_le (hP f hf) hl1) h
    exact ⟨Nat.le_trans hl1 hl2, fun f hf => (hf2 f hf).trans (hf1 f hf)⟩
  | error e => simp [h1] at h
  | undefined => simp [h1] at h
  | timeout => simp [h1] at h

theorem keepsFrames_ite {P : Nat → Prop} {α : Type} (c : Prop) [Decidable c] {m1 m2 : M α}
    (h1 : KeepsFrames P m1) (h2 : KeepsFrames P m2) :
    KeepsFrames P (if c then m1 else m2) := by
  by_cases hc : c
  · simpa [hc] using h1
  · simpa [hc] using h2

theorem keepsFrames_of_frames_eq {P : Nat → Prop} {α : Type} {m : M α}
    (h : ∀ st a st', m st = .ok a st' → st'.frames = st.frames) : KeepsFrames P m := by
  intro st a st' _ hm
  rw [h st a st' hm]
  exact ⟨Nat.le_refl _, fun _ _ => rfl⟩

theorem keepsFrames_of_readOnly {P : Nat → Prop} {α : Type} {m : M α} (h : ReadOnly m) :
    KeepsFrames P m :=
  keepsFrames_of_frames_eq (fun st a st' hm => by rw [h st a st' hm])

theorem allocItem_keepsFrames {P : Nat → Prop} (it : Item) : KeepsFrames P (allocItem it) :=
  keepsFrames_of_frames_eq (fun st a st' hm => by
    simp only [allocItem, Res.ok.injEq] at hm
    rw [← hm.2])

theorem writeItem_keepsFrames {P : Nat → Prop} (p : Nat) (it : Item) :
    KeepsFrames P (writeItem p it) :=
  keepsFrames_of_frames_eq (fun st a st' hm => by
    unfold writeItem at hm
    split at hm
    · simp only [Res.ok.injEq] at hm
      rw [← hm.2]
    · cases hm)

/-- A new frame is none of the marked ones. -/
theorem keepsFrames_bind_createFrame {P : Nat → Prop} {β : Type} (parent : Option Nat)
    {k : Nat → M β} (hk : ∀ a, ¬ P a → KeepsFrames P (k a)) :
    KeepsFrames P (createFrame parent >>= k) := by
  intro st b st' hP h
  rw [bind_apply] at h
  simp only [createFrame] at h
  have hnew : ¬ P st.frames.length := fun hp => Nat.lt_irrefl _ (hP _ hp)
  obtain ⟨hl, hkeep⟩ := hk st.frames.length hnew _ b st'
    (fun f hf => by simp only [List.length_append]; exact Nat.lt_succ_of_lt (hP f hf)) h
  simp only [List.length_append, List.length_singleton] at hl
  refine ⟨by omega, fun f hf => ?_⟩
  rw [hkeep f hf]
  exact List.getElem?_append_left (hP f hf)

theorem addBinding_keepsFrames {P : Nat → Prop} (frame : Nat) (hframe : ¬ P frame)
    (var : String) (value : Nat) : KeepsFrames P (addBinding frame var value) := by
  intro st a st' _ h
  unfold addBinding at h
  split at h
  · simp only [Res.ok.injEq] at h
    rw [← h.2]
    refine ⟨by simp, fun f hf => ?_⟩
    have hne : frame ≠ f := fun he => hframe (he ▸ hf)
    simp [List.getElem?_set, hne]
  · cases h

theorem lookupSymbol_readOnly (symbol : String) :
    ∀ (k : Nat) (frame : Option Nat), ReadOnly (lookupSymbol k symbol frame) := by
  intro k
  induction k with
  | zero =>
    intro frame
    cases frame with
    | none => exact ReadOnly.error _
    | some f => exact ReadOnly.timeout
  | succ k ih =>
    intro frame
    cases frame with
    | none => exact ReadOnly.error _
    | some f =>
      intro st a st' h
      simp only [lookupSymbol] at h
      split at h
      · cases h
      · split at h
        · cases h; rfl
        · exact ih _ st a st' h

theorem keepsFrames_bind_pair {P : Nat → Prop} {α β γ : Type} {m : M (α × β)}
    {k : α × β → M γ} (hm : KeepsFrames P m) (hk : ∀ a b, KeepsFrames P (k (a, b))) :
    KeepsFrames P (m >>= k) :=
  keepsFrames_bind hm (fun x => hk x.1 x.2)

theorem evalLetDuplicate_readOnly :
    ∀ (k innerBindings bindings var : Nat),
      ReadOnly (evalLetDuplicate k innerBindings bindings var) := by
  intro k
  induction k with
  | zero => intro i p q; exact ReadOnly.timeout
  | succ k ih =>
    intro i p q
    unfold evalLetDuplicate
    refine ReadOnly.ite _ (ReadOnly.pure _) ?_
    refine ReadOnly.bind (car_readOnly i) (fun c => ?_)
    refine ReadOnly.bind (car_readOnly c) (fun c2 => ?_)
    refine ReadOnly.bind (getS_readOnly c2) (fun s => ?_)
    refine ReadOnly.bind (getS_readOnly q) (fun s2 => ?_)
    refine ReadOnly.ite _ (ReadOnly.error _) ?_
    exact ReadOnly.bind (cdr_readOnly i) (fun c => ih _ _ _)

theorem toInt_readOnly (x : ℚ) : ReadOnly (toInt x) := by
  unfold toInt
  exact ReadOnly.ite _ (ReadOnly.pure _) ReadOnly.undefined

theorem numberArg_readOnly (p : Nat) (message : String) : ReadOnly (numberArg p message) := by
  unfold numberArg
  refine ReadOnly.bind (typeOf_readOnly p) (fun t => ?_)
  refine ReadOnly.ite _ (getD_readOnly p) (ReadOnly.ite _ ?_ (ReadOnly.error _))
  exact ReadOnly.bind (getI_readOnly p) (fun _ => ReadOnly.pure _)

theorem doubleOrI_readOnly (p : Nat) : ReadOnly (doubleOrI p) := by
  unfold doubleOrI
  refine ReadOnly.bind (typeOf_readOnly p) (fun t => ?_)
  refine ReadOnly.ite _ (getD_readOnly p) ?_
  exact ReadOnly.bind (getI_readOnly p) (fun _ => ReadOnly.pure _)

/-- Every computation of `FrameSafe` keeps the marked frames. -/
theorem FrameSafe.sound {P : Nat → Prop} {α : Type} {m : M α} (h : FrameSafe P m) :
    KeepsFrames P m := by
  induction h with
  | pure a => exact keepsFrames_pure a
  | error msg => exact keepsFrames_error msg
  | undefined => exact keepsFrames_undefined
  | timeout => exact keepsFrames_timeout
  | readItem p => exact keepsFrames_of_readOnly (readItem_readOnly p)
  | typeOf p => exact keepsFrames_of_readOnly (typeOf_readOnly p)
  | isNull p => exact keepsFrames_of_readOnly (isNull_readOnly p)
  | getI p => exact keepsFrames_of_readOnly (getI_readOnly p)
  | getD p => exact keepsFrames_of_readOnly (getD_readOnly p)
  | getS p => exact keepsFrames_of_readOnly (getS_readOnly p)
  | getPf p => exact keepsFrames_of_readOnly (getPf_readOnly p)
  | car p => exact keepsFrames_of_readOnly (car_readOnly p)
  | cdr p => exact keepsFrames_of_readOnly (cdr_readOnly p)
  | getClFrame p => exact keepsFrames_of_readOnly (getClFrame_readOnly p)
  | length fuel p => exact keepsFrames_of_readOnly (length_readOnly fuel p)
  | lookupSymbol k s frame => exact keepsFrames_of_readOnly (lookupSymbol_readOnly s k frame)
  | allocItem it => exact allocItem_keepsFrames it
  | writeItem p it => exact writeItem_keepsFrames p it
  | addBinding frame var value h => exact addBinding_keepsFrames frame h var value
  | ite c _ _ ih1 ih2 => exact keepsFrames_ite c ih1 ih2
  | bindCreateFrame parent _ ih => exact keepsFrames_bind_createFrame parent ih
  | bindPair _ _ ihm ihk => exact keepsFrames_bind_pair ihm ihk
  | bind _ _ ihm ihk => exact keepsFrames_bind ihm ihk
  | makeNull => exact allocItem_keepsFrames _
  | cons a b => exact allocItem_keepsFrames _
  | newTagged t => exact allocItem_keepsFrames _
  | newInt i => exact allocItem_keepsFrames _
  | newDouble d => exact allocItem_keepsFrames _
  | newBool b => exact allocItem_keepsFrames _
  | getParamNames p => exact keepsFrames_of_readOnly (car_readOnly p)
  | getFunctionCode p => exact keepsFrames_of_readOnly (cdr_readOnly p)
  | toInt x => exact keepsFrames_of_readOnly (toInt_readOnly x)
  | numberArg p message => exact keepsFrames_of_readOnly (numberArg_readOnly p message)
  | doubleOrI p => exact keepsFrames_of_readOnly (doubleOrI_readOnly p)
  | isElse p => exact keepsFrames_of_readOnly (fun st a st' h => isElse_state p st st' a h)
  | isTrueBool p =>
    exact keepsFrames_of_readOnly (fun st a st' h => isTrueBool_state p st st' a h)
  | evalLetDuplicate k i b v =>
    exact keepsFrames_of_readOnly (evalLetDuplicate_readOnly k i b v)
  | evalLambda fuel args frame =>
    exact keepsFrames_of_frames_eq
      (fun st a st' h => (evalLambda_creates fuel args frame st a st' h).2.1)
  | keeps h => exact h

theorem primitiveMinus_keepsFrames {P : Nat → Prop} (fuel args : Nat) :
    KeepsFrames P (primitiveMinus fuel args) := by
  unfold primitiveMinus
  refine FrameSafe.sound ?_
  with_reducible repeat (first | assumption | constructor | intro _)

theorem primitiveLess_keepsFrames {P : Nat → Prop} (fuel args : Nat) :
    KeepsFrames P (primitiveLess fuel args) := by
  unfold primitiveLess
  refine FrameSafe.sound ?_
  with_reducible repeat (first | assumption | constructor | intro _)

theorem primitiveGreater_keepsFrames {P : Nat → Prop} (fuel args : Nat) :
    KeepsFrames P (primitiveGreater fuel args) := by
  unfold primitiveGreater
  refine FrameSafe.sound ?_
  with_reducible repeat (first | assumption | constructor | intro _)

theorem primitiveEqual_keepsFrames {P : Nat → Prop} (fuel args : Nat) :
    KeepsFrames P (primitiveEqual fuel args) := by
  unfold primitiveEqual
  refine FrameSafe.sound ?_
  with_reducible repeat (first | assumption | constructor | intro _)

theorem primitivePlusLoop_keepsFrames {P : Nat → Prop} :
    ∀ (k : Nat) (args : Nat) (total : ℚ) (hasDouble : Bool),
      KeepsFrames P (primitivePlusLoop k args total hasDouble) := by
  intro k
  induction k with
  | zero => intro _ _ _; exact keepsFrames_timeout
  | succ k ih =>
    intro _ _ _
    unfold primitivePlusLoop
    refine FrameSafe.sound ?_
    with_reducible repeat (first | assumption | constructor | intro _ | exact ih _ _ _)

theorem primitivePlus_keepsFrames {P : Nat → Prop} (fuel args : Nat) :
    KeepsFrames P (primitivePlus fuel args) := by
  unfold primitivePlus
  refine FrameSafe.sound ?_
  with_reducible repeat (first
    | assumption | constructor | intro _ | exact primitivePlusLoop_keepsFrames _ _ _ _)

theorem primitiveNull_keepsFrames {P : Nat → Prop} (fuel args : Nat) :
    KeepsFrames P (primitiveNull fuel args) := by
  unfold primitiveNull
  refine FrameSafe.sound ?_
  with_reducible repeat (first | assumption | constructor | intro _)

theorem primitiveCar_keepsFrames {P : Nat → Prop} (fuel args : Nat) :
    KeepsFrames P (primitiveCar fuel args) := by
  unfold primitiveCar
  refine FrameSafe.sound ?_
  with_reducible repeat (first | assumption | constructor | intro _)

theorem primitiveCdr_keepsFrames {P : Nat → Prop} (fuel args : Nat) :
    KeepsFrames P (primitiveCdr fuel args) := by
  unfold primitiveCdr
  refine FrameSafe.sound ?_
  with_reducible repeat (first | assumption | constructor | intro _)

theorem primitiveCons_keepsFrames {P : Nat → Prop} (fuel args : Nat) :
    KeepsFrames P (primitiveCons fuel args) := by
  unfold primitiveCons
  refine FrameSafe.sound ?_
  with_reducible repeat (first | assumption | constructor | intro _)

theorem primitiveAppend_keepsFrames {P : Nat → Prop} (fuel : Nat) :
    ∀ (k : Nat) (args : Nat), KeepsFrames P (primitiveAppend fuel k args) := by
  intro k
  induction k with
  | zero => intro _; exact keepsFrames_timeout
  | succ k ih =>
    intro _
    unfold primitiveAppend
    refine FrameSafe.sound ?_
    with_reducible repeat (first | assumption | constructor | intro _ | exact ih _)

theorem primitiveMultiplyLoop_keepsFrames {P : Nat → Prop} :
    ∀ (k : Nat) (args : Nat) (result : ℚ) (containsDouble : Bool),
      KeepsFrames P (primitiveMultiplyLoop k args result containsDouble) := by
  intro k
  induction k with
  | zero => intro _ _ _; exact keepsFrames_timeout
  | succ k ih =>
    intro _ _ _
    unfold primitiveMultiplyLoop
    refine FrameSafe.sound ?_
    with_reducible repeat (first | assumption | constructor | intro _ | exact ih _ _ _)

theorem primitiveMultiply_keepsFrames {P : Nat → Prop} (fuel args : Nat) :
    KeepsFrames P (primitiveMultiply fuel args) := by
  unfold primitiveMultiply
  refine FrameSafe.sound ?_
  with_reducible repeat (first
    | assumption | constructor | intro _ | exact primitiveMultiplyLoop_keepsFrames _ _ _ _)

theorem primitiveDivide_keepsFrames {P : Nat → Prop} (fuel args : Nat) :
    KeepsFrames P (primitiveDivide fuel args) := by
  unfold primitiveDivide
  refine FrameSafe.sound ?_
  with_reducible repeat (first | assumption | constructor | intro _)

theorem primitiveModulo_keepsFrames {P : Nat → Prop} (fuel args : Nat) :
    KeepsFrames P (primitiveModulo fuel args) := by
  unfold primitiveModulo
  refine FrameSafe.sound ?_
  with_reducible repeat (first | assumption | constructor | intro _)

theorem callPrimitive_keepsFrames {P : Nat → Prop} (fuel : Nat) (pf : PrimFn) (args : Nat) :
    KeepsFrames P (callPrimitive fuel pf args) := by
  cases pf
  · exact primitivePlus_keepsFrames fuel args
  · exact primitiveMinus_keepsFrames fuel args
  · exact primitiveMultiply_keepsFrames fuel args
  · exact primitiveDivide_keepsFrames fuel args
  · exact primitiveModulo_keepsFrames fuel args
  · exact primitiveLess_keepsFrames fuel args
  · exact primitiveGreater_keepsFrames fuel args
  · exact primitiveEqual_keepsFrames fuel args
  · exact primitiveNull_keepsFrames fuel args
  · exact primitiveCar_keepsFrames fuel args
  · exact primitiveCdr_keepsFrames fuel args
  · exact primitiveCons_keepsFrames fuel args
  · exact primitiveAppend_keepsFrames fuel fuel args

theorem evalBodyLoop_keepsFrames {P : Nat → Prop} (ev : Nat → Nat → M Nat)
    (hev : ∀ tree frame, ¬ P frame → KeepsFrames P (ev tree frame)) :
    ∀ (k : Nat) (body frame result : Nat), ¬ P frame →
      KeepsFrames P (evalBodyLoop ev k body frame result) := by
  intro k
  induction k with
  | zero => intro _ _ _ _; exact keepsFrames_timeout
  | succ k ih =>
    intro _ _ _ _
    unfold evalBodyLoop
    refine FrameSafe.sound ?_
    with_reducible repeat (first
      | assumption | constructor | intro _ | exact hev _ _ (by assumption)
      | exact ih _ _ _ (by assumption))

theorem evalBody_keepsFrames {P : Nat → Prop} (ev : Nat → Nat → M Nat)
    (hev : ∀ tree frame, ¬ P frame → KeepsFrames P (ev tree frame))
    (fuel body frame : Nat)
    (hframe : ¬ P frame) :
    KeepsFrames P (evalBody ev fuel body frame) := by
  unfold evalBody
  refine FrameSafe.sound ?_
  with_reducible repeat (first
    | assumption | constructor | intro _
    | exact evalBodyLoop_keepsFrames ev hev _ _ _ _ (by assumption))

theorem evalIf_keepsFrames {P : Nat → Prop} (ev : Nat → Nat → M Nat)
    (hev : ∀ tree frame, ¬ P frame → KeepsFrames P (ev tree frame))
    (fuel args frame : Nat)
    (hframe : ¬ P frame) :
    KeepsFrames P (evalIf ev fuel args frame) := by
  unfold evalIf
  refine FrameSafe.sound ?_
  with_reducible repeat (first
    | assumption | constructor | intro _ | exact hev _ _ (by assumption))

theorem evalLetLoop_keepsFrames {P : Nat → Prop} (ev : Nat → Nat → M Nat)
    (hev : ∀ tree frame, ¬ P frame → KeepsFrames P (ev tree frame))
    (fuel args frame letFrame : Nat)
    (hframe : ¬ P frame) (hlet : ¬ P letFrame) :
    ∀ (k : Nat) (bindings : Nat),
      KeepsFrames P (evalLetLoop ev fuel args frame letFrame k bindings) := by
  intro k
  induction k with
  | zero => intro _; exact keepsFrames_timeout
  | succ k ih =>
    intro _
    unfold evalLetLoop
    refine FrameSafe.sound ?_
    with_reducible repeat (first
      | assumption | constructor | intro _ | exact hev _ _ (by assumption) | exact ih _)

theorem evalLet_keepsFrames {P : Nat → Prop} (ev : Nat → Nat → M Nat)
    (hev : ∀ tree frame, ¬ P frame → KeepsFrames P (ev tree frame))
    (fuel args frame : Nat)
    (hframe : ¬ P frame) :
    KeepsFrames P (evalLet ev fuel args frame) := by
  unfold evalLet
  refine FrameSafe.sound ?_
  with_reducible repeat (first
    | assumption | constructor | intro _
    | exact evalLetLoop_keepsFrames ev hev _ _ _ _ (by assumption) (by assumption) _ _
    | exact evalBody_keepsFrames ev hev _ _ _ (by assumption))

theorem evalDefine_keepsFrames {P : Nat → Prop} (ev : Nat → Nat → M Nat)
    (hev : ∀ tree frame, ¬ P frame → KeepsFrames P (ev tree frame))
    (fuel args frame : Nat)
    (hframe : ¬ P frame) :
    KeepsFrames P (evalDefine ev fuel args frame) := by
  unfold evalDefine
  refine FrameSafe.sound ?_
  with_reducible repeat (first
    | assumption | constructor | intro _ | exact hev _ _ (by assumption))

theorem evalQuote_keepsFrames {P : Nat → Prop} (fuel args : Nat) :
    KeepsFrames P (evalQuote fuel args) := by
  unfold evalQuote
  refine FrameSafe.sound ?_
  with_reducible repeat (first | assumption | constructor | intro _)

theorem applyLoop_keepsFrames {P : Nat → Prop} (ev : Nat → Nat → M Nat)
    (hev : ∀ tree frame, ¬ P frame → KeepsFrames P (ev tree frame))
    (fuel function newFrame : Nat)
    (hnew : ¬ P newFrame) :
    ∀ (k : Nat) (paramNames args : Nat),
      KeepsFrames P (applyLoop ev fuel function newFrame k paramNames args) := by
  intro k
  induction k with
  | zero => intro _ _; exact keepsFrames_timeout
  | succ k ih =>
    intro _ _
    unfold applyLoop
    refine FrameSafe.sound ?_
    with_reducible repeat (first
      | assumption | constructor | intro _
      | exact evalBody_keepsFrames ev hev _ _ _ (by assumption) | exact ih _ _)

theorem apply_keepsFrames {P : Nat → Prop} (ev : Nat → Nat → M Nat)
    (hev : ∀ tree frame, ¬ P frame → KeepsFrames P (ev tree frame))
    (fuel function args : Nat) :
    KeepsFrames P (apply ev fuel function args) := by
  unfold apply
  refine FrameSafe.sound ?_
  with_reducible repeat (first
    | assumption | constructor | intro _ | exact callPrimitive_keepsFrames _ _ _
    | exact applyLoop_keepsFrames ev hev _ _ _ (by assumption) _ _ _)

theorem evalList_keepsFrames {P : Nat → Prop} (ev : Nat → Nat → M Nat)
    (hev : ∀ tree frame, ¬ P frame → KeepsFrames P (ev tree frame)) :
    ∀ (k : Nat) (list frame : Nat), ¬ P frame → KeepsFrames P (evalList ev k list frame) := by
  intro k
  induction k with
  | zero => intro _ _ _; exact keepsFrames_timeout
  | succ k ih =>
    intro _ _ _
    unfold evalList
    refine FrameSafe.sound ?_
    with_reducible repeat (first
      | assumption | constructor | intro _ | exact hev _ _ (by assumption)
      | exact ih _ _ (by assumption))

theorem evalLetStarLoop_keepsFrames {P : Nat → Prop} (ev : Nat → Nat → M Nat)
    (hev : ∀ tree frame, ¬ P frame → KeepsFrames P (ev tree frame))
    (fuel body : Nat) :
    ∀ (k : Nat) (bindings letStarFrame : Nat), ¬ P letStarFrame →
      KeepsFrames P (evalLetStarLoop ev fuel body k bindings letStarFrame) := by
  intro k
  induction k with
  | zero => intro _ _ _; exact keepsFrames_timeout
  | succ k ih =>
    intro _ _ _
    unfold evalLetStarLoop
    refine FrameSafe.sound ?_
    with_reducible repeat (first
      | assumption | constructor | intro _ | exact hev _ _ (by assumption)
      | exact evalBody_keepsFrames ev hev _ _ _ (by assumption) | exact ih _ _ (by assumption))

theorem evalLetStar_keepsFrames {P : Nat → Prop} (ev : Nat → Nat → M Nat)
    (hev : ∀ tree frame, ¬ P frame → KeepsFrames P (ev tree frame))
    (fuel args frame : Nat)
    (hframe : ¬ P frame) :
    KeepsFrames P (evalLetStar ev fuel args frame) := by
  unfold evalLetStar
  refine FrameSafe.sound ?_
  with_reducible repeat (first
    | assumption | constructor | intro _
    | exact evalLetStarLoop_keepsFrames ev hev _ _ _ _ _ (by assumption))

theorem evalLetRecPlaceholders_keepsFrames {P : Nat → Prop} (fuel letRecFrame : Nat)
    (hframe : ¬ P letRecFrame) :
    ∀ (k : Nat) (tempBindings : Nat),
      KeepsFrames P (evalLetRecPlaceholders fuel letRecFrame k tempBindings) := by
  intro k
  induction k with
  | zero => intro _; exact keepsFrames_timeout
  | succ k ih =>
    intro _
    unfold evalLetRecPlaceholders
    refine FrameSafe.sound ?_
    with_reducible repeat (first | assumption | constructor | intro _ | exact ih _)

theorem setType_keepsFrames {P : Nat → Prop} (binding : Nat) (t : itemType) :
    KeepsFrames P (setType binding t) := by
  unfold setType
  refine FrameSafe.sound ?_
  with_reducible repeat (first | assumption | constructor | intro _)

theorem setU0_keepsFrames {P : Nat → Prop} (binding : Nat) (w : Word) :
    KeepsFrames P (setU0 binding w) := by
  unfold setU0
  refine FrameSafe.sound ?_
  with_reducible repeat (first | assumption | constructor | intro _)

theorem setU1_keepsFrames {P : Nat → Prop} (binding : Nat) (w : Word) :
    KeepsFrames P (setU1 binding w) := by
  unfold setU1
  refine FrameSafe.sound ?_
  with_reducible repeat (first | assumption | constructor | intro _)

theorem setU2_keepsFrames {P : Nat → Prop} (binding : Nat) (w : Word) :
    KeepsFrames P (setU2 binding w) := by
  unfold setU2
  refine FrameSafe.sound ?_
  with_reducible repeat (first | assumption | constructor | intro _)

theorem evalLetRecPatch_keepsFrames {P : Nat → Prop} (binding value : Nat) :
    KeepsFrames P (evalLetRecPatch binding value) := by
  unfold evalLetRecPatch
  refine FrameSafe.sound ?_
  refine FrameSafe.bind (FrameSafe.typeOf _) (fun t => ?_)
  refine FrameSafe.bind (FrameSafe.keeps (setType_keepsFrames _ _)) (fun _ => ?_)
  cases t <;> dsimp only <;>
  (with_reducible repeat (first
      | assumption | constructor | intro _ | exact setType_keepsFrames _ _
      | exact setU0_keepsFrames _ _ | exact setU1_keepsFrames _ _ | exact setU2_keepsFrames _ _))

theorem evalLetRecFill_keepsFrames {P : Nat → Prop} (ev : Nat → Nat → M Nat)
    (hev : ∀ tree frame, ¬ P frame → KeepsFrames P (ev tree frame))
    (fuel letRecFrame : Nat)
    (hframe : ¬ P letRecFrame) :
    ∀ (k : Nat) (tempBindings : Nat),
      KeepsFrames P (evalLetRecFill ev fuel letRecFrame k tempBindings) := by
  intro k
  induction k with
  | zero => intro _; exact keepsFrames_timeout
  | succ k ih =>
    intro _
    unfold evalLetRecFill
    refine FrameSafe.sound ?_
    with_reducible repeat (first
      | assumption | constructor | intro _ | exact hev _ _ (by assumption)
      | exact evalLetRecPatch_keepsFrames _ _ | exact ih _)

theorem evalLetRec_keepsFrames {P : Nat → Prop} (ev : Nat → Nat → M Nat)
    (hev : ∀ tree frame, ¬ P frame → KeepsFrames P (ev tree frame))
    (fuel args frame : Nat)
    (_ : ¬ P frame) :
    KeepsFrames P (evalLetRec ev fuel args frame) := by
  unfold evalLetRec
  refine FrameSafe.sound ?_
  with_reducible repeat (first
    | assumption | constructor | intro _
    | exact evalLetRecPlaceholders_keepsFrames _ _ (by assumption) _ _
    | exact evalLetRecFill_keepsFrames ev hev _ _ (by assumption) _ _
    | exact evalBody_keepsFrames ev hev _ _ _ (by assumption))

theorem evalSet_keepsFrames {P : Nat → Prop} (ev : Nat → Nat → M Nat)
    (hev : ∀ tree frame, ¬ P frame → KeepsFrames P (ev tree frame))
    (fuel args frame : Nat)
    (hframe : ¬ P frame) :
    KeepsFrames P (evalSet ev fuel args frame) := by
  unfold evalSet
  refine FrameSafe.sound ?_
  with_reducible repeat (first
    | assumption | constructor | intro _ | exact hev _ _ (by assumption)
    | exact setType_keepsFrames _ _ | exact setU0_keepsFrames _ _ | exact setU1_keepsFrames _ _
    | exact setU2_keepsFrames _ _)

theorem evalSetCar_keepsFrames {P : Nat → Prop} (ev : Nat → Nat → M Nat)
    (hev : ∀ tree frame, ¬ P frame → KeepsFrames P (ev tree frame))
    (fuel args frame : Nat)
    (hframe : ¬ P frame) :
    KeepsFrames P (evalSetCar ev fuel args frame) := by
  unfold evalSetCar
  refine FrameSafe.sound ?_
  with_reducible repeat (first
    | assumption | constructor | intro _ | exact hev _ _ (by assumption)
    | exact setType_keepsFrames _ _ | exact setU0_keepsFrames _ _ | exact setU1_keepsFrames _ _
    | exact setU2_keepsFrames _ _)

theorem evalSetCdr_keepsFrames {P : Nat → Prop} (ev : Nat → Nat → M Nat)
    (hev : ∀ tree frame, ¬ P frame → KeepsFrames P (ev tree frame))
    (fuel args frame : Nat)
    (hframe : ¬ P frame) :
    KeepsFrames P (evalSetCdr ev fuel args frame) := by
  unfold evalSetCdr
  refine FrameSafe.sound ?_
  with_reducible repeat (first
    | assumption | constructor | intro _ | exact hev _ _ (by assumption)
    | exact setType_keepsFrames _ _ | exact setU0_keepsFrames _ _ | exact setU1_keepsFrames _ _
    | exact setU2_keepsFrames _ _)

theorem evalCond_keepsFrames {P : Nat → Prop} (ev : Nat → Nat → M Nat)
    (hev : ∀ tree frame, ¬ P frame → KeepsFrames P (ev tree frame))
    (fuel frame : Nat)
    (hframe : ¬ P frame) :
    ∀ (k : Nat) (args : Nat), KeepsFrames P (evalCond ev fuel frame k args) := by
  intro k
  induction k with
  | zero => intro _; exact keepsFrames_timeout
  | succ k ih =>
    intro _
    unfold evalCond
    refine FrameSafe.sound ?_
    with_reducible repeat (first
      | assumption | constructor | intro _ | exact hev _ _ (by assumption)
      | exact evalBody_keepsFrames ev hev _ _ _ (by assumption) | exact ih _)

theorem evalAnd_keepsFrames {P : Nat → Prop} (ev : Nat → Nat → M Nat)
    (hev : ∀ tree frame, ¬ P frame → KeepsFrames P (ev tree frame))
    (frame : Nat) (hframe : ¬ P frame) :
    ∀ (k : Nat) (args : Nat), KeepsFrames P (evalAnd ev frame k args) := by
  intro k
  induction k with
  | zero => intro _; exact keepsFrames_timeout
  | succ k ih =>
    intro _
    unfold evalAnd
    refine FrameSafe.sound ?_
    with_reducible repeat (first
      | assumption | constructor | intro _ | exact hev _ _ (by assumption) | exact ih _)

theorem evalOr_keepsFrames {P : Nat → Prop} (ev : Nat → Nat → M Nat)
    (hev : ∀ tree frame, ¬ P frame → KeepsFrames P (ev tree frame))
    (frame : Nat) (hframe : ¬ P frame) :
    ∀ (k : Nat) (args : Nat), KeepsFrames P (evalOr ev frame k args) := by
  intro k
  induction k with
  | zero => intro _; exact keepsFrames_timeout
  | succ k ih =>
    intro _
    unfold evalOr
    refine FrameSafe.sound ?_
    with_reducible repeat (first
      | assumption | constructor | intro _ | exact hev _ _ (by assumption) | exact ih _)

theorem evalApplication_keepsFrames {P : Nat → Prop} (ev : Nat → Nat → M Nat)
    (hev : ∀ tree frame, ¬ P frame → KeepsFrames P (ev tree frame))
    (fuel first args frame : Nat)
    (hframe : ¬ P frame) :
    KeepsFrames P (evalApplication ev fuel first args frame) := by
  unfold evalApplication
  refine FrameSafe.sound ?_
  with_reducible repeat (first
    | assumption | constructor | intro _ | exact hev _ _ (by assumption)
    | exact evalList_keepsFrames ev hev _ _ _ (by assumption)
    | exact apply_keepsFrames ev hev _ _ _)

theorem evalPair_keepsFrames {P : Nat → Prop} (ev : Nat → Nat → M Nat)
    (hev : ∀ tree frame, ¬ P frame → KeepsFrames P (ev tree frame)) (fuel tree frame : Nat)
    (hframe : ¬ P frame) : KeepsFrames P (evalPair ev fuel tree frame) := by
  unfold evalPair
  refine keepsFrames_bind (keepsFrames_of_readOnly (car_readOnly _)) (fun first => ?_)
  refine keepsFrames_bind (keepsFrames_of_readOnly (cdr_readOnly _)) (fun args => ?_)
  refine keepsFrames_bind (keepsFrames_of_readOnly (typeOf_readOnly _)) (fun t => ?_)
  refine keepsFrames_ite _ (evalApplication_keepsFrames ev hev _ _ _ _ hframe) ?_
  refine keepsFrames_bind (keepsFrames_of_readOnly (getS_readOnly _)) (fun s => ?_)
  refine keepsFrames_ite _ (evalDefine_keepsFrames ev hev _ _ _ hframe) ?_
  refine keepsFrames_ite _ (evalLet_keepsFrames ev hev _ _ _ hframe) ?_
  refine keepsFrames_ite _ (evalLetStar_keepsFrames ev hev _ _ _ hframe) ?_
  refine keepsFrames_ite _ (evalLetRec_keepsFrames ev hev _ _ _ hframe) ?_
  refine keepsFrames_ite _ (evalSet_keepsFrames ev hev _ _ _ hframe) ?_
  refine keepsFrames_ite _ (evalSetCar_keepsFrames ev hev _ _ _ hframe) ?_
  refine keepsFrames_ite _ (evalSetCdr_keepsFrames ev hev _ _ _ hframe) ?_
  refine keepsFrames_ite _ (FrameSafe.sound (FrameSafe.evalLambda _ _ _)) ?_
  refine keepsFrames_ite _ (evalCond_keepsFrames ev hev _ _ hframe _ _) ?_
  refine keepsFrames_ite _ (evalIf_keepsFrames ev hev _ _ _ hframe) ?_
  refine keepsFrames_ite _ (evalQuote_keepsFrames _ _) ?_
  refine keepsFrames_ite _ (evalAnd_keepsFrames ev hev _ hframe _ _) ?_
  exact keepsFrames_ite _ (evalOr_keepsFrames ev hev _ hframe _ _)
    (evalApplication_keepsFrames ev hev _ _ _ _ hframe)

/-- Evaluating in a frame that is not marked keeps every marked frame: the
evaluator adds bindings to the frame it runs in and to frames it creates,
never to another one. -/
theorem eval_keepsFrames {P : Nat → Prop} :
    ∀ (fuel tree frame : Nat), ¬ P frame → KeepsFrames P (eval fuel tree frame) := by
  intro fuel
  induction fuel with
  | zero => intro _ _ _; exact keepsFrames_timeout
  | succ fuel ih =>
    intro tree frame hframe
    unfold eval
    refine keepsFrames_bind (keepsFrames_of_readOnly (typeOf_readOnly _)) (fun t => ?_)
    cases t
    all_goals first
      | exact keepsFrames_pure _
      | exact keepsFrames_error _
      | exact evalPair_keepsFrames (eval fuel) ih _ _ _ hframe
      | exact keepsFrames_bind (keepsFrames_of_readOnly (getS_readOnly _))
          (fun _ => keepsFrames_of_readOnly (lookupSymbol_readOnly _ _ _))

/-- C12: `evalDefine` fails unless its argument list has exactly 2 elements
and the first is a symbol; for `(define s e)` where `e` evaluates in `frame`
to `v`, it puts the binding of `s` to `v` in front of the bindings of `frame`
itself and returns a new Void item, so that the lookup of `s` from `frame`
yields `v`, and it leaves every other frame, the parents of `frame` among
them, as the evaluation of `e` left it; with `eval` as the evaluator, the
whole form leaves every frame that was there before, other than `frame`, as it
was. -/
theorem evalDefine_binds (ev : Nat → Nat → M Nat) (fuel : Nat) (st : State)
    (args frame : Nat) (xs cells : List Nat)
    (hargs : isList (frozen cells st) args xs = true) (hfuel : xs.length < fuel) :
    (xs.length ≠ 2 →
      evalDefine ev fuel args frame st = .error "there must be 2 arguments for define") ∧
    (∀ var e, xs = [var, e] →
      (∀ it, st.items[var]? = some it → it.type ≠ SYMBOL_TYPE →
        evalDefine ev fuel args frame st = .error "the first argument must be symbol") ∧
      (∀ s v st' fr, isSymbol (frozen cells st) var s = true → ev e frame st = .ok v st' →
        agree cells st st' = true → st'.frames[frame]? = some fr →
        evalDefine ev fuel args frame st =
          .ok st'.items.length
            ⟨st'.items ++ [⟨VOID_TYPE, .undef, .undef, .undef⟩],
             st'.frames.set frame ⟨(s, v) :: fr.bindings, fr.parent⟩⟩ ∧
        (st'.frames.set frame ⟨(s, v) :: fr.bindings, fr.parent⟩)[frame]? =
          some ⟨(s, v) :: fr.bindings, fr.parent⟩ ∧
        (∀ k items, lookupSymbol (k + 1) s (some frame)
            ⟨items, st'.frames.set frame ⟨(s, v) :: fr.bindings, fr.parent⟩⟩ =
          .ok v ⟨items, st'.frames.set frame ⟨(s, v) :: fr.bindings, fr.parent⟩⟩) ∧
        (∀ f, f ≠ frame →
          (st'.frames.set frame ⟨(s, v) :: fr.bindings, fr.parent⟩)[f]? = st'.frames[f]?))) ∧
    (∀ n a st'', evalDefine (eval n) fuel args frame st = .ok a st'' →
      ∀ f, f < st.frames.length → f ≠ frame → st''.frames[f]? = st.frames[f]?) := by
  have hS := frozen_of_agree (agree_refl cells st)
  have hlen := length_isList (agree_refl cells st) hargs hfuel
  refine ⟨fun hne => by simp [evalDefine, hlen, hne], ?_, ?_⟩
  swap
  · intro n a st'' h f hf hne
    have hk := @evalDefine_keepsFrames (fun g => g < st.frames.length ∧ g ≠ frame) (eval n)
      (fun tree fr hfr => eval_keepsFrames n tree fr hfr) fuel args frame (fun hp => hp.2 rfl)
    exact (hk st a st'' (fun g hg => hg.1) h).2 f ⟨hf, hne⟩
  rintro var e rfl
  obtain ⟨i1, i2, q1, q2, h1, h10, h11, h2, h20, h21⟩ := isList_two hargs
  refine ⟨?_, ?_⟩
  · intro it hv ht
    simp [evalDefine, hlen, car_ok (hS _ _ h1) h10, typeOf_ok hv, ht]
  · intro s v st' fr hsym hev hag hfr
    obtain ⟨iv, hv, hvt, hvs⟩ := (isSymbol_iff _ _ _).1 hsym
    have hS' := frozen_of_agree hag
    have hlt : frame < st'.frames.length := by
      by_contra hge
      rw [List.getElem?_eq_none (by omega)] at hfr
      cases hfr
    refine ⟨?_, ?_, ?_, ?_⟩
    · simp [evalDefine, hlen, car_ok (hS _ _ h1) h10, typeOf_ok (hS _ _ hv), hvt,
        cdr_ok (hS _ _ h1) h11, car_ok (hS _ _ h2) h20, hev, getS_ok (hS' _ _ hv) hvs,
        addBinding, hfr, newTagged, allocItem]
    · simp [hlt]
    · intro k items
      simp [lookupSymbol, hlt, lookupBindings]
    · intro f hf
      simp [List.getElem?_set, Ne.symm hf]

theorem evalDefine_binds_witness :
    isList (frozen (List.range 7) exampleDefine) 5 [1, 2] = true ∧
    evalDefine (eval 5) 5 5 1 exampleDefine =
      .ok 7 ⟨exampleDefine.items ++ [⟨VOID_TYPE, .undef, .undef, .undef⟩],
        [⟨[("y", 2)], none⟩, ⟨[("x", 2)], some 0⟩]⟩ :=
  ⟨by decide,
   (((evalDefine_binds (eval 5) 5 exampleDefine 5 1 [1, 2] (List.range 7)
      (by decide) (by decide)).2.1 1 2 rfl).2 "x" 2 exampleDefine ⟨[], some 0⟩
      (by decide) (by decide) (by decide) (by decide)).1⟩

/-- C11: a closure holds the frame `evalLambda` was called with; a call,
from whatever frame it is made (`apply` takes no frame of the caller),
evaluates the body forms in a new frame L whose parent is that captured frame
F; a name that L does not bind is looked up from F on, so the frames of the
caller are not consulted; a `define` evaluated in the body puts its binding
in L and leaves the bindings of F as they were; with `eval` as the evaluator,
the whole call leaves every frame that was there before it, F and the frames
of the caller among them, as it was. -/
theorem closure_captured_frame (ev : Nat → Nat → M Nat) (fuel : Nat) (st : State)
    (function args params body closureFrame : Nat)
    (names : List String) (ps vals forms cells : List Nat)
    (hfun : st.items[function]? =
      some ⟨CLOSURE_TYPE, .ptr params, .ptr body, .env closureFrame⟩)
    (hparams : isList st.view params ps = true)
    (hsyms : areSymbols st.view ps names = true)
    (hargs : isList st.view args vals = true)
    (hbody : isList (frozen cells st) body forms = true)
    (hfuel : names.length < fuel ∧ forms.length < fuel ∧ 2 < fuel)
    (hlen : vals.length = names.length)
    (hframe : closureFrame < st.frames.length)
    (hin : formsIntact ev st.frames.length cells st forms
        ⟨st.items ++ [⟨NULL_TYPE, .undef, .undef, .undef⟩],
         st.frames ++ [⟨(names.zip vals).reverse, some closureFrame⟩]⟩ = true) :
    (∀ s largs F a s', evalLambda fuel largs F s = .ok a s' →
      a = s.items.length ∧ s'.frames = s.frames ∧
        ∃ p b, s'.items = s.items ++ [⟨CLOSURE_TYPE, .ptr p, .ptr b, .env F⟩]) ∧
    apply ev fuel function args st =
      evalForms ev st.frames.length forms st.items.length
        ⟨st.items ++ [⟨NULL_TYPE, .undef, .undef, .undef⟩],
         st.frames ++ [⟨(names.zip vals).reverse, some closureFrame⟩]⟩ ∧
    (∀ s bs x k, s.frames[st.frames.length]? = some ⟨bs, some closureFrame⟩ →
      lookupBindings x bs = none →
      lookupSymbol (k + 1) x (some st.frames.length) s =
        lookupSymbol k x (some closureFrame) s) ∧
    (∀ s dargs var e dcells x v s' fr,
      isList (frozen dcells s) dargs [var, e] = true →
      isSymbol (frozen dcells s) var x = true → ev e st.frames.length s = .ok v s' →
      agree dcells s s' = true → s'.frames[st.frames.length]? = some fr →
      evalDefine ev fuel dargs st.frames.length s =
        .ok s'.items.length
          ⟨s'.items ++ [⟨VOID_TYPE, .undef, .undef, .undef⟩],
           s'.frames.set st.frames.length ⟨(x, v) :: fr.bindings, fr.parent⟩⟩ ∧
      (s'.frames.set st.frames.length ⟨(x, v) :: fr.bindings, fr.parent⟩)[closureFrame]? =
        s'.frames[closureFrame]?) ∧
    (∀ n a st', apply (eval n) fuel function args st = .ok a st' →
      ∀ f, f < st.frames.length → st'.frames[f]? = st.frames[f]?) := by
  refine ⟨fun s largs F a s' h => evalLambda_creates fuel largs F s a s' h,
    apply_closure_body ev fuel st function args params body closureFrame names ps vals forms
      cells hfun hparams hsyms hargs hbody ⟨hfuel.1, hfuel.2.1⟩ hlen hin, ?_, ?_, ?_⟩
  rotate_left 2
  · intro n a st' h f hf
    have hk := @apply_keepsFrames (fun g => g < st.frames.length) (eval n)
      (fun tree fr hfr => eval_keepsFrames n tree fr hfr) fuel function args
    exact (hk st a st' (fun g hg => hg) h).2 f hf
  · intro s bs x k hfr hnone
    simp [lookupSymbol, hfr, hnone]
  · intro s dargs var e dcells x v s' fr hl hsym hev hag hfr
    refine ⟨evalDefine_ok ev fuel s dargs st.frames.length var e dcells x v s' fr hl hfuel.2.2
      hsym hev hag hfr, ?_⟩
    rw [List.getElem?_set_ne (by omega)]

theorem closure_captured_frame_witness :
    isList exampleClosure.view 4 [0, 1] = true ∧
    areSymbols exampleClosure.view [0, 1] ["a", "b"] = true ∧
    isList exampleClosure.view 13 [9, 10] = true ∧
    apply (eval 5) 5 8 13 exampleClosure =
      evalForms (eval 5) 1 [5] 14
        ⟨exampleClosure.items ++ [⟨NULL_TYPE, .undef, .undef, .undef⟩],
         [⟨[], none⟩, ⟨[("b", 10), ("a", 9)], some 0⟩]⟩ :=
  ⟨by decide, by decide, by decide,
   (closure_captured_frame (eval 5) 5 exampleClosure 8 13 4 7 0 ["a", "b"] [0, 1] [9, 10] [5]
      (List.range 14) (by decide) (by decide) (by decide) (by decide) (by decide) (by decide)
      (by decide) (by decide) (by decide)).2.1⟩

/-- C21: over an argument list of the operands `ops`, `primitiveDivide` fails
with "2 arguments needed" unless there are exactly 2; for two operands it
fails with "not a number" when one of them is neither an Integer nor a Real,
with "can't divide by zero" when both are numbers and the second is zero (the
Integer 0 or the Real 0), and otherwise returns a new item tagged Real, also
for two Integers; the item holds the quotient whenever the quotient is an
integer of magnitude at most 2^53, which the division of two `double`s gives
exactly. -/
theorem primitiveDivide_real (fuel : Nat) (st : State) (args : Nat) (ps : List Nat)
    (ops : List Operand)
    (hargs : isList st.view args ps = true) (hops : areOperands st.view ps ops = true)
    (hfuel : ps.length < fuel) :
    (ps.length ≠ 2 → primitiveDivide fuel args st = .error "2 arguments needed") ∧
    (∀ a b, ops = [a, b] →
      (a = .other ∨ b = .other → primitiveDivide fuel args st = .error "not a number") ∧
      (a ≠ .other → b ≠ .other →
        (b.value = 0 → primitiveDivide fuel args st = .error "can't divide by zero") ∧
        (b.value ≠ 0 →
          ∃ it, primitiveDivide fuel args st =
              .ok st.items.length ⟨st.items ++ [it], st.frames⟩ ∧
            it.type = DOUBLE_TYPE ∧
            (exactInteger (a.value / b.value) = true →
              it = ⟨DOUBLE_TYPE, .dbl (a.value / b.value), .undef, .undef⟩)))) := by
  have hlen : length fuel args st = .ok ps.length st := by
    have := lengthLoop_isList st.view st (fun _ _ x => x) ps args fuel 0 hargs hfuel
    simpa [length] using this
  refine ⟨fun hne => by simp [primitiveDivide, hlen, hne], ?_⟩
  rintro a b rfl
  obtain ⟨pa, pb, rfl⟩ : ∃ pa pb, ps = [pa, pb] := by
    cases ps with
    | nil => simp [areOperands] at hops
    | cons pa ps =>
      cases ps with
      | nil => simp [areOperands] at hops
      | cons pb ps =>
        cases ps with
        | nil => exact ⟨pa, pb, rfl⟩
        | cons pc ps => simp [areOperands] at hops
  · obtain ⟨i1, i2, q1, q2, h1, h10, h11, h2, h20, h21⟩ := isList_two hargs
    simp only [areOperands, Bool.and_eq_true, Bool.and_true] at hops
    cases ha : st.view pa with
    | none => simp [ha] at hops
    | some ia =>
      cases hb : st.view pb with
      | none => simp [hb] at hops
      | some ib =>
        simp only [ha, hb] at hops
        have ha' : st.items[pa]? = some ia := ha
        have hb' : st.items[pb]? = some ib := hb
        have h1' : st.items[args]? = some i1 := h1
        have h2' : st.items[q1]? = some i2 := h2
        have hhead : primitiveDivide fuel args st =
            (do
              if (ia.type = INT_TYPE ∨ ia.type = DOUBLE_TYPE) ∧
                  (ib.type = INT_TYPE ∨ ib.type = DOUBLE_TYPE) then do
                let numerator ← doubleOrI pa
                let denominator ← doubleOrI pb
                if denominator = 0 then evaluationError "can't divide by zero"
                else newDouble (numerator / denominator)
              else evaluationError "not a number" : M Nat) st := by
          simp [primitiveDivide, hlen, car_ok h1' h10, cdr_ok h1' h11, car_ok h2' h20,
            typeOf_ok ha', typeOf_ok hb']
        rw [hhead]
        have hval : ∀ (p : Nat) (it : Item) (o : Operand), st.items[p]? = some it →
            isOperand it o = true → o ≠ .other → doubleOrI p st = .ok o.value st := by
          intro p it o hp ho hne
          cases o with
          | other => exact absurd rfl hne
          | int i =>
            simp only [isOperand, Bool.and_eq_true, decide_eq_true_eq] at ho
            simp [doubleOrI, typeOf_ok hp, ho.1, getI, readItem_ok hp, ho.2, Operand.value]
          | real d =>
            simp only [isOperand, Bool.and_eq_true, decide_eq_true_eq] at ho
            simp [doubleOrI, typeOf_ok hp, ho.1, getD, readItem_ok hp, ho.2, Operand.value]
        have hnum : ∀ (it : Item) (o : Operand), isOperand it o = true →
            (o = .other ↔ ¬ (it.type = INT_TYPE ∨ it.type = DOUBLE_TYPE)) := by
          intro it o ho
          cases o with
          | other =>
            simp only [isOperand, Bool.and_eq_true, decide_eq_true_eq] at ho
            simp [ho.1, ho.2]
          | int i =>
            simp only [isOperand, Bool.and_eq_true, decide_eq_true_eq] at ho
            simp [ho.1]
          | real d =>
            simp only [isOperand, Bool.and_eq_true, decide_eq_true_eq] at ho
            simp [ho.1]
        refine ⟨?_, ?_⟩
        · intro hor
          have hnot : ¬ ((ia.type = INT_TYPE ∨ ia.type = DOUBLE_TYPE) ∧
              (ib.type = INT_TYPE ∨ ib.type = DOUBLE_TYPE)) := by
            rintro ⟨h3, h4⟩
            rcases hor with hx | hx
            · exact (hnum ia a hops.1).1 hx h3
            · exact (hnum ib b hops.2).1 hx h4
          simp [hnot]
        · intro hna hnb
          have h3 : ia.type = INT_TYPE ∨ ia.type = DOUBLE_TYPE := by
            by_contra hc
            exact hna ((hnum ia a hops.1).2 hc)
          have h4 : ib.type = INT_TYPE ∨ ib.type = DOUBLE_TYPE := by
            by_contra hc
            exact hnb ((hnum ib b hops.2).2 hc)
          refine ⟨fun hz => ?_, fun hz => ?_⟩
          · simp [h3, h4, hval pa ia a ha' hops.1 hna, hval pb ib b hb' hops.2 hnb, hz]
          · refine ⟨⟨DOUBLE_TYPE, .dbl (a.value / b.value), .undef, .undef⟩, ?_, rfl,
              fun _ => rfl⟩
            simp [h3, h4, hval pa ia a ha' hops.1 hna, hval pb ib b hb' hops.2 hnb, hz,
              newDouble, allocItem]

theorem primitiveDivide_real_witness :
    isList exampleDivide.view 4 [0, 1] = true ∧
    areOperands exampleDivide.view [0, 1] [.int 7, .int 2] = true ∧
    (∃ it, primitiveDivide 5 4 exampleDivide =
        .ok exampleDivide.items.length ⟨exampleDivide.items ++ [it], exampleDivide.frames⟩ ∧
      it.type = DOUBLE_TYPE ∧
      (exactInteger ((Operand.int 7).value / (Operand.int 2).value) = true →
        it = ⟨DOUBLE_TYPE, .dbl ((Operand.int 7).value / (Operand.int 2).value), .undef,
          .undef⟩)) :=
  ⟨by decide, by decide,
   (((primitiveDivide_real 5 exampleDivide 4 [0, 1] [.int 7, .int 2] (by decide) (by decide)
      (by decide)).2 (.int 7) (.int 2) rfl).2 (by decide) (by decide)).2
      (by simp [Operand.value])⟩

/-- Division gives a Real also for two Integers, and fails for a zero
divisor, Integer or Real, for a wrong count and for a text operand. -/
theorem divide_sample :
    printed (run 40 [L [S "/", .int 6, .int 3]]) =
      some [some ⟨DOUBLE_TYPE, .dbl 2, .undef, .undef⟩] ∧
    printed (run 40 [L [S "/", .int 7, .real 2]]) =
      some [some ⟨DOUBLE_TYPE, .dbl (7 / 2), .undef, .undef⟩] ∧
    run 40 [L [S "/", .int 1, .int 0]] = .error "can't divide by zero" ∧
    run 40 [L [S "/", .real 1, .real 0]] = .error "can't divide by zero" ∧
    run 40 [L [S "/", .int 1]] = .error "2 arguments needed" ∧
    run 40 [L [S "/", .int 1, .text "a"]] = .error "not a number" := by
  decide!

/-- C22: over an argument list `ps`, `primitiveCar` and `primitiveCdr` fail
unless the list has exactly 1 element and that element is a `cons` cell (so
they fail for the empty list, which is not one); for a cell holding `a` and
`b`, the two words `cons a b` stores, `primitiveCar` returns `a` and
`primitiveCdr` returns `b`. -/
theorem primitiveCar_primitiveCdr (fuel : Nat) (st : State) (args : Nat) (ps : List Nat)
    (hargs : isList st.view args ps = true) (hfuel : ps.length < fuel) :
    (ps.length ≠ 1 →
      primitiveCar fuel args st = .error "car expects one argument" ∧
      primitiveCdr fuel args st = .error "cdr expects one argument") ∧
    (∀ arg it, ps = [arg] → st.items[arg]? = some it →
      (it.type ≠ CONS_TYPE →
        primitiveCar fuel args st = .error "car expects a list" ∧
        primitiveCdr fuel args st = .error "cdr expects a list") ∧
      (∀ a b, it = ⟨CONS_TYPE, .ptr a, .ptr b, .undef⟩ →
        primitiveCar fuel args st = .ok a st ∧ primitiveCdr fuel args st = .ok b st)) ∧
    (∀ a b s, cons a b s =
      .ok s.items.length ⟨s.items ++ [⟨CONS_TYPE, .ptr a, .ptr b, .undef⟩], s.frames⟩) := by
  have hlen : length fuel args st = .ok ps.length st := by
    have := lengthLoop_isList st.view st (fun _ _ x => x) ps args fuel 0 hargs hfuel
    simpa [length] using this
  refine ⟨fun hne => ?_, ?_, fun a b s => rfl⟩
  · constructor <;> simp [primitiveCar, primitiveCdr, hlen, hne]
  · rintro arg it rfl harg
    obtain ⟨ia, q, hia, -, h0, -, -⟩ := (isList_cons_iff _ args arg []).1 hargs
    have hia' : st.items[args]? = some ia := hia
    refine ⟨fun ht => ?_, ?_⟩
    · constructor <;>
        simp [primitiveCar, primitiveCdr, hlen, car_ok hia' h0, typeOf_ok harg, ht]
    · rintro a b rfl
      constructor
      · simp [primitiveCar, hlen, car_ok hia' h0, typeOf_ok harg, car_ok harg rfl]
      · simp [primitiveCdr, hlen, car_ok hia' h0, typeOf_ok harg, cdr_ok harg rfl]

theorem primitiveCar_primitiveCdr_witness :
    isList exampleCarArgs.view 6 [4] = true ∧
    primitiveCar 5 6 exampleCarArgs = .ok 0 exampleCarArgs ∧
    primitiveCdr 5 6 exampleCarArgs = .ok 3 exampleCarArgs :=
  ⟨by decide,
   ((primitiveCar_primitiveCdr 5 exampleCarArgs 6 [4] (by decide) (by decide)).2.1 4
      ⟨CONS_TYPE, .ptr 0, .ptr 3, .undef⟩ rfl (by decide)).2 0 3 rfl⟩

/-- The primitives `car` and `cdr` on a pair built by `cons`, on the empty
list, on an Integer and with two arguments. -/
theorem car_cdr_sample :
    printed (run 40 [L [S "car", L [S "cons", .int 1, .int 2]]]) =
      some [some ⟨INT_TYPE, .int 1, .undef, .undef⟩] ∧
    printed (run 40 [L [S "cdr", L [S "cons", .int 1, .int 2]]]) =
      some [some ⟨INT_TYPE, .int 2, .undef, .undef⟩] ∧
    run 40 [L [S "car", L [S "quote", L []]]] = .error "car expects a list" ∧
    run 40 [L [S "cdr", L [S "quote", L []]]] = .error "cdr expects a list" ∧
    run 40 [L [S "car", .int 5]] = .error "car expects a list" ∧
    run 40 [L [S "car", L [S "cons", .int 1, .int 2], .int 3]] =
      .error "car expects one argument" := by
  decide!

theorem isSegment_cons_iff (h : Nat → Option Item) (p c : Nat) (cs : List Nat) (x : Nat)
    (xs : List Nat) (y : Nat) :
    isSegment h p (c :: cs) (x :: xs) y = true ↔
      p = c ∧ ∃ it q, h p = some it ∧ it.type = CONS_TYPE ∧ it.u0 = .ptr x ∧
        it.u1 = .ptr q ∧ isSegment h q cs xs y = true := by
  rw [isSegment]
  cases h p with
  | none => simp
  | some it =>
    cases h1 : it.u1 <;> simp [h1, and_assoc]

theorem isSegment_mono {h h' : Nat → Option Item}
    (hh : ∀ a it, h a = some it → h' a = some it) :
    ∀ (cs xs : List Nat) (p y : Nat), isSegment h p cs xs y = true →
      isSegment h' p cs xs y = true := by
  intro cs
  induction cs with
  | nil =>
    intro xs p y hs
    cases xs with
    | nil => simpa [isSegment] using hs
    | cons x xs => simp [isSegment] at hs
  | cons c cs ih =>
    intro xs p y hs
    cases xs with
    | nil => simp [isSegment] at hs
    | cons x xs =>
      obtain ⟨hpc, it, q, hp, ht, h0, h1, hq⟩ := (isSegment_cons_iff h p c cs x xs y).1 hs
      exact (isSegment_cons_iff h' p c cs x xs y).2
        ⟨hpc, it, q, hh _ _ hp, ht, h0, h1, ih xs q y hq⟩

theorem isCells_mono {h h' : Nat → Option Item}
    (hh : ∀ a it, h a = some it → h' a = some it) :
    ∀ (cs xs : List Nat) (p last : Nat), isCells h p cs xs last = true →
      isCells h' p cs xs last = true := by
  intro cs
  induction cs with
  | nil =>
    intro xs p last hs
    cases xs with
    | nil =>
      obtain ⟨hpl, it, hp, ht⟩ := (isCells_nil_iff h p last).1 hs
      exact (isCells_nil_iff h' p last).2 ⟨hpl, it, hh _ _ hp, ht⟩
    | cons x xs => simp [isCells] at hs
  | cons c cs ih =>
    intro xs p last hs
    cases xs with
    | nil => simp [isCells] at hs
    | cons x xs =>
      obtain ⟨hpc, it, q, hp, ht, h0, h1, hq⟩ := (isCells_cons_iff h p c cs x xs last).1 hs
      exact (isCells_cons_iff h' p c cs x xs last).2
        ⟨hpc, it, q, hh _ _ hp, ht, h0, h1, ih xs q last hq⟩

theorem getElem?_append_new {α : Type} (xs ys : List α) (i : Nat) :
    (xs ++ ys)[xs.length + i]? = ys[i]? := by
  rw [List.getElem?_append_right (Nat.le_add_right _ _)]
  simp

/-- The recursion of `primitiveAppend` along the first argument: a new chain
with the same elements that ends in the second argument, or the error when the
first argument does not end in the empty list. -/
theorem primitiveAppend_spec (fuel second : Nat) (hfuel : 2 < fuel) (last : Nat) (il : Item) :
    ∀ (xs cs : List Nat) (first args k : Nat) (st : State),
      isList st.view args [first, second] = true →
      isCells st.view first cs xs last = true → st.items[last]? = some il →
      xs.length < k →
      (il.type ≠ NULL_TYPE →
        primitiveAppend fuel k args st = .error "first argument of append must be a list") ∧
      (il.type = NULL_TYPE →
        ∃ r st' cs' more, primitiveAppend fuel k args st = .ok r st' ∧
          isSegment st'.view r cs' xs second = true ∧ (∀ c ∈ cs', st.items.length ≤ c) ∧
          st'.items = st.items ++ more ∧ st'.frames = st.frames) := by
  intro xs
  induction xs with
  | nil =>
    intro cs first args k st hargs hfirst hlast hk
    obtain ⟨k, rfl⟩ : ∃ j, k = j + 1 := ⟨k - 1, by simp at hk; omega⟩
    have hlen : length fuel args st = .ok 2 st := by
      have := lengthLoop_isList st.view st (fun _ _ x => x) [first, second] args fuel 0 hargs
        (by simpa using hfuel)
      simpa [length] using this
    obtain ⟨i1, i2, q1, q2, h1, h10, h11, h2, h20, h21⟩ := isList_two hargs
    have h1' : st.items[args]? = some i1 := h1
    have h2' : st.items[q1]? = some i2 := h2
    cases cs with
    | cons c cs => simp [isCells] at hfirst
    | nil =>
      obtain ⟨rfl, it, hp, ht⟩ := (isCells_nil_iff _ first last).1 hfirst
      have hp' : st.items[first]? = some it := hp
      rw [hlast] at hp'
      cases hp'
      refine ⟨fun hn => ?_, fun hn => ?_⟩
      · simp [primitiveAppend, hlen, car_ok h1' h10, cdr_ok h1' h11, car_ok h2' h20,
          typeOf_ok hlast, ht, hn]
      · refine ⟨second, st, [], [], ?_, by simp [isSegment], by simp, by simp, rfl⟩
        simp [primitiveAppend, hlen, car_ok h1' h10, cdr_ok h1' h11, car_ok h2' h20,
          typeOf_ok hlast, hn, isNull_ok hlast]
  | cons x xs ih =>
    intro cs first args k st hargs hfirst hlast hk
    obtain ⟨k, rfl⟩ : ∃ j, k = j + 1 := ⟨k - 1, by simp at hk; omega⟩
    have hlen : length fuel args st = .ok 2 st := by
      have := lengthLoop_isList st.view st (fun _ _ x => x) [first, second] args fuel 0 hargs
        (by simpa using hfuel)
      simpa [length] using this
    obtain ⟨i1, i2, q1, q2, h1, h10, h11, h2, h20, h21⟩ := isList_two hargs
    have h1' : st.items[args]? = some i1 := h1
    have h2' : st.items[q1]? = some i2 := h2
    cases cs with
    | nil => simp [isCells] at hfirst
    | cons c cs =>
      obtain ⟨rfl, it, q, hp, ht, h0, hu1, hq⟩ := (isCells_cons_iff _ first c cs x xs last).1 hfirst
      have hp' : st.items[first]? = some it := hp
      let a0 : Item := ⟨NULL_TYPE, .undef, .undef, .undef⟩
      let a1 : Item := ⟨CONS_TYPE, .ptr second, .ptr st.items.length, .undef⟩
      let a2 : Item := ⟨CONS_TYPE, .ptr q, .ptr (st.items.length + 1), .undef⟩
      let st1 : State := ⟨st.items ++ [a0, a1, a2], st.frames⟩
      have hext : ∀ a it, st.view a = some it → st1.view a = some it :=
        fun a it ha => getElem?_append_of_some _ _ a it ha
      have l0 : st1.view (st.items.length + 0) = some a0 := getElem?_append_new _ _ 0
      have l1 : st1.view (st.items.length + 1) = some a1 := getElem?_append_new _ _ 1
      have l2 : st1.view (st.items.length + 2) = some a2 := getElem?_append_new _ _ 2
      have hargs1 : isList st1.view (st.items.length + 2) [q, second] = true :=
        (isList_cons_iff _ _ q [second]).2 ⟨a2, _, l2, rfl, rfl, rfl,
          (isList_cons_iff _ _ second []).2 ⟨a1, _, l1, rfl, rfl, rfl,
            (isList_nil_iff _ _).2 ⟨a0, l0, by decide⟩⟩⟩
      have hstep : primitiveAppend fuel (k + 1) args st =
          (do let appended ← primitiveAppend fuel k (st.items.length + 2)
              cons x appended : M Nat) st1 := by
        simp [primitiveAppend, hlen, car_ok h1' h10, cdr_ok h1' h11, car_ok h2' h20,
          typeOf_ok hp', ht, isNull_ok hp', car_ok hp' h0, makeNull, cons, allocItem, st1, a0,
          a1, a2,
          @cdr_ok ⟨st.items ++ [⟨NULL_TYPE, .undef, .undef, .undef⟩,
            ⟨CONS_TYPE, .ptr second, .ptr st.items.length, .undef⟩], st.frames⟩ _ _ _
            (getElem?_append_of_some _ _ first it hp') hu1]
      have hlast1 : st1.items[last]? = some il := getElem?_append_of_some _ _ last il hlast
      obtain ⟨herr, hok⟩ := ih cs q (st.items.length + 2) k st1 hargs1
        (isCells_mono hext cs xs q last hq) hlast1 (by simp at hk; omega)
      refine ⟨fun hn => ?_, fun hn => ?_⟩
      · rw [hstep, bind_apply, herr hn]
      · obtain ⟨r, st2, cs2, more, hrun, hseg, hfresh, hitems, hframes⟩ := hok hn
        refine ⟨st2.items.length,
          ⟨st2.items ++ [⟨CONS_TYPE, .ptr x, .ptr r, .undef⟩], st2.frames⟩,
          st2.items.length :: cs2, [a0, a1, a2] ++ more ++ [⟨CONS_TYPE, .ptr x, .ptr r, .undef⟩],
          ?_, ?_, ?_, ?_, ?_⟩
        · rw [hstep, bind_apply, hrun]
          rfl
        · refine (isSegment_cons_iff _ _ _ cs2 x xs second).2
            ⟨rfl, ⟨CONS_TYPE, .ptr x, .ptr r, .undef⟩, r, ?_, rfl, rfl, rfl, ?_⟩
          · simp [State.view]
          · exact isSegment_mono (fun a it ha => getElem?_append_of_some _ _ a it ha) cs2 xs r
              second hseg
        · intro c hc
          rcases List.mem_cons.1 hc with rfl | hc
          · rw [hitems]
            simp [st1]
          · have := hfresh c hc
            simp [st1] at this
            omega
        · simp [hitems, st1]
        · simp [hframes, st1]

/-- C23: `primitiveAppend` fails with "append expects two arguments" unless
the argument list has exactly 2 elements; when the first argument is a chain
of `cons` cells with the elements `xs` ended by the empty list, it returns
(with fuel above the length of the chain) the head of a chain of new cells
with the same elements in the same order whose last tail is the second
argument, which is returned itself for no element, and all it does to the heap
is to add items, so the first argument is as it was; when the first argument
ends in an item that is not the empty list (an atom, or the tail of an
improper list) it fails with "first argument of append must be a list". -/
theorem primitiveAppend_chain (fuel : Nat) (st : State) (args : Nat) (ps : List Nat)
    (hargs : isList st.view args ps = true) (hfuel : 2 < fuel ∧ ps.length < fuel) :
    (ps.length ≠ 2 →
      primitiveAppend fuel fuel args st = .error "append expects two arguments") ∧
    (∀ first second cs xs last il, ps = [first, second] →
      isCells st.view first cs xs last = true → st.items[last]? = some il →
      xs.length < fuel →
      (il.type ≠ NULL_TYPE →
        primitiveAppend fuel fuel args st =
          .error "first argument of append must be a list") ∧
      (il.type = NULL_TYPE →
        ∃ r st' cs' more, primitiveAppend fuel fuel args st = .ok r st' ∧
          isSegment st'.view r cs' xs second = true ∧ (∀ c ∈ cs', st.items.length ≤ c) ∧
          st'.items = st.items ++ more ∧ st'.frames = st.frames ∧
          (xs = [] → r = second))) := by
  refine ⟨fun hne => ?_, ?_⟩
  · have hlen : length fuel args st = .ok ps.length st := by
      have := lengthLoop_isList st.view st (fun _ _ x => x) ps args fuel 0 hargs hfuel.2
      simpa [length] using this
    obtain ⟨k, hk⟩ : ∃ j, fuel = j + 1 := ⟨fuel - 1, by omega⟩
    rw [hk] at hlen ⊢
    simp [primitiveAppend, hlen, hne]
  · rintro first second cs xs last il rfl hfirst hlast hxs
    obtain ⟨herr, hok⟩ := primitiveAppend_spec fuel second hfuel.1 last il xs cs first args fuel
      st hargs hfirst hlast hxs
    refine ⟨herr, fun hn => ?_⟩
    obtain ⟨r, st', cs', more, hrun, hseg, hfresh, hitems, hframes⟩ := hok hn
    refine ⟨r, st', cs', more, hrun, hseg, hfresh, hitems, hframes, ?_⟩
    rintro rfl
    cases cs' with
    | nil => simpa [isSegment] using hseg
    | cons c cs' => simp [isSegment] at hseg

theorem primitiveAppend_chain_witness :
    isList exampleAppend.view 8 [4, 5] = true ∧
    isCells exampleAppend.view 4 [4, 3] [0, 1] 2 = true ∧
    (∃ r st' cs' more, primitiveAppend 5 5 8 exampleAppend = .ok r st' ∧
      isSegment st'.view r cs' [0, 1] 5 = true ∧
      (∀ c ∈ cs', exampleAppend.items.length ≤ c) ∧
      st'.items = exampleAppend.items ++ more ∧ st'.frames = exampleAppend.frames ∧
      (([0, 1] : List Nat) = [] → r = 5)) ∧
    (match primitiveAppend 5 5 8 exampleAppend with
      | .ok r st' => decide (r = 16) && isSegment st'.view 16 [16, 15] [0, 1] 5
      | _ => false) = true :=
  ⟨by decide, by decide,
   ((primitiveAppend_chain 5 exampleAppend 8 [4, 5] (by decide) (by decide)).2 4 5 [4, 3]
      [0, 1] 2 ⟨NULL_TYPE, .undef, .undef, .undef⟩ rfl (by decide) (by decide) (by decide)).2
      (by decide),
   by decide⟩

/-- The primitive `append` with an empty first argument, with an atom, with an
improper list and with one argument. -/
theorem append_sample :
    printed (run 40 [L [S "append", L [S "quote", L []], .int 5]]) =
      some [some ⟨INT_TYPE, .int 5, .undef, .undef⟩] ∧
    printed (run 40 [L [S "car", L [S "cdr",
        L [S "append", L [S "quote", L [.int 1]], L [S "quote", L [.int 2]]]]]]) =
      some [some ⟨INT_TYPE, .int 2, .undef, .undef⟩] ∧
    run 40 [L [S "append", .int 1, .int 2]] =
      .error "first argument of append must be a list" ∧
    run 40 [L [S "append", L [S "cons", .int 1, .int 2], .int 3]] =
      .error "first argument of append must be a list" ∧
    run 40 [L [S "append", L [S "quote", L []]]] = .error "append expects two arguments" := by
  decide!

theorem isTree_tag (h : Nat → Option Item) (p : Nat) (v : SExp) (ht : isTree h p v = true) :
    ∃ it, h p = some it ∧ it.type = v.tag := by
  cases v <;> simp only [isTree] at ht <;> cases hp : h p <;> simp [hp] at ht <;>
    first
      | exact ⟨_, rfl, ht.1⟩
      | exact ⟨_, rfl, ht⟩

theorem isTree_mono {h h' : Nat → Option Item}
    (hh : ∀ a it, h a = some it → h' a = some it) :
    ∀ (v : SExp) (p : Nat), isTree h p v = true → isTree h' p v = true := by
  intro v
  induction v with
  | cons a b iha ihb =>
    intro p ht
    simp only [isTree] at ht ⊢
    cases hp : h p with
    | none => simp [hp] at ht
    | some it =>
      rw [hh p it hp]
      simp only [hp] at ht
      cases h0 : it.u0 <;> cases h1 : it.u1 <;> simp [h0, h1] at ht ⊢
      exact ⟨ht.1, iha _ ht.2.1, ihb _ ht.2.2⟩
  | _ =>
    intro p ht
    simp only [isTree] at ht ⊢
    cases hp : h p with
    | none => simp [hp] at ht
    | some it =>
      rw [hh p it hp]
      simpa [hp] using ht

theorem isEntry_mono {h h' : Nat → Option Item}
    (hh : ∀ a it, h a = some it → h' a = some it) (p : Nat) (e : Entry)
    (he : isEntry h p e = true) : isEntry h' p e = true := by
  cases e with
  | val v => exact isTree_mono hh v p he
  | mark =>
    simp only [isEntry] at he ⊢
    cases hp : h p with
    | none => simp [hp] at he
    | some it =>
      rw [hh p it hp]
      simpa [hp] using he

theorem isListOf_nil_iff {α : Type} (elem : Nat → α → Bool) (h : Nat → Option Item) (p : Nat) :
    isListOf elem h p [] = true ↔ ∃ it, h p = some it ∧ it.type ≠ CONS_TYPE := by
  unfold isListOf
  cases h p with
  | none => simp
  | some it => simp

theorem isListOf_cons_iff {α : Type} (elem : Nat → α → Bool) (h : Nat → Option Item) (p : Nat)
    (x : α) (xs : List α) :
    isListOf elem h p (x :: xs) = true ↔
      ∃ it a q, h p = some it ∧ it.type = CONS_TYPE ∧ it.u0 = .ptr a ∧ it.u1 = .ptr q ∧
        elem a x = true ∧ isListOf elem h q xs = true := by
  rw [isListOf]
  cases h p with
  | none => simp
  | some it =>
    cases h0 : it.u0 <;> cases h1 : it.u1 <;> simp [h0, h1]

theorem isListOf_mono {α : Type} {elem elem' : Nat → α → Bool} {h h' : Nat → Option Item}
    (hh : ∀ a it, h a = some it → h' a = some it)
    (he : ∀ a x, elem a x = true → elem' a x = true) :
    ∀ (xs : List α) (p : Nat), isListOf elem h p xs = true → isListOf elem' h' p xs = true := by
  intro xs
  induction xs with
  | nil =>
    intro p hl
    obtain ⟨it, hp, ht⟩ := (isListOf_nil_iff elem h p).1 hl
    exact (isListOf_nil_iff elem' h' p).2 ⟨it, hh _ _ hp, ht⟩
  | cons x xs ih =>
    intro p hl
    obtain ⟨it, a, q, hp, ht, h0, h1, hx, hq⟩ := (isListOf_cons_iff elem h p x xs).1 hl
    exact (isListOf_cons_iff elem' h' p x xs).2 ⟨it, a, q, hh _ _ hp, ht, h0, h1, he _ _ hx, ih q hq⟩

theorem Extends.refl (st : State) : Extends st st := ⟨rfl, [], by simp⟩

theorem Extends.trans {a b c : State} (h1 : Extends a b) (h2 : Extends b c) : Extends a c := by
  obtain ⟨f1, m1, e1⟩ := h1
  obtain ⟨f2, m2, e2⟩ := h2
  exact ⟨f2.trans f1, m1 ++ m2, by rw [e2, e1, List.append_assoc]⟩

theorem Extends.view {st st' : State} (h : Extends st st') (a : Nat) (it : Item)
    (ha : st.view a = some it) : st'.view a = some it := by
  obtain ⟨-, more, e⟩ := h
  simp only [State.view] at ha ⊢
  rw [e]
  exact getElem?_append_of_some _ _ a it ha

theorem Extends.alloc (st : State) (it : Item) : Extends st ⟨st.items ++ [it], st.frames⟩ :=
  ⟨rfl, [it], rfl⟩

/-! The parser on the heap against the parser on token sequences -/

theorem isTok_mono {h h' : Nat → Option Item}
    (hh : ∀ a it, h a = some it → h' a = some it) (p : Nat) (t : Tok)
    (ht : isTok h p t = true) : isTok h' p t = true := by
  cases t with
  | item v => exact isTree_mono hh v p ht
  | _ =>
    simp only [isTok] at ht ⊢
    cases hp : h p with
    | none => simp [hp] at ht
    | some it =>
      rw [hh p it hp]
      simpa [hp] using ht

theorem isEntries_extends {st st' : State} (h : Extends st st') {p : Nat} {es : List Entry}
    (hl : isListOf (isEntry st.view) st.view p es = true) :
    isListOf (isEntry st'.view) st'.view p es = true :=
  isListOf_mono h.view (fun a x => isEntry_mono h.view a x) es p hl

theorem isToks_extends {st st' : State} (h : Extends st st') {p : Nat} {ts : List Tok}
    (hl : isListOf (isTok st.view) st.view p ts = true) :
    isListOf (isTok st'.view) st'.view p ts = true :=
  isListOf_mono h.view (fun a x => isTok_mono h.view a x) ts p hl

theorem view_alloc (st : State) (it : Item) :
    (⟨st.items ++ [it], st.frames⟩ : State).view st.items.length = some it := by
  simp [State.view]

theorem isTree_cons_iff (h : Nat → Option Item) (p : Nat) (a b : SExp) :
    isTree h p (.cons a b) = true ↔
      ∃ it x y, h p = some it ∧ it.type = CONS_TYPE ∧ it.u0 = .ptr x ∧ it.u1 = .ptr y ∧
        isTree h x a = true ∧ isTree h y b = true := by
  rw [isTree]
  cases h p with
  | none => simp
  | some it =>
    cases h0 : it.u0 <;> cases h1 : it.u1 <;> simp [h0, h1]

theorem SExp.isCons_iff_tag (v : SExp) : v.isCons = true ↔ v.tag = CONS_TYPE := by
  cases v <;> simp [SExp.isCons, SExp.tag]

theorem isTree_isNull {st : State} {p : Nat} {v : SExp} (h : isTree st.view p v = true) :
    isNull p st = .ok (!v.isCons) st := by
  obtain ⟨it, hp, ht⟩ := isTree_tag _ _ _ h
  have hp' : st.items[p]? = some it := hp
  rw [isNull_ok hp', ht]
  cases v <;> simp [SExp.isCons, SExp.tag]

theorem isTree_typeOf {st : State} {p : Nat} {v : SExp} (h : isTree st.view p v = true) :
    typeOf p st = .ok v.tag st := by
  obtain ⟨it, hp, ht⟩ := isTree_tag _ _ _ h
  have hp' : st.items[p]? = some it := hp
  rw [typeOf_ok hp', ht]

theorem pop_nil {st : State} {stack : Nat}
    (h : isListOf (isEntry st.view) st.view stack [] = true) :
    pop stack st = .ok (none, stack) st := by
  obtain ⟨it, hp, ht⟩ := (isListOf_nil_iff _ _ _).1 h
  have hp' : st.items[stack]? = some it := hp
  simp [pop, isNull_ok hp', ht]

theorem pop_cons {st : State} {stack : Nat} {e : Entry} {es : List Entry}
    (h : isListOf (isEntry st.view) st.view stack (e :: es) = true) :
    ∃ a q, pop stack st = .ok (some a, q) st ∧ isEntry st.view a e = true ∧
      isListOf (isEntry st.view) st.view q es = true := by
  obtain ⟨it, a, q, hp, ht, h0, h1, hx, hq⟩ := (isListOf_cons_iff _ _ _ _ _).1 h
  have hp' : st.items[stack]? = some it := hp
  exact ⟨a, q, by simp [pop, isNull_ok hp', ht, car_ok hp' h0, cdr_ok hp' h1], hx, hq⟩

theorem consPopped_cons {st : State} {stack : Nat} (list : Nat) {e : Entry} {es : List Entry}
    (h : isListOf (isEntry st.view) st.view stack (e :: es) = true) :
    ∃ a q, consPopped stack list st =
        .ok (q, st.items.length) ⟨st.items ++ [⟨CONS_TYPE, .ptr a, .ptr list, .undef⟩], st.frames⟩ ∧
      isEntry st.view a e = true ∧ isListOf (isEntry st.view) st.view q es = true := by
  obtain ⟨a, q, hpop, ha, hq⟩ := pop_cons h
  exact ⟨a, q, by simp [consPopped, hpop, cons, allocItem], ha, hq⟩

theorem popItems_nil (sub : SExp) : popItems [] sub = ([], sub) := by
  simp [popItems]

theorem popItems_mark (es : List Entry) (sub : SExp) :
    popItems (.mark :: es) sub = (.mark :: es, sub) := by
  simp [popItems]

theorem popItems_val (v : SExp) (es : List Entry) (sub : SExp) :
    popItems (.val v :: es) sub = popItems es (.cons v sub) := by
  simp [popItems]

theorem SExp.tag_ne_open (v : SExp) : v.tag ≠ OPEN_TYPE ∧ v.tag ≠ OPENBRACKET_TYPE ∧
    v.tag ≠ CLOSE_TYPE ∧ v.tag ≠ CLOSEBRACKET_TYPE := by
  cases v <;> simp [SExp.tag]

/-- The inner loop of `parse` moves the items above the nearest marker to the
sublist. -/
theorem parseCloseLoop_spec :
    ∀ (es : List Entry) (k stack sublist : Nat) (sub : SExp) (st : State),
      isListOf (isEntry st.view) st.view stack es = true →
      isTree st.view sublist sub = true → es.length < k →
      ∃ stack' sublist' st', parseCloseLoop k stack sublist st = .ok (stack', sublist') st' ∧
        Extends st st' ∧
        isListOf (isEntry st'.view) st'.view stack' (popItems es sub).1 = true ∧
        isTree st'.view sublist' (popItems es sub).2 = true := by
  intro es
  induction es with
  | nil =>
    intro k stack sublist sub st hes hsub hk
    obtain ⟨k, rfl⟩ : ∃ j, k = j + 1 := ⟨k - 1, by simp at hk; omega⟩
    obtain ⟨it, hp, ht⟩ := (isListOf_nil_iff _ _ _).1 hes
    have hp' : st.items[stack]? = some it := hp
    refine ⟨stack, sublist, st, ?_, Extends.refl st, ?_, ?_⟩
    · simp [parseCloseLoop, isNull_ok hp', ht]
    · simpa [popItems_nil] using hes
    · simpa [popItems_nil] using hsub
  | cons e es ih =>
    intro k stack sublist sub st hes hsub hk
    obtain ⟨k, rfl⟩ : ∃ j, k = j + 1 := ⟨k - 1, by simp at hk; omega⟩
    obtain ⟨it, a, q, hp, ht, h0, h1, hx, hq⟩ := (isListOf_cons_iff _ _ _ _ _).1 hes
    have hp' : st.items[stack]? = some it := hp
    cases e with
    | mark =>
      simp only [isEntry] at hx
      cases ha : st.view a with
      | none => simp [ha] at hx
      | some ia =>
        have ha' : st.items[a]? = some ia := ha
        simp only [ha, decide_eq_true_eq] at hx
        refine ⟨stack, sublist, st, ?_, Extends.refl st, ?_, ?_⟩
        · rcases hx with hx | hx <;>
            simp [parseCloseLoop, isNull_ok hp', ht, car_ok hp' h0, typeOf_ok ha', hx]
        · simpa [popItems_mark] using hes
        · simpa [popItems_mark] using hsub
    | val v =>
      have hv : isTree st.view a v = true := hx
      obtain ⟨a', q', hcp, ha1, hq1⟩ := consPopped_cons sublist hes
      let st1 : State := ⟨st.items ++ [⟨CONS_TYPE, .ptr a', .ptr sublist, .undef⟩], st.frames⟩
      have hext : Extends st st1 := Extends.alloc st _
      have hsub1 : isTree st1.view st.items.length (.cons v sub) = true :=
        (isTree_cons_iff _ _ _ _).2 ⟨_, a', sublist, view_alloc st _, rfl, rfl, rfl,
          isTree_mono hext.view _ _ ha1, isTree_mono hext.view _ _ hsub⟩
      obtain ⟨s', l', st', hrun, hext', hs', hl'⟩ := ih k q' st.items.length (.cons v sub) st1
        (isEntries_extends hext hq1) hsub1 (by simp at hk; omega)
      refine ⟨s', l', st', ?_, hext.trans hext', ?_, ?_⟩
      · have hta := isTree_typeOf hv
        obtain ⟨t1, t2, -, -⟩ := SExp.tag_ne_open v
        simp [parseCloseLoop, isNull_ok hp', ht, car_ok hp' h0, hta, t1, t2, hcp]
        exact hrun
      · simpa [popItems_val] using hs'
      · simpa [popItems_val] using hl'

/-- The test of `parse` on an assembled list and the assignment it guards. -/
theorem parseUnwrap_spec {st : State} {sublist : Nat} {sub : SExp}
    (h : isTree st.view sublist sub = true) :
    ∃ r, parseUnwrap sublist st = .ok r st ∧ isTree st.view r (unwrapSpec sub) = true := by
  cases sub with
  | cons x rest =>
    have hnull : isNull sublist st = .ok false st := isTree_isNull h
    obtain ⟨it, px, py, hp, ht, h0, h1, hx, hy⟩ := (isTree_cons_iff _ _ _ _).1 h
    have hp' : st.items[sublist]? = some it := hp
    have hny := isTree_isNull hy
    have htx := isTree_typeOf hx
    by_cases hr : rest.isCons = true
    · rw [hr] at hny
      refine ⟨sublist, ?_, ?_⟩
      · simp [parseUnwrap, hnull, cdr_ok hp' h1, hny]
      · have : unwrapSpec (.cons x rest) = .cons x rest := by
          unfold unwrapSpec
          split
          · rename_i heq
            cases heq
            rw [if_pos hr]
          · rfl
        rw [this]
        exact h
    · simp only [Bool.not_eq_true] at hr
      rw [hr] at hny
      cases x with
      | cons a y =>
        obtain ⟨ix, pa, pz, hpx, htx', hx0, hx1, ha, hz⟩ := (isTree_cons_iff _ _ _ _).1 hx
        have hpx' : st.items[px]? = some ix := hpx
        have hnz := isTree_isNull hz
        cases y with
        | cons b c =>
          have hnz' : isNull pz st = .ok false st := hnz
          refine ⟨px, ?_, ?_⟩
          · simp [parseUnwrap, hnull, cdr_ok hp' h1, hny, car_ok hp' h0, htx,
              SExp.tag, cdr_ok hpx' hx1, hnz']
          · have : unwrapSpec (.cons (.cons a (.cons b c)) rest) = .cons a (.cons b c) := by
              simp [unwrapSpec, hr]
            rw [this]
            exact hx
        | _ =>
          have hnz' : isNull pz st = .ok true st := hnz
          refine ⟨sublist, ?_, ?_⟩
          · simp [parseUnwrap, hnull, cdr_ok hp' h1, hny, car_ok hp' h0, htx,
              SExp.tag, cdr_ok hpx' hx1, hnz']
          · simpa [unwrapSpec] using h
      | _ =>
        refine ⟨sublist, ?_, ?_⟩
        · simp [parseUnwrap, hnull, cdr_ok hp' h1, hny, car_ok hp' h0, htx,
            SExp.tag]
        · simpa [unwrapSpec] using h
  | _ =>
    have hnull : isNull sublist st = .ok true st := isTree_isNull h
    refine ⟨sublist, ?_, ?_⟩
    · simp [parseUnwrap, hnull]
    · simpa [unwrapSpec] using h

theorem isTok_typeOf {st : State} {p : Nat} {t : Tok} (h : isTok st.view p t = true) :
    typeOf p st = .ok t.tag st := by
  cases t with
  | item v => exact isTree_typeOf h
  | _ =>
    simp only [isTok] at h
    cases hp : st.view p with
    | none => simp [hp] at h
    | some it =>
      have hp' : st.items[p]? = some it := hp
      simp only [hp, decide_eq_true_eq] at h
      rw [typeOf_ok hp', h]
      rfl

theorem isTok_isEntry_open {h : Nat → Option Item} {p : Nat} {t : Tok}
    (ht : isTok h p t = true) (hopen : t = .openParen ∨ t = .openBracket) :
    isEntry h p .mark = true := by
  rcases hopen with rfl | rfl <;>
  · simp only [isTok, isEntry] at ht ⊢
    cases hp : h p with
    | none => simp [hp] at ht
    | some it =>
      simp only [hp, decide_eq_true_eq] at ht
      simp [ht]

theorem push_entries {st : State} {stack a : Nat} {e : Entry} {es : List Entry}
    (hes : isListOf (isEntry st.view) st.view stack es = true)
    (ha : isEntry st.view a e = true) :
    isListOf (isEntry (⟨st.items ++ [⟨CONS_TYPE, .ptr a, .ptr stack, .undef⟩], st.frames⟩ : State).view)
      (⟨st.items ++ [⟨CONS_TYPE, .ptr a, .ptr stack, .undef⟩], st.frames⟩ : State).view
      st.items.length (e :: es) = true :=
  (isListOf_cons_iff _ _ _ _ _).2 ⟨_, a, stack, view_alloc st _, rfl, rfl, rfl,
    isEntry_mono (Extends.alloc st _).view _ _ ha, isEntries_extends (Extends.alloc st _) hes⟩

theorem pop_tail {st : State} {stack : Nat} {es : List Entry}
    (h : isListOf (isEntry st.view) st.view stack es = true) :
    ∃ top q, pop stack st = .ok (top, q) st ∧
      isListOf (isEntry st.view) st.view q es.tail = true := by
  cases es with
  | nil => exact ⟨none, stack, pop_nil h, h⟩
  | cons e es =>
    obtain ⟨a, q, hpop, -, hq⟩ := pop_cons h
    exact ⟨some a, q, hpop, hq⟩

theorem lambdaBefore_ok {st : State} {prev : Option Nat} {seen : Bool}
    (h : isPrevious st.view prev seen = true) : lambdaBefore prev st = .ok seen st := by
  cases prev with
  | none =>
    simp only [isPrevious, Bool.not_eq_true'] at h
    subst h
    rfl
  | some p =>
    simp only [isPrevious, Bool.and_eq_true] at h
    obtain ⟨rfl, hp⟩ := h
    simp only [isTree] at hp
    cases hv : st.view p with
    | none => simp [hv] at hp
    | some it =>
      have hv' : st.items[p]? = some it := hv
      simp only [hv, Bool.and_eq_true, decide_eq_true_eq] at hp
      simp [lambdaBefore, getS_ok hv' hp.2]

theorem isPrevious_mono {h h' : Nat → Option Item}
    (hh : ∀ a it, h a = some it → h' a = some it) {prev : Option Nat} {seen : Bool}
    (hp : isPrevious h prev seen = true) : isPrevious h' prev seen = true := by
  cases prev with
  | none => exact hp
  | some p =>
    simp only [isPrevious, Bool.and_eq_true] at hp ⊢
    exact ⟨hp.1, isTree_mono hh _ _ hp.2⟩

theorem popItems_length (es : List Entry) :
    ∀ sub, (popItems es sub).1.length ≤ es.length := by
  induction es with
  | nil => intro sub; simp [popItems_nil]
  | cons e es ih =>
    intro sub
    cases e with
    | mark => simp [popItems_mark]
    | val v =>
      rw [popItems_val]
      exact Nat.le_succ_of_le (ih _)

/-- A token that is pushed as it is: one round of the main loop of `parse`. -/
theorem parseLoop_push (fuel k tokens stack : Nat) (opens : Int) (prev : Option Nat)
    (st : State) (tok : Tok) (toks : List Tok) (es : List Entry) (e : Entry)
    (htoks : isListOf (isTok st.view) st.view tokens (tok :: toks) = true)
    (hes : isListOf (isEntry st.view) st.view stack es = true)
    (htag : tok.tag ≠ OPEN_TYPE ∧ tok.tag ≠ OPENBRACKET_TYPE ∧ tok.tag ≠ CLOSE_TYPE ∧
      tok.tag ≠ CLOSEBRACKET_TYPE ∧ tok.tag ≠ SYMBOL_TYPE)
    (he : ∀ a, isTok st.view a tok = true → isEntry st.view a e = true) :
    ∃ tokens' stack' st', parseLoop fuel (k + 1) tokens stack opens prev st =
        parseLoop fuel k tokens' stack' opens prev st' ∧ Extends st st' ∧
      isListOf (isTok st'.view) st'.view tokens' toks = true ∧
      isListOf (isEntry st'.view) st'.view stack' (e :: es) = true := by
  obtain ⟨it, a, q, hp, ht, h0, h1, hx, hq⟩ := (isListOf_cons_iff _ _ _ _ _).1 htoks
  have hp' : st.items[tokens]? = some it := hp
  have hta := isTok_typeOf hx
  obtain ⟨t1, t2, t3, t4, t5⟩ := htag
  refine ⟨q, st.items.length, ⟨st.items ++ [⟨CONS_TYPE, .ptr a, .ptr stack, .undef⟩], st.frames⟩,
    ?_, Extends.alloc st _, isToks_extends (Extends.alloc st _) hq, push_entries hes (he a hx)⟩
  simp [parseLoop, isNull_ok hp', ht, car_ok hp' h0, cdr_ok hp' h1, hta, t1, t2, t3, t4, t5,
    push, cons, allocItem]

/-- A close marker of either kind: one round of the main loop of `parse`. -/
theorem parseLoop_close (fuel k tokens stack : Nat) (opens : Nat) (prev : Option Nat)
    (st : State) (tok : Tok) (toks : List Tok) (es : List Entry)
    (htoks : isListOf (isTok st.view) st.view tokens (tok :: toks) = true)
    (hes : isListOf (isEntry st.view) st.view stack es = true)
    (hclose : tok = .closeParen ∨ tok = .closeBracket)
    (hfuel : es.length < fuel) :
    (opens = 0 → parseLoop fuel (k + 1) tokens stack opens prev st =
      .error "Syntax error: too many close parentheses") ∧
    (opens ≠ 0 → ∃ tokens' stack' st', parseLoop fuel (k + 1) tokens stack opens prev st =
        parseLoop fuel k tokens' stack' ((opens - 1 : Nat) : Int) prev st' ∧ Extends st st' ∧
      isListOf (isTok st'.view) st'.view tokens' toks = true ∧
      isListOf (isEntry st'.view) st'.view stack'
        (.val (unwrapSpec (popItems es .nil).2) :: (popItems es .nil).1.tail) = true) := by
  obtain ⟨it, a, q, hp, ht, h0, h1, hx, hq⟩ := (isListOf_cons_iff _ _ _ _ _).1 htoks
  have hp' : st.items[tokens]? = some it := hp
  have hta := isTok_typeOf hx
  have htag : tok.tag = CLOSE_TYPE ∨ tok.tag = CLOSEBRACKET_TYPE := by
    rcases hclose with rfl | rfl
    · exact Or.inl rfl
    · exact Or.inr rfl
  refine ⟨fun hz => ?_, fun hz => ?_⟩
  · subst hz
    rcases htag with hc | hc <;>
      simp [parseLoop, isNull_ok hp', ht, car_ok hp' h0, cdr_ok hp' h1, hta, hc, syntaxError]
  · let st1 : State := ⟨st.items ++ [⟨NULL_TYPE, .undef, .undef, .undef⟩], st.frames⟩
    have hext1 : Extends st st1 := Extends.alloc st _
    have hnil : isTree st1.view st.items.length .nil = true := by
      simp [isTree, st1, State.view]
    obtain ⟨s2, l2, st2, hcl, hext2, hs2, hl2⟩ := parseCloseLoop_spec es fuel stack
      st.items.length .nil st1 (isEntries_extends hext1 hes) hnil hfuel
    obtain ⟨top, q2, hpop, hq2⟩ := pop_tail hs2
    obtain ⟨r, hun, hr⟩ := @parseUnwrap_spec st2 l2 _ hl2
    refine ⟨q, st2.items.length,
      ⟨st2.items ++ [⟨CONS_TYPE, .ptr r, .ptr q2, .undef⟩], st2.frames⟩, ?_,
      (hext1.trans hext2).trans (Extends.alloc st2 _),
      isToks_extends ((hext1.trans hext2).trans (Extends.alloc st2 _)) hq,
      @push_entries st2 q2 r (.val _) _ hq2 hr⟩
    have hc : ((opens - 1 : Nat) : Int) = (opens : Int) - 1 := by omega
    have hz' : ¬ (opens : Int) = 0 := by omega
    rw [hc]
    rcases htag with hc | hc <;>
    · simp [parseLoop, isNull_ok hp', ht, car_ok hp' h0, cdr_ok hp' h1, hta, hc, hz, makeNull,
        allocItem]
      simp [st1] at hcl
      simp [hcl, hpop, hun, push, cons, allocItem]

/-- One round of the main loop of `parse` is one step on the stack entries. -/
theorem parseLoop_step (fuel k tokens stack : Nat) (opens : Nat) (prev : Option Nat)
    (seen : Bool) (st : State) (tok : Tok) (toks : List Tok) (es : List Entry)
    (htoks : isListOf (isTok st.view) st.view tokens (tok :: toks) = true)
    (hes : isListOf (isEntry st.view) st.view stack es = true)
    (hprev : isPrevious st.view prev seen = true)
    (hfuel : es.length < fuel) (hmax : (opens : Int) < INT_MAX) :
    match parseStep tok es opens seen with
    | .error msg =>
      parseLoop fuel (k + 1) tokens stack opens prev st = .error ("Syntax error: " ++ msg)
    | .ok (es', opens', seen') =>
      ∃ tokens' stack' prev' st', parseLoop fuel (k + 1) tokens stack opens prev st =
          parseLoop fuel k tokens' stack' (opens' : Int) prev' st' ∧ Extends st st' ∧
        isListOf (isTok st'.view) st'.view tokens' toks = true ∧
        isListOf (isEntry st'.view) st'.view stack' es' = true ∧
        isPrevious st'.view prev' seen' = true ∧ es'.length ≤ es.length + 1 ∧
        opens' ≤ opens + 1 := by
  have hpush : ∀ v : SExp, v.tag ≠ SYMBOL_TYPE → tok = .item v →
      ∃ tokens' stack' prev' st', parseLoop fuel (k + 1) tokens stack opens prev st =
          parseLoop fuel k tokens' stack' (opens : Int) prev' st' ∧ Extends st st' ∧
        isListOf (isTok st'.view) st'.view tokens' toks = true ∧
        isListOf (isEntry st'.view) st'.view stack' (.val v :: es) = true ∧
        isPrevious st'.view prev' seen = true ∧ (Entry.val v :: es).length ≤ es.length + 1 ∧
        opens ≤ opens + 1 := by
    intro v hv htok
    subst htok
    obtain ⟨t1, t2, t3, t4⟩ := SExp.tag_ne_open v
    obtain ⟨tokens', stack', st', hrun, hext, ht', hs'⟩ := parseLoop_push fuel k tokens stack
      opens prev st (.item v) toks es (.val v) htoks hes ⟨t1, t2, t3, t4, hv⟩ (fun a ha => ha)
    exact ⟨tokens', stack', prev, st', hrun, hext, ht', hs', isPrevious_mono hext.view hprev,
      by simp, by omega⟩
  obtain ⟨it, a, q, hp, ht, h0, h1, hx, hq⟩ := (isListOf_cons_iff _ _ _ _ _).1 htoks
  have hp' : st.items[tokens]? = some it := hp
  have hta := isTok_typeOf hx
  have hopen : tok = .openParen ∨ tok = .openBracket →
      ∃ tokens' stack' prev' st', parseLoop fuel (k + 1) tokens stack opens prev st =
          parseLoop fuel k tokens' stack' ((opens + 1 : Nat) : Int) prev' st' ∧ Extends st st' ∧
        isListOf (isTok st'.view) st'.view tokens' toks = true ∧
        isListOf (isEntry st'.view) st'.view stack' (.mark :: es) = true ∧
        isPrevious st'.view prev' seen = true ∧ (Entry.mark :: es).length ≤ es.length + 1 ∧
        opens + 1 ≤ opens + 1 := by
    intro ho
    have hm := isTok_isEntry_open hx ho
    have htag : tok.tag = OPEN_TYPE ∨ tok.tag = OPENBRACKET_TYPE := by
      rcases ho with rfl | rfl
      · exact Or.inl rfl
      · exact Or.inr rfl
    have hne : ¬ (opens : Int) = INT_MAX := by omega
    refine ⟨q, st.items.length,  prev,
      ⟨st.items ++ [⟨CONS_TYPE, .ptr a, .ptr stack, .undef⟩], st.frames⟩, ?_,
      Extends.alloc st _, isToks_extends (Extends.alloc st _) hq, push_entries hes hm,
      isPrevious_mono (Extends.alloc st _).view hprev, by simp, by omega⟩
    rcases htag with hc | hc <;>
      simp [parseLoop, isNull_ok hp', ht, car_ok hp' h0, cdr_ok hp' h1, hta, hc, push, cons,
        allocItem, hne]
  have hclose : tok = .closeParen ∨ tok = .closeBracket →
      match (if opens = 0 then (.error "too many close parentheses" :
          Except String (List Entry × Nat × Bool))
        else .ok (.val (unwrapSpec (popItems es .nil).2) :: (popItems es .nil).1.tail,
          opens - 1, seen)) with
      | .error msg =>
        parseLoop fuel (k + 1) tokens stack opens prev st = .error ("Syntax error: " ++ msg)
      | .ok (es', opens', seen') =>
        ∃ tokens' stack' prev' st', parseLoop fuel (k + 1) tokens stack opens prev st =
            parseLoop fuel k tokens' stack' (opens' : Int) prev' st' ∧ Extends st st' ∧
          isListOf (isTok st'.view) st'.view tokens' toks = true ∧
          isListOf (isEntry st'.view) st'.view stack' es' = true ∧
          isPrevious st'.view prev' seen' = true ∧ es'.length ≤ es.length + 1 ∧
          opens' ≤ opens + 1 := by
    intro hc
    obtain ⟨hzero, hpos⟩ := parseLoop_close fuel k tokens stack opens prev st tok toks es htoks
      hes hc hfuel
    by_cases hz : opens = 0
    · rw [if_pos hz]
      exact hzero hz
    · rw [if_neg hz]
      obtain ⟨tokens', stack', st', hrun, hext, ht', hs'⟩ := hpos hz
      refine ⟨tokens', stack', prev, st', hrun, hext, ht', hs',
        isPrevious_mono hext.view hprev, ?_, by omega⟩
      have := popItems_length es .nil
      simp only [List.length_cons, List.length_tail]
      omega
  cases tok with
  | openParen => exact hopen (Or.inl rfl)
  | openBracket => exact hopen (Or.inr rfl)
  | closeParen => exact hclose (Or.inl rfl)
  | closeBracket => exact hclose (Or.inr rfl)
  | item v =>
    cases v with
    | sym s =>
      have hs : getS a st = .ok s st := by
        have hx' : isTree st.view a (.sym s) = true := hx
        simp only [isTree] at hx'
        cases hv : st.view a with
        | none => simp [hv] at hx'
        | some ia =>
          have hv' : st.items[a]? = some ia := hv
          simp only [hv, Bool.and_eq_true, decide_eq_true_eq] at hx'
          exact getS_ok hv' hx'.2
      have hta' : typeOf a st = .ok SYMBOL_TYPE st := hta
      simp only [parseStep]
      by_cases hl : s = "lambda"
      · rw [if_pos hl]
        refine ⟨q, st.items.length, some a,
          ⟨st.items ++ [⟨CONS_TYPE, .ptr a, .ptr stack, .undef⟩], st.frames⟩, ?_,
          Extends.alloc st _, isToks_extends (Extends.alloc st _) hq, @push_entries st stack a (.val (.sym s)) es hes hx, ?_,
          by simp, by omega⟩
        · simp [parseLoop, isNull_ok hp', ht, car_ok hp' h0, cdr_ok hp' h1, hta', hs, hl, push,
            cons, allocItem]
        · subst hl
          simp only [isPrevious, Bool.true_and]
          exact isTree_mono (Extends.alloc st _).view _ _ hx
      · rw [if_neg hl]
        have hlb := lambdaBefore_ok hprev
        by_cases hq' : seen = true ∧ s = "quote"
        · rw [if_pos hq']
          simp [parseLoop, isNull_ok hp', ht, car_ok hp' h0, cdr_ok hp' h1, hta', hs, hl, hlb,
            hq'.1, hq'.2, syntaxError]
        · rw [if_neg hq']
          refine ⟨q, st.items.length, prev,
            ⟨st.items ++ [⟨CONS_TYPE, .ptr a, .ptr stack, .undef⟩], st.frames⟩, ?_,
            Extends.alloc st _, isToks_extends (Extends.alloc st _) hq, @push_entries st stack a (.val (.sym s)) es hes hx,
            isPrevious_mono (Extends.alloc st _).view hprev, by simp, by omega⟩
          simp [parseLoop, isNull_ok hp', ht, car_ok hp' h0, cdr_ok hp' h1, hta', hs, hl, hlb,
            hq', push, cons, allocItem]
    | int i => exact hpush _ (by simp [SExp.tag]) rfl
    | real d => exact hpush _ (by simp [SExp.tag]) rfl
    | text t => exact hpush _ (by simp [SExp.tag]) rfl
    | bool b => exact hpush _ (by simp [SExp.tag]) rfl
    | nil => exact hpush _ (by simp [SExp.tag]) rfl
    | cons x y => exact hpush _ (by simp [SExp.tag]) rfl

/-- The main loop of `parse` on the heap is the run on the stack entries. -/
theorem parseLoop_spec (fuel : Nat) :
    ∀ (toks : List Tok) (k tokens stack : Nat) (es : List Entry) (opens : Nat)
      (prev : Option Nat) (seen : Bool) (st : State),
      isListOf (isTok st.view) st.view tokens toks = true →
      isListOf (isEntry st.view) st.view stack es = true →
      isPrevious st.view prev seen = true →
      toks.length < k → es.length + toks.length < fuel →
      (opens : Int) + toks.length ≤ INT_MAX →
      match parseRun toks es opens seen with
      | .error msg =>
        parseLoop fuel k tokens stack opens prev st = .error ("Syntax error: " ++ msg)
      | .ok (es', opens', _) =>
        ∃ stack' st', parseLoop fuel k tokens stack opens prev st =
            .ok (stack', (opens' : Int)) st' ∧ Extends st st' ∧
          isListOf (isEntry st'.view) st'.view stack' es' = true := by
  intro toks
  induction toks with
  | nil =>
    intro k tokens stack es opens prev seen st htoks hes hprev hk hfuel hmax
    obtain ⟨k, rfl⟩ : ∃ j, k = j + 1 := ⟨k - 1, by simp at hk; omega⟩
    obtain ⟨it, hp, ht⟩ := (isListOf_nil_iff _ _ _).1 htoks
    have hp' : st.items[tokens]? = some it := hp
    simp only [parseRun]
    exact ⟨stack, st, by simp [parseLoop, isNull_ok hp', ht], Extends.refl st, hes⟩
  | cons tok toks ih =>
    intro k tokens stack es opens prev seen st htoks hes hprev hk hfuel hmax
    obtain ⟨k, rfl⟩ : ∃ j, k = j + 1 := ⟨k - 1, by simp at hk; omega⟩
    simp only [List.length_cons] at hk hfuel hmax
    have hstep := parseLoop_step fuel k tokens stack opens prev seen st tok toks es htoks hes
      hprev (by omega) (by push_cast at hmax; omega)
    simp only [parseRun]
    cases hps : parseStep tok es opens seen with
    | error msg =>
      rw [hps] at hstep
      exact hstep
    | ok r =>
      obtain ⟨es1, opens1, seen1⟩ := r
      rw [hps] at hstep
      obtain ⟨tokens1, stack1, prev1, st1, hrun, hext, ht1, hs1, hp1, hlen, hop⟩ := hstep
      have := ih k tokens1 stack1 es1 opens1 prev1 seen1 st1 ht1 hs1 hp1 (by omega) (by omega)
        (by push_cast at hmax ⊢; omega)
      simp only
      cases hpr : parseRun toks es1 opens1 seen1 with
      | error msg =>
        rw [hpr] at this
        rw [hrun]
        exact this
      | ok r2 =>
        obtain ⟨es2, opens2, seen2⟩ := r2
        rw [hpr] at this
        obtain ⟨stack2, st2, hrun2, hext2, hs2⟩ := this
        exact ⟨stack2, st2, hrun.trans hrun2, hext.trans hext2, hs2⟩

/-- The last loop of `parse` on the heap is the loop on the stack entries. -/
theorem parseDrain_spec :
    ∀ (es : List Entry) (k stack parseTree : Nat) (tree forms : SExp) (st : State),
      isListOf (isEntry st.view) st.view stack es = true →
      isTree st.view parseTree tree = true → es.length < k →
      drainSpec es tree = some forms →
      ∃ r st', parseDrain k stack parseTree st = .ok r st' ∧ Extends st st' ∧
        isTree st'.view r forms = true := by
  intro es
  induction es with
  | nil =>
    intro k stack parseTree tree forms st hes htree hk hd
    obtain ⟨k, rfl⟩ : ∃ j, k = j + 1 := ⟨k - 1, by simp at hk; omega⟩
    obtain ⟨it, hp, ht⟩ := (isListOf_nil_iff _ _ _).1 hes
    have hp' : st.items[stack]? = some it := hp
    simp only [drainSpec, Option.some.injEq] at hd
    subst hd
    exact ⟨parseTree, st, by simp [parseDrain, isNull_ok hp', ht], Extends.refl st, htree⟩
  | cons e es ih =>
    intro k stack parseTree tree forms st hes htree hk hd
    obtain ⟨k, rfl⟩ : ∃ j, k = j + 1 := ⟨k - 1, by simp at hk; omega⟩
    cases e with
    | mark => simp [drainSpec] at hd
    | val v =>
      simp only [drainSpec] at hd
      obtain ⟨it, a, q, hp, ht, h0, h1, hx, hq⟩ := (isListOf_cons_iff _ _ _ _ _).1 hes
      have hp' : st.items[stack]? = some it := hp
      obtain ⟨a', q', hcp, ha1, hq1⟩ := consPopped_cons parseTree hes
      let st1 : State := ⟨st.items ++ [⟨CONS_TYPE, .ptr a', .ptr parseTree, .undef⟩], st.frames⟩
      have hext : Extends st st1 := Extends.alloc st _
      have htree1 : isTree st1.view st.items.length (.cons v tree) = true :=
        (isTree_cons_iff _ _ _ _).2 ⟨_, a', parseTree, view_alloc st _, rfl, rfl, rfl,
          isTree_mono hext.view _ _ ha1, isTree_mono hext.view _ _ htree⟩
      obtain ⟨r, st', hrun, hext', hr⟩ := ih k q' st.items.length (.cons v tree) forms st1
        (isEntries_extends hext hq1) htree1 (by simp at hk; omega) hd
      refine ⟨r, st', ?_, hext.trans hext', hr⟩
      simp [parseDrain, isNull_ok hp', ht, hcp]
      exact hrun

theorem marks_popItems (es : List Entry) :
    ∀ sub, marks (popItems es sub).1 = marks es ∧
      ((popItems es sub).1 = [] ∨ ∃ rest, (popItems es sub).1 = .mark :: rest) := by
  induction es with
  | nil => intro sub; simp [popItems_nil]
  | cons e es ih =>
    intro sub
    cases e with
    | mark => simp [popItems_mark]
    | val v =>
      rw [popItems_val]
      simpa [marks] using ih (.cons v sub)

theorem parseStep_marks {tok : Tok} {es es' : List Entry} {opens opens' : Nat}
    {seen seen' : Bool} (h : parseStep tok es opens seen = .ok (es', opens', seen'))
    (hm : marks es = opens) : marks es' = opens' ∧ es' ≠ [] := by
  have hclose : (if opens = 0 then (.error "too many close parentheses" :
        Except String (List Entry × Nat × Bool))
      else .ok (.val (unwrapSpec (popItems es .nil).2) :: (popItems es .nil).1.tail,
        opens - 1, seen)) = .ok (es', opens', seen') → marks es' = opens' ∧ es' ≠ [] := by
    intro h
    by_cases hz : opens = 0
    · simp [hz] at h
    · simp only [if_neg hz, Except.ok.injEq, Prod.mk.injEq] at h
      obtain ⟨rfl, rfl, -⟩ := h
      obtain ⟨hmk, hshape⟩ := marks_popItems es .nil
      refine ⟨?_, by simp⟩
      rcases hshape with h0 | ⟨rest, h1⟩
      · rw [h0] at hmk
        simp [marks] at hmk
        omega
      · rw [h1] at hmk ⊢
        simp [marks] at hmk ⊢
        omega
  cases tok with
  | openParen =>
    simp only [parseStep, Except.ok.injEq, Prod.mk.injEq] at h
    obtain ⟨rfl, rfl, -⟩ := h
    simp [marks, hm]
  | openBracket =>
    simp only [parseStep, Except.ok.injEq, Prod.mk.injEq] at h
    obtain ⟨rfl, rfl, -⟩ := h
    simp [marks, hm]
  | closeParen => exact hclose h
  | closeBracket => exact hclose h
  | item v =>
    cases v with
    | sym s =>
      simp only [parseStep] at h
      split at h
      · simp only [Except.ok.injEq, Prod.mk.injEq] at h
        obtain ⟨rfl, rfl, -⟩ := h
        simp [marks, hm]
      · split at h
        · simp at h
        · simp only [Except.ok.injEq, Prod.mk.injEq] at h
          obtain ⟨rfl, rfl, -⟩ := h
          simp [marks, hm]
    | _ =>
      simp only [parseStep, Except.ok.injEq, Prod.mk.injEq] at h
      obtain ⟨rfl, rfl, -⟩ := h
      simp [marks, hm]

theorem parseRun_marks :
    ∀ (toks : List Tok) (es es' : List Entry) (opens opens' : Nat) (seen seen' : Bool),
      parseRun toks es opens seen = .ok (es', opens', seen') → marks es = opens →
      marks es' = opens' ∧ (toks ≠ [] → es' ≠ []) ∧ es'.length ≤ es.length + toks.length := by
  intro toks
  induction toks with
  | nil =>
    intro es es' opens opens' seen seen' h hm
    simp only [parseRun, Except.ok.injEq, Prod.mk.injEq] at h
    obtain ⟨rfl, rfl, -⟩ := h
    exact ⟨hm, fun h => absurd rfl h, by simp⟩
  | cons tok toks ih =>
    intro es es' opens opens' seen seen' h hm
    simp only [parseRun] at h
    cases hps : parseStep tok es opens seen with
    | error msg => simp [hps] at h
    | ok r =>
      obtain ⟨es1, opens1, seen1⟩ := r
      rw [hps] at h
      simp only at h
      obtain ⟨hm1, hne1⟩ := parseStep_marks hps hm
      obtain ⟨hm2, hne2, hlen2⟩ := ih es1 es' opens1 opens' seen1 seen' h hm1
      have hlen1 : es1.length ≤ es.length + 1 := by
        cases tok with
        | item v =>
          cases v <;> simp only [parseStep] at hps <;>
            first
              | (simp only [Except.ok.injEq, Prod.mk.injEq] at hps
                 obtain ⟨rfl, -, -⟩ := hps
                 simp)
              | (split at hps
                 · simp only [Except.ok.injEq, Prod.mk.injEq] at hps
                   obtain ⟨rfl, -, -⟩ := hps
                   simp
                 · split at hps
                   · simp at hps
                   · simp only [Except.ok.injEq, Prod.mk.injEq] at hps
                     obtain ⟨rfl, -, -⟩ := hps
                     simp)
        | openParen =>
          simp only [parseStep, Except.ok.injEq, Prod.mk.injEq] at hps
          obtain ⟨rfl, -, -⟩ := hps
          simp
        | openBracket =>
          simp only [parseStep, Except.ok.injEq, Prod.mk.injEq] at hps
          obtain ⟨rfl, -, -⟩ := hps
          simp
        | _ =>
          simp only [parseStep] at hps
          split at hps
          · simp at hps
          · simp only [Except.ok.injEq, Prod.mk.injEq] at hps
            obtain ⟨rfl, -, -⟩ := hps
            have := popItems_length es .nil
            simp only [List.length_cons, List.length_tail]
            omega
      refine ⟨hm2, fun _ => ?_, by simp only [List.length_cons]; omega⟩
      cases toks with
      | nil =>
        simp only [parseRun, Except.ok.injEq, Prod.mk.injEq] at h
        obtain ⟨rfl, -, -⟩ := h
        exact hne1
      | cons t ts => exact hne2 (by simp)

theorem drainSpec_marks : ∀ (es : List Entry) (tree : SExp), marks es = 0 →
    ∃ forms, drainSpec es tree = some forms := by
  intro es
  induction es with
  | nil => intro tree _; exact ⟨tree, rfl⟩
  | cons e es ih =>
    intro tree hm
    cases e with
    | mark => simp [marks] at hm
    | val v =>
      simp only [marks] at hm
      simpa [drainSpec] using ih (.cons v tree) hm

/-- The function `parse` on the heap ends as `parseSpec` says on the token
sequence the heap holds. -/
theorem parse_spec (fuel tokens : Nat) (toks : List Tok) (st : State)
    (htoks : isListOf (isTok st.view) st.view tokens toks = true)
    (hfuel : toks.length < fuel) (hmax : (toks.length : Int) < INT_MAX) :
    Realizes (parse fuel tokens st) (parseSpec toks) := by
  let st1 : State := ⟨st.items ++ [⟨NULL_TYPE, .undef, .undef, .undef⟩], st.frames⟩
  have hext1 : Extends st st1 := Extends.alloc st _
  have hstack : isListOf (isEntry st1.view) st1.view st.items.length [] = true :=
    (isListOf_nil_iff _ _ _).2 ⟨_, view_alloc st _, by decide⟩
  have hloop := parseLoop_spec fuel toks fuel tokens st.items.length [] 0 none false st1
    (isToks_extends hext1 htoks) hstack rfl hfuel (by simpa using hfuel)
    (by push_cast; omega)
  have hstart : parse fuel tokens st =
      (do let (stack, openParentheses) ← parseLoop fuel fuel tokens st.items.length 0 none
          if openParentheses > 0 then syntaxError "not enough close parentheses"
          else do
            let parseTree ← makeNull
            let parseTree ← parseDrain fuel stack parseTree
            if (← isNull (← cdr parseTree)) then car parseTree
            else pure parseTree : M Nat) st1 := by
    simp [parse, makeNull, allocItem, st1]
  rw [hstart]
  unfold parseSpec
  cases hpr : parseRun toks [] 0 false with
  | error msg =>
    rw [hpr] at hloop
    simp only [Nat.cast_zero] at hloop
    simp only [Realizes, bind_apply, hloop]
  | ok r =>
    obtain ⟨es, opens, seen⟩ := r
    rw [hpr] at hloop
    obtain ⟨stack2, st2, hrun, hext2, hs2⟩ := hloop
    simp only [Nat.cast_zero] at hrun
    obtain ⟨hm, hne, hlen⟩ := parseRun_marks toks [] es 0 opens false seen hpr rfl
    simp only
    by_cases hop : opens > 0
    · rw [if_pos hop]
      have : (opens : Int) > 0 := by omega
      simp [Realizes, hrun, this, syntaxError]
    · rw [if_neg hop]
      have hz : opens = 0 := by omega
      subst hz
      obtain ⟨forms, hd⟩ := drainSpec_marks es .nil hm
      rw [hd]
      let st3 : State := ⟨st2.items ++ [⟨NULL_TYPE, .undef, .undef, .undef⟩], st2.frames⟩
      have hext3 : Extends st2 st3 := Extends.alloc st2 _
      have hnil : isTree st3.view st2.items.length .nil = true := by
        simp [isTree, st3, State.view]
      obtain ⟨r, st4, hdrain, hext4, hr⟩ := parseDrain_spec es fuel stack2 st2.items.length .nil
        forms st3 (isEntries_extends hext3 hs2) hnil (by simp at hlen; omega) hd
      have hrest :
          (do
            let (stack, openParentheses) ← parseLoop fuel fuel tokens st.items.length 0 none
            if openParentheses > 0 then syntaxError "not enough close parentheses"
            else do
              let parseTree ← makeNull
              let parseTree ← parseDrain fuel stack parseTree
              if (← isNull (← cdr parseTree)) then car parseTree
              else pure parseTree : M Nat) st1 =
          (do
            if (← isNull (← cdr r)) then car r
            else pure r : M Nat) st4 := by
        simp [hrun, makeNull, allocItem]
        simp [st3] at hdrain
        simp [hdrain]
      rw [hrest]
      cases forms with
      | cons f rest =>
        obtain ⟨it, pf, py, hp, ht, h0, h1, hf, hy⟩ := (isTree_cons_iff _ _ _ _).1 hr
        have hp' : st4.items[r]? = some it := hp
        have hny := isTree_isNull hy
        simp only [parseEnd]
        by_cases hc : rest.isCons = true
        · rw [if_pos hc]
          rw [hc] at hny
          exact ⟨r, st4, by simp [cdr_ok hp' h1, hny], hr⟩
        · rw [if_neg hc]
          simp only [Bool.not_eq_true] at hc
          rw [hc] at hny
          exact ⟨pf, st4, by simp [cdr_ok hp' h1, hny, car_ok hp' h0], hf⟩
      | nil =>
        -- no entry was on the stack: the tree is the item `makeNull` made
        cases es with
        | cons e es =>
          cases e with
          | mark => simp [marks] at hm
          | val v =>
            exfalso
            simp only [drainSpec] at hd
            have : ∀ (es : List Entry) (t : SExp), t.isCons = true →
                ∀ forms, drainSpec es t = some forms → forms.isCons = true := by
              intro es
              induction es with
              | nil => intro t ht forms h; simp only [drainSpec, Option.some.injEq] at h; rw [← h]; exact ht
              | cons e es ih =>
                intro t ht forms h
                cases e with
                | mark => simp [drainSpec] at h
                | val w => exact ih (.cons w t) rfl forms (by simpa [drainSpec] using h)
            have := this es (.cons v .nil) rfl .nil hd
            simp [SExp.isCons] at this
        | nil =>
          simp only [parseEnd, Realizes]
          have hs2' := (isListOf_nil_iff _ _ _).1 hs2
          obtain ⟨it2, hp2, ht2⟩ := hs2'
          have hp2' : st2.items[stack2]? = some it2 := hp2
          have hd' : parseDrain fuel stack2 st2.items.length st3 = .ok st2.items.length st3 := by
            obtain ⟨k, hk⟩ : ∃ j, fuel = j + 1 := ⟨fuel - 1, by omega⟩
            rw [hk]
            have hp3 : st3.items[stack2]? = some it2 := hext3.view _ _ hp2
            simp [parseDrain, isNull_ok hp3, ht2]
          rw [hd'] at hdrain
          simp only [Res.ok.injEq] at hdrain
          obtain ⟨rfl, rfl⟩ := hdrain
          have hv : st3.items[st2.items.length]? = some ⟨NULL_TYPE, .undef, .undef, .undef⟩ :=
            view_alloc st2 _
          simp [cdr, readItem, hv]
      | _ =>
        exfalso
        have : ∀ (es : List Entry) (t : SExp), (t = .nil ∨ t.isCons = true) →
            ∀ forms, drainSpec es t = some forms → (forms = .nil ∨ forms.isCons = true) := by
          intro es
          induction es with
          | nil => intro t ht forms h; simp only [drainSpec, Option.some.injEq] at h; rw [← h]; exact ht
          | cons e es ih =>
            intro t ht forms h
            cases e with
            | mark => simp [drainSpec] at h
            | val w => exact ih (.cons w t) (Or.inr rfl) forms (by simpa [drainSpec] using h)
        have := this es .nil (Or.inl rfl) _ hd
        simp [SExp.isCons] at this

/-! The parser on token sequences -/

theorem parseRun_append (a b : List Tok) : ∀ (es : List Entry) (opens : Nat) (seen : Bool),
    parseRun (a ++ b) es opens seen =
      match parseRun a es opens seen with
      | .ok (es', opens', seen') => parseRun b es' opens' seen'
      | .error msg => .error msg := by
  induction a with
  | nil => intro es opens seen; rfl
  | cons t ts ih =>
    intro es opens seen
    simp only [List.cons_append, parseRun]
    cases hps : parseStep t es opens seen with
    | error msg => rfl
    | ok r =>
      obtain ⟨es1, opens1, seen1⟩ := r
      exact ih es1 opens1 seen1

theorem parseRun_cons (t : Tok) (ts : List Tok) (es : List Entry) (opens : Nat) (seen : Bool) :
    parseRun (t :: ts) es opens seen =
      match parseStep t es opens seen with
      | .ok (es', opens', seen') => parseRun ts es' opens' seen'
      | .error msg => .error msg := by
  cases h : parseStep t es opens seen <;> simp only [parseRun, h]

theorem popItems_pushAll : ∀ (l : SExp) (es : List Entry) (sub : SExp),
    popItems (pushAll l es) sub = popItems es (l.append sub) := by
  intro l
  induction l with
  | cons a b _ ihb =>
    intro es sub
    simp only [pushAll, SExp.append]
    rw [ihb, popItems_val]
  | _ => intro es sub; simp [pushAll, SExp.append]

theorem SExp.append_nil : ∀ l : SExp, l.properRest = true → l.append .nil = l := by
  intro l
  induction l with
  | cons a b _ ihb =>
    intro h
    simp only [SExp.properRest, Bool.and_eq_true] at h
    simp only [SExp.append, ihb h.2]
  | nil => intro _; rfl
  | _ => intro h; simp [SExp.properRest] at h

theorem collapseRest_append_nil : ∀ l : SExp, l.properRest = true →
    (collapseRest l).append .nil = collapseRest l := by
  intro l
  induction l with
  | cons a b _ ihb =>
    intro h
    simp only [SExp.properRest, Bool.and_eq_true] at h
    simp only [collapseRest, SExp.append, ihb h.2]
  | nil => intro _; simp [collapseRest, SExp.append]
  | _ => intro h; simp [SExp.properRest] at h

theorem parseStep_atom (v : SExp) (hv : v.isCons = false) (hn : v ≠ .nil)
    (hq : v.quoteFree = true) (es : List Entry) (opens : Nat) (seen : Bool) :
    ∃ seen', parseStep (.item v) es opens seen = .ok (.val v :: es, opens, seen') := by
  cases v with
  | sym s =>
    simp only [SExp.quoteFree, decide_eq_true_eq] at hq
    simp only [parseStep]
    by_cases hl : s = "lambda"
    · exact ⟨true, by rw [if_pos hl]⟩
    · exact ⟨seen, by rw [if_neg hl, if_neg (fun h => hq h.2)]⟩
  | cons a b => simp [SExp.isCons] at hv
  | nil => exact absurd rfl hn
  | _ => exact ⟨seen, rfl⟩

/-- The run of `parse` over the tokens that write a tree pushes the collapsed
tree; over the tokens of the elements of a list it pushes the collapsed
elements in order. -/
theorem parseRun_write : ∀ t : SExp,
    (t.proper = true → t.quoteFree = true →
      ∀ (rest : List Tok) (es : List Entry) (opens : Nat) (seen : Bool), ∃ seen',
        parseRun (writeTree t ++ rest) es opens seen =
          parseRun rest (.val (collapse t) :: es) opens seen') ∧
    (t.properRest = true → t.quoteFree = true →
      ∀ (rest : List Tok) (es : List Entry) (opens : Nat) (seen : Bool), ∃ seen',
        parseRun (writeRest t ++ rest) es opens seen =
          parseRun rest (pushAll (collapseRest t) es) opens seen') := by
  intro t
  induction t with
  | cons a b iha ihb =>
    have hrest : (SExp.cons a b).properRest = true → (SExp.cons a b).quoteFree = true →
        ∀ (rest : List Tok) (es : List Entry) (opens : Nat) (seen : Bool), ∃ seen',
          parseRun (writeRest (.cons a b) ++ rest) es opens seen =
            parseRun rest (pushAll (collapseRest (.cons a b)) es) opens seen' := by
      intro hp hq rest es opens seen
      simp only [SExp.properRest, Bool.and_eq_true] at hp
      simp only [SExp.quoteFree, Bool.and_eq_true] at hq
      obtain ⟨s1, h1⟩ := iha.1 hp.1 hq.1 (writeRest b ++ rest) es opens seen
      obtain ⟨s2, h2⟩ := ihb.2 hp.2 hq.2 rest (.val (collapse a) :: es) opens s1
      refine ⟨s2, ?_⟩
      simp only [writeRest, List.append_assoc, collapseRest, pushAll]
      rw [h1, h2]
    refine ⟨fun hp hq rest es opens seen => ?_, hrest⟩
    have hp' : (SExp.cons a b).properRest = true := by
      simpa [SExp.proper, SExp.properRest] using hp
    obtain ⟨s1, h1⟩ := hrest hp' hq (.closeParen :: rest) (.mark :: es) (opens + 1) seen
    refine ⟨s1, ?_⟩
    have hw : writeTree (.cons a b) ++ rest =
        .openParen :: (writeRest (.cons a b) ++ .closeParen :: rest) := by
      simp [writeTree, writeRest]
    rw [hw, parseRun_cons]
    simp only [parseStep]
    rw [h1, parseRun_cons]
    simp only [parseStep, Nat.add_one_ne_zero, if_false, Nat.add_sub_cancel]
    rw [popItems_pushAll, collapseRest_append_nil _ hp', popItems_mark]
    simp only [List.tail_cons, collapse, collapseRest]
  | nil =>
    refine ⟨fun _ _ rest es opens seen => ⟨seen, ?_⟩, fun _ _ rest es opens seen => ⟨seen, ?_⟩⟩
    · simp only [writeTree, List.cons_append, List.nil_append, parseRun_cons, parseStep,
        Nat.add_one_ne_zero, if_false, Nat.add_sub_cancel, popItems_mark, List.tail_cons,
        unwrapSpec, collapse]
    · simp [writeRest, collapseRest, pushAll]
  | int i =>
    refine ⟨fun _ hq rest es opens seen => ?_, fun h => by simp [SExp.properRest] at h⟩
    obtain ⟨s1, h1⟩ := parseStep_atom (.int i) rfl (by simp) hq es opens seen
    exact ⟨s1, by simp only [writeTree, List.cons_append, List.nil_append, parseRun_cons, h1,
      collapse]⟩
  | real d =>
    refine ⟨fun _ hq rest es opens seen => ?_, fun h => by simp [SExp.properRest] at h⟩
    obtain ⟨s1, h1⟩ := parseStep_atom (.real d) rfl (by simp) hq es opens seen
    exact ⟨s1, by simp only [writeTree, List.cons_append, List.nil_append, parseRun_cons, h1,
      collapse]⟩
  | text s =>
    refine ⟨fun _ hq rest es opens seen => ?_, fun h => by simp [SExp.properRest] at h⟩
    obtain ⟨s1, h1⟩ := parseStep_atom (.text s) rfl (by simp) hq es opens seen
    exact ⟨s1, by simp only [writeTree, List.cons_append, List.nil_append, parseRun_cons, h1,
      collapse]⟩
  | sym s =>
    refine ⟨fun _ hq rest es opens seen => ?_, fun h => by simp [SExp.properRest] at h⟩
    obtain ⟨s1, h1⟩ := parseStep_atom (.sym s) rfl (by simp) hq es opens seen
    exact ⟨s1, by simp only [writeTree, List.cons_append, List.nil_append, parseRun_cons, h1,
      collapse]⟩
  | bool b =>
    refine ⟨fun _ hq rest es opens seen => ?_, fun h => by simp [SExp.properRest] at h⟩
    obtain ⟨s1, h1⟩ := parseStep_atom (.bool b) rfl (by simp) hq es opens seen
    exact ⟨s1, by simp only [writeTree, List.cons_append, List.nil_append, parseRun_cons, h1,
      collapse]⟩

theorem drainSpec_vals : ∀ (vs : List SExp) (tree : SExp),
    drainSpec (vs.map .val) tree = some (vs.foldl (fun t v => .cons v t) tree) := by
  intro vs
  induction vs with
  | nil => intro tree; rfl
  | cons v vs ih => intro tree; simp only [List.map_cons, drainSpec, List.foldl_cons, ih]

theorem SExp.list_eq_foldr (vs : List SExp) :
    SExp.list vs = vs.foldr (fun v t => .cons v t) .nil := by
  induction vs with
  | nil => rfl
  | cons v vs ih => simp only [SExp.list, List.foldr_cons, ih]

theorem parseRun_forms : ∀ (forms : List SExp),
    (∀ f ∈ forms, f.proper = true ∧ f.quoteFree = true) →
    ∀ (rest : List Tok) (es : List Entry) (opens : Nat) (seen : Bool), ∃ seen',
      parseRun (writeForms forms ++ rest) es opens seen =
        parseRun rest ((forms.map (fun f => Entry.val (collapse f))).reverse ++ es) opens
          seen' := by
  intro forms
  induction forms with
  | nil => intro _ rest es opens seen; exact ⟨seen, rfl⟩
  | cons f fs ih =>
    intro h rest es opens seen
    obtain ⟨hp, hq⟩ := h f (List.mem_cons_self _ _)
    obtain ⟨s1, h1⟩ := (parseRun_write f).1 hp hq (writeForms fs ++ rest) es opens seen
    obtain ⟨s2, h2⟩ := ih (fun g hg => h g (List.mem_cons_of_mem _ hg)) rest
      (.val (collapse f) :: es) opens s1
    refine ⟨s2, ?_⟩
    simp only [writeForms, List.append_assoc, List.map_cons, List.reverse_cons]
    rw [h1, h2]
    simp

/-- The end of `parse` on the tokens that write a sequence of top-level
forms. -/
theorem parseSpec_forms (forms : List SExp)
    (h : ∀ f ∈ forms, f.proper = true ∧ f.quoteFree = true) :
    parseSpec (writeForms forms) = parseEnd (SExp.list (forms.map collapse)) := by
  obtain ⟨s1, h1⟩ := parseRun_forms forms h [] [] 0 false
  simp only [List.append_nil] at h1
  have hd : drainSpec ((forms.map (fun f => Entry.val (collapse f))).reverse) .nil =
      some (SExp.list (forms.map collapse)) := by
    have := drainSpec_vals ((forms.map collapse).reverse) .nil
    rw [List.foldl_reverse, ← SExp.list_eq_foldr] at this
    rw [← this, List.map_reverse, List.map_map]
    rfl
  unfold parseSpec
  rw [h1]
  simp only [parseRun, gt_iff_lt, Nat.lt_irrefl, if_false, hd]

theorem parseSpec_writeTree (t : SExp) (hp : t.proper = true) (hq : t.quoteFree = true) :
    parseSpec (writeTree t) = .tree (collapse t) := by
  have := parseSpec_forms [t] (by simpa using ⟨hp, hq⟩)
  simpa [writeForms, SExp.list, parseEnd, SExp.isCons] using this

theorem unwrapSpec_eq_self (t : SExp) (h : t.wrapsList = false) : unwrapSpec t = t := by
  unfold unwrapSpec
  split
  · rename_i a b c rest
    simp only [SExp.wrapsList, Bool.not_eq_false'] at h
    rw [if_pos h]
  · rfl

theorem collapse_eq_self : ∀ t : SExp,
    (t.collapsible = false → collapse t = t) ∧
    (t.collapsibleRest = false → collapseRest t = t) := by
  intro t
  induction t with
  | cons a b iha ihb =>
    refine ⟨fun h => ?_, fun h => ?_⟩
    · simp only [SExp.collapsible, Bool.or_eq_false_iff] at h
      simp only [collapse, iha.1 h.1.2, ihb.2 h.2]
      exact unwrapSpec_eq_self _ h.1.1
    · simp only [SExp.collapsibleRest, Bool.or_eq_false_iff] at h
      simp only [collapseRest, iha.1 h.1, ihb.2 h.2]
  | _ => exact ⟨fun _ => by simp [collapse], fun _ => by simp [collapseRest]⟩

/-- C24 (as the code has it): for every tree t built from atoms and proper
lists, with no quote symbol, parsing the token sequence that writes t returns
the tree t collapsed, that is t in which, innermost lists first, every list
whose only element is a list of two or more elements has been replaced by that
element; the result is t itself when t has no such list. -/
theorem parse_writeTree_collapse (fuel tokens : Nat) (t : SExp) (st : State)
    (hp : t.proper = true) (hq : t.quoteFree = true)
    (htoks : isListOf (isTok st.view) st.view tokens (writeTree t) = true)
    (hfuel : (writeTree t).length < fuel) (hmax : ((writeTree t).length : Int) < INT_MAX) :
    (∃ p st', parse fuel tokens st = .ok p st' ∧ isTree st'.view p (collapse t) = true) ∧
    (t.collapsible = false → collapse t = t) := by
  have h := parse_spec fuel tokens (writeTree t) st htoks hfuel hmax
  rw [parseSpec_writeTree t hp hq] at h
  exact ⟨h, (collapse_eq_self t).1⟩

theorem parse_writeTree_collapse_witness :
    (∃ p st', parse 20 (layoutTokens (writeTree (L [S "f", L [.int 1, .int 2]]))).1
        (layoutTokens (writeTree (L [S "f", L [.int 1, .int 2]]))).2 = .ok p st' ∧
      isTree st'.view p (collapse (L [S "f", L [.int 1, .int 2]])) = true) ∧
    ((L [S "f", L [.int 1, .int 2]]).collapsible = false →
      collapse (L [S "f", L [.int 1, .int 2]]) = L [S "f", L [.int 1, .int 2]]) :=
  parse_writeTree_collapse 20 _ (L [S "f", L [.int 1, .int 2]]) _ (by decide) (by decide)
    (by decide) (by decide) (by decide)

/-- C24 (counterexample): the tree `((a b))` is built from atoms and proper
lists and has no quote symbol, and parsing the tokens `( ( a b ) )` that write
it returns `(a b)`, not `((a b))`. -/
theorem parse_wrapped_list_counterexample :
    (L [L [S "a", S "b"]]).proper = true ∧ (L [L [S "a", S "b"]]).quoteFree = true ∧
    writeTree (L [L [S "a", S "b"]]) =
      [.openParen, .openParen, .item (S "a"), .item (S "b"), .closeParen, .closeParen] ∧
    parseTokens 20 (writeTree (L [L [S "a", S "b"]])) = .ok (L [S "a", S "b"]) ∧
    L [S "a", S "b"] ≠ L [L [S "a", S "b"]] := by
  decide!

/-- C27 (what the code does): on the tokens that write a sequence of top-level
forms, `parse` returns the only form itself when there is one and the list of
the forms in source order when there are two or more, each form collapsed as
`parse` collapses lists; on the empty token sequence it reads the `cdr` of the
item `makeNull` has just made, a word that was never set, and returns
nothing. -/
theorem parse_top_level_forms (fuel tokens : Nat) (forms : List SExp) (st : State)
    (hforms : ∀ f ∈ forms, f.proper = true ∧ f.quoteFree = true)
    (htoks : isListOf (isTok st.view) st.view tokens (writeForms forms) = true)
    (hfuel : (writeForms forms).length < fuel)
    (hmax : ((writeForms forms).length : Int) < INT_MAX) :
    (forms = [] → parse fuel tokens st = .undefined) ∧
    (∀ f, forms = [f] →
      ∃ p st', parse fuel tokens st = .ok p st' ∧ isTree st'.view p (collapse f) = true) ∧
    (2 ≤ forms.length →
      ∃ p st', parse fuel tokens st = .ok p st' ∧
        isTree st'.view p (SExp.list (forms.map collapse)) = true) := by
  have h := parse_spec fuel tokens (writeForms forms) st htoks hfuel hmax
  rw [parseSpec_forms forms hforms] at h
  refine ⟨fun h0 => ?_, fun f h1 => ?_, fun h2 => ?_⟩
  · subst h0
    simpa only [List.map, SExp.list, parseEnd, Realizes] using h
  · subst h1
    have he : parseEnd (SExp.list (List.map collapse [f])) = .tree (collapse f) := by
      simp only [List.map, SExp.list, parseEnd, SExp.isCons]
      rfl
    rw [he] at h
    exact h
  · obtain ⟨f, g, rest, rfl⟩ : ∃ f g rest, forms = f :: g :: rest := by
      cases forms with
      | nil => simp at h2
      | cons f fs =>
        cases fs with
        | nil => simp at h2
        | cons g rest => exact ⟨f, g, rest, rfl⟩
    have he : parseEnd (SExp.list (List.map collapse (f :: g :: rest))) =
        .tree (SExp.list (List.map collapse (f :: g :: rest))) := by
      simp only [List.map, SExp.list, parseEnd, SExp.isCons]
      rfl
    rw [he] at h
    exact h

theorem parse_top_level_forms_witness :
    (([] : List SExp) = [] → parse 5 (layoutTokens []).1 (layoutTokens []).2 = .undefined) ∧
    (∀ f, ([] : List SExp) = [f] →
      ∃ p st', parse 5 (layoutTokens []).1 (layoutTokens []).2 = .ok p st' ∧
        isTree st'.view p (collapse f) = true) ∧
    (2 ≤ ([] : List SExp).length →
      ∃ p st', parse 5 (layoutTokens []).1 (layoutTokens []).2 = .ok p st' ∧
        isTree st'.view p (SExp.list (([] : List SExp).map collapse)) = true) :=
  parse_top_level_forms 5 (layoutTokens []).1 [] (layoutTokens []).2
    (fun _ h => absurd h (List.not_mem_nil _)) (by decide!) (by decide!) (by decide!)

theorem parse_forms_sample :
    parseTokens 20 [] = .error "undefined" ∧
    parseTokens 20 (writeForms [L [S "+", .int 1, .int 2]]) = .ok (L [S "+", .int 1, .int 2]) ∧
    parseTokens 20 (writeForms [.int 1, L [S "f"]]) = .ok (L [.int 1, L [S "f"]]) := by
  decide!

/-! Balance of the markers -/

theorem countOpen_cons (t : Tok) (ts : List Tok) :
    countOpen (t :: ts) = (if t.isOpen then 1 else 0) + countOpen ts := by
  unfold countOpen
  by_cases h : t.isOpen = true
  · simp [List.filter_cons, h, Nat.add_comm]
  · simp [List.filter_cons, h]

theorem countClose_cons (t : Tok) (ts : List Tok) :
    countClose (t :: ts) = (if t.isClose then 1 else 0) + countClose ts := by
  unfold countClose
  by_cases h : t.isClose = true
  · simp [List.filter_cons, h, Nat.add_comm]
  · simp [List.filter_cons, h]

theorem Tok.not_open_and_close (t : Tok) : ¬ (t.isOpen = true ∧ t.isClose = true) := by
  cases t <;> simp [Tok.isOpen, Tok.isClose]

theorem underflows_iff : ∀ (toks : List Tok) (d : Nat),
    underflows d toks = true ↔
      ∃ n, n ≤ toks.length ∧ d + countOpen (toks.take n) < countClose (toks.take n) := by
  intro toks
  induction toks with
  | nil =>
    intro d
    simp [underflows, countOpen, countClose]
  | cons t ts ih =>
    intro d
    have hstep : ∀ e : Nat,
        (∃ n, n ≤ ts.length ∧ e + countOpen (ts.take n) < countClose (ts.take n)) →
        d + (if t.isOpen then 1 else 0) = e + (if t.isClose then 1 else 0) →
        ∃ n, n ≤ (t :: ts).length ∧
          d + countOpen ((t :: ts).take n) < countClose ((t :: ts).take n) := by
      intro e ⟨n, hn, hlt⟩ he
      refine ⟨n + 1, by simpa using hn, ?_⟩
      simp only [List.take_succ_cons, countOpen_cons, countClose_cons]
      omega
    have hback : ∀ n, n ≤ (t :: ts).length →
        d + countOpen ((t :: ts).take n) < countClose ((t :: ts).take n) →
        ∃ m, n = m + 1 ∧ m ≤ ts.length ∧
          d + ((if t.isOpen then 1 else 0) + countOpen (ts.take m)) <
            (if t.isClose then 1 else 0) + countClose (ts.take m) := by
      intro n hn hlt
      cases n with
      | zero => simp [countOpen, countClose] at hlt
      | succ m =>
        refine ⟨m, rfl, by simpa using hn, ?_⟩
        simpa only [List.take_succ_cons, countOpen_cons, countClose_cons] using hlt
    have hoc := Tok.not_open_and_close t
    simp only [underflows]
    by_cases ho : t.isOpen = true
    · have hc : t.isClose = false := by
        cases h : t.isClose
        · rfl
        · exact absurd ⟨ho, h⟩ hoc
      rw [if_pos ho, ih]
      constructor
      · intro h
        exact hstep (d + 1) h (by simp [ho, hc])
      · rintro ⟨n, hn, hlt⟩
        obtain ⟨m, rfl, hm, h⟩ := hback n hn hlt
        refine ⟨m, hm, ?_⟩
        simp only [ho, hc, if_true] at h
        simp at h
        omega
    · rw [if_neg ho]
      simp only [Bool.not_eq_true] at ho
      by_cases hc : t.isClose = true
      · rw [if_pos hc]
        simp only [Bool.or_eq_true, decide_eq_true_eq, ih]
        constructor
        · rintro (h0 | h)
          · refine ⟨1, by simp, ?_⟩
            simp [countOpen_cons, countClose_cons, ho, hc, h0, countOpen, countClose]
          · by_cases h0 : d = 0
            · refine ⟨1, by simp, ?_⟩
              simp [countOpen_cons, countClose_cons, ho, hc, h0, countOpen, countClose]
            · exact hstep (d - 1) h (by simp [ho, hc]; omega)
        · rintro ⟨n, hn, hlt⟩
          obtain ⟨m, rfl, hm, h⟩ := hback n hn hlt
          by_cases h0 : d = 0
          · exact Or.inl h0
          · refine Or.inr ⟨m, hm, ?_⟩
            simp only [ho, hc, if_true] at h
            simp at h
            omega
      · rw [if_neg hc, ih]
        simp only [Bool.not_eq_true] at hc
        constructor
        · intro h
          exact hstep d h (by simp [ho, hc])
        · rintro ⟨n, hn, hlt⟩
          obtain ⟨m, rfl, hm, h⟩ := hback n hn hlt
          refine ⟨m, hm, ?_⟩
          simp only [ho, hc] at h
          simp at h
          omega

theorem parseStep_close (t : Tok) (ht : t.isClose = true) (es : List Entry) (opens : Nat)
    (seen : Bool) :
    parseStep t es opens seen =
      if opens = 0 then .error "too many close parentheses"
      else .ok (.val (unwrapSpec (popItems es .nil).2) :: (popItems es .nil).1.tail,
        opens - 1, seen) := by
  cases t <;> simp [Tok.isClose] at ht <;> rfl

theorem parseStep_open (t : Tok) (ht : t.isOpen = true) (es : List Entry) (opens : Nat)
    (seen : Bool) : parseStep t es opens seen = .ok (.mark :: es, opens + 1, seen) := by
  cases t <;> simp [Tok.isOpen] at ht <;> rfl

theorem parseStep_item (t : Tok) (ho : t.isOpen = false) (hc : t.isClose = false)
    (hq : t ≠ .item (.sym "quote")) (es : List Entry) (opens : Nat) (seen : Bool) :
    ∃ v seen', parseStep t es opens seen = .ok (.val v :: es, opens, seen') := by
  cases t with
  | item v =>
    cases v with
    | sym s =>
      simp only [parseStep]
      by_cases hl : s = "lambda"
      · exact ⟨.sym s, true, by rw [if_pos hl]⟩
      · refine ⟨.sym s, seen, ?_⟩
        rw [if_neg hl, if_neg]
        rintro ⟨-, rfl⟩
        exact hq rfl
    | _ => exact ⟨_, seen, rfl⟩
  | openParen => simp [Tok.isOpen] at ho
  | openBracket => simp [Tok.isOpen] at ho
  | closeParen => simp [Tok.isClose] at hc
  | closeBracket => simp [Tok.isClose] at hc

/-- Without a quote symbol the run of `parse` fails exactly when a marker of a
closing has nothing to close, and otherwise ends with the count of the markers
left to close. -/
theorem parseRun_balance : ∀ (toks : List Tok) (es : List Entry) (opens : Nat) (seen : Bool),
    (∀ t ∈ toks, t ≠ .item (.sym "quote")) →
    (underflows opens toks = true →
      parseRun toks es opens seen = .error "too many close parentheses") ∧
    (underflows opens toks = false →
      ∃ es' seen', parseRun toks es opens seen =
          .ok (es', opens + countOpen toks - countClose toks, seen') ∧
        countClose toks ≤ opens + countOpen toks) := by
  intro toks
  induction toks with
  | nil =>
    intro es opens seen _
    refine ⟨fun h => by simp [underflows] at h, fun _ => ⟨es, seen, ?_, by simp [countClose]⟩⟩
    simp [parseRun, countOpen, countClose]
  | cons t ts ih =>
    intro es opens seen hq
    have hqt := hq t (List.mem_cons_self _ _)
    have hqs : ∀ u ∈ ts, u ≠ .item (.sym "quote") := fun u hu => hq u (List.mem_cons_of_mem _ hu)
    have hoc := Tok.not_open_and_close t
    rw [parseRun_cons]
    simp only [underflows, countOpen_cons, countClose_cons]
    by_cases ho : t.isOpen = true
    · have hc : t.isClose = false := by
        cases h : t.isClose
        · rfl
        · exact absurd ⟨ho, h⟩ hoc
      rw [parseStep_open t ho]
      obtain ⟨h1, h2⟩ := ih (.mark :: es) (opens + 1) seen hqs
      simp only [ho, hc, if_true]
      refine ⟨h1, fun h => ?_⟩
      obtain ⟨es', seen', hr, hle⟩ := h2 h
      refine ⟨es', seen', ?_, by simp; omega⟩
      rw [hr]
      simp
      omega
    · simp only [Bool.not_eq_true] at ho
      by_cases hc : t.isClose = true
      · rw [parseStep_close t hc]
        simp only [ho, hc, if_true, Bool.false_eq_true, if_false, Bool.or_eq_true,
          decide_eq_true_eq, Bool.or_eq_false_iff, decide_eq_false_iff_not]
        by_cases hz : opens = 0
        · rw [if_pos hz]
          exact ⟨fun _ => rfl, fun h => absurd hz h.1⟩
        · rw [if_neg hz]
          obtain ⟨h1, h2⟩ := ih (.val (unwrapSpec (popItems es .nil).2) ::
            (popItems es .nil).1.tail) (opens - 1) seen hqs
          refine ⟨fun h => ?_, fun h => ?_⟩
          · rcases h with h | h
            · exact absurd h hz
            · exact h1 h
          · obtain ⟨es', seen', hr, hle⟩ := h2 h.2
            refine ⟨es', seen', ?_, by omega⟩
            simp only
            rw [hr]
            simp
            omega
      · simp only [Bool.not_eq_true] at hc
        obtain ⟨v, seen1, hps⟩ := parseStep_item t ho hc hqt es opens seen
        rw [hps]
        obtain ⟨h1, h2⟩ := ih (.val v :: es) opens seen1 hqs
        simp only [ho, hc, Bool.false_eq_true, if_false]
        refine ⟨h1, fun h => ?_⟩
        obtain ⟨es', seen', hr, hle⟩ := h2 h
        refine ⟨es', seen', ?_, by simp; omega⟩
        rw [hr]
        simp

theorem drainSpec_isCons : ∀ (es : List Entry) (t forms : SExp),
    drainSpec es t = some forms → (es ≠ [] ∨ t.isCons = true) → forms.isCons = true := by
  intro es
  induction es with
  | nil =>
    intro t forms h hor
    simp only [drainSpec, Option.some.injEq] at h
    subst h
    rcases hor with h | h
    · exact absurd rfl h
    · exact h
  | cons e es ih =>
    intro t forms h _
    cases e with
    | mark => simp [drainSpec] at h
    | val w => exact ih (.cons w t) forms (by simpa [drainSpec] using h) (Or.inr rfl)

/-- The end of `parse` on a non-empty token sequence without a quote symbol,
by the balance of its markers. -/
theorem parseSpec_balance (toks : List Tok) (hne : toks ≠ [])
    (hq : ∀ t ∈ toks, t ≠ .item (.sym "quote")) :
    (underflows 0 toks = true →
      parseSpec toks = .syntaxError "too many close parentheses") ∧
    (underflows 0 toks = false → countClose toks < countOpen toks →
      parseSpec toks = .syntaxError "not enough close parentheses") ∧
    (underflows 0 toks = false → ¬ countClose toks < countOpen toks →
      ∃ v, parseSpec toks = .tree v) := by
  obtain ⟨h1, h2⟩ := parseRun_balance toks [] 0 false hq
  refine ⟨fun h => ?_, fun h hlt => ?_, fun h hlt => ?_⟩
  · unfold parseSpec
    rw [h1 h]
  · obtain ⟨es', seen', hr, hle⟩ := h2 h
    unfold parseSpec
    rw [hr]
    simp only
    rw [if_pos (by omega)]
  · obtain ⟨es', seen', hr, hle⟩ := h2 h
    obtain ⟨hm, hne', -⟩ := parseRun_marks toks [] es' 0 _ false seen' hr rfl
    have hz : 0 + countOpen toks - countClose toks = 0 := by omega
    rw [hz] at hm hr
    obtain ⟨forms, hd⟩ := drainSpec_marks es' .nil hm
    have hcons := drainSpec_isCons es' .nil forms hd (Or.inl (hne' hne))
    unfold parseSpec
    rw [hr]
    simp only [gt_iff_lt, Nat.lt_irrefl, if_false, hd]
    cases forms with
    | cons f rest =>
      simp only [parseEnd]
      by_cases hc : rest.isCons = true
      · exact ⟨_, by rw [if_pos hc]⟩
      · exact ⟨_, by rw [if_neg hc]⟩
    | _ => simp [SExp.isCons] at hcons

/-- C25: for every non-empty token sequence with no quote symbol token,
`parse` ends with the syntax error "too many close parentheses" when some
prefix has more markers of a closing than of an opening, with "not enough
close parentheses" when no prefix has and the whole sequence has more markers
of an opening than of a closing, and returns a tree in every other case; so it
fails with a syntax error exactly when the markers are unbalanced. -/
theorem parse_balance (fuel tokens : Nat) (toks : List Tok) (st : State)
    (hne : toks ≠ []) (hq : ∀ t ∈ toks, t ≠ .item (.sym "quote"))
    (htoks : isListOf (isTok st.view) st.view tokens toks = true)
    (hfuel : toks.length < fuel) (hmax : (toks.length : Int) < INT_MAX) :
    ((∃ n, n ≤ toks.length ∧ countOpen (toks.take n) < countClose (toks.take n)) →
      parse fuel tokens st = .error "Syntax error: too many close parentheses") ∧
    ((¬ ∃ n, n ≤ toks.length ∧ countOpen (toks.take n) < countClose (toks.take n)) →
      countClose toks < countOpen toks →
      parse fuel tokens st = .error "Syntax error: not enough close parentheses") ∧
    ((¬ ∃ n, n ≤ toks.length ∧ countOpen (toks.take n) < countClose (toks.take n)) →
      ¬ countClose toks < countOpen toks →
      ∃ p st' v, parse fuel tokens st = .ok p st' ∧ isTree st'.view p v = true) ∧
    ((∃ msg, parse fuel tokens st = .error ("Syntax error: " ++ msg)) ↔
      ((∃ n, n ≤ toks.length ∧ countOpen (toks.take n) < countClose (toks.take n)) ∨
        countClose toks < countOpen toks)) := by
  have h := parse_spec fuel tokens toks st htoks hfuel hmax
  obtain ⟨h1, h2, h3⟩ := parseSpec_balance toks hne hq
  have hu : underflows 0 toks = true ↔
      ∃ n, n ≤ toks.length ∧ countOpen (toks.take n) < countClose (toks.take n) := by
    simpa using underflows_iff toks 0
  have hA : (∃ n, n ≤ toks.length ∧ countOpen (toks.take n) < countClose (toks.take n)) →
      parse fuel tokens st = .error "Syntax error: too many close parentheses" := by
    intro ha
    rw [h1 (hu.2 ha)] at h
    exact h
  have hB : (¬ ∃ n, n ≤ toks.length ∧ countOpen (toks.take n) < countClose (toks.take n)) →
      countClose toks < countOpen toks →
      parse fuel tokens st = .error "Syntax error: not enough close parentheses" := by
    intro hna hlt
    have hf : underflows 0 toks = false := by
      cases hb : underflows 0 toks
      · rfl
      · exact absurd (hu.1 hb) hna
    rw [h2 hf hlt] at h
    exact h
  have hC : (¬ ∃ n, n ≤ toks.length ∧ countOpen (toks.take n) < countClose (toks.take n)) →
      ¬ countClose toks < countOpen toks →
      ∃ p st' v, parse fuel tokens st = .ok p st' ∧ isTree st'.view p v = true := by
    intro hna hlt
    have hf : underflows 0 toks = false := by
      cases hb : underflows 0 toks
      · rfl
      · exact absurd (hu.1 hb) hna
    obtain ⟨v, hv⟩ := h3 hf hlt
    rw [hv] at h
    obtain ⟨p, st', hrun, ht⟩ := h
    exact ⟨p, st', v, hrun, ht⟩
  refine ⟨hA, hB, hC, ?_, ?_⟩
  · rintro ⟨msg, hmsg⟩
    by_contra hcon
    simp only [not_or] at hcon
    obtain ⟨p, st', v, hrun, -⟩ := hC hcon.1 hcon.2
    rw [hrun] at hmsg
    cases hmsg
  · intro hor
    by_cases ha : ∃ n, n ≤ toks.length ∧ countOpen (toks.take n) < countClose (toks.take n)
    · exact ⟨"too many close parentheses", hA ha⟩
    · rcases hor with h' | h'
      · exact absurd h' ha
      · exact ⟨"not enough close parentheses", hB ha h'⟩

theorem parse_balance_witness :
    ((∃ n, n ≤ [Tok.openParen, .item (.int 1)].length ∧
        countOpen ([Tok.openParen, .item (.int 1)].take n) <
          countClose ([Tok.openParen, .item (.int 1)].take n)) →
      parse 5 (layoutTokens [.openParen, .item (.int 1)]).1
          (layoutTokens [.openParen, .item (.int 1)]).2 =
        .error "Syntax error: too many close parentheses") ∧
    ((¬ ∃ n, n ≤ [Tok.openParen, .item (.int 1)].length ∧
        countOpen ([Tok.openParen, .item (.int 1)].take n) <
          countClose ([Tok.openParen, .item (.int 1)].take n)) →
      countClose [Tok.openParen, .item (.int 1)] < countOpen [Tok.openParen, .item (.int 1)] →
      parse 5 (layoutTokens [.openParen, .item (.int 1)]).1
          (layoutTokens [.openParen, .item (.int 1)]).2 =
        .error "Syntax error: not enough close parentheses") ∧
    ((¬ ∃ n, n ≤ [Tok.openParen, .item (.int 1)].length ∧
        countOpen ([Tok.openParen, .item (.int 1)].take n) <
          countClose ([Tok.openParen, .item (.int 1)].take n)) →
      ¬ countClose [Tok.openParen, .item (.int 1)] <
        countOpen [Tok.openParen, .item (.int 1)] →
      ∃ p st' v, parse 5 (layoutTokens [.openParen, .item (.int 1)]).1
          (layoutTokens [.openParen, .item (.int 1)]).2 = .ok p st' ∧
        isTree st'.view p v = true) ∧
    ((∃ msg, parse 5 (layoutTokens [.openParen, .item (.int 1)]).1
          (layoutTokens [.openParen, .item (.int 1)]).2 = .error ("Syntax error: " ++ msg)) ↔
      ((∃ n, n ≤ [Tok.openParen, .item (.int 1)].length ∧
          countOpen ([Tok.openParen, .item (.int 1)].take n) <
            countClose ([Tok.openParen, .item (.int 1)].take n)) ∨
        countClose [Tok.openParen, .item (.int 1)] <
          countOpen [Tok.openParen, .item (.int 1)])) :=
  parse_balance 5 _ [.openParen, .item (.int 1)] _ (by decide) (by decide) (by decide!)
    (by decide) (by decide)

theorem balance_sample :
    parseTokens 20 [.openParen, .item (.int 1), .closeParen, .closeParen] =
      .error "Syntax error: too many close parentheses" ∧
    parseTokens 20 [.openParen, .openParen, .item (.int 1), .closeParen] =
      .error "Syntax error: not enough close parentheses" ∧
    parseTokens 20 [.closeParen, .openParen, .openParen] =
      .error "Syntax error: too many close parentheses" ∧
    parseTokens 20 [.openParen, .item (.int 1), .closeParen, .item (.int 2)] =
      .ok (L [L [.int 1], .int 2]) := by
  decide!

/-! The kind of a bracket -/

theorem parseStep_shape (t : Tok) (es : List Entry) (opens : Nat) (seen : Bool) :
    parseStep t.shape es opens seen = parseStep t es opens seen := by
  cases t <;> rfl

theorem parseRun_shape : ∀ (toks : List Tok) (es : List Entry) (opens : Nat) (seen : Bool),
    parseRun (toks.map Tok.shape) es opens seen = parseRun toks es opens seen := by
  intro toks
  induction toks with
  | nil => intro es opens seen; rfl
  | cons t ts ih =>
    intro es opens seen
    rw [List.map_cons, parseRun_cons, parseRun_cons, parseStep_shape]
    cases parseStep t es opens seen with
    | error msg => rfl
    | ok r => exact ih _ _ _

theorem parseSpec_shape (toks : List Tok) : parseSpec (toks.map Tok.shape) = parseSpec toks := by
  unfold parseSpec
  rw [parseRun_shape]

/-- C28: the kind of a bracket does not matter to `parse`: two token
sequences that differ only in which markers are brackets and which are
parentheses (markers of an opening among themselves, markers of a closing
among themselves) end the same way, with the same tree, the same syntax error
or, for the empty sequence, the same undefined read; and a bracket closed by a
parenthesis is accepted. -/
theorem parse_bracket_kind (fuel fuel' tokens tokens' : Nat) (toks toks' : List Tok)
    (st st' : State) (hsame : toks.map Tok.shape = toks'.map Tok.shape)
    (htoks : isListOf (isTok st.view) st.view tokens toks = true)
    (htoks' : isListOf (isTok st'.view) st'.view tokens' toks' = true)
    (hfuel : toks.length < fuel) (hfuel' : toks'.length < fuel')
    (hmax : (toks.length : Int) < INT_MAX) :
    (∃ o, Realizes (parse fuel tokens st) o ∧ Realizes (parse fuel' tokens' st') o) ∧
    parseTokens 10 [.openBracket, .item (.int 1), .closeParen] = .ok (L [.int 1]) := by
  have hlen : toks'.length = toks.length := by
    have := congrArg List.length hsame
    simpa using this.symm
  have h := parse_spec fuel tokens toks st htoks hfuel hmax
  have h' := parse_spec fuel' tokens' toks' st' htoks' hfuel' (by rw [hlen]; exact hmax)
  rw [← parseSpec_shape toks', ← hsame, parseSpec_shape] at h'
  exact ⟨⟨parseSpec toks, h, h'⟩, by decide!⟩

theorem parse_bracket_kind_witness :
    (∃ o, Realizes (parse 5 (layoutTokens [.openBracket, .item (.int 1), .closeParen]).1
        (layoutTokens [.openBracket, .item (.int 1), .closeParen]).2) o ∧
      Realizes (parse 6 (layoutTokens [.openParen, .item (.int 1), .closeBracket]).1
        (layoutTokens [.openParen, .item (.int 1), .closeBracket]).2) o) ∧
    parseTokens 10 [.openBracket, .item (.int 1), .closeParen] = .ok (L [.int 1]) :=
  parse_bracket_kind 5 6 _ _ [.openBracket, .item (.int 1), .closeParen]
    [.openParen, .item (.int 1), .closeBracket] _ _ (by decide) (by decide!) (by decide!)
    (by decide) (by decide) (by decide)

/-! The test on `lambda` and `quote` -/

theorem parseStep_seen {t : Tok} {es es' : List Entry} {opens opens' : Nat} {seen' : Bool}
    (h : parseStep t es opens true = .ok (es', opens', seen')) : seen' = true := by
  cases t with
  | item v =>
    cases v with
    | sym s =>
      simp only [parseStep] at h
      split at h
      · simp only [Except.ok.injEq, Prod.mk.injEq] at h
        exact h.2.2.symm
      · split at h
        · simp at h
        · simp only [Except.ok.injEq, Prod.mk.injEq] at h
          exact h.2.2.symm
    | _ =>
      simp only [parseStep, Except.ok.injEq, Prod.mk.injEq] at h
      exact h.2.2.symm
  | openParen =>
    simp only [parseStep, Except.ok.injEq, Prod.mk.injEq] at h
    exact h.2.2.symm
  | openBracket =>
    simp only [parseStep, Except.ok.injEq, Prod.mk.injEq] at h
    exact h.2.2.symm
  | _ =>
    simp only [parseStep] at h
    split at h
    · simp at h
    · simp only [Except.ok.injEq, Prod.mk.injEq] at h
      exact h.2.2.symm

theorem parseStep_error {t : Tok} {es : List Entry} {opens : Nat} {seen : Bool} {msg : String}
    (h : parseStep t es opens seen = .error msg) :
    msg = "too many close parentheses" ∨ msg = "lambda is not followed by arguments" := by
  cases t with
  | item v =>
    cases v with
    | sym s =>
      simp only [parseStep] at h
      split at h
      · simp at h
      · split at h
        · simp only [Except.error.injEq] at h
          exact Or.inr h.symm
        · simp at h
    | _ => simp [parseStep] at h
  | openParen => simp [parseStep] at h
  | openBracket => simp [parseStep] at h
  | _ =>
    simp only [parseStep] at h
    split at h
    · simp only [Except.error.injEq] at h
      exact Or.inl h.symm
    · simp at h

theorem parseRun_error : ∀ (toks : List Tok) (es : List Entry) (opens : Nat) (seen : Bool)
    (msg : String), parseRun toks es opens seen = .error msg →
    msg = "too many close parentheses" ∨ msg = "lambda is not followed by arguments" := by
  intro toks
  induction toks with
  | nil => intro es opens seen msg h; simp [parseRun] at h
  | cons t ts ih =>
    intro es opens seen msg h
    rw [parseRun_cons] at h
    cases hps : parseStep t es opens seen with
    | error m =>
      rw [hps] at h
      simp only [Except.error.injEq] at h
      subst h
      exact parseStep_error hps
    | ok r =>
      rw [hps] at h
      exact ih _ _ _ msg h

/-- Once a `lambda` symbol has been read, a later `quote` symbol ends the run
with an error. -/
theorem parseRun_seen_quote : ∀ (mid post : List Tok) (es : List Entry) (opens : Nat),
    ∃ msg, parseRun (mid ++ .item (.sym "quote") :: post) es opens true = .error msg ∧
      (∀ r, parseRun mid es opens true = .ok r →
        msg = "lambda is not followed by arguments") := by
  intro mid
  induction mid with
  | nil =>
    intro post es opens
    refine ⟨"lambda is not followed by arguments", ?_, fun _ _ => rfl⟩
    rw [List.nil_append, parseRun_cons]
    simp [parseStep]
  | cons t ts ih =>
    intro post es opens
    rw [List.cons_append, parseRun_cons]
    cases hps : parseStep t es opens true with
    | error m =>
      refine ⟨m, rfl, fun r hr => ?_⟩
      rw [parseRun_cons, hps] at hr
      cases hr
    | ok r =>
      obtain ⟨es1, opens1, seen1⟩ := r
      have := parseStep_seen hps
      subst this
      obtain ⟨msg, hmsg, hok⟩ := ih post es1 opens1
      refine ⟨msg, hmsg, fun r hr => hok r ?_⟩
      rw [parseRun_cons, hps] at hr
      exact hr

theorem parseRun_lambda_quote (pre mid post : List Tok) (es : List Entry) (opens : Nat)
    (seen : Bool) :
    ∃ msg, parseRun (pre ++ .item (.sym "lambda") :: (mid ++ .item (.sym "quote") :: post))
        es opens seen = .error msg ∧
      (∀ r, parseRun (pre ++ .item (.sym "lambda") :: mid) es opens seen = .ok r →
        msg = "lambda is not followed by arguments") := by
  rw [parseRun_append, parseRun_append]
  cases hpre : parseRun pre es opens seen with
  | error m => exact ⟨m, rfl, fun r hr => by cases hr⟩
  | ok r =>
    obtain ⟨es1, opens1, seen1⟩ := r
    simp only
    rw [parseRun_cons, parseRun_cons]
    simp only [parseStep, if_true]
    exact parseRun_seen_quote mid post _ opens1

theorem parseSpec_lambda_quote (pre mid post : List Tok) :
    ∃ msg, parseSpec (pre ++ .item (.sym "lambda") :: (mid ++ .item (.sym "quote") :: post)) =
        .syntaxError msg ∧
      (msg = "too many close parentheses" ∨ msg = "lambda is not followed by arguments") ∧
      (∀ r, parseRun (pre ++ .item (.sym "lambda") :: mid) [] 0 false = .ok r →
        msg = "lambda is not followed by arguments") := by
  obtain ⟨msg, hmsg, hok⟩ := parseRun_lambda_quote pre mid post [] 0 false
  refine ⟨msg, ?_, parseRun_error _ _ _ _ _ hmsg, hok⟩
  unfold parseSpec
  rw [hmsg]

/-- C29: for every token sequence in which a `lambda` symbol token is
immediately followed by a `quote` symbol token, `parse` ends with a syntax
error (the one on `lambda`, or the one on a marker of a closing met earlier)
and returns no tree. -/
theorem parse_lambda_quote (fuel tokens : Nat) (pre post : List Tok) (st : State)
    (htoks : isListOf (isTok st.view) st.view tokens
      (pre ++ .item (.sym "lambda") :: .item (.sym "quote") :: post) = true)
    (hfuel : (pre ++ Tok.item (.sym "lambda") :: .item (.sym "quote") :: post).length < fuel)
    (hmax : ((pre ++ Tok.item (.sym "lambda") :: .item (.sym "quote") :: post).length : Int) <
      INT_MAX) :
    (∃ msg, parse fuel tokens st = .error ("Syntax error: " ++ msg) ∧
      (msg = "too many close parentheses" ∨ msg = "lambda is not followed by arguments")) ∧
    (∀ p st', parse fuel tokens st ≠ .ok p st') := by
  have h := parse_spec fuel tokens _ st htoks hfuel hmax
  obtain ⟨msg, hmsg, hor, -⟩ := parseSpec_lambda_quote pre [] post
  rw [List.nil_append] at hmsg
  rw [hmsg] at h
  have h' : parse fuel tokens st = .error ("Syntax error: " ++ msg) := h
  exact ⟨⟨msg, h', hor⟩, fun p st' hp => by rw [h'] at hp; cases hp⟩

theorem parse_lambda_quote_witness :
    (∃ msg, parse 5 (layoutTokens [.openParen, .item (.sym "lambda"), .item (.sym "quote")]).1
        (layoutTokens [.openParen, .item (.sym "lambda"), .item (.sym "quote")]).2 =
          .error ("Syntax error: " ++ msg) ∧
      (msg = "too many close parentheses" ∨ msg = "lambda is not followed by arguments")) ∧
    (∀ p st', parse 5 (layoutTokens [.openParen, .item (.sym "lambda"), .item (.sym "quote")]).1
        (layoutTokens [.openParen, .item (.sym "lambda"), .item (.sym "quote")]).2 ≠
          .ok p st') :=
  parse_lambda_quote 5 _ [.openParen] [] _ (by decide!) (by decide) (by decide)

/-- C35: the test of `parse` on `lambda` and `quote` is not limited to
adjacent tokens: when a `quote` symbol token comes anywhere after a `lambda`
symbol token, `parse` ends with a syntax error, which is the one on `lambda`
whenever the tokens before the `quote` raise none; and in a sequence without a
`lambda` symbol token `parse` never raises that error, a `quote` symbol token
being pushed on the stack like any other symbol. -/
theorem parse_quote_after_lambda (fuel tokens : Nat) (toks : List Tok) (st : State)
    (htoks : isListOf (isTok st.view) st.view tokens toks = true)
    (hfuel : toks.length < fuel) (hmax : (toks.length : Int) < INT_MAX) :
    (∀ pre mid post,
      toks = pre ++ .item (.sym "lambda") :: (mid ++ .item (.sym "quote") :: post) →
      ∃ msg, parse fuel tokens st = .error ("Syntax error: " ++ msg) ∧
        (∀ r, parseRun (pre ++ .item (.sym "lambda") :: mid) [] 0 false = .ok r →
          msg = "lambda is not followed by arguments")) ∧
    ((∀ t ∈ toks, t ≠ .item (.sym "lambda")) →
      parse fuel tokens st ≠ .error "Syntax error: lambda is not followed by arguments" ∧
      ∀ pre post es opens seen, toks = pre ++ .item (.sym "quote") :: post →
        parseRun pre [] 0 false = .ok (es, opens, seen) →
        parseRun toks [] 0 false = parseRun post (.val (.sym "quote") :: es) opens false) := by
  have h := parse_spec fuel tokens toks st htoks hfuel hmax
  refine ⟨fun pre mid post heq => ?_, fun hno => ?_⟩
  · subst heq
    obtain ⟨msg, hmsg, -, hok⟩ := parseSpec_lambda_quote pre mid post
    rw [hmsg] at h
    exact ⟨msg, h, hok⟩
  · have hseen : ∀ (ts : List Tok) (es : List Entry) (opens : Nat),
        (∀ t ∈ ts, t ≠ .item (.sym "lambda")) →
        (∀ msg, parseRun ts es opens false = .error msg → msg = "too many close parentheses") ∧
        (∀ es' opens' seen', parseRun ts es opens false = .ok (es', opens', seen') →
          seen' = false) := by
      intro ts
      induction ts with
      | nil =>
        intro es opens _
        refine ⟨fun msg h => by simp [parseRun] at h, fun es' opens' seen' h => ?_⟩
        simp only [parseRun, Except.ok.injEq, Prod.mk.injEq] at h
        exact h.2.2.symm
      | cons t ts ih =>
        intro es opens hno
        have hstep : (∀ msg, parseStep t es opens false = .error msg →
              msg = "too many close parentheses") ∧
            (∀ es' opens' seen', parseStep t es opens false = .ok (es', opens', seen') →
              seen' = false) := by
          have ht := hno t (List.mem_cons_self _ _)
          cases t with
          | item v =>
            cases v with
            | sym s =>
              have hl : s ≠ "lambda" := fun hs => ht (by rw [hs])
              simp only [parseStep, if_neg hl, Bool.false_eq_true, false_and, if_false]
              refine ⟨fun msg h => by simp at h, fun es' opens' seen' h => ?_⟩
              simp only [Except.ok.injEq, Prod.mk.injEq] at h
              exact h.2.2.symm
            | _ =>
              simp only [parseStep]
              refine ⟨fun msg h => by simp at h, fun es' opens' seen' h => ?_⟩
              simp only [Except.ok.injEq, Prod.mk.injEq] at h
              exact h.2.2.symm
          | openParen =>
            simp only [parseStep]
            refine ⟨fun msg h => by simp at h, fun es' opens' seen' h => ?_⟩
            simp only [Except.ok.injEq, Prod.mk.injEq] at h
            exact h.2.2.symm
          | openBracket =>
            simp only [parseStep]
            refine ⟨fun msg h => by simp at h, fun es' opens' seen' h => ?_⟩
            simp only [Except.ok.injEq, Prod.mk.injEq] at h
            exact h.2.2.symm
          | _ =>
            simp only [parseStep]
            refine ⟨fun msg h => ?_, fun es' opens' seen' h => ?_⟩
            · split at h
              · simp only [Except.error.injEq] at h
                exact h.symm
              · simp at h
            · split at h
              · simp at h
              · simp only [Except.ok.injEq, Prod.mk.injEq] at h
                exact h.2.2.symm
        rw [parseRun_cons]
        cases hps : parseStep t es opens false with
        | error m =>
          refine ⟨fun msg h => ?_, fun es' opens' seen' h => by simp at h⟩
          simp only [Except.error.injEq] at h
          subst h
          exact hstep.1 _ hps
        | ok r =>
          obtain ⟨es1, opens1, seen1⟩ := r
          have := hstep.2 _ _ _ hps
          subst this
          exact ih es1 opens1 (fun u hu => hno u (List.mem_cons_of_mem _ hu))
    refine ⟨fun herr => ?_, fun pre post es opens seen heq hpre => ?_⟩
    · have hsp : ∀ m, parseSpec toks = .syntaxError m →
          m = "too many close parentheses" ∨ m = "not enough close parentheses" := by
        intro m
        unfold parseSpec
        cases hr : parseRun toks [] 0 false with
        | error m' =>
          have := (hseen toks [] 0 hno).1 m' hr
          subst this
          intro hm
          simp only [ParseResult.syntaxError.injEq] at hm
          exact Or.inl hm.symm
        | ok r =>
          obtain ⟨es, opens, seen⟩ := r
          simp only
          split
          · intro hm
            simp only [ParseResult.syntaxError.injEq] at hm
            exact Or.inr hm.symm
          · cases drainSpec es .nil with
            | none => simp
            | some forms =>
              simp only
              cases forms with
              | cons f rest =>
                simp only [parseEnd]
                split <;> simp
              | _ => simp [parseEnd]
      cases hps : parseSpec toks with
      | syntaxError m =>
        rw [hps] at h
        have h' : parse fuel tokens st = .error ("Syntax error: " ++ m) := h
        rw [h'] at herr
        rcases hsp m hps with rfl | rfl
        · exact absurd herr (by decide)
        · exact absurd herr (by decide)
      | tree v =>
        rw [hps] at h
        obtain ⟨p, st', hrun, -⟩ := h
        rw [hrun] at herr
        cases herr
      | undefined =>
        rw [hps] at h
        have h' : parse fuel tokens st = .undefined := h
        rw [h'] at herr
        cases herr
    · subst heq
      have hs : seen = false := (hseen pre [] 0
        (fun t ht => hno t (List.mem_append_left _ ht))).2 es opens seen hpre
      subst hs
      rw [parseRun_append, hpre]
      simp only
      rw [parseRun_cons]
      simp [parseStep]

theorem parse_quote_after_lambda_witness :
    (∀ pre mid post,
      [Tok.item (.sym "lambda"), .item (.int 1), .item (.sym "quote")] =
        pre ++ .item (.sym "lambda") :: (mid ++ .item (.sym "quote") :: post) →
      ∃ msg, parse 5 (layoutTokens [.item (.sym "lambda"), .item (.int 1),
          .item (.sym "quote")]).1
        (layoutTokens [.item (.sym "lambda"), .item (.int 1), .item (.sym "quote")]).2 =
          .error ("Syntax error: " ++ msg) ∧
        (∀ r, parseRun (pre ++ .item (.sym "lambda") :: mid) [] 0 false = .ok r →
          msg = "lambda is not followed by arguments")) ∧
    ((∀ t ∈ [Tok.item (.sym "lambda"), .item (.int 1), .item (.sym "quote")],
        t ≠ .item (.sym "lambda")) →
      parse 5 (layoutTokens [.item (.sym "lambda"), .item (.int 1), .item (.sym "quote")]).1
        (layoutTokens [.item (.sym "lambda"), .item (.int 1), .item (.sym "quote")]).2 ≠
          .error "Syntax error: lambda is not followed by arguments" ∧
      ∀ pre post es opens seen,
        [Tok.item (.sym "lambda"), .item (.int 1), .item (.sym "quote")] =
          pre ++ .item (.sym "quote") :: post →
        parseRun pre [] 0 false = .ok (es, opens, seen) →
        parseRun [Tok.item (.sym "lambda"), .item (.int 1), .item (.sym "quote")] [] 0 false =
          parseRun post (.val (.sym "quote") :: es) opens false) :=
  parse_quote_after_lambda 5 _ [.item (.sym "lambda"), .item (.int 1), .item (.sym "quote")] _
    (by decide!) (by decide) (by decide)

theorem lambda_quote_sample :
    parseTokens 20 [.openParen, .item (.sym "lambda"), .closeParen, .openParen,
        .item (.int 1), .closeParen, .item (.sym "quote")] =
      .error "Syntax error: lambda is not followed by arguments" ∧
    parseTokens 20 [.item (.sym "quote"), .item (.sym "lambda")] =
      .ok (L [S "quote", S "lambda"]) ∧
    parseTokens 20 [.openParen, .item (.sym "quote"), .item (.sym "x"), .closeParen] =
      .ok (L [S "quote", S "x"]) := by
  decide!

theorem tmod_nonpos (a b : Int) (h : a ≤ 0) : Int.tmod a b ≤ 0 := by
  have h1 := Int.tmod_nonneg b (Int.neg_nonneg.2 h)
  rw [Int.tmod_def, Int.neg_tdiv, mul_neg] at h1
  rw [Int.tmod_def]
  linarith

/-- C32 (what the code does): on two Integer operands a and b `primitiveModulo`
makes no test of b: for b = 0 it raises no evaluation error and goes on to
`a->i % b->i`, which is undefined in C, whereas `primitiveDivide` fails with
"can't divide by zero"; for b other than 0 it returns a new Integer item
holding the truncated remainder, whose sign follows the dividend, except for
a = INT_MIN and b = -1, where `a->i % b->i` is undefined as well. -/
theorem primitiveModulo_no_zero_guard (fuel : Nat) (st : State) (args pa pb : Nat) (a b : Int)
    (hargs : isList st.view args [pa, pb] = true)
    (hops : areOperands st.view [pa, pb] [.int a, .int b] = true)
    (hfuel : 2 < fuel) :
    (b = 0 → primitiveModulo fuel args st = .undefined ∧
      primitiveDivide fuel args st = .error "can't divide by zero") ∧
    (b ≠ 0 → ¬ (a = INT_MIN ∧ b = -1) →
      primitiveModulo fuel args st =
        .ok st.items.length
          ⟨st.items ++ [⟨INT_TYPE, .int (Int.tmod a b), .undef, .undef⟩], st.frames⟩ ∧
      (0 ≤ a → 0 ≤ Int.tmod a b) ∧ (a ≤ 0 → Int.tmod a b ≤ 0) ∧
      a = b * (Int.tdiv a b) + Int.tmod a b) ∧
    (a = INT_MIN → b = -1 → primitiveModulo fuel args st = .undefined) := by
  have hlen : length fuel args st = .ok 2 st := by
    have := lengthLoop_isList st.view st (fun _ _ x => x) [pa, pb] args fuel 0 hargs
      (by simpa using hfuel)
    simpa [length] using this
  obtain ⟨i1, i2, q1, q2, h1, h10, h11, h2, h20, h21⟩ := isList_two hargs
  simp only [areOperands, Bool.and_eq_true, Bool.and_true] at hops
  cases ha : st.view pa with
  | none => simp [ha] at hops
  | some ia =>
    cases hb : st.view pb with
    | none => simp [hb] at hops
    | some ib =>
      simp only [ha, hb, isOperand, Bool.and_eq_true, decide_eq_true_eq] at hops
      obtain ⟨⟨hta, hua⟩, htb, hub⟩ := hops
      have ha' : st.items[pa]? = some ia := ha
      have hb' : st.items[pb]? = some ib := hb
      have h1' : st.items[args]? = some i1 := h1
      have h2' : st.items[q1]? = some i2 := h2
      have hga : getI pa st = .ok a st := by simp [getI, readItem, ha', hua]
      have hgb : getI pb st = .ok b st := by simp [getI, readItem, hb', hub]
      have hhead : primitiveModulo fuel args st =
          (if b = 0 ∨ (a = INT_MIN ∧ b = -1) then undefinedBehaviour
            else newInt (Int.tmod a b) : M Nat) st := by
        simp [primitiveModulo, hlen, car_ok h1' h10, cdr_ok h1' h11, car_ok h2' h20,
          typeOf_ok ha', typeOf_ok hb', hta, htb, hga, hgb]
      refine ⟨fun hz => ⟨?_, ?_⟩, fun hz hmin => ⟨?_, ?_, ?_, ?_⟩, fun hmin hneg => ?_⟩
      · rw [hhead]
        simp [hz]
      · subst hz
        have hda : doubleOrI pa st = .ok (a : ℚ) st := by
          simp [doubleOrI, typeOf_ok ha', hta, hga]
        have hdb : doubleOrI pb st = .ok ((0 : Int) : ℚ) st := by
          simp [doubleOrI, typeOf_ok hb', htb, hgb]
        simp [primitiveDivide, hlen, car_ok h1' h10, cdr_ok h1' h11, car_ok h2' h20,
          typeOf_ok ha', typeOf_ok hb', hta, htb, hda, hdb]
      · rw [hhead]
        simp [hz, hmin, newInt, allocItem]
      · intro h0
        exact Int.tmod_nonneg b h0
      · intro h0
        exact tmod_nonpos a b h0
      · exact (Int.tdiv_add_tmod a b).symm
      · rw [hhead]
        simp [hmin, hneg]

theorem primitiveModulo_no_zero_guard_witness :
    ((0 : Int) = 0 → primitiveModulo 5 4 exampleModulo = .undefined ∧
      primitiveDivide 5 4 exampleModulo = .error "can't divide by zero") ∧
    ((0 : Int) ≠ 0 → ¬ ((7 : Int) = INT_MIN ∧ (0 : Int) = -1) →
      primitiveModulo 5 4 exampleModulo =
        .ok exampleModulo.items.length
          ⟨exampleModulo.items ++ [⟨INT_TYPE, .int (Int.tmod 7 0), .undef, .undef⟩],
            exampleModulo.frames⟩ ∧
      ((0 : Int) ≤ 7 → 0 ≤ Int.tmod 7 0) ∧ ((7 : Int) ≤ 0 → Int.tmod 7 0 ≤ 0) ∧
      (7 : Int) = 0 * (Int.tdiv 7 0) + Int.tmod 7 0) ∧
    ((7 : Int) = INT_MIN → (0 : Int) = -1 → primitiveModulo 5 4 exampleModulo = .undefined) :=
  primitiveModulo_no_zero_guard 5 exampleModulo 4 0 1 7 0 (by decide) (by decide) (by decide)

theorem modulo_sample :
    resultItem (evalInGlobal 40 (L [S "modulo", .int 7, .int 2])) =
      some ⟨INT_TYPE, .int 1, .undef, .undef⟩ ∧
    resultItem (evalInGlobal 40 (L [S "modulo", .int (-7), .int 2])) =
      some ⟨INT_TYPE, .int (-1), .undef, .undef⟩ ∧
    resultItem (evalInGlobal 40 (L [S "modulo", .int 7, .int (-2)])) =
      some ⟨INT_TYPE, .int 1, .undef, .undef⟩ ∧
    evalInGlobal 40 (L [S "modulo", .int 7, .int 0]) = .undefined ∧
    evalInGlobal 40 (L [S "modulo", .int (-2147483648), .int (-1)]) = .undefined ∧
    evalInGlobal 40 (L [S "/", .int 7, .int 0]) = .error "can't divide by zero" := by
  decide!

/-- C33: for a pair whose head is a symbol naming a special form, `evalPair`
(to which `eval` passes every pair) goes to the handler of that form with the
tail of the pair as it stands, whatever the frames hold: the head symbol is
compared by name and is neither looked up nor applied, so a frame chain that
binds the name as a variable changes nothing. -/
theorem evalPair_special_form (ev : Nat → Nat → M Nat) (fuel : Nat) (st : State)
    (tree frame first args : Nat) (it itf : Item) (s : String)
    (htree : st.items[tree]? = some it) (h0 : it.u0 = .ptr first) (h1 : it.u1 = .ptr args)
    (hfirst : st.items[first]? = some itf) (hsym : itf.type = SYMBOL_TYPE)
    (hs : itf.u0 = .str s) :
    (it.type = CONS_TYPE →
      eval (fuel + 1) tree frame st = evalPair (eval fuel) fuel tree frame st) ∧
    (s = "define" → evalPair ev fuel tree frame st = evalDefine ev fuel args frame st) ∧
    (s = "let" → evalPair ev fuel tree frame st = evalLet ev fuel args frame st) ∧
    (s = "let*" → evalPair ev fuel tree frame st = evalLetStar ev fuel args frame st) ∧
    (s = "letrec" → evalPair ev fuel tree frame st = evalLetRec ev fuel args frame st) ∧
    (s = "set!" → evalPair ev fuel tree frame st = evalSet ev fuel args frame st) ∧
    (s = "set-car!" → evalPair ev fuel tree frame st = evalSetCar ev fuel args frame st) ∧
    (s = "set-cdr!" → evalPair ev fuel tree frame st = evalSetCdr ev fuel args frame st) ∧
    (s = "lambda" → evalPair ev fuel tree frame st = evalLambda fuel args frame st) ∧
    (s = "cond" → evalPair ev fuel tree frame st = evalCond ev fuel frame fuel args st) ∧
    (s = "if" → evalPair ev fuel tree frame st = evalIf ev fuel args frame st) ∧
    (s = "quote" → evalPair ev fuel tree frame st = evalQuote fuel args st) ∧
    (s = "and" → evalPair ev fuel tree frame st = evalAnd ev frame fuel args st) ∧
    (s = "or" → evalPair ev fuel tree frame st = evalOr ev frame fuel args st) ∧
    (s ∈ specialForms ↔ s = "define" ∨ s = "let" ∨ s = "let*" ∨ s = "letrec" ∨ s = "set!" ∨
      s = "set-car!" ∨ s = "set-cdr!" ∨ s = "lambda" ∨ s = "cond" ∨ s = "if" ∨ s = "quote" ∨
      s = "and" ∨ s = "or") := by
  have hhead : evalPair ev fuel tree frame st =
      (if s = "define" then evalDefine ev fuel args frame
        else if s = "let" then evalLet ev fuel args frame
        else if s = "let*" then evalLetStar ev fuel args frame
        else if s = "letrec" then evalLetRec ev fuel args frame
        else if s = "set!" then evalSet ev fuel args frame
        else if s = "set-car!" then evalSetCar ev fuel args frame
        else if s = "set-cdr!" then evalSetCdr ev fuel args frame
        else if s = "lambda" then evalLambda fuel args frame
        else if s = "cond" then evalCond ev fuel frame fuel args
        else if s = "if" then evalIf ev fuel args frame
        else if s = "quote" then evalQuote fuel args
        else if s = "and" then evalAnd ev frame fuel args
        else if s = "or" then evalOr ev frame fuel args
        else evalApplication ev fuel first args frame : M Nat) st := by
    simp only [evalPair, bind_apply, car_ok htree h0, cdr_ok htree h1, typeOf_ok hfirst, hsym,
      getS_ok hfirst hs, ne_eq, not_true_eq_false, if_false]
  refine ⟨fun hc => by simp [eval, typeOf_ok htree, hc], ?_, ?_, ?_, ?_, ?_, ?_, ?_, ?_, ?_, ?_,
    ?_, ?_, ?_, by simp [specialForms]⟩ <;>
  · intro h
    subst h
    rw [hhead]
    rfl

theorem evalPair_special_form_witness :
    lookupSymbol 5 "quote" (some 0) exampleShadow = .ok 1 exampleShadow ∧
    evalPair (eval 5) 5 4 0 exampleShadow = evalQuote 5 3 exampleShadow ∧
    resultItem (evalPair (eval 5) 5 4 0 exampleShadow) =
      some ⟨INT_TYPE, .int 1, .undef, .undef⟩ :=
  ⟨by decide,
   (evalPair_special_form (eval 5) 5 exampleShadow 4 0 0 3 ⟨CONS_TYPE, .ptr 0, .ptr 3, .undef⟩
      ⟨SYMBOL_TYPE, .str "quote", .undef, .undef⟩ "quote" (by decide) (by decide) (by decide)
      (by decide) (by decide) (by decide)).2.2.2.2.2.2.2.2.2.2.2.1 rfl,
   by decide⟩

theorem shadow_sample :
    printed (run 40 [L [S "define", S "if", .int 5], S "if",
        L [S "if", .bool false, .int 1, .int 2]]) =
      some [some ⟨INT_TYPE, .int 5, .undef, .undef⟩, some ⟨INT_TYPE, .int 2, .undef, .undef⟩] ∧
    printed (run 40 [L [S "define", S "quote", .int 5], L [S "quote", S "x"]]) =
      some [some ⟨SYMBOL_TYPE, .str "x", .undef, .undef⟩] := by
  decide!

/-- C34: with an empty list of bindings `evalLetStar` creates no frame: it is
`evalBody` on the body in the enclosing frame itself, so what the body defines
is added to the enclosing frame; `evalLet` and `evalLetRec` create a child
frame of the enclosing frame first and are `evalBody` on the body in that
child, and with `eval` as the evaluator they leave the enclosing frame as it
was. -/
theorem evalLetStar_empty_bindings (ev : Nat → Nat → M Nat) (fuel : Nat) (st : State)
    (args frame bindings : Nat) (forms : List Nat) (ib : Item)
    (hargs : isList st.view args (bindings :: forms) = true) (hforms : forms ≠ [])
    (hb : st.items[bindings]? = some ib) (hnull : ib.type = NULL_TYPE)
    (hfuel : forms.length + 1 < fuel) :
    ∃ body, isList st.view body forms = true ∧
      evalLetStar ev fuel args frame st = evalBody ev fuel body frame st ∧
      evalLet ev fuel args frame st =
        evalBody ev fuel body st.frames.length
          ⟨st.items, st.frames ++ [⟨[], some frame⟩]⟩ ∧
      evalLetRec ev fuel args frame st =
        evalBody ev fuel body st.frames.length
          ⟨st.items, st.frames ++ [⟨[], some frame⟩]⟩ ∧
      (frame < st.frames.length → ∀ k r st',
        (evalLet (eval k) fuel args frame st = .ok r st' ∨
          evalLetRec (eval k) fuel args frame st = .ok r st') →
        st'.frames[frame]? = st.frames[frame]?) := by
  have hlen : length fuel args st = .ok (forms.length + 1) st := by
    have := lengthLoop_isList st.view st (fun _ _ x => x) (bindings :: forms) args fuel 0 hargs
      (by simpa using hfuel)
    simpa [length] using this
  obtain ⟨it, body, hp, ht, h0, h1, hq⟩ := (isList_cons_iff _ args bindings forms).1 hargs
  have hp' : st.items[args]? = some it := hp
  have hpos : 0 < forms.length := List.length_pos.2 hforms
  obtain ⟨k, hk⟩ : ∃ j, fuel = j + 1 := ⟨fuel - 1, by omega⟩
  let st1 : State := ⟨st.items, st.frames ++ [⟨[], some frame⟩]⟩
  have hb1 : st1.items[bindings]? = some ib := hb
  have hstar : evalLetStar ev fuel args frame st = evalBody ev fuel body frame st := by
    have h2 : ¬ forms.length + 1 < 2 := by omega
    simp only [evalLetStar, bind_apply, hlen, h2, ite_run, if_false, car_ok hp' h0,
      cdr_ok hp' h1]
    rw [hk]
    simp [evalLetStarLoop, isNull_ok hb, hnull]
  have hlet : ∀ ev : Nat → Nat → M Nat,
      evalLet ev fuel args frame st = evalBody ev fuel body st.frames.length st1 := by
    intro ev
    have h2 : ¬ forms.length + 1 < 2 := by omega
    simp only [evalLet, bind_apply, hlen, h2, ite_run, if_false, car_ok hp' h0,
      cdr_ok hp' h1, typeOf_ok hb, hnull]
    rw [hk]
    simp [createFrame, evalLetLoop, isNull_ok hb1, hnull, st1]
  have hrec : ∀ ev : Nat → Nat → M Nat, evalLetRec ev fuel args frame st =
      evalBody ev fuel body st.frames.length st1 := by
    intro ev
    have h2 : ¬ forms.length + 1 < 2 := by omega
    simp only [evalLetRec, bind_apply, hlen, h2, ite_run, if_false, car_ok hp' h0,
      cdr_ok hp' h1]
    rw [hk]
    simp [createFrame, evalLetRecPlaceholders, evalLetRecFill, isNull_ok hb1, hnull, st1]
  refine ⟨body, hq, hstar, hlet ev, hrec ev, fun hframe k' r st' hor => ?_⟩
  have hrun : evalBody (eval k') fuel body st.frames.length st1 = .ok r st' := by
    rcases hor with h | h
    · rw [← hlet]; exact h
    · rw [← hrec]; exact h
  have hkeep := @evalBody_keepsFrames (fun g => g = frame) (eval k')
    (fun tree f hf => eval_keepsFrames k' tree f hf) fuel body st.frames.length
    (fun h => by omega)
  have := (hkeep st1 r st' (fun f hf => by
    subst hf
    simp only [st1, List.length_append, List.length_singleton]
    omega) hrun).2 frame rfl
  rw [this]
  simp only [st1]
  exact List.getElem?_append_left hframe

theorem evalLetStar_empty_bindings_witness :
    ∃ body, isList exampleEmptyLet.view body [1] = true ∧
      evalLetStar (eval 5) 5 4 0 exampleEmptyLet = evalBody (eval 5) 5 body 0 exampleEmptyLet ∧
      evalLet (eval 5) 5 4 0 exampleEmptyLet =
        evalBody (eval 5) 5 body exampleEmptyLet.frames.length
          ⟨exampleEmptyLet.items, exampleEmptyLet.frames ++ [⟨[], some 0⟩]⟩ ∧
      evalLetRec (eval 5) 5 4 0 exampleEmptyLet =
        evalBody (eval 5) 5 body exampleEmptyLet.frames.length
          ⟨exampleEmptyLet.items, exampleEmptyLet.frames ++ [⟨[], some 0⟩]⟩ ∧
      (0 < exampleEmptyLet.frames.length → ∀ k r st',
        (evalLet (eval k) 5 4 0 exampleEmptyLet = .ok r st' ∨
          evalLetRec (eval k) 5 4 0 exampleEmptyLet = .ok r st') →
        st'.frames[0]? = exampleEmptyLet.frames[0]?) :=
  evalLetStar_empty_bindings (eval 5) 5 exampleEmptyLet 4 0 0 [1]
    ⟨NULL_TYPE, .undef, .undef, .undef⟩ (by decide) (by decide) (by decide) (by decide)
    (by decide)

theorem empty_bindings_sample :
    printed (run 40 [L [S "let*", L [], L [S "define", S "y", .int 1]], S "y"]) =
      some [some ⟨INT_TYPE, .int 1, .undef, .undef⟩] ∧
    run 40 [L [S "let", L [], L [S "define", S "y", .int 1]], S "y"] =
      .error "Unbound symbol" ∧
    run 40 [L [S "letrec", L [], L [S "define", S "y", .int 1]], S "y"] =
      .error "Unbound symbol" ∧
    printed (run 40 [L [S "define", S "y", .int 0],
        L [S "let", L [], L [S "define", S "y", .int 1]], S "y"]) =
      some [some ⟨INT_TYPE, .int 0, .undef, .undef⟩] := by
  decide!

/-! What `printItem` writes -/

theorem renderRest_eq (b : SExp) :
    renderRest b = (if b.tag = CONS_TYPE then " " else "") ++ listText b := by
  cases b <;> simp [renderRest, listText, SExp.tag]

theorem printItem_int {st : State} {p : Nat} {i : Int} (k : Nat)
    (h : isTree st.view p (.int i) = true) :
    printItem (k + 1) p st = .ok (formatInt i) st := by
  simp only [isTree] at h
  cases hp : st.view p with
  | none => simp [hp] at h
  | some it =>
    have hp' : st.items[p]? = some it := hp
    simp only [hp, Bool.and_eq_true, decide_eq_true_eq] at h
    simp [printItem, typeOf_ok hp', h.1, getI, readItem, hp', h.2]

theorem printItem_bool {st : State} {p : Nat} {b : Bool} (k : Nat)
    (h : isTree st.view p (.bool b) = true) :
    printItem (k + 1) p st = .ok (if b then "#t" else "#f") st := by
  simp only [isTree] at h
  cases hp : st.view p with
  | none => simp [hp] at h
  | some it =>
    have hp' : st.items[p]? = some it := hp
    simp only [hp, Bool.and_eq_true, decide_eq_true_eq] at h
    cases b <;> simp [printItem, typeOf_ok hp', h.1, getI, readItem, hp', h.2]

theorem printItem_nil {st : State} {p : Nat} (k : Nat)
    (h : isTree st.view p .nil = true) : printItem (k + 1) p st = .ok "()" st := by
  simp only [isTree] at h
  cases hp : st.view p with
  | none => simp [hp] at h
  | some it =>
    have hp' : st.items[p]? = some it := hp
    simp only [hp, decide_eq_true_eq] at h
    simp [printItem, typeOf_ok hp', h]

/-- On a value built from Integers, Booleans, Empty and Pairs `printItem`
writes the rendered value and `printList` the inside of its parentheses. -/
theorem printItem_render : ∀ v : SExp, v.plain = true →
    (∀ (p k : Nat) (st : State), isTree st.view p v = true → 2 * v.size + 1 ≤ k →
      printItem k p st = .ok (render v) st) ∧
    (∀ (p k : Nat) (st : State), isTree st.view p v = true → 2 * v.size ≤ k →
      printList k p st = .ok (listText v) st) := by
  intro v
  induction v with
  | cons a b iha ihb =>
    intro hv
    simp only [SExp.plain, Bool.and_eq_true] at hv
    have hlist : ∀ (p k : Nat) (st : State), isTree st.view p (.cons a b) = true →
        2 * (SExp.cons a b).size ≤ k → printList k p st = .ok (listText (.cons a b)) st := by
      intro p k st ht hk
      simp only [SExp.size] at hk
      obtain ⟨k, rfl⟩ : ∃ j, k = j + 1 := ⟨k - 1, by omega⟩
      obtain ⟨it, px, py, hp, hty, h0, h1, hx, hy⟩ := (isTree_cons_iff _ _ _ _).1 ht
      have hp' : st.items[p]? = some it := hp
      have hA := (iha hv.1).1 px k st hx (by omega)
      have hB := (ihb hv.2).2 py k st hy (by omega)
      have hty2 := isTree_typeOf hy
      simp only [printList, bind_apply, typeOf_ok hp', hty, car_ok hp' h0, hA, cdr_ok hp' h1,
        hty2, hB, ite_run, if_true, pure_apply]
      rw [show listText (.cons a b) = render a ++ renderRest b from rfl, renderRest_eq b,
        String.append_assoc]
    refine ⟨fun p k st ht hk => ?_, hlist⟩
    obtain ⟨k, rfl⟩ : ∃ j, k = j + 1 := ⟨k - 1, by omega⟩
    have hL := hlist p k st ht (by omega)
    obtain ⟨it, hp, hty⟩ := isTree_tag _ _ _ ht
    have hp' : st.items[p]? = some it := hp
    simp only [SExp.tag] at hty
    simp [printItem, typeOf_ok hp', hty, hL, listText, render]
  | int i =>
    intro _
    refine ⟨fun p k st ht hk => ?_, fun p k st ht hk => ?_⟩
    · obtain ⟨k, rfl⟩ : ∃ j, k = j + 1 := ⟨k - 1, by omega⟩
      simpa [render] using printItem_int k ht
    · simp only [SExp.size] at hk
      obtain ⟨k, rfl⟩ : ∃ j, k = j + 2 := ⟨k - 2, by omega⟩
      obtain ⟨it, hp, hty⟩ := isTree_tag _ _ _ ht
      have hp' : st.items[p]? = some it := hp
      simp only [SExp.tag] at hty
      simp [printList, typeOf_ok hp', hty, printItem_int k ht, listText, renderRest]
  | bool b =>
    intro _
    refine ⟨fun p k st ht hk => ?_, fun p k st ht hk => ?_⟩
    · obtain ⟨k, rfl⟩ : ∃ j, k = j + 1 := ⟨k - 1, by omega⟩
      simpa [render] using printItem_bool k ht
    · simp only [SExp.size] at hk
      obtain ⟨k, rfl⟩ : ∃ j, k = j + 2 := ⟨k - 2, by omega⟩
      obtain ⟨it, hp, hty⟩ := isTree_tag _ _ _ ht
      have hp' : st.items[p]? = some it := hp
      simp only [SExp.tag] at hty
      simp [printList, typeOf_ok hp', hty, printItem_bool k ht, listText, renderRest]
  | nil =>
    intro _
    refine ⟨fun p k st ht hk => ?_, fun p k st ht hk => ?_⟩
    · obtain ⟨k, rfl⟩ : ∃ j, k = j + 1 := ⟨k - 1, by omega⟩
      simpa [render] using printItem_nil k ht
    · simp only [SExp.size] at hk
      obtain ⟨k, rfl⟩ : ∃ j, k = j + 1 := ⟨k - 1, by omega⟩
      obtain ⟨it, hp, hty⟩ := isTree_tag _ _ _ ht
      have hp' : st.items[p]? = some it := hp
      simp only [SExp.tag] at hty
      simp [printList, typeOf_ok hp', hty, listText, renderRest]
  | _ => intro h; simp [SExp.plain] at h

theorem renderRest_cons (a b : SExp) :
    render a ++ renderRest b =
      spaced ((SExp.cons a b).elems.map render) ++
        (if (SExp.cons a b).last = .nil then "" else " . " ++ render (SExp.cons a b).last) := by
  induction b generalizing a with
  | cons c d _ ihd =>
    have := ihd c
    simp only [SExp.elems, SExp.last, List.map_cons] at this ⊢
    simp only [renderRest, spaced]
    rw [this]
    simp only [String.append_assoc]
  | nil => simp [renderRest, SExp.elems, SExp.last, spaced]
  | int i => simp [renderRest, SExp.elems, SExp.last, spaced, render]
  | real d => simp [renderRest, SExp.elems, SExp.last, spaced, render]
  | text s => simp [renderRest, SExp.elems, SExp.last, spaced, render]
  | sym s => simp [renderRest, SExp.elems, SExp.last, spaced, render]
  | bool b => simp [renderRest, SExp.elems, SExp.last, spaced, render]

/-- C31: for a value built from Integers, Booleans, Empty and Pairs
`printItem` writes, for a chain of pairs, a parenthesis, the written elements
separated by single spaces, then, when the chain ends in an item other than
Empty, a dot between spaces and that item, and a closing parenthesis; `()` for
Empty; and it writes nothing for a Void item. -/
theorem printItem_plain (st : State) (p k : Nat) (v : SExp) (hv : v.plain = true)
    (ht : isTree st.view p v = true) (hk : 2 * v.size < k) :
    printItem k p st = .ok (render v) st ∧
    (∀ a b, v = .cons a b →
      render v = "(" ++ (spaced (v.elems.map render) ++
        (if v.last = .nil then "" else " . " ++ render v.last)) ++ ")") ∧
    (∀ i, v = .int i → render v = formatInt i) ∧
    (∀ b, v = .bool b → render v = if b then "#t" else "#f") ∧
    (v = .nil → render v = "()") ∧
    (∀ q iq, st.items[q]? = some iq → iq.type = VOID_TYPE → printItem k q st = .ok "" st) := by
  refine ⟨(printItem_render v hv).1 p k st ht (by omega), ?_, ?_, ?_, ?_, ?_⟩
  · rintro a b rfl
    rw [← renderRest_cons]
    simp only [render]
  · rintro i rfl
    simp only [render]
  · rintro b rfl
    simp only [render]
  · rintro rfl
    simp only [render]
  · intro q iq hq hty
    obtain ⟨k, rfl⟩ : ∃ j, k = j + 1 := ⟨k - 1, by omega⟩
    simp [printItem, typeOf_ok hq, hty]

theorem printItem_plain_witness :
    printItem 7 2 examplePair = .ok (render (.cons (.int 1) (.int 2))) examplePair ∧
    render (.cons (.int 1) (.int 2)) = "(1 . 2)" :=
  ⟨(printItem_plain examplePair 2 7 (.cons (.int 1) (.int 2)) (by decide) (by decide)
      (by decide)).1, by decide⟩

theorem print_sample :
    printedText 40 (L [S "cons", .int 1, .int 2]) = some "(1 . 2)" ∧
    printedText 40 (L [S "cons", .int 1, L [S "cons", .int 2, L [S "quote", L []]]]) =
      some "(1 2)" ∧
    printedText 40 (L [S "quote", L [.int 1, L [.int (-2), .bool true], .bool false]]) =
      some "(1 (-2 #t) #f)" ∧
    printedText 40 (L [S "quote", L []]) = some "()" ∧
    printedText 40 (L [S "define", S "x", .int 1]) = some "" := by
  decide!

/-! A single top-level form -/

theorem properRest_list (es : List SExp) (h : ∀ e ∈ es, e.proper = true ∧ e.quoteFree = true) :
    (SExp.list es).properRest = true ∧ (SExp.list es).quoteFree = true ∧
      collapseRest (SExp.list es) = SExp.list (es.map collapse) := by
  induction es with
  | nil => simp [SExp.list, SExp.properRest, SExp.quoteFree, collapseRest]
  | cons e es ih =>
    obtain ⟨h1, h2, h3⟩ := ih (fun x hx => h x (List.mem_cons_of_mem _ hx))
    obtain ⟨hp, hq⟩ := h e (List.mem_cons_self _ _)
    simp [SExp.list, SExp.properRest, SExp.quoteFree, collapseRest, h1, h2, h3, hp, hq]

theorem collapse_list (es : List SExp) (hes : 2 ≤ es.length)
    (h : ∀ e ∈ es, e.proper = true ∧ e.quoteFree = true) :
    (SExp.list es).proper = true ∧ (SExp.list es).quoteFree = true ∧
      collapse (SExp.list es) = SExp.list (es.map collapse) := by
  obtain ⟨a, b, rest, rfl⟩ : ∃ a b rest, es = a :: b :: rest := by
    cases es with
    | nil => simp at hes
    | cons a es =>
      cases es with
      | nil => simp at hes
      | cons b rest => exact ⟨a, b, rest, rfl⟩
  obtain ⟨h1, h2, h3⟩ := properRest_list (b :: rest) (fun x hx => h x (List.mem_cons_of_mem _ hx))
  obtain ⟨hp, hq⟩ := h a (List.mem_cons_self _ _)
  refine ⟨?_, ?_, ?_⟩
  · show (a.proper && (SExp.list (b :: rest)).properRest) = true
    rw [hp, h1]
    rfl
  · show (a.quoteFree && (SExp.list (b :: rest)).quoteFree) = true
    rw [hq, h2]
    rfl
  have hc : collapse (SExp.list (a :: b :: rest)) =
      unwrapSpec (.cons (collapse a) (collapseRest (SExp.list (b :: rest)))) := by
    simp [SExp.list, collapse]
  rw [hc, h3]
  simp only [List.map_cons, SExp.list]
  unfold unwrapSpec
  split
  · rename_i heq
    simp only [SExp.cons.injEq] at heq
    rw [if_pos (by rw [← heq.2]; rfl), heq.1, heq.2]
  · rfl

/-- C26 (what the code does): `parse` returns a single top-level form as it
is, and `interpret` walks whatever tree it is given as the list of the forms:
the one-form program `(e1 ... en)` gives the same tree as the n-form program
`e1 ... en`, so `interpret` evaluates and prints e1, ..., en one by one and
never the form itself.  The program `(+ 1 2)` writes three lines, `Unknown
type` for the primitive, 1 and 2, and not 3; the program `5` writes nothing.
With two or more forms the output is as claimed: `(define x 5) (set! x 10) x`
writes the line 10 only. -/
theorem interpret_single_form (fuel fuel' tokens tokens' : Nat) (es : List SExp)
    (st st' : State) (hes : 2 ≤ es.length)
    (hforms : ∀ e ∈ es, e.proper = true ∧ e.quoteFree = true)
    (htoks : isListOf (isTok st.view) st.view tokens (writeForms [SExp.list es]) = true)
    (htoks' : isListOf (isTok st'.view) st'.view tokens' (writeForms es) = true)
    (hfuel : (writeForms [SExp.list es]).length < fuel)
    (hfuel' : (writeForms es).length < fuel')
    (hmax : ((writeForms [SExp.list es]).length : Int) < INT_MAX)
    (hmax' : ((writeForms es).length : Int) < INT_MAX) :
    (∃ p s, parse fuel tokens st = .ok p s ∧
      isTree s.view p (SExp.list (es.map collapse)) = true) ∧
    (∃ p s, parse fuel' tokens' st' = .ok p s ∧
      isTree s.view p (SExp.list (es.map collapse)) = true) ∧
    programOutput 40 (writeForms [L [S "+", .int 1, .int 2]]) = some "Unknown type\n1\n2\n" ∧
    programOutput 40 (writeForms [S "+", .int 1, .int 2]) = some "Unknown type\n1\n2\n" ∧
    programOutput 40 (writeForms [.int 5]) = some "" ∧
    programOutput 40 (writeForms [L [S "+", .int 1, .int 2], .int 7]) = some "3\n7\n" ∧
    programOutput 40 (writeForms [L [S "define", S "x", .int 5], L [S "set!", S "x", .int 10],
      S "x"]) = some "10\n" := by
  obtain ⟨hp, hq, hc⟩ := collapse_list es hes hforms
  have h1 := parse_spec fuel tokens _ st htoks hfuel hmax
  rw [parseSpec_forms [SExp.list es] (by simpa using ⟨hp, hq⟩)] at h1
  have he1 : parseEnd (SExp.list (List.map collapse [SExp.list es])) =
      .tree (SExp.list (es.map collapse)) := by
    simp only [List.map, SExp.list, parseEnd, SExp.isCons, hc]
    rfl
  rw [he1] at h1
  have h2 := parse_spec fuel' tokens' _ st' htoks' hfuel' hmax'
  rw [parseSpec_forms es hforms] at h2
  have he2 : parseEnd (SExp.list (es.map collapse)) = .tree (SExp.list (es.map collapse)) := by
    obtain ⟨a, b, rest, rfl⟩ : ∃ a b rest, es = a :: b :: rest := by
      cases es with
      | nil => simp at hes
      | cons a es =>
        cases es with
        | nil => simp at hes
        | cons b rest => exact ⟨a, b, rest, rfl⟩
    simp only [List.map, SExp.list, parseEnd, SExp.isCons]
    rfl
  rw [he2] at h2
  exact ⟨h1, h2, by decide!, by decide!, by decide!, by decide!, by decide!⟩

theorem interpret_single_form_witness :
    (∃ p s, parse 10 (layoutTokens (writeForms [SExp.list [S "+", .int 1, .int 2]])).1
        (layoutTokens (writeForms [SExp.list [S "+", .int 1, .int 2]])).2 = .ok p s ∧
      isTree s.view p (SExp.list ([S "+", .int 1, .int 2].map collapse)) = true) ∧
    (∃ p s, parse 10 (layoutTokens (writeForms [S "+", .int 1, .int 2])).1
        (layoutTokens (writeForms [S "+", .int 1, .int 2])).2 = .ok p s ∧
      isTree s.view p (SExp.list ([S "+", .int 1, .int 2].map collapse)) = true) :=
  ⟨(interpret_single_form 10 10
      (layoutTokens (writeForms [SExp.list [S "+", .int 1, .int 2]])).1
      (layoutTokens (writeForms [S "+", .int 1, .int 2])).1 [S "+", .int 1, .int 2]
      (layoutTokens (writeForms [SExp.list [S "+", .int 1, .int 2]])).2
      (layoutTokens (writeForms [S "+", .int 1, .int 2])).2 (by decide) (by decide)
      (by decide!) (by decide!) (by decide) (by decide) (by decide) (by decide)).1,
   (interpret_single_form 10 10
      (layoutTokens (writeForms [SExp.list [S "+", .int 1, .int 2]])).1
      (layoutTokens (writeForms [S "+", .int 1, .int 2])).1 [S "+", .int 1, .int 2]
      (layoutTokens (writeForms [SExp.list [S "+", .int 1, .int 2]])).2
      (layoutTokens (writeForms [S "+", .int 1, .int 2])).2 (by decide) (by decide)
      (by decide!) (by decide!) (by decide) (by decide) (by decide) (by decide)).2.1⟩

/-- C30 (what the code does): `printTree` does not write every tree so that
it can be read back.  The token sequences `( ( a ) )` and `( a )` parse to the
different trees `((a))` and `(a)`, and `printTree` writes `(a)` for both: for
`((a))` the buffer holds `((a))`, begins with two opening parentheses and
ends with two closing ones, and is written without its first and last
character.  And a list whose first element is a Boolean is written at once and
without parentheses, before the buffer of the list around it: for
`(f (#t a))` the output is `#t a(f )`, whose tokens parse to `(#t a (f))`. -/
theorem printTree_loses_structure :
    parseTokens 30 [.openParen, .openParen, .item (S "a"), .closeParen, .closeParen] =
      .ok (L [L [S "a"]]) ∧
    parseTokens 30 [.openParen, .item (S "a"), .closeParen] = .ok (L [S "a"]) ∧
    L [L [S "a"]] ≠ L [S "a"] ∧
    printedTree 30 [.openParen, .openParen, .item (S "a"), .closeParen, .closeParen] =
      some "(a)" ∧
    printedTree 30 [.openParen, .item (S "a"), .closeParen] = some "(a)" ∧
    parseTokens 30 (writeForms [L [S "f", L [.bool true, S "a"]]]) =
      .ok (L [S "f", L [.bool true, S "a"]]) ∧
    printedTree 30 (writeForms [L [S "f", L [.bool true, S "a"]]]) = some "#t a(f )" ∧
    parseTokens 30 [.item (.bool true), .item (S "a"), .openParen, .item (S "f"), .closeParen] =
      .ok (L [.bool true, S "a", L [S "f"]]) ∧
    L [.bool true, S "a", L [S "f"]] ≠ L [S "f", L [.bool true, S "a"]] := by
  decide!

theorem printTree_sample :
    printedTree 30 (writeForms [L [S "define", S "x", .int 1], L [S "f", S "x"]]) =
      some "(define x 1) (f x)" ∧
    printedTree 30 (writeForms [L [S "f", L [S "g", .int 1], .int 2]]) = some "(f (g 1) 2)" ∧
    printedTree 30 (writeForms [L [L [S "f"], L [S "g"]]]) = some "(f) (g)" ∧
    printedTree 30 (writeForms [L [L [L [S "a"]]]]) = some "((a))" := by
  decide!

end Scheme
